import Mathlib

/-! # QtJambi generator: the meta builder

A shallow embedding of the parts of `src/cpp/QtJambiGenerator/metabuilder.cpp`
that resolve types, fold enum constants, instantiate templates and collect the
functions of a class, together with theorems about them.

Conventions of the embedding:

* a `QString` is a list of characters; the `QString` member functions used by
  the builder are defined below after their documented Qt behaviour;
* positions returned by `indexOf` are integers, `-1` meaning "not found", as in
  Qt, because the builder compares them with each other and with `0`;
* a `QVariant` is invalid, an integer or a string; fixed-width integers are
  integers wrapped explicitly to the width;
* objects the C++ code shares by pointer and mutates in place (enum values)
  live in an arena inside the builder state and are referred to by index;
* recursive functions whose recursion is not structural take a fuel argument
  and return `none` when it runs out.
-/

namespace MetaBuilder

/-! ## QString -/

/-- A `QString`: a sequence of characters. -/
abbrev QString := List Char

/-- The `QString` holding the characters of a literal. -/
def qs (s : String) : QString := s.toList

/-- `QChar::isSpace`: the ASCII white space 9..13 and 32, and the Unicode
separators. -/
def isSpace (c : Char) : Bool :=
  let n := c.toNat
  (9 ≤ n && n ≤ 13) || n == 32 || n == 0x85 || n == 0xA0 || n == 0x1680
    || (0x2000 ≤ n && n ≤ 0x200A) || n == 0x2028 || n == 0x2029 || n == 0x202F
    || n == 0x205F || n == 0x3000

/-- Drops leading white space. -/
def trimStart : QString → QString
  | [] => []
  | c :: cs => if isSpace c then trimStart cs else c :: cs

/-- Drops trailing white space. -/
def trimEnd (s : QString) : QString := (trimStart s.reverse).reverse

/-- `QString::trimmed`. -/
def trimmed (s : QString) : QString := trimEnd (trimStart s)

/-- `QString::startsWith`. -/
def startsWith : QString → QString → Bool
  | _, [] => true
  | [], _ :: _ => false
  | c :: cs, p :: ps => c == p && startsWith cs ps

/-- `QString::endsWith`. -/
def endsWith (s p : QString) : Bool := startsWith s.reverse p.reverse

/-- `QString::mid(pos)`: the text from position `pos` on. -/
def mid (s : QString) (pos : Nat) : QString := s.drop pos

/-- `QString::mid(pos, n)`: at most `n` characters from position `pos`; a
negative `n` means all the rest. -/
def midN (s : QString) (pos : Nat) (n : Int) : QString :=
  if n < 0 then s.drop pos else (s.drop pos).take n.toNat

/-- `QString::left(n)`: the first `n` characters, the whole string when `n` is
negative or too large. -/
def left (s : QString) (n : Int) : QString :=
  if n < 0 then s else s.take n.toNat

/-- `QString::right(n)`: the last `n` characters, the whole string when `n` is
negative or too large. -/
def right (s : QString) (n : Int) : QString :=
  if n < 0 then s else s.drop (s.length - n.toNat)

/-- Position of the first occurrence of `p` in `s` at or after offset `off`,
counted from the start of the original string. -/
def indexOfFrom (p : QString) : QString → Nat → Int
  | [], off => if p.isEmpty then (off : Int) else -1
  | c :: cs, off => if startsWith (c :: cs) p then (off : Int) else indexOfFrom p cs (off + 1)

/-- `QString::indexOf(str)`, `-1` when `str` does not occur. -/
def indexOf (s p : QString) : Int := indexOfFrom p s 0

/-- `QString::indexOf(QChar)`. -/
def indexOfChar (s : QString) (c : Char) : Int := indexOf s [c]

/-- Position of the last occurrence of `p` in `s` at or after offset `off`,
given the best position found so far. -/
def lastIndexOfFrom (p : QString) : QString → Nat → Int → Int
  | [], off, best => if p.isEmpty then (off : Int) else best
  | c :: cs, off, best =>
    lastIndexOfFrom p cs (off + 1) (if startsWith (c :: cs) p then (off : Int) else best)

/-- `QString::lastIndexOf(str)`, `-1` when `str` does not occur. -/
def lastIndexOf (s p : QString) : Int := lastIndexOfFrom p s 0 (-1)

/-- `QString::lastIndexOf(QChar)`. -/
def lastIndexOfChar (s : QString) (c : Char) : Int := lastIndexOf s [c]

/-- `QString::contains(str)`. -/
def contains (s p : QString) : Bool := decide (0 ≤ indexOf s p)

/-- `QString::remove(pos, n)`: removes `n` characters starting at `pos`;
nothing is removed when `pos` lies outside the string or `n` is not positive. -/
def remove (s : QString) (pos : Int) (n : Int) : QString :=
  if pos < 0 ∨ (s.length : Int) ≤ pos ∨ n ≤ 0 then s
  else s.take pos.toNat ++ s.drop (pos.toNat + n.toNat)

/-- Splits at every occurrence of the character `sep`, keeping empty parts:
`cur` is the part being read, in reverse. -/
def splitAux (sep : Char) : QString → QString → List QString
  | [], cur => [cur.reverse]
  | c :: cs, cur => if c == sep then cur.reverse :: splitAux sep cs [] else splitAux sep cs (c :: cur)

/-- `QString::split(sep)` for a one-character separator. -/
def split (s : QString) (sep : Char) : List QString := splitAux sep s []

/-- `QChar::toUpper` on the Latin letters; other characters are unchanged. -/
def toUpper (c : Char) : Char :=
  if 97 ≤ c.toNat ∧ c.toNat ≤ 122 then Char.ofNat (c.toNat - 32) else c

/-- The character at position `i`, if any (`QString::at`). -/
def charAt (s : QString) (i : Nat) : Option Char := s.get? i

/-- `QStringList::join`. -/
def join (sep : QString) : List QString → QString
  | [] => []
  | [x] => x
  | x :: y :: rest => x ++ sep ++ join sep (y :: rest)

/-! ## Fixed-width integers -/

/-- The signed `w`-bit integer congruent to `x` modulo `2^w`. -/
def wrap (w : Nat) (x : Int) : Int :=
  (x + 2 ^ (w - 1)) % 2 ^ w - 2 ^ (w - 1)

/-- The unsigned `w`-bit representation of `x`. -/
def toUnsigned (w : Nat) (x : Int) : Nat := (x % 2 ^ w).toNat

/-- Bitwise OR of two signed `w`-bit integers. -/
def bitOr (w : Nat) (a b : Int) : Int :=
  wrap w (Int.ofNat (Nat.lor (toUnsigned w a) (toUnsigned w b)))

/-- Bitwise complement of a signed `w`-bit integer. -/
def bitNot (w : Nat) (a : Int) : Int := wrap w (-a - 1)

/-- The width the builder computes with for an enum of size `size`: 8, 16 and
64 select their own arm of every `switch(size)`, every other size the 32-bit
arm. -/
def widthOf (size : Nat) : Nat :=
  if size = 8 then 8 else if size = 16 then 16 else if size = 64 then 64 else 32

/-! ## Number parsing -/

/-- Value of a digit character in bases up to 36. -/
def digitVal (c : Char) : Option Nat :=
  let n := c.toNat
  if 48 ≤ n ∧ n ≤ 57 then some (n - 48)
  else if 97 ≤ n ∧ n ≤ 122 then some (n - 97 + 10)
  else if 65 ≤ n ∧ n ≤ 90 then some (n - 65 + 10)
  else none

/-- Reads a run of digits of base `base` that must make up the whole text. -/
def parseDigits (base : Nat) : QString → Nat → Option Nat
  | [], acc => some acc
  | c :: cs, acc =>
    match digitVal c with
    | some d => if d < base then parseDigits base cs (acc * base + d) else none
    | none => none

/-- Unsigned magnitude of a number text without sign: with base 0 the C
convention selects base 16 after `0x`, base 8 after `0`, base 10 otherwise;
with base 16 a leading `0x` is optional. The text must hold at least one
digit and nothing else. -/
def parseMagnitude (base : Nat) (s : QString) : Option Nat :=
  let hex := startsWith s ['0', 'x'] || startsWith s ['0', 'X']
  if (base = 0 ∨ base = 16) ∧ hex then
    (if (s.drop 2).isEmpty then none else parseDigits 16 (s.drop 2) 0)
  else if base = 0 then
    (if startsWith s ['0'] then parseDigits 8 s 0
     else if s.isEmpty then none else parseDigits 10 s 0)
  else if s.isEmpty then none else parseDigits base s 0

/-- The integer a number text denotes in the C locale: surrounding white
space is ignored and one leading sign is accepted. -/
def parseInteger (base : Nat) (s : QString) : Option Int :=
  match trimmed s with
  | '-' :: rest => (parseMagnitude base rest).map (fun n => - (n : Int))
  | '+' :: rest => (parseMagnitude base rest).map (fun n => (n : Int))
  | t => (parseMagnitude base t).map (fun n => (n : Int))

/-- Conversion to a signed integer type of `w` bits (`toShort`, `toInt`,
`toLongLong`): fails when the text is no number or the number is out of
range. -/
def toSigned (w : Nat) (s : QString) (base : Nat) : Option Int :=
  match parseInteger base s with
  | some v => if - (2 : Int) ^ (w - 1) ≤ v ∧ v < (2 : Int) ^ (w - 1) then some v else none
  | none => none

/-- Conversion to an unsigned integer type of `w` bits (`toUShort`, `toUInt`,
`toULongLong`): a text with a minus sign is rejected. -/
def toUnsignedInt (w : Nat) (s : QString) (base : Nat) : Option Int :=
  if startsWith (trimmed s) ['-'] then none
  else match parseInteger base s with
    | some v => if v < (2 : Int) ^ w then some v else none
    | none => none

/-- Text of an integer in base 10 (`QString::number`). -/
def number (v : Int) : QString := (toString v).toList

/-! ## Type entries and meta types -/

/-- Modelled from the spec: the kind tag of a type entry. The class
`TypeEntry` is declared in `typeentry.h`, which is not among the sources; the
kinds are the ones the builder asks for through `isPrimitive()`, `isEnum()`,
`isObject()` and so on, each predicate being the test of one tag. -/
inductive TypeEntryType
  | PrimitiveType | VoidType | AutoType | FlagsType | EnumType | TemplateArgumentType
  | BasicValueType | StringType | Latin1StringType | Latin1StringViewType | StringViewType
  | Utf8StringViewType | AnyStringViewType | StringRefType | CharType | VariantType
  | JObjectWrapperType | JMapWrapperType | JCollectionWrapperType | JEnumWrapperType
  | JIteratorWrapperType | JQFlagsWrapperType | ContainerType | PointerContainerType
  | InitializerListType | IteratorType | InterfaceType | ObjectType | NamespaceType
  | GlobalType | ArrayType | FunctionalType | QMetaObjectType | QMetaObjectConnectionType
  | InstantiatedTemplateArgumentType | AliasType | TypeSystemType
  deriving DecidableEq, Repr

/-- Modelled from the spec: the generation policy of a type entry
(`TypeEntry::CodeGeneration`). -/
inductive CodeGeneration
  | GenerateAll | GenerateNothing | GenerateForSubclass
  deriving DecidableEq, Repr

/-- Modelled from the spec: the kinds of container entries the builder tells
apart (`ContainerTypeEntry::Type`). -/
inductive ContainerKind
  | NoContainer | ListContainer | LinkedListContainer | VectorContainer | StackContainer
  | QueueContainer | SetContainer | MapContainer | HashContainer | MultiMapContainer
  | MultiHashContainer | StringListContainer | ByteArrayListContainer
  | QQmlListPropertyContainer | OtherContainer
  deriving DecidableEq, Repr

/-- Modelled from the spec: the kinds of pointer-container entries
(`PointerContainerTypeEntry::Type`). -/
inductive PointerContainerKind
  | NoPointerContainer | QPointer | QSharedPointer | QWeakPointer | QScopedPointer
  | unique_ptr | shared_ptr | weak_ptr | OtherPointerContainer
  deriving DecidableEq, Repr

/-- Modelled from the spec: a type entry of the mapping database, with the
attributes the builder reads. `isQObject`, `isTemplate` and `isGenericClass`
are attributes of complex entries, `ordinal` of template-argument entries,
`containerKind` of container entries and `pointerContainerKind` of
pointer-container entries. -/
structure TypeEntry where
  type : TypeEntryType
  name : QString := []
  qualifiedCppName : QString := []
  isQObject : Bool := false
  isTemplate : Bool := false
  isGenericClass : Bool := false
  ordinal : Nat := 0
  codeGeneration : CodeGeneration := CodeGeneration.GenerateAll
  containerKind : ContainerKind := ContainerKind.NoContainer
  pointerContainerKind : PointerContainerKind := PointerContainerKind.NoPointerContainer
  deriving DecidableEq, Repr

namespace TypeEntry

@[simp] def isPrimitive (t : TypeEntry) : Bool := t.type == .PrimitiveType
@[simp] def isAuto (t : TypeEntry) : Bool := t.type == .AutoType
@[simp] def isVoid (t : TypeEntry) : Bool := t.type == .VoidType
@[simp] def isFunctional (t : TypeEntry) : Bool := t.type == .FunctionalType
@[simp] def isQString (t : TypeEntry) : Bool := t.type == .StringType
@[simp] def isLatin1String (t : TypeEntry) : Bool := t.type == .Latin1StringType
@[simp] def isLatin1StringView (t : TypeEntry) : Bool := t.type == .Latin1StringViewType
@[simp] def isStringView (t : TypeEntry) : Bool := t.type == .StringViewType
@[simp] def isUtf8StringView (t : TypeEntry) : Bool := t.type == .Utf8StringViewType
@[simp] def isAnyStringView (t : TypeEntry) : Bool := t.type == .AnyStringViewType
@[simp] def isStringRef (t : TypeEntry) : Bool := t.type == .StringRefType
@[simp] def isChar (t : TypeEntry) : Bool := t.type == .CharType
@[simp] def isJObjectWrapper (t : TypeEntry) : Bool := t.type == .JObjectWrapperType
@[simp] def isJMapWrapper (t : TypeEntry) : Bool := t.type == .JMapWrapperType
@[simp] def isJCollectionWrapper (t : TypeEntry) : Bool := t.type == .JCollectionWrapperType
@[simp] def isJEnumWrapper (t : TypeEntry) : Bool := t.type == .JEnumWrapperType
@[simp] def isJIteratorWrapper (t : TypeEntry) : Bool := t.type == .JIteratorWrapperType
@[simp] def isJQFlagsWrapper (t : TypeEntry) : Bool := t.type == .JQFlagsWrapperType
@[simp] def isVariant (t : TypeEntry) : Bool := t.type == .VariantType
@[simp] def isEnum (t : TypeEntry) : Bool := t.type == .EnumType
@[simp] def isObject (t : TypeEntry) : Bool := t.type == .ObjectType
@[simp] def isValue (t : TypeEntry) : Bool := t.type == .BasicValueType
@[simp] def isContainer (t : TypeEntry) : Bool := t.type == .ContainerType
@[simp] def isPointerContainer (t : TypeEntry) : Bool := t.type == .PointerContainerType
@[simp] def isInitializerList (t : TypeEntry) : Bool := t.type == .InitializerListType
@[simp] def isTemplateArgument (t : TypeEntry) : Bool := t.type == .TemplateArgumentType
@[simp] def isFlags (t : TypeEntry) : Bool := t.type == .FlagsType
@[simp] def isArray (t : TypeEntry) : Bool := t.type == .ArrayType
@[simp] def isIterator (t : TypeEntry) : Bool := t.type == .IteratorType
@[simp] def isInterface (t : TypeEntry) : Bool := t.type == .InterfaceType
@[simp] def isNamespace (t : TypeEntry) : Bool := t.type == .NamespaceType
@[simp] def isGlobal (t : TypeEntry) : Bool := t.type == .GlobalType
@[simp] def isAlias (t : TypeEntry) : Bool := t.type == .AliasType
@[simp] def isQMetaObjectType (t : TypeEntry) : Bool := t.type == .QMetaObjectType
@[simp] def isQMetaObjectConnectionType (t : TypeEntry) : Bool := t.type == .QMetaObjectConnectionType

/-- Complex entries are the class-like ones: objects, values, interfaces,
namespaces and the global scope. -/
@[simp] def isComplex (t : TypeEntry) : Bool :=
  t.type == .ObjectType || t.type == .BasicValueType || t.type == .InterfaceType
    || t.type == .NamespaceType || t.type == .GlobalType

end TypeEntry

/-- `MetaType::ReferenceType`. -/
inductive ReferenceType
  | NoReference | Reference | RReference
  deriving DecidableEq, Repr

/-- `MetaType::TypeUsagePattern`: the tags `decideUsagePattern` assigns, and
`InvalidPattern`, the tag of a meta type none has been assigned to yet. -/
inductive TypeUsagePattern
  | InvalidPattern | RValuePattern | NullptrPattern | PrimitivePattern | NativePointerPattern
  | AutoPattern | FunctionalPattern | StringPattern | Latin1StringPattern
  | Latin1StringViewPattern | StringViewPattern | Utf8StringViewPattern
  | AnyStringViewPattern | StringRefPattern | CharPattern | JObjectWrapperPattern
  | JMapWrapperPattern | JCollectionWrapperPattern | JEnumWrapperPattern
  | JIteratorWrapperPattern | JQFlagsWrapperPattern | VariantPattern | EnumPattern
  | QObjectPattern | ObjectPattern | ContainerPattern | PointerContainerPattern
  | InitializerListPattern | TemplateArgumentPattern | FlagsPattern | ArrayPattern
  | IteratorPattern | ValuePattern
  deriving DecidableEq, Repr

/-- A resolved use of a type entry: `MetaType`. Copies are values, so
`copy()` is the identity. -/
structure MetaType where
  typeEntry : TypeEntry
  constant : Bool := false
  isVolatile : Bool := false
  referenceType : ReferenceType := ReferenceType.NoReference
  indirections : List Bool := []
  instantiations : List MetaType := []
  typeUsagePattern : TypeUsagePattern := TypeUsagePattern.InvalidPattern
  forceBoxedPrimitives : Bool := false
  originalTemplateType : Option MetaType := none
  originalTypeDescription : QString := []
  arrayElementCount : Int := 0
  arrayElementType : Option MetaType := none
  instantiationInCpp : Bool := true
  iteratorInstantiations : List MetaType := []

namespace MetaType

/-- A `new MetaType()` on which `setTypeEntry` has been called: no
qualifiers, no instantiations, no usage pattern yet. -/
def fresh (t : TypeEntry) : MetaType :=
  { typeEntry := t, instantiations := [], originalTemplateType := none,
    arrayElementType := none, iteratorInstantiations := [] }

/-- Modelled from the spec: `MetaType::actualIndirections`, the number of
pointer levels plus one for an lvalue reference. -/
def actualIndirections (m : MetaType) : Nat :=
  m.indirections.length + (if m.referenceType = ReferenceType.Reference then 1 else 0)

def hasInstantiations (m : MetaType) : Bool := !m.instantiations.isEmpty

def setTypeUsagePattern (m : MetaType) (p : TypeUsagePattern) : MetaType :=
  { m with typeUsagePattern := p }

def setReferenceType (m : MetaType) (r : ReferenceType) : MetaType :=
  { m with referenceType := r }

def setConstant (m : MetaType) (c : Bool) : MetaType :=
  { m with constant := c }

def setIndirections (m : MetaType) (i : List Bool) : MetaType :=
  { m with indirections := i }

def setTypeEntry (m : MetaType) (t : TypeEntry) : MetaType :=
  { m with typeEntry := t }

def setInstantiations (m : MetaType) (l : List MetaType) : MetaType :=
  { m with instantiations := l }

def setForceBoxedPrimitives (m : MetaType) (b : Bool) : MetaType :=
  { m with forceBoxedPrimitives := b }

def setOriginalTemplateType (m : MetaType) (o : MetaType) : MetaType :=
  { m with originalTemplateType := some o }

end MetaType

open TypeUsagePattern in
/-- The chain of tests of `MetaBuilder::decideUsagePattern` (metabuilder.cpp
6563-6734), in source order, on what the function reads of the meta type: its
entry, reference kind, constness and indirection list. The result is the tag
the chosen branch sets, and whether that branch also rewrites a const
reference to a pointer into a plain pointer (lines 6686-6690, the only branch
that changes anything but the tag). -/
def usagePatternChain (type : TypeEntry) (referenceType : ReferenceType) (isConstant : Bool)
    (indirections : List Bool) : TypeUsagePattern × Bool :=
  let noInd : Bool := indirections.length == 0
  let isRef : Bool := referenceType == ReferenceType.Reference
  let constRefOrNoRef : Bool :=
    (isRef && isConstant) || referenceType == ReferenceType.NoReference
  let actualIndirections : Nat := indirections.length + (if isRef then 1 else 0)
  let plain : Bool := actualIndirections == 0 || (isConstant && isRef && noInd)
  if referenceType == ReferenceType.RReference then (RValuePattern, false)
  else if type.isPrimitive then
    if plain then
      if type.qualifiedCppName == qs "std::nullptr_t" then (NullptrPattern, false)
      else (PrimitivePattern, false)
    else if actualIndirections == 1 && startsWith type.qualifiedCppName (qs "_j") then
      (PrimitivePattern, false)
    else (NativePointerPattern, false)
  else if type.isAuto then (AutoPattern, false)
  else if type.isVoid then (NativePointerPattern, false)
  else if type.isFunctional then (FunctionalPattern, false)
  else if type.isQString && noInd && constRefOrNoRef then (StringPattern, false)
  else if type.isLatin1String && noInd && constRefOrNoRef then (Latin1StringPattern, false)
  else if type.isLatin1StringView && noInd && constRefOrNoRef then
    (Latin1StringViewPattern, false)
  else if type.isStringView && noInd && constRefOrNoRef then (StringViewPattern, false)
  else if type.isUtf8StringView && noInd && constRefOrNoRef then (Utf8StringViewPattern, false)
  else if type.isAnyStringView && noInd && constRefOrNoRef then (AnyStringViewPattern, false)
  else if type.isStringRef && noInd && constRefOrNoRef then (StringRefPattern, false)
  else if type.isChar && noInd && constRefOrNoRef then (CharPattern, false)
  else if (type.isJObjectWrapper || type.isJMapWrapper || type.isJCollectionWrapper
            || type.isJEnumWrapper || type.isJIteratorWrapper || type.isJQFlagsWrapper)
          && noInd && constRefOrNoRef then
    if type.isJObjectWrapper then (JObjectWrapperPattern, false)
    else if type.isJMapWrapper then (JMapWrapperPattern, false)
    else if type.isJCollectionWrapper then (JCollectionWrapperPattern, false)
    else if type.isJEnumWrapper then (JEnumWrapperPattern, false)
    else if type.isJIteratorWrapper then (JIteratorWrapperPattern, false)
    else (JQFlagsWrapperPattern, false)
  else if type.isVariant && noInd && constRefOrNoRef then (VariantPattern, false)
  else if type.isEnum && plain then (EnumPattern, false)
  else if type.isObject && noInd && isRef then
    if type.isQObject then (QObjectPattern, false) else (ObjectPattern, false)
  else if type.isObject && indirections.length == 1 then
    -- const-references to pointers can be passed as pointers
    (if type.isQObject then QObjectPattern else ObjectPattern, isRef && isConstant)
  else if type.isContainer && decide (indirections.length ≤ 1) then (ContainerPattern, false)
  else if type.isPointerContainer && noInd then (PointerContainerPattern, false)
  else if type.isInitializerList && noInd then (InitializerListPattern, false)
  else if type.isTemplateArgument then (TemplateArgumentPattern, false)
  else if type.isFlags && plain then (FlagsPattern, false)
  else if type.isArray then (ArrayPattern, false)
  else if type.isIterator then (IteratorPattern, false)
  else if type.isQMetaObjectType then (ObjectPattern, false)
  else if type.isQMetaObjectConnectionType then (ValuePattern, false)
  else if type.isValue && noInd
          && (isConstant == isRef || referenceType == ReferenceType.NoReference) then
    (ValuePattern, false)
  else if type.isObject && actualIndirections == 0 then (NativePointerPattern, false)
  else if type.type == TypeEntryType.InstantiatedTemplateArgumentType then
    (JObjectWrapperPattern, false)
  else (NativePointerPattern, false)

/-- `MetaBuilder::decideUsagePattern`: sets the tag the chain chooses and, in
the branch for a const reference to an object pointer, clears the reference
and the constness (`setReferenceType(NoReference); setConstant(false)`). -/
def decideUsagePattern (meta_type : MetaType) : MetaType :=
  let r := usagePatternChain meta_type.typeEntry meta_type.referenceType meta_type.constant
    meta_type.indirections
  let m1 := meta_type.setTypeUsagePattern r.1
  if r.2 then (m1.setReferenceType ReferenceType.NoReference).setConstant false else m1

/-! ## Template instantiation of a type -/

/-- The copy `t` that `inheritTemplateType` makes of `returned` for the
instantiation argument `template_type` bound to its parameter (metabuilder.cpp
6987-6996): the argument's entry and boxing flag, one non-const indirection if
the argument or the use has any indirection and none otherwise, and the usage
pattern decided anew. -/
def substituteParameter (returned template_type : MetaType) : MetaType :=
  let t := returned.setTypeEntry template_type.typeEntry
  let t := t.setForceBoxedPrimitives template_type.forceBoxedPrimitives
  let t :=
    if template_type.indirections.length + t.indirections.length > 0 then
      t.setIndirections [false]
    else t.setIndirections []
  decideUsagePattern t

/-- The loop of `inheritTemplateType` over the instantiations of the returned
type (metabuilder.cpp 7009-7013): `inherit` is the recursive call, `done` the
substituted instantiations so far, in reverse. A failure of one instantiation
ends the loop with `some none`. -/
def inheritInstantiations (inherit : MetaType → Option (Option MetaType)) :
    List MetaType → List MetaType → Option (Option (List MetaType))
  | [], done => some (some done.reverse)
  | i :: rest, done =>
    match inherit i with
    | none => none
    | some none => some none
    | some (some i1) => inheritInstantiations inherit rest (i1 :: done)

/-- The second half of `inheritTemplateType` (metabuilder.cpp 7007-7017):
substitutes the instantiations of `returned`, if it has any. -/
def inheritReturned (inherit : MetaType → Option (Option MetaType)) (returned : MetaType) :
    Option (Option MetaType) :=
  if returned.hasInstantiations then
    match inheritInstantiations inherit returned.instantiations [] with
    | none => none
    | some none => some none
    | some (some instantiations) => some (some (returned.setInstantiations instantiations))
  else some (some returned)

/-- The body of `MetaBuilder::inheritTemplateType` (metabuilder.cpp
6966-7018) for a non-null `meta_type`. The result is `none` when the fuel runs
out, `some none` for `*ok = false; return nullptr`, and `some (some t)` for a
returned type with `*ok = true`. -/
def inheritTemplateTypeCore : Nat → List MetaType → MetaType → Option (Option MetaType)
  | 0, _, _ => none
  | fuel + 1, template_types, meta_type =>
    if !meta_type.typeEntry.isTemplateArgument && !meta_type.hasInstantiations then
      some (some meta_type)
    else
      let returned : MetaType := meta_type.setOriginalTemplateType meta_type
      if returned.typeEntry.isTemplateArgument then
        let tae := returned.typeEntry
        match template_types.get? tae.ordinal with
        | none => some none
        | some template_type =>
          -- a template instantiated with void rejects the functions using the parameter
          if template_type.typeEntry.name == qs "void" then some none
          else
            let t := substituteParameter returned template_type
            if template_type.typeEntry.isTemplateArgument then some (some t)
            else
              match inheritTemplateTypeCore fuel template_types t with
              | none => none
              | some none => some none
              | some (some returned) =>
                inheritReturned (inheritTemplateTypeCore fuel template_types) returned
      else inheritReturned (inheritTemplateTypeCore fuel template_types) returned

/-- `MetaBuilder::inheritTemplateType`: the returned pointer and the value of
`*ok`; a null `meta_type` is returned as it is, with `*ok = true`. -/
def inheritTemplateType (fuel : Nat) (template_types : List MetaType)
    (meta_type : Option MetaType) : Option (Option MetaType × Bool) :=
  match meta_type with
  | none => some (none, true)
  | some m => (inheritTemplateTypeCore fuel template_types m).map (fun r => (r, r.isSome))

/-! ### Sample inputs for template instantiation -/

/-- The entry of a class template parameter `T` (ordinal 0). -/
def sampleT : TypeEntry := { type := TypeEntryType.TemplateArgumentType, name := qs "T" }

/-- The entry of the primitive type `Int32`. -/
def sampleInt32 : TypeEntry :=
  { type := TypeEntryType.PrimitiveType, name := qs "Int32", qualifiedCppName := qs "Int32" }

/-- The use `T*` of the template parameter. -/
def sampleTPtr : MetaType :=
  { MetaType.fresh sampleT with
    indirections := [false], typeUsagePattern := TypeUsagePattern.TemplateArgumentPattern }

/-- The instantiation argument `Int32`. -/
def sampleInt32Arg : MetaType :=
  { MetaType.fresh sampleInt32 with typeUsagePattern := TypeUsagePattern.PrimitivePattern }

/-- The instantiation argument `Int32*`. -/
def sampleInt32PtrArg : MetaType :=
  { MetaType.fresh sampleInt32 with
    indirections := [false], typeUsagePattern := TypeUsagePattern.NativePointerPattern }

/-! ## Enum values: variants and operators -/

/-- A `QVariant` as the builder uses it for enum values: invalid, an integer
or a string. -/
inductive QVariant
  | invalid
  | int (v : Int)
  | str (s : QString)
  deriving DecidableEq, Repr

namespace QVariant

/-- `QVariant::isValid`: a string, also the empty one, is valid. -/
def isValid : QVariant → Bool
  | invalid => false
  | _ => true

/-- The test `userType()==QMetaType::QString`. -/
def isString : QVariant → Bool
  | str _ => true
  | _ => false

/-- `value<qintW>()`: an integer is truncated to `w` bits; a string converts
through `toLongLong` and yields 0 when it is no number; an invalid variant
yields 0. -/
def toInt (w : Nat) : QVariant → Int
  | invalid => 0
  | int v => wrap w v
  | str s =>
    match toSigned 64 s 10 with
    | some v => wrap w v
    | none => 0

/-- `QVariant::toString`. -/
def toString : QVariant → QString
  | invalid => []
  | int v => number v
  | str s => s

end QVariant

/-- `Operator::Type`, in the order of the table `names` in `findOperator`:
`+`, `-`, `<<`, `~`, and `None`. -/
inductive OperatorType
  | Plus | Minus | ShiftLeft | Not | None
  deriving DecidableEq, Repr

/-- Modelled from the spec: the class `Operator` (declared in
`metabuilder.h`): the operator found, the enum size and the value of the
right-hand operand. -/
structure Operator where
  type : OperatorType
  size : Nat
  value : QVariant
  deriving DecidableEq, Repr

/-- `Operator(size)`: no operator, no value. -/
def Operator.new (size : Nat) : Operator :=
  { type := OperatorType.None, size := size, value := QVariant.invalid }

/-- Left shift of a `w`-bit integer. Operands narrower than `int` are promoted
to 32 bits before the shift; the shift count is taken modulo the width of the
promoted operand, as the shift instruction does (C++ leaves counts outside
that range undefined). -/
def shiftLeft (w : Nat) (x n : Int) : Int :=
  wrap w (x * 2 ^ (n % (max w 32 : Nat)).toNat)

/-- `Operator::calculate` (metabuilder.cpp 2549-2656). -/
def Operator.calculate (op : Operator) (x : QVariant) : QVariant :=
  let w := widthOf op.size
  match op.type with
  | OperatorType.Plus =>
    if op.value.isValid then QVariant.int (wrap w (x.toInt w + op.value.toInt w)) else x
  | OperatorType.Minus =>
    if op.value.isValid then QVariant.int (wrap w (x.toInt w - op.value.toInt w))
    else QVariant.int (wrap w (- x.toInt w))
  | OperatorType.ShiftLeft => QVariant.int (shiftLeft w (x.toInt w) (op.value.toInt w))
  | OperatorType.Not => QVariant.int (bitNot w (x.toInt w))
  | OperatorType.None => x

/-- `Operator::toString` (metabuilder.cpp 2658-2741). -/
def Operator.toString (op : Operator) (x : QString) : QString :=
  let w := widthOf op.size
  match op.type with
  | OperatorType.Plus =>
    if op.value.isString then qs "(" ++ x ++ qs "+" ++ op.value.toString ++ qs ")"
    else if op.value.isValid then qs "(" ++ x ++ qs "+" ++ number (op.value.toInt w) ++ qs ")"
    else x
  | OperatorType.Minus =>
    if op.value.isString then qs "(" ++ x ++ qs "-" ++ op.value.toString ++ qs ")"
    else if op.value.isValid then qs "(" ++ x ++ qs "-" ++ number (op.value.toInt w) ++ qs ")"
    else qs "-" ++ x
  | OperatorType.ShiftLeft =>
    if op.value.isString then qs "(" ++ x ++ qs " << " ++ op.value.toString ++ qs ")"
    else qs "(" ++ x ++ qs " << " ++ number (op.value.toInt w) ++ qs ")"
  | OperatorType.Not => qs "~" ++ x
  | OperatorType.None => x

/-! ## Enum values: the text of an expression -/

/-- The loop `while(s.startsWith("(") && s.endsWith(")")) s = s.mid(1, s.length()-2);`
run at most `n` times; every round shortens the text, so `s.length` rounds
suffice. -/
def stripParensAux : Nat → QString → QString
  | 0, s => s
  | n + 1, s =>
    if startsWith s ['('] && endsWith s [')'] then
      stripParensAux n (midN s 1 ((s.length : Int) - 2))
    else s

/-- Removes enclosing pairs of parentheses (metabuilder.cpp 2820-2822 and
2871-2873). -/
def stripParens (s : QString) : QString := stripParensAux s.length s

/-- The block that removes a `static_cast` keyword and the text up to the
closing angle bracket of its type (metabuilder.cpp 2826-2833, 2876-2883). -/
def stripStaticCast (s : QString) : QString :=
  if startsWith s (qs "static_cast") then
    let s1 := trimmed (remove s 0 (qs "static_cast").length)
    if s1.length > 0 && charAt s1 0 == some '<' then
      let end_pos := indexOfChar s1 '>'
      if end_pos ≥ 0 then trimmed (remove s1 0 end_pos) else s1
    else s1
  else s

/-- The block that unwraps `FooBar::Type(.....)` or, when `castForm` holds,
also `(type).....` (metabuilder.cpp 2836-2860, 2886-2907, 2909-2924): the new
text, or `none` when the block leaves the text as it is. -/
def stripTypeCall (castForm : Bool) (s : QString) : Option QString :=
  let beg_pos := indexOfChar s '('
  if beg_pos ≥ 0 then
    let tmp := trimmed (remove s 0 (beg_pos + 1))
    let tmp :=
      if castForm && beg_pos == 0 then
        let nextClose_pos := indexOfChar tmp ')'
        if nextClose_pos > 0 then trimmed (remove tmp 0 (nextClose_pos + 1)) else tmp
      else tmp
    let nextClose_pos := indexOfChar tmp ')'
    let nextOpen_pos := indexOfChar tmp '('
    if nextOpen_pos < 0 ∨ nextOpen_pos < nextClose_pos then
      let end_pos := lastIndexOfChar tmp ')'
      some (if end_pos ≥ 0 then trimmed (remove tmp end_pos 1) else tmp)
    else none
  else none

/-- The character that delimits a character literal. -/
def apostrophe : Char := Char.ofNat 39

/-- The escape character of a character literal. -/
def backslash : Char := Char.ofNat 92

/-- `QChar::toLatin1` read as a number: the character code when it is below
256 and 0 otherwise, as a plain `char`, which is taken to be signed. -/
def toLatin1 (c : Char) : Int :=
  if c.toNat > 255 then 0 else if c.toNat ≥ 128 then (c.toNat : Int) - 256 else (c.toNat : Int)

/-- The value of a conversion whose text may fail to convert: `(v, ok)`. -/
def convertedOr0 (w : Nat) (r : Option Int) : QVariant × Bool :=
  match r with
  | some v => (QVariant.int (wrap w v), true)
  | none => (QVariant.int 0, false)

/-- The chain that reads an operand as a literal (metabuilder.cpp 2931-3107):
the variant set and the flag `ok`. -/
def parseLiteral (size : Nat) (s : QString) : QVariant × Bool :=
  let w := widthOf size
  let len := s.length
  let lastUpper : Option Char := (charAt s (len - 1)).map toUpper
  if len == 3 && startsWith s [apostrophe] && endsWith s [apostrophe] then
    (QVariant.int (wrap w (toLatin1 ((charAt s 1).getD ' '))), true)
  else if len > 3 && startsWith s [apostrophe, backslash, 'u'] && endsWith s [apostrophe] then
    let unicode := qs "0x" ++ midN s 3 ((len : Int) - 2)
    convertedOr0 w (toUnsignedInt 64 unicode 16)
  else if len == 4 && startsWith s [apostrophe, backslash] && endsWith s [apostrophe] then
    (QVariant.int (wrap w (toLatin1 ((charAt s 2).getD ' '))), true)
  else if len > 0 && charAt s 0 == some '0' && lastUpper != some 'U' && lastUpper != some 'L' then
    if size = 8 then convertedOr0 8 (toUnsignedInt 16 s 0)
    else if size = 16 then convertedOr0 16 (toUnsignedInt 16 s 0)
    else if size = 64 then convertedOr0 64 (toUnsignedInt 64 s 0)
    else convertedOr0 32 (toUnsignedInt 32 s 0)
  else if len > 0 && lastUpper == some 'U' then
    let unsignedNumber := left s ((len : Int) - 1)
    if startsWith unsignedNumber (qs "0x") then convertedOr0 w (toUnsignedInt 64 unsignedNumber 16)
    else convertedOr0 w (toUnsignedInt 64 unsignedNumber 10)
  else if len > 1 && (charAt s (len - 2)).map toUpper == some 'u' && lastUpper == some 'L' then
    let longNumber := left s ((len : Int) - 2)
    convertedOr0 w (toUnsignedInt 64 longNumber 10)
  else if len > 0 && lastUpper == some 'L' then
    let longNumber := left s ((len : Int) - 1)
    convertedOr0 w (toSigned 64 longNumber 10)
  else
    if size = 8 then convertedOr0 8 (toSigned 16 s 10)
    else if size = 16 then convertedOr0 16 (toSigned 16 s 10)
    else if size = 64 then convertedOr0 64 (toSigned 64 s 10)
    else convertedOr0 32 (toSigned 32 s 10)

/-! ## Functions, enums and classes of the meta model -/

/-- Modelled from the spec: the attribute flags of classes, functions and
enums (`MetaAttributes`). -/
inductive MetaAttribute
  | Public | Protected | Private | Friendly | Final | Abstract | Static | Native | Invokable
  | Deprecated | DeclaredFinalInCpp | PropertyReader | PropertyWriter | PropertyResetter
  | PropertyBindable | PropertyNotify | Fake | Annonymous | ConstExpr
  deriving DecidableEq, Repr

/-- Modelled from the spec: the kind of a function (`MetaFunction::FunctionType`). -/
inductive FunctionType
  | NormalFunction | ConstructorFunction | DestructorFunction | SignalFunction
  | PrivateSignalFunction | SlotFunction | GlobalScopeFunction | BaseClassDelegateFunction
  deriving DecidableEq, Repr

/-- An argument of a function: `MetaArgument`. -/
structure MetaArgument where
  name : QString := []
  type : MetaType
  argumentIndex : Nat := 0
  defaultValueExpression : QString := []
  originalDefaultValueExpression : QString := []
  modifiedName : QString := []

/-- A template parameter of a function: `MetaTemplateParameter`. -/
structure MetaTemplateParameter where
  name : QString
  type : MetaType
  defaultType : QString := []

/-- Modelled from the spec: an enum type entry (`EnumTypeEntry`), with the
attributes the enum passes read and the redirection table they fill. -/
structure EnumTypeEntry where
  size : Nat := 32
  isScopedEnum : Bool := false
  targetLangName : QString := []
  qualifiedCppName : QString := []
  qualifiedTargetLangName : QString := []
  forceInteger : Bool := false
  enumValueRejections : List QString := []
  enumValueRedirections : List (QString × QString) := []
  deriving DecidableEq, Repr

/-- `EnumTypeEntry::isEnumValueRejected`. -/
def EnumTypeEntry.isEnumValueRejected (t : EnumTypeEntry) (name : QString) : Bool :=
  t.enumValueRejections.contains name

/-- A constant of an enum: `MetaEnumValue`. `stringValue` is the text of its
initializer, `value` the variant the enum passes set, `enumId` the enum it
belongs to (`getEnum()`), `cppName` its name as C++ code spells it. -/
structure MetaEnumValue where
  name : QString
  cppName : QString
  stringValue : QString := []
  value : QVariant := QVariant.invalid
  enumId : Nat := 0
  deriving DecidableEq, Repr

/-- An enum: `MetaEnum`. Its constants and its enclosing class are referred to
by index into the arenas of the builder. -/
structure MetaEnum where
  name : QString
  typeEntry : EnumTypeEntry := {}
  values : List Nat := []
  enclosingClass : Nat := 0
  deriving DecidableEq, Repr

/-- A function of a class: `MetaFunction`. The declaring and the implementing
class are referred to by name. -/
structure MetaFunction where
  name : QString
  originalName : QString := []
  originalSignature : QString := []
  functionType : FunctionType := FunctionType.NormalFunction
  attributes : List MetaAttribute := []
  originalAttributes : List MetaAttribute := []
  invalid : Bool := false
  type : Option MetaType := none
  arguments : List MetaArgument := []
  templateParameters : List MetaTemplateParameter := []
  constant : Bool := false
  functionReferenceType : ReferenceType := ReferenceType.NoReference
  variadics : Bool := false
  isExplicit : Bool := false
  deprecatedComment : QString := []
  declaringClass : Option QString := none
  implementingClass : Option QString := none
  propertySpec : Option QString := none

/-- A field of a class: `MetaField`. -/
structure MetaField where
  name : QString
  type : MetaType
  attributes : List MetaAttribute := []

/-- Modelled from the spec: an argument modification of the type system
(`ArgumentModification`), as far as the builder writes and reads it: the index
of the argument (0 is the return value), whether its kind is
`ArgumentModification::Default`, and whether `thread_affine` is
`ThreadAffinity::Pixmap`. -/
structure ArgumentModification where
  index : Nat
  isDefault : Bool := true
  modified_name : QString := []
  modified_type : QString := []
  replace_value : QString := []
  no_null_pointers : Bool := false
  thread_affine : Bool := false
  deriving DecidableEq, Repr

/-- Modelled from the spec: a function modification of the type system
(`FunctionModification`), as far as the builder writes and reads it:
`removal` tells that the removal mask is not empty, `removalTargetLang` that
it has the bit `TS::TargetLangCode`, `pixmapThreadAffine` that `modifiers` is
`Modification::PixmapThreadAffine`, `isPrivate`, `isFriendly` and `isProtected` that
`modifiers` is `Modification::Private`, `Modification::Friendly` or
`Modification::Protected`. -/
structure FunctionModification where
  signature : QString := []
  removal : Bool := false
  removalTargetLang : Bool := false
  isRenameModifier : Bool := false
  isPrivateSignal : Bool := false
  pixmapThreadAffine : Bool := false
  argument_mods : List ArgumentModification := []
  isPrivate : Bool := false
  isFriendly : Bool := false
  isProtected : Bool := false
  deriving DecidableEq, Repr

/-- Modelled from the spec: a `Q_PROPERTY` of a class (`QPropertySpec`): its
name and the names of its accessor functions. -/
structure QPropertySpec where
  name : QString
  read : QString := []
  write : QString := []
  reset : QString := []
  bindable : QString := []
  notify : QString := []
  deriving DecidableEq, Repr

/-- A class of the meta model: `MetaClass`. Enums, the resolved base class, the
template base class, the interfaces, the implementation class of an interface
(`extractInterfaceImpl`), the interface class of a class with a designated
interface (`extractInterface`) and the enclosed classes are indices into the
arenas of the builder; the function modifications, extra includes, `implements` and
delegated base classes are those of the class's type entry. The lists of the
comparison functions are those that `setupEquals` and `setupComparable` set,
`beginFunctions` and `endFunctions` those that `setupBeginEnd` sets. -/
structure MetaClass where
  name : QString
  qualifiedCppName : QString := []
  simpleName : QString := []
  typeEntry : TypeEntry := { type := TypeEntryType.ObjectType }
  attributes : List MetaAttribute := []
  baseClassNames : List (QString × Bool) := []
  baseClass : Option Nat := none
  enums : List Nat := []
  functions : List MetaFunction := []
  invalidFunctions : List MetaFunction := []
  fields : List MetaField := []
  templateArguments : List TypeEntry := []
  propertySpecs : List QPropertySpec := []
  functionModifications : List FunctionModification := []
  extraIncludes : List QString := []
  designatedInterface : Bool := false
  isQObject : Bool := false
  hasEqualsOperator : Bool := false
  hasHashFunction : Bool := false
  needsHashWorkaround : Bool := false
  hasPublicDestructor : Bool := true
  hasPrivateDestructor : Bool := false
  hasVirtualDestructor : Bool := false
  hasJustPrivateConstructors : Bool := false
  unimplementablePureVirtualFunctions : List QString := []
  typeAliasType : Option MetaType := none
  templateBaseClassInstantiations : List MetaType := []
  originalAttributes : List MetaAttribute := []
  templateBaseClass : Option Nat := none
  interfaces : List Nat := []
  interfaceImpl : Option Nat := none
  enclosedClasses : List Nat := []
  implements : QString := []
  delegatedBaseClasses : List (QString × QString) := []
  isTypeAlias : Bool := false
  extractInterface : Option Nat := none
  equalsFunctions : List MetaFunction := []
  notEqualsFunctions : List MetaFunction := []
  compareFunctions : List MetaFunction := []
  lessThanFunctions : List MetaFunction := []
  greaterThanFunctions : List MetaFunction := []
  lessThanEqFunctions : List MetaFunction := []
  greaterThanEqFunctions : List MetaFunction := []
  hasCloneOperator : Bool := false
  beginFunctions : List MetaFunction := []
  endFunctions : List MetaFunction := []

/-- A message handed to `ReportHandler::warning`. The messages of the enum
passes keep their parts apart instead of formatting them into one text. -/
inductive Warning
  | text (msg : QString)
  | duplicateEnumValues (cls enumName value other : QString) (number : Int)
      (rejections : List QString)
  | rejectedEnumHasNoAlternative (cls value : QString)
  deriving DecidableEq, Repr

/-- The part of the builder the enum passes work on: the classes
(`m_meta_classes` lists them in order), the arenas of enums and enum
constants, the register `m_enum_values` of constants by name, the set
`warnings` that `figureOutEnumValues` collects, and the messages given to
`ReportHandler::warning`. -/
structure Builder where
  classes : List MetaClass := []
  m_meta_classes : List Nat := []
  enums : List MetaEnum := []
  enumValues : List MetaEnumValue := []
  m_enum_values : List (QString × Nat) := []
  warnings : List QString := []
  reported : List Warning := []

namespace Builder

/-- The enum constant with index `i`; a constant without name when the index
is out of range. -/
def value (b : Builder) (i : Nat) : MetaEnumValue :=
  (b.enumValues.get? i).getD { name := [], cppName := [] }

/-- The enum with index `i`. -/
def enum (b : Builder) (i : Nat) : MetaEnum :=
  (b.enums.get? i).getD { name := [] }

/-- The class with index `i`. -/
def cls (b : Builder) (i : Nat) : MetaClass :=
  (b.classes.get? i).getD { name := [] }

/-- `ev->setValue(v)` on the constant with index `i`. -/
def setValue (b : Builder) (i : Nat) (v : QVariant) : Builder :=
  { b with enumValues := b.enumValues.modify (fun e => { e with value := v }) i }

/-- `warnings->insert(msg)`, or `ReportHandler::warning(msg)` when the caller
passed no set. -/
def warn (b : Builder) (useSet : Bool) (msg : QString) : Builder :=
  if useSet then
    (if b.warnings.contains msg then b else { b with warnings := b.warnings ++ [msg] })
  else { b with reported := b.reported ++ [Warning.text msg] }

/-- `ReportHandler::warning`. -/
def report (b : Builder) (w : Warning) : Builder :=
  { b with reported := b.reported ++ [w] }

/-- `m_enum_values.contains(s)` and `m_enum_values[s]`. -/
def registered (b : Builder) (s : QString) : Option Nat :=
  (b.m_enum_values.find? (fun p => p.1 == s)).map (fun p => p.2)

/-- Modelled from the spec: `MetaEnumValueList::find`, the first constant of
the enum with the given name. -/
def findInEnum (b : Builder) (enumId : Nat) (name : QString) : Option Nat :=
  (b.enum enumId).values.find? (fun i => (b.value i).name == name)

/-- `values().indexOf(ev)`: the position of the constant in its enum, `-1`
when it is not in it. -/
def indexOfValue (b : Builder) (enumId : Nat) (ev : Nat) : Int :=
  match (b.enum enumId).values.indexOf? ev with
  | some i => (i : Int)
  | none => -1

/-- Modelled from the spec: `MetaClassList::findClass`, the first class of
`m_meta_classes` with the given qualified C++ name or name. -/
def findClass (b : Builder) (name : QString) : Option Nat :=
  b.m_meta_classes.find? (fun c => (b.cls c).qualifiedCppName == name || (b.cls c).name == name)

/-- Modelled from the spec: `MetaClass::findEnum`, the enum of the class with
the given name. -/
def findEnum (b : Builder) (c : Nat) (name : QString) : Option Nat :=
  (b.cls c).enums.find? (fun e => (b.enum e).name == name)

/-- Modelled from the spec: `MetaClass::findEnumForValue`, the first enum of
the class that has a constant of the given name. -/
def findEnumForValue (b : Builder) (c : Nat) (name : QString) : Option Nat :=
  (b.cls c).enums.find? (fun e => (b.findInEnum e name).isSome)

/-- Modelled from the spec: `MetaClass::findEnumValue`, the constant of the
given name in the class's member table: the enum passed along is looked into
first, then the enums of the class in order. -/
def findEnumValue (b : Builder) (c : Nat) (name : QString) (meta_enum : Option Nat) :
    Option Nat :=
  match meta_enum.bind (fun e => b.findInEnum e name) with
  | some i => some i
  | none => (b.cls c).enums.findSome? (fun e => b.findInEnum e name)

end Builder

/-! ## Enum values: evaluating an expression -/

/-- The shape of `figureOutEnumValue` as its own callee: size, expression
text, old value, the global class, the enum, the builder state; the result is
`none` when the fuel has run out. The argument `meta_function` of the C++
function is only handed on and never read, and is left out. -/
abbrev EvalFn :=
  Nat → QString → QVariant → Option Nat → Option Nat → Builder → Option (QVariant × Builder)

/-- The table `names` of `findOperator` with the operator types in order. -/
def operatorNames : List (OperatorType × QString) :=
  [(OperatorType.Plus, qs "+"), (OperatorType.Minus, qs "-"),
   (OperatorType.ShiftLeft, qs "<<"), (OperatorType.Not, qs "~")]

/-- The loop of `MetaBuilder::findOperator` (metabuilder.cpp 2756-2796) over
the operator names still to try: the operator, the new text of `*s`, and the
state. `self` is `figureOutEnumValue`. -/
def findOperatorLoop (self : EvalFn) (size : Nat) (global meta_enum : Option Nat) :
    List (OperatorType × QString) → QString → Builder → Option (Operator × QString × Builder)
  | [], s, b => some (Operator.new size, s, b)
  | (ty, name) :: rest, s, b =>
    let str := s
    let splitPoint := indexOf str name
    if splitPoint > 0 then
      let right := mid str (splitPoint.toNat + name.length)
      match self size right (QVariant.str right) global meta_enum b with
      | none => none
      | some (value, b1) =>
        if value.isValid then
          some ({ type := ty, size := size, value := value }, trimmed (left str splitPoint), b1)
        else findOperatorLoop self size global meta_enum rest s b1
    else if splitPoint == 0 && name != qs "<<" then
      let number := trimmed (mid str name.length)
      -- don't apply unary minus to numbers. They are parsed as negative numbers.
      let ok : Bool :=
        if name != qs "-" then
          let number :=
            if endsWith number (qs "L") then left number ((number.length : Int) - 1) else number
          if number.length > 1 && startsWith number (qs "0") then (toSigned 64 number 0).isSome
          else (toSigned 64 number 10).isSome
        else false
      if !ok then
        some ({ type := ty, size := size, value := QVariant.invalid },
          trimmed (mid str name.length), b)
      else some (Operator.new size, s, b)
    else findOperatorLoop self size global meta_enum rest s b

/-- `MetaBuilder::findOperator` (metabuilder.cpp 2744-2797). -/
def findOperatorWith (self : EvalFn) (size : Nat) (s : QString) (global meta_enum : Option Nat)
    (b : Builder) : Option (Operator × QString × Builder) :=
  findOperatorLoop self size global meta_enum operatorNames s b

/-- The step "if target value has not yet been computed do it": evaluates the
initializer of the constant `ev` and, if the result is valid, stores it in the
constant and makes it the value `v` of the operand. The flag tells whether a
valid value was found. -/
def computeTarget (self : EvalFn) (size : Nat) (ev : Nat) (oldValue : QVariant)
    (global : Option Nat) (target : Nat) (v : QVariant) (b : Builder) :
    Option (QVariant × Bool × Builder) :=
  match self size (b.value ev).stringValue oldValue global (some target) b with
  | none => none
  | some (variant, b1) =>
    if variant.isValid then some (variant, true, b1.setValue ev variant)
    else some (v, false, b1)

/-- The value of the constant `ev` if it is valid, computed by
`computeTarget` otherwise. -/
def valueOrCompute (self : EvalFn) (size : Nat) (ev : Nat) (global : Option Nat)
    (target : Nat) (v : QVariant) (b : Builder) : Option (QVariant × Builder) :=
  if !(b.value ev).value.isValid then
    (computeTarget self size ev QVariant.invalid global target v b).map (fun r => (r.1, r.2.2))
  else some ((b.value ev).value, b)

/-- The loop over the global classes of `m_meta_classes` (metabuilder.cpp
3136-3148): the first class with an enum named `ownerTypeName` in which the
initializer of `ev` evaluates to a valid value decides. -/
def computeInGlobalClasses (self : EvalFn) (ev : Nat) (ownerTypeName : QString) :
    List Nat → Builder → Option (QVariant × Bool × Builder)
  | [], b => some (QVariant.invalid, false, b)
  | c :: rest, b =>
    if (b.cls c).typeEntry.isGlobal then
      match b.findEnum c ownerTypeName with
      | some target =>
        match computeTarget self (b.enum target).typeEntry.size ev
            (QVariant.int (b.indexOfValue target ev)) (some c) target QVariant.invalid b with
        | none => none
        | some (v, true, b1) => some (v, true, b1)
        | some (_, false, b1) => computeInGlobalClasses self ev ownerTypeName rest b1
      | none => computeInGlobalClasses self ev ownerTypeName rest b
    else computeInGlobalClasses self ev ownerTypeName rest b

/-- The branch of `figureOutEnumValue` for an operand that is registered in
`m_enum_values` (metabuilder.cpp 3112-3179). In the branch for a qualified
name the class found is held in a variable declared inside the block, so the
`ownerType` tested afterwards is null there. -/
def resolveRegistered (self : EvalFn) (useSet : Bool) (s : QString) (ev : Nat)
    (global : Option Nat) (b : Builder) : Option (QVariant × Builder) :=
  if !(b.value ev).value.isValid then
    let unknownOwner (ownerTypeName : QString) (b : Builder) : Builder :=
      if ownerTypeName.isEmpty then
        b.warn useSet (qs "Not able to find enum constant " ++ [apostrophe] ++ s ++ [apostrophe])
      else
        b.warn useSet (qs "Enum constant " ++ [apostrophe] ++ s ++ [apostrophe]
          ++ qs " belongs to unknown type " ++ ownerTypeName)
    if contains s (qs "::") then
      let ownerTypeName := left s (lastIndexOf s (qs "::"))
      let attempt : Option (QVariant × Bool × Builder) :=
        match b.findClass ownerTypeName with
        | some _ => some (QVariant.invalid, false, b)
        | none =>
          if contains ownerTypeName (qs "::") then some (QVariant.invalid, false, b)
          else
            match global with
            | some g =>
              match b.findEnum g ownerTypeName with
              | some target =>
                computeTarget self (b.enum target).typeEntry.size ev
                  (QVariant.int (b.indexOfValue target ev)) global target QVariant.invalid b
              | none => some (QVariant.invalid, false, b)
            | none => computeInGlobalClasses self ev ownerTypeName b.m_meta_classes b
      match attempt with
      | none => none
      | some (v, true, b1) => some (v, b1)
      | some (v, false, b1) => some (v, unknownOwner ownerTypeName b1)
    else
      match global with
      | some g =>
        match b.findEnumForValue g (b.value ev).cppName with
        | some target =>
          (computeTarget self (b.enum target).typeEntry.size ev
            (QVariant.int (b.indexOfValue target ev)) global target QVariant.invalid b).map
              (fun r => (r.1, r.2.2))
        | none => some (QVariant.invalid, b)
      | none => some (QVariant.invalid, unknownOwner [] b)
  else some ((b.value ev).value, b)

/-- The branch of `figureOutEnumValue` for an operand that is not registered
in `m_enum_values` (metabuilder.cpp 3181-3283): the value `v`, the constant
`ev` the chain of tests ended with, and the state. -/
def resolveUnregistered (self : EvalFn) (s : QString) (global meta_enum : Option Nat)
    (b : Builder) : Option (QVariant × Option Nat × Builder) :=
  let enumEntry : QString :=
    match meta_enum with
    | some me =>
      let te := (b.enum me).typeEntry
      if te.isScopedEnum && startsWith s (te.targetLangName ++ qs "::") then
        right s ((s.length : Int) - te.targetLangName.length - 2)
      else if te.isScopedEnum && startsWith s (te.qualifiedCppName ++ qs "::") then
        right s ((s.length : Int) - te.qualifiedCppName.length - 2)
      else s
    | none => s
  let withEv (ev : Nat) (r : Option (QVariant × Builder)) : Option (QVariant × Option Nat × Builder) :=
    r.map (fun p => (p.1, some ev, p.2))
  match meta_enum, meta_enum.bind (fun me => b.findInEnum me enumEntry) with
  | some me, some ev =>
    withEv ev (valueOrCompute self (b.enum me).typeEntry.size ev global me QVariant.invalid b)
  | _, _ =>
    match meta_enum,
        meta_enum.bind (fun me => b.findEnumValue (b.enum me).enclosingClass s (some me)) with
    | some me, some ev =>
      if !(b.value ev).value.isValid then
        match b.findEnumForValue (b.enum me).enclosingClass (b.value ev).cppName with
        | some target =>
          withEv ev ((computeTarget self (b.enum me).typeEntry.size ev QVariant.invalid global
            target QVariant.invalid b).map (fun r => (r.1, r.2.2)))
        | none => some (QVariant.invalid, some ev, b)
      else some ((b.value ev).value, some ev, b)
    | _, _ =>
      let globalHit (name : QString) : Option (Nat × Nat) :=
        match global with
        | some g =>
          if !contains name (qs "::") then
            match b.findEnumForValue g name with
            | some target => (b.findEnumValue g name (some target)).map (fun ev => (target, ev))
            | none => none
          else none
        | none => none
      match globalHit s with
      | some (target, ev) =>
        withEv ev (valueOrCompute self (b.enum target).typeEntry.size ev global target
          QVariant.invalid b)
      | none =>
        match (if s != enumEntry then globalHit enumEntry else none) with
        | some (target, ev) =>
          withEv ev (valueOrCompute self (b.enum target).typeEntry.size ev global target
            QVariant.invalid b)
        | none =>
          -- the class looked up for a qualified name is local to its block
          let ownerType : Option Nat := if contains s (qs "::") then none else global
          let enumValueName : QString :=
            if contains s (qs "::") then
              let ownerTypeName := left s (lastIndexOf s (qs "::"))
              let enumValueName := right s ((s.length : Int) - lastIndexOf s (qs "::") - 2)
              if (b.findClass ownerTypeName).isNone && contains ownerTypeName (qs "::") then
                right ownerTypeName
                    ((ownerTypeName.length : Int) - lastIndexOf ownerTypeName (qs "::") - 2)
                  ++ qs "::" ++ enumValueName
              else enumValueName
            else []
          let tryName (name : QString) (acc : QVariant × Option Nat × Builder) :
              Option (QVariant × Option Nat × Builder) :=
            match ownerType with
            | some o =>
              match acc.2.2.findEnumForValue o name with
              | some target =>
                match acc.2.2.findEnumValue o name (some target) with
                | some ev =>
                  withEv ev (valueOrCompute self (acc.2.2.enum target).typeEntry.size ev global
                    target acc.1 acc.2.2)
                | none => some (acc.1, none, acc.2.2)
              | none => some acc
            | none => some acc
          match tryName s (QVariant.invalid, none, b) with
          | none => none
          | some acc => tryName enumValueName acc

/-- What one operand contributes (metabuilder.cpp 3286-3329): its text for a
symbolic result, its number, and whether it has a number. -/
def operandOutput (size : Nat) (op : Operator) (s : QString) (v : QVariant) (ev : Option Nat)
    (b : Builder) : QString × QVariant × Bool :=
  if v.isString then (op.toString v.toString, QVariant.invalid, false)
  else if v.isValid then
    let number : QString :=
      if size = 8 then qs "((byte)" ++ number (v.toInt 8) ++ qs ")"
      else if size = 16 then qs "((short)" ++ number (v.toInt 16) ++ qs ")"
      else if size = 64 then number (v.toInt 64) ++ qs "L"
      else number (v.toInt 32)
    let result := op.calculate v
    if !result.isValid || result.isString then (op.toString number, QVariant.invalid, false)
    else (op.toString number, result, true)
  else
    match ev with
    | some e =>
      let te := (b.enum (b.value e).enumId).typeEntry
      if te.forceInteger then
        (op.toString (te.qualifiedTargetLangName ++ qs "." ++ (b.value e).name),
          QVariant.invalid, false)
      else
        (op.toString (te.qualifiedTargetLangName ++ qs "." ++ (b.value e).name ++ qs ".value()"),
          QVariant.invalid, false)
    | none => (op.toString s, QVariant.invalid, false)

/-- The text of an operand after the blocks that strip it (metabuilder.cpp
2869-2924): trimming, enclosing parentheses, a `static_cast`, and twice a
wrapping type call. -/
def prepareOperand (operand : QString) : QString :=
  let s := trimmed operand
  let s := stripParens s
  let s := stripStaticCast s
  let s := (stripTypeCall true s).getD s
  (stripTypeCall false s).getD s

/-- One round of the loop over the operands (metabuilder.cpp 2868-3330):
strips the operand, finds its operator, reads it as a literal or resolves it
as a symbol, and yields its contribution. -/
def evalOperand (self : EvalFn) (useSet : Bool) (size : Nat) (global meta_enum : Option Nat)
    (operand : QString) (b : Builder) : Option ((QString × QVariant × Bool) × Builder) :=
  match findOperatorWith self size (prepareOperand operand) global meta_enum b with
  | none => none
  | some (op, s, b) =>
    let lit := parseLiteral size s
    if lit.2 then some (operandOutput size op s lit.1 none b, b)
    else
      match b.registered s with
      | some ev =>
        match resolveRegistered self useSet s ev global b with
        | none => none
        | some (v, b1) => some (operandOutput size op s v (some ev) b1, b1)
      | none =>
        match resolveUnregistered self s global meta_enum b with
        | none => none
        | some (v, ev, b1) => some (operandOutput size op s v ev b1, b1)

/-- The loop over the operands: the contributions in order. -/
def evalOperands (self : EvalFn) (useSet : Bool) (size : Nat) (global meta_enum : Option Nat) :
    List QString → Builder → Option (List (QString × QVariant × Bool) × Builder)
  | [], b => some ([], b)
  | operand :: rest, b =>
    match evalOperand self useSet size global meta_enum operand b with
    | none => none
    | some (out, b1) =>
      match evalOperands self useSet size global meta_enum rest b1 with
      | none => none
      | some (outs, b2) => some (out :: outs, b2)

/-- The value of the whole expression from the contributions of its operands
(metabuilder.cpp 3332-3367): the bitwise OR of the numbers when every operand
has one, the texts joined with `|` otherwise. -/
def combineOperands (size : Nat) (outs : List (QString × QVariant × Bool)) : QVariant :=
  if outs.all (fun o => o.2.2) then
    match outs with
    | [] => QVariant.invalid
    | first :: rest =>
      rest.foldl
        (fun acc o => QVariant.int (bitOr (widthOf size) (acc.toInt (widthOf size))
          (o.2.1.toInt (widthOf size))))
        first.2.1
  else QVariant.str (join (qs "|") (outs.map (fun o => o.1)))

/-- The first part of `figureOutEnumValue` (metabuilder.cpp 2810-2862), on a
text that is not empty: whether a leading `-` or `~` was taken off (`negate`,
`_not`), and the operands the rest splits into at `|`, or `none` for the
early `return 0` of a wrapping type call around nothing. -/
def prepareExpression (origStringValue : QString) : Bool × Bool × Option (List QString) :=
  let stringValue := trimmed origStringValue
  let _not : Bool := startsWith stringValue (qs "~")
  let negate : Bool := !_not && startsWith stringValue (qs "-")
  let stringValue := if _not || negate then mid stringValue 1 else stringValue
  let stringValue := stripParens stringValue
  let stringValue := stripStaticCast stringValue
  let stripped := stripTypeCall true stringValue
  if stripped.isSome && (trimmed (stripped.getD [])).isEmpty then (negate, _not, none)
  else (negate, _not, some (split (stripped.getD stringValue) '|'))

/-- The body of `MetaBuilder::figureOutEnumValue` (metabuilder.cpp 2799-3408)
with its recursive calls going to `self`. `useSet` tells whether the caller
passed a set of warnings. -/
def figureOutEnumValueBody (self : EvalFn) (useSet : Bool) : EvalFn :=
  fun size origStringValue oldValuevalue global meta_enum b =>
    if origStringValue.isEmpty then some (oldValuevalue, b)
    else
      match prepareExpression origStringValue with
      | (_, _, none) => some (QVariant.int 0, b)
      | (negate, _not, some stringValues) =>
        match evalOperands self useSet size global meta_enum stringValues b with
        | none => none
        | some (outs, b1) =>
          let returnValue := combineOperands size outs
          let w := widthOf size
          if negate then some (QVariant.int (wrap w (- returnValue.toInt w)), b1)
          else if _not then some (QVariant.int (bitNot w (returnValue.toInt w)), b1)
          else some (returnValue, b1)

/-- `MetaBuilder::figureOutEnumValue`, with fuel for the recursion through
`findOperator` and through the initializers of the constants referred to. -/
def figureOutEnumValue (useSet : Bool) : Nat → EvalFn
  | 0 => fun _ _ _ _ _ _ => none
  | fuel + 1 => figureOutEnumValueBody (figureOutEnumValue useSet fuel) useSet

/-- `MetaBuilder::findOperator`. -/
def findOperator (useSet : Bool) (fuel : Nat) (size : Nat) (s : QString)
    (global meta_enum : Option Nat) (b : Builder) : Option (Operator × QString × Builder) :=
  findOperatorWith (figureOutEnumValue useSet fuel) size s global meta_enum b

/-! ## Enum values: the passes over enums and classes -/

/-- `value.setValue<qintW>(value.value<qintW>()+1)`, or the text `+1` appended
when the value is symbolic (metabuilder.cpp 3450-3466): the next implicit
value and whether the value was symbolic. -/
def nextImplicitValue (size : Nat) (value : QVariant) : QVariant × Bool :=
  match value with
  | QVariant.str t => (QVariant.str (t ++ qs "+1"), true)
  | v => (QVariant.int (wrap (widthOf size) (v.toInt (widthOf size) + 1)), false)

/-- The loop over the constants of one enum (metabuilder.cpp 3439-3467):
`value` is the running implicit value; the flag tells whether a symbolic
value was met. -/
def figureOutEnumConstants (fuel : Nat) (e : Nat) :
    List Nat → QVariant → Bool → Builder → Option (Bool × Builder)
  | [], _, hasString, b => some (hasString, b)
  | v :: rest, value, hasString, b =>
    let size := (b.enum e).typeEntry.size
    -- value could have been computed previously
    let step : Option (QVariant × Builder) :=
      if !(b.value v).value.isValid || (b.value v).value.isString then
        match figureOutEnumValue true fuel size (b.value v).stringValue value none (some e) b with
        | none => none
        | some (_value, b1) =>
          if _value.isValid then some (_value, b1.setValue v _value) else some (value, b1)
      else some ((b.value v).value, b)
    match step with
    | none => none
    | some (value, b1) =>
      let next := nextImplicitValue size value
      figureOutEnumConstants fuel e rest next.1 (hasString || next.2) b1

/-- The check for duplicate values of one enum (metabuilder.cpp 3472-3497):
`entries` maps a value to the constant that holds it. -/
def checkDuplicates (clsName : QString) (e : MetaEnum) :
    List MetaEnumValue → List (Int × MetaEnumValue) → List Warning →
      List (Int × MetaEnumValue) × List Warning
  | [], entries, ws => (entries, ws)
  | v :: rest, entries, ws =>
    let ete := e.typeEntry
    let vRejected := ete.isEnumValueRejected v.name
    if v.value.isValid && !v.value.isString then
      let key := v.value.toInt 64
      let current := (entries.find? (fun p => p.1 == key)).map (fun p => p.2)
      let duplicate : Bool :=
        match current with
        | some c => !ete.isEnumValueRejected c.name && !vRejected
        | none => false
      if duplicate then
        checkDuplicates clsName e rest entries
          (ws ++ [Warning.duplicateEnumValues clsName e.name v.name
            ((current.map (fun c => c.name)).getD []) key ete.enumValueRejections])
      else if !vRejected then
        checkDuplicates clsName e rest ((key, v) :: entries.filter (fun p => p.1 != key)) ws
      else checkDuplicates clsName e rest entries ws
    else checkDuplicates clsName e rest entries ws

/-- The loop that fills the redirection table of one enum (metabuilder.cpp
3501-3516). -/
def redirectRejected (clsName : QString) (entries : List (Int × MetaEnumValue)) :
    List MetaEnumValue → EnumTypeEntry → List Warning → EnumTypeEntry × List Warning
  | [], ete, ws => (ete, ws)
  | reject :: rest, ete, ws =>
    if !ete.isEnumValueRejected reject.name then redirectRejected clsName entries rest ete ws
    else if reject.value.isValid && !reject.value.isString then
      match (entries.find? (fun p => p.1 == reject.value.toInt 64)).map (fun p => p.2) with
      | none =>
        redirectRejected clsName entries rest ete
          (ws ++ [Warning.rejectedEnumHasNoAlternative clsName reject.name])
      | some used =>
        redirectRejected clsName entries rest
          { ete with enumValueRedirections := ete.enumValueRedirections ++ [(reject.name, used.name)] }
          ws
    else redirectRejected clsName entries rest ete ws

/-- The loop over the enums of one class (metabuilder.cpp 3423-3519). -/
def figureOutEnumsOfClass (fuel : Nat) (clsName : QString) :
    List Nat → Bool → Builder → Option (Bool × Builder)
  | [], hasString, b => some (hasString, b)
  | e :: rest, hasString, b =>
    match figureOutEnumConstants fuel e (b.enum e).values (QVariant.int 0) hasString b with
    | none => none
    | some (hasString, b1) =>
      let en := b1.enum e
      -- Check for duplicate values...
      let b2 : Builder :=
        if !en.typeEntry.forceInteger then
          let values := en.values.map b1.value
          let dup := checkDuplicates clsName en values [] []
          let red := redirectRejected clsName dup.1 values en.typeEntry dup.2
          { b1 with
            enums := b1.enums.modify (fun x => { x with typeEntry := red.1 }) e,
            reported := b1.reported ++ red.2 }
        else b1
      figureOutEnumsOfClass fuel clsName rest hasString b2

/-- `MetaBuilder::figureOutEnumValuesForClass` (metabuilder.cpp 3410-3526):
the sets `classes` and `repeatClasses` and the state after the call. -/
def figureOutEnumValuesForClass : Nat → Nat → List Nat → List Nat → Builder →
    Option (List Nat × List Nat × Builder)
  | 0, _, _, _, _ => none
  | fuel + 1, meta_class, classes, repeatClasses, b =>
    let afterBase : Option (List Nat × List Nat × Builder) :=
      match (b.cls meta_class).baseClass with
      | some base =>
        if !classes.contains base then
          figureOutEnumValuesForClass fuel base classes repeatClasses b
        else some (classes, repeatClasses, b)
      | none => some (classes, repeatClasses, b)
    match afterBase with
    | none => none
    | some (classes, repeatClasses, b) =>
      if classes.contains meta_class then some (classes, repeatClasses, b)
      else
        match figureOutEnumsOfClass fuel (b.cls meta_class).name (b.cls meta_class).enums false b with
        | none => none
        | some (hasStringEnumValues, b1) =>
          -- otherwise compute enum values again
          if !hasStringEnumValues then
            some (classes ++ [meta_class], repeatClasses, b1)
          else
            some (classes,
              if repeatClasses.contains meta_class then repeatClasses
              else repeatClasses ++ [meta_class], b1)

/-- A loop `for(MetaClass *c : list) figureOutEnumValuesForClass(c, ...)`. -/
def figureOutEnumValuesForClasses (fuel : Nat) :
    List Nat → List Nat → List Nat → Builder → Option (List Nat × List Nat × Builder)
  | [], classes, repeatClasses, b => some (classes, repeatClasses, b)
  | c :: rest, classes, repeatClasses, b =>
    match figureOutEnumValuesForClass fuel c classes repeatClasses b with
    | none => none
    | some (classes, repeatClasses, b1) =>
      figureOutEnumValuesForClasses fuel rest classes repeatClasses b1

/-- Equality of two `QSet`s held as lists without duplicates. -/
def sameSet (x y : List Nat) : Bool := x.all y.contains && y.all x.contains

/-- The retry loop `while(i<3)` of `figureOutEnumValues` (metabuilder.cpp
3541-3554); `rounds` bounds the number of rounds run and also serves as the
fuel of each round. The result holds the number of rounds started. -/
def retryEnumValues (fuel : Nat) : Nat → Nat → Nat → List Nat → List Nat → Builder →
    Option (Nat × Builder)
  | 0, _, _, _, _, _ => none
  | rounds + 1, done, i, classes, repeatClasses, b =>
    if i < 3 then
      let b := { b with warnings := [] }
      match figureOutEnumValuesForClasses fuel repeatClasses classes [] b with
      | none => none
      | some (classes, _repeatClasses, b1) =>
        if _repeatClasses.isEmpty || sameSet _repeatClasses repeatClasses then some (done + 1, b1)
        else
          retryEnumValues fuel rounds (done + 1)
            (if _repeatClasses.length == repeatClasses.length then i + 1 else i)
            classes _repeatClasses b1
    else some (done, b)

/-- `MetaBuilder::figureOutEnumValues` (metabuilder.cpp 3529-3570): the state
after the pass and the number of retry rounds it started. The sets of classes
are iterated in the order of insertion. -/
def figureOutEnumValues (fuel : Nat) (b : Builder) : Option (Nat × Builder) :=
  match figureOutEnumValuesForClasses fuel b.m_meta_classes [] [] { b with warnings := [] } with
  | none => none
  | some (classes, repeatClasses, b1) =>
    if !repeatClasses.isEmpty then
      match retryEnumValues fuel fuel 0 0 classes repeatClasses b1 with
      | none => none
      | some (rounds, b2) =>
        some (rounds, { b2 with reported := b2.reported ++ b2.warnings.map Warning.text })
    else some (0, b1)

/-! ### Sample enums -/

/-- A builder with one class `Foo` holding one enum `E` of the given size with
the given constants (name and initializer text), registered the way
`traverseEnum` registers the constants of an enum enclosed in a class: under
`Foo::name`. -/
def classEnumBuilder (size : Nat) (constants : List (QString × QString)) : Builder :=
  { classes := [{ name := qs "Foo", qualifiedCppName := qs "Foo", enums := [0] }],
    m_meta_classes := [0],
    enums := [{ name := qs "E", typeEntry := { size := size, qualifiedTargetLangName := qs "Foo.E" },
                values := List.range constants.length, enclosingClass := 0 }],
    enumValues := constants.map (fun c => { name := c.1, cppName := c.1, stringValue := c.2 }),
    m_enum_values := (List.range constants.length).zip constants |>.map
      (fun p => (qs "Foo::" ++ p.2.1, p.1)) }

/-- A builder with the global class holding one enum `E` with the given
constants, registered the way `traverseEnum` registers the constants of an
enum of the global namespace: under their bare names. -/
def globalEnumBuilder (size : Nat) (constants : List (QString × QString)) : Builder :=
  { classes := [{ name := qs "QtJambi_LibraryUtilities", typeEntry := { type := TypeEntryType.GlobalType },
                  enums := [0] }],
    m_meta_classes := [0],
    enums := [{ name := qs "E", typeEntry := { size := size, qualifiedTargetLangName := qs "E" },
                values := List.range constants.length, enclosingClass := 0 }],
    enumValues := constants.map (fun c => { name := c.1, cppName := c.1, stringValue := c.2 }),
    m_enum_values := (List.range constants.length).zip constants |>.map (fun p => (p.2.1, p.1)) }

/-- The enum `{A, B = A | 2, C = B << 1}` with the given size. -/
def flagsConstants : List (QString × QString) :=
  [(qs "A", qs ""), (qs "B", qs "A | 2"), (qs "C", qs "B << 1")]

/-- The enum `{E1 = E2+1, E2 = E3+1, E3 = 5}`, every constant referring to one
declared later. -/
def chainConstants : List (QString × QString) :=
  [(qs "E1", qs "E2+1"), (qs "E2", qs "E3+1"), (qs "E3", qs "5")]

/-- The enum `{A = B, B = A}`, whose constants refer to each other. -/
def mutualConstants : List (QString × QString) :=
  [(qs "A", qs "B"), (qs "B", qs "A")]

/-- The enum `{A = A}`, whose constant refers to itself. -/
def selfConstants : List (QString × QString) :=
  [(qs "A", qs "A")]

/-- The values of the enum constants of a builder, in the order of the arena. -/
def Builder.values (b : Builder) : List QVariant := b.enumValues.map (fun v => v.value)

/-- An operand text that the first part of `figureOutEnumValue` hands on as
it is: not empty, without surrounding white space, without `|` and `(`, and
not starting with `~`, `-` or `static_cast`. -/
structure PlainOperand (s : QString) : Prop where
  nonempty : s ≠ []
  headNoSpace : ∀ c ∈ s.head?, isSpace c = false
  lastNoSpace : ∀ c ∈ s.getLast?, isSpace c = false
  noBar : '|' ∉ s
  noParen : '(' ∉ s
  noTilde : startsWith s (qs "~") = false
  noMinus : startsWith s (qs "-") = false
  noCast : startsWith s (qs "static_cast") = false

/-! ## Type translation: the collaborators -/

/-- `QString::split(sep)` for a separator text: `cur` is the part being read,
in reverse, `n` bounds the rounds by the length of the text. -/
def splitByAux (sep : QString) : Nat → QString → QString → List QString
  | 0, _, cur => [cur.reverse]
  | n + 1, s, cur =>
    match s with
    | [] => [cur.reverse]
    | c :: cs =>
      if !sep.isEmpty && startsWith (c :: cs) sep then
        cur.reverse :: splitByAux sep n ((c :: cs).drop sep.length) []
      else splitByAux sep n cs (c :: cur)

/-- `QString::split("::")` and the like. -/
def splitBy (s sep : QString) : List QString := splitByAux sep (s.length + 1) s []

/-- `QStringList::removeDuplicates`: every text stays at its first place. -/
def removeDuplicates : List QString → List QString
  | [] => []
  | x :: xs => x :: (removeDuplicates xs).filter (fun y => y != x)

/-- Modelled from the spec: the type descriptor of the code model
(`TypeInfo`). -/
structure TypeInfo where
  qualifiedName : List QString := []
  isConstant : Bool := false
  isVolatile : Bool := false
  referenceType : ReferenceType := ReferenceType.NoReference
  indirections : List Bool := []
  isFunctionPointer : Bool := false
  arrayElements : List QString := []
  deriving DecidableEq, Repr

/-- Modelled from the spec: the result of the type parser
(`TypeParser::Info`). -/
structure ParserInfo where
  qualified_name : List QString
  is_constant : Bool
  is_volatile : Bool
  reference_type : ReferenceType
  indirections : List Bool
  arrays : List QString
  template_instantiations : List ParserInfo
  is_busted : Bool

/-- Modelled from the spec: a scope of the code model, as far as the sample
typedef resolution needs it: its qualified name and the typedefs declared in
it. -/
structure Scope where
  qualifiedName : List QString := []
  typeAliases : List (QString × TypeInfo) := []
  deriving DecidableEq, Repr

/-- Modelled from the spec: what `translateType` asks of code that is not among
the sources (the code model, the type parser and the type database) and of the
members of the builder it reads. `functionalByUsing` stands for the functional that the
current class knows under a name, by its map `functionalByUsing()` or by
`findFunctionalTypeByUsing` and `findFunctional`, and `findIterator` for
`MetaClass::findIterator`; both take the qualified name of the class. -/
structure TranslateEnv where
  typeInfoToString : TypeInfo → QString
  parse : QString → ParserInfo
  infoToString : ParserInfo → QString
  instantiationName : ParserInfo → QString
  resolveType : TypeInfo → Scope → TypeInfo
  domFindClass : QString → Option (List (QString × Bool))
  findType : QString → Option TypeEntry
  findFlagsType : QString → Option TypeEntry
  findContainerType : QString → Option TypeEntry
  findPointerContainerType : QString → Option TypeEntry
  findInitializerListType : QString → Option TypeEntry
  isClassRejected : QString → Bool
  isUniqueClassName : QString → Bool
  instantiation : TypeEntry → List QString → Option TypeEntry
  interfaceOrigin : TypeEntry → TypeEntry
  functionalByUsing : QString → QString → Option TypeEntry
  m_scopes : List Scope
  m_current_class : Option MetaClass
  m_current_function : Option MetaFunction
  metaFindClass : QString → Option MetaClass
  classesFindQualified : QString → Option MetaClass
  findIterator : QString → TypeEntry → Option MetaClass

/-- `currentScope()->qualifiedName()`: the innermost scope is the last of
`m_scopes`. -/
def TranslateEnv.currentScopeName (env : TranslateEnv) : List QString :=
  (env.m_scopes.getLast?.map (fun sc => sc.qualifiedName)).getD []

/-- The shape of `translateType` as its own callee: the descriptor and the
flags `resolveType`, `resolveScope` and `prependScope`; the result is the
returned pointer and `*ok`, or `none` when the fuel has run out. The context
text is used in messages only and is left out. -/
abbrev TranslateFn := TypeInfo → Bool → Bool → Bool → Option (Option MetaType × Bool)

/-! ## Type translation: the searches -/

/-- The loop that resolves typedefs (metabuilder.cpp 5920-5925): the scopes
are given from the innermost outward; the result of the first scope in which
resolution changes the qualified name is kept, otherwise that of the last
scope visited, otherwise `typei` as it was. -/
def resolveTypedefs (resolve : TypeInfo → Scope → TypeInfo) (type_info : TypeInfo) :
    List Scope → TypeInfo → TypeInfo
  | [], typei => typei
  | scope :: outer, _ =>
    let typei := resolve type_info scope
    if join (qs "::") typei.qualifiedName != join (qs "::") type_info.qualifiedName then typei
    else resolveTypedefs resolve type_info outer typei

/-- The public base-class names of a class, in order. -/
def publicBaseClassNames (c : MetaClass) : List QString :=
  (c.baseClassNames.filter (fun p => p.2)).map (fun p => p.1)

/-- One round of the loop that collects the super classes of the current class
(metabuilder.cpp 6199-6208): the public bases of the classes named in
`superClasses`, in order. -/
def nextSuperClasses (metaFindClass : QString → Option MetaClass) (superClasses : List QString) :
    List QString :=
  superClasses.flatMap (fun scl =>
    match metaFindClass scl with
    | some superClass => publicBaseClassNames superClass
    | none => [])

/-- The loop `while(!superClasses.isEmpty())` (metabuilder.cpp 6197-6210):
every round replaces `superClasses` by the public bases of its classes and
appends them to `contexts`. -/
def collectSuperClasses (metaFindClass : QString → Option MetaClass) :
    Nat → List QString → List QString → Option (List QString)
  | 0, _, _ => none
  | fuel + 1, superClasses, contexts =>
    if superClasses.isEmpty then some contexts
    else
      let _superClasses := nextSuperClasses metaFindClass superClasses
      collectSuperClasses metaFindClass fuel _superClasses (contexts ++ _superClasses)

/-- A descriptor is tried under a new qualified name unless that name was
tried before (metabuilder.cpp 6134-6142 and its siblings): the type found, if
any, and the names visited. -/
def tryQualifiedName (self : TranslateFn) (prependScope : Bool) (info : TypeInfo)
    (visitedNames : List QString) : Option (Option MetaType × List QString) :=
  let key := join (qs "::") info.qualifiedName
  if !visitedNames.contains key then
    match self info true false prependScope with
    | none => none
    | some (t, ok) =>
      if t.isSome && ok then some (t, key :: visitedNames) else some (none, key :: visitedNames)
  else some (none, visitedNames)

/-- The loop `while (parts.size() > 1)` (metabuilder.cpp 6148-6161,
6240-6253): the enclosing scopes of a base class, from the innermost outward,
are tried as prefixes unless `testName` starts with them already. -/
def tryEnclosingScopes (self : TranslateFn) (prependScope : Bool) (info : TypeInfo)
    (testName : QString) (suffix : List QString) :
    Nat → List QString → List QString → Option (Option MetaType × List QString)
  | 0, _, visitedNames => some (none, visitedNames)
  | n + 1, parts, visitedNames =>
    if parts.length > 1 then
      let parts := parts.dropLast
      if !startsWith testName (join (qs "::") parts) then
        match tryQualifiedName self prependScope { info with qualifiedName := parts ++ suffix }
            visitedNames with
        | none => none
        | some (some t, visitedNames) => some (some t, visitedNames)
        | some (none, visitedNames) =>
          tryEnclosingScopes self prependScope info testName suffix n parts visitedNames
      else tryEnclosingScopes self prependScope info testName suffix n parts visitedNames
    else some (none, visitedNames)

/-- The loop over the bases of the containing class (metabuilder.cpp
6125-6181, steps 9 to 11): the type found, if any, the names visited and the
base classes visited, latest first. -/
def searchContainingClassBases (self : TranslateFn) (env : TranslateEnv) (prependScope : Bool)
    (typei : TypeInfo) (name : QString) :
    Nat → List QString → List QString → List QString →
      Option (Option MetaType × List QString × List QString)
  | 0, _, _, _ => none
  | fuel + 1, contexts, visitedContexts, visitedNames =>
    match contexts with
    | [] => some (none, visitedNames, visitedContexts)
    | base :: others =>
      if !visitedContexts.contains base then
        let visitedContexts := base :: visitedContexts
        let first : Option (Option MetaType × List QString) :=
          if !startsWith name base then
            tryQualifiedName self prependScope
              { typei with qualifiedName := base :: splitBy name (qs "::") } visitedNames
          else some (none, visitedNames)
        match first with
        | none => none
        | some (some t, visitedNames) => some (some t, visitedNames, visitedContexts)
        | some (none, visitedNames) =>
          -- 10. Try if the type is in a base class
          let parts := splitBy base (qs "::")
          match tryEnclosingScopes self prependScope typei name (splitBy name (qs "::"))
              parts.length parts visitedNames with
          | none => none
          | some (some t, visitedNames) => some (some t, visitedNames, visitedContexts)
          | some (none, visitedNames) =>
            let contexts : List QString :=
              match env.domFindClass base with
              | some baseClasses => (base :: others) ++ baseClasses.map (fun p => p.1)
              | none =>
                match env.metaFindClass base with
                | some cls =>
                  match publicBaseClassNames cls with
                  | p :: _ => base :: p :: others
                  | [] => base :: others
                | none => base :: others
            searchContainingClassBases self env prependScope typei name fuel
              (removeDuplicates contexts).tail visitedContexts visitedNames
      else
        searchContainingClassBases self env prependScope typei name fuel others visitedContexts
          visitedNames

/-- The loop over the current class, its super classes and the current scope
(metabuilder.cpp 6219-6278, steps 12 to 14). `current_class` tells whether the
variable of that name is still set; `subclasses_done` whether the last resort
`Qt` was appended. -/
def searchCurrentClassBases (self : TranslateFn) (env : TranslateEnv) (prependScope : Bool)
    (typei : TypeInfo) (qualified_name : QString) (m_current_class : MetaClass) :
    Nat → List QString → Bool → Bool → List QString → List QString →
      Option (Option MetaType × List QString × List QString)
  | 0, _, _, _, _, _ => none
  | fuel + 1, contexts, current_class, subclasses_done, visitedContexts, visitedNames =>
    match contexts with
    | [] => some (none, visitedNames, visitedContexts)
    | base :: others =>
      let lastResort (contexts : List QString) (subclasses_done : Bool) : List QString × Bool :=
        -- 14. Last resort: special cased prefix of Qt namespace
        if contexts.isEmpty && !subclasses_done then ([qs "Qt"], true)
        else (contexts, subclasses_done)
      if !visitedContexts.contains base then
        let visitedContexts := base :: visitedContexts
        match tryQualifiedName self prependScope
            { typei with qualifiedName := base :: typei.qualifiedName } visitedNames with
        | none => none
        | some (some t, visitedNames) => some (some t, visitedNames, visitedContexts)
        | some (none, visitedNames) =>
          -- 13. Try if the type is in a base class
          let parts := splitBy base (qs "::")
          match tryEnclosingScopes self prependScope typei qualified_name typei.qualifiedName
              parts.length parts visitedNames with
          | none => none
          | some (some t, visitedNames) => some (some t, visitedNames, visitedContexts)
          | some (none, visitedNames) =>
            let step : List QString × Bool :=
              match env.domFindClass base with
              | some baseClasses => ((base :: others) ++ baseClasses.map (fun p => p.1), current_class)
              | none =>
                if current_class then
                  match publicBaseClassNames m_current_class with
                  | p :: _ => (base :: p :: others, (env.metaFindClass p).isSome)
                  | [] => (base :: others, current_class)
                else (base :: others, current_class)
            let next := lastResort (removeDuplicates step.1).tail subclasses_done
            searchCurrentClassBases self env prependScope typei qualified_name m_current_class
              fuel next.1 step.2 next.2 visitedContexts visitedNames
      else
        let next := lastResort others subclasses_done
        searchCurrentClassBases self env prependScope typei qualified_name m_current_class
          fuel next.1 current_class next.2 visitedContexts visitedNames

/-! ## Type translation: translateType -/

/-- The loop over the enclosing scopes for a class name that is not unique
(metabuilder.cpp 5876-5895): `rev` holds the scopes still to try, innermost
first, so the scopes of a round are `rev.reverse`. -/
def prependScopeLoop (self : TranslateFn) (type_info : TypeInfo) (resolveType resolveScope : Bool) :
    List QString → List QString → Option (Option MetaType × List QString)
  | [], visitedNames => some (none, visitedNames)
  | last :: revInit, visitedNames =>
    let scopes := (last :: revInit).reverse
    if !startsWith (join (qs "::") type_info.qualifiedName) (scopes.headD []) then
      let tmp_type_info := { type_info with qualifiedName := scopes ++ type_info.qualifiedName }
      let key := join (qs "::") tmp_type_info.qualifiedName
      if !visitedNames.contains key then
        match self tmp_type_info resolveType resolveScope false with
        | none => none
        | some (result, _ok) =>
          if result.isSome && _ok then some (result, key :: visitedNames)
          else prependScopeLoop self type_info resolveType resolveScope revInit (key :: visitedNames)
      else prependScopeLoop self type_info resolveType resolveScope revInit visitedNames
    else prependScopeLoop self type_info resolveType resolveScope revInit visitedNames

/-- The descriptor of a template argument (metabuilder.cpp 6312-6321 and its
siblings in the branches for containers and generic classes). -/
def argumentTypeInfo (env : TranslateEnv) (ta : ParserInfo) (indirections : List Bool) : TypeInfo :=
  { qualifiedName := splitBy (env.instantiationName ta) (qs "::"),
    isConstant := ta.is_constant, isVolatile := ta.is_volatile,
    referenceType := ta.reference_type, indirections := indirections,
    isFunctionPointer := false }

/-- The stand-in for a `void` template argument (metabuilder.cpp 6411-6418,
6460-6467): a primitive meta type on the entry of `void`, when the argument
translated to no type, its text is `void` and the database knows `void`. -/
def voidArgument (env : TranslateEnv) (info : TypeInfo) (targ_type : Option MetaType) :
    Option MetaType :=
  match targ_type with
  | some t => some t
  | none =>
    if env.typeInfoToString info == qs "void" then
      (env.findType (qs "void")).map
        (fun type => (MetaType.fresh type).setTypeUsagePattern TypeUsagePattern.PrimitivePattern)
    else none

/-- The loop over the template arguments of a container (metabuilder.cpp
6389-6425): `none` inside the result stands for `return nullptr` with
`*ok = false`. A null argument type is not added to the instantiations. -/
def translateContainerArguments (self : TranslateFn) (env : TranslateEnv) (isQmlList : Bool) :
    List ParserInfo → MetaType → Option (Option MetaType)
  | [], meta_type => some (some meta_type)
  | ta :: rest, meta_type =>
    let info := argumentTypeInfo env ta
      (if isQmlList then ta.indirections ++ [false] else ta.indirections)
    match self info true true true with
    | none => none
    | some (targ_type, ok) =>
      if !ok then some none
      else
        let targ_type := voidArgument env info targ_type
        let targ_type := if isQmlList then
            targ_type.map (fun t => t.setIndirections t.indirections.tail)
          else targ_type
        translateContainerArguments self env isQmlList rest
          (match targ_type with
           | some t => meta_type.setInstantiations (meta_type.instantiations ++ [t])
           | none => meta_type)

/-- The loop over the template arguments of a generic class (metabuilder.cpp
6429-6470). On a failing argument the class falls back to a `QVoid...` entry
or to the backup entry, without instantiations, and otherwise the function
returns `nullptr` leaving `*ok` as it is: the inner `none` of the result. -/
def translateGenericArguments (self : TranslateFn) (env : TranslateEnv) (qualified_name : QString)
    (backup_type : Option TypeEntry) :
    List ParserInfo → MetaType → Option (Option MetaType)
  | [], meta_type => some (some meta_type)
  | ta :: rest, meta_type =>
    let info := argumentTypeInfo env ta ta.indirections
    match self info true true true with
    | none => none
    | some (targ_type, _ok) =>
      if !_ok then
        let voidEntry : Option TypeEntry :=
          match env.m_current_class with
          | some c =>
            if startsWith c.qualifiedCppName (qs "QVoid") then
              env.findType (qs "QVoid" ++ mid qualified_name 1)
            else none
          | none => none
        match voidEntry, backup_type with
        | some _type, _ => some (some ((meta_type.setTypeEntry _type).setInstantiations []))
        | none, some backup => some (some ((meta_type.setTypeEntry backup).setInstantiations []))
        | none, none => some none
      else
        translateGenericArguments self env qualified_name backup_type rest
          (match voidArgument env info targ_type with
           | some t => meta_type.setInstantiations (meta_type.instantiations ++ [t])
           | none => meta_type)

/-- The loop that wraps the element type into array types, from the last
dimension to the first (metabuilder.cpp 5991-6009): `none` when a dimension is
no integer. -/
def wrapArrays : List QString → MetaType → Option MetaType
  | [], elementType => some elementType
  | s :: rest, elementType =>
    match toSigned 32 s 10 with
    | none => none
    | some elems =>
      let arrayType : MetaType :=
        { MetaType.fresh { type := TypeEntryType.ArrayType,
                           name := elementType.typeEntry.name,
                           ordinal := elementType.indirections.length } with
          arrayElementCount := elems, arrayElementType := some elementType }
      wrapArrays rest (decideUsagePattern arrayType)

/-- The last part of `translateType` (metabuilder.cpp 6299-6503): the meta
type on the entry found, and the translation of its template arguments by the
kind of the entry. The result is the pointer returned and `*ok`.  The list of
missing iterators and the list of used types, which only later passes read,
are not kept. -/
def finishTranslation (self : TranslateFn) (env : TranslateEnv) (type_info : TypeInfo)
    (typeInfo : ParserInfo) (template_instantiations : List ParserInfo) (indirections : List Bool)
    (qualified_name : QString) (backup_type : Option TypeEntry) (type : TypeEntry) :
    Option (Option MetaType × Bool) :=
  -- These are only implicit and should not appear in code
  let type := if type.isInterface then env.interfaceOrigin type else type
  let meta_type : MetaType :=
    decideUsagePattern
      { MetaType.fresh type with
        indirections := indirections, referenceType := typeInfo.reference_type,
        constant := typeInfo.is_constant, isVolatile := typeInfo.is_volatile,
        originalTypeDescription := env.typeInfoToString type_info }
  let addArgument (info : TypeInfo) : Option (Option MetaType × Bool) :=
    match self info true true true with
    | none => none
    | some (targ_type, ok) =>
      if !ok then some (none, false)
      else
        match targ_type with
        | some t => some (some (meta_type.setInstantiations (meta_type.instantiations ++ [t])), true)
        | none => some (some meta_type, true)
  if meta_type.typeEntry.isInitializerList then
    match template_instantiations with
    | ta :: _ => addArgument (argumentTypeInfo env ta ta.indirections)
    | [] => some (some meta_type, true)
  else if meta_type.typeEntry.isPointerContainer then
    let k := type.pointerContainerKind
    if k = PointerContainerKind.QPointer ∨ k = PointerContainerKind.QSharedPointer
        ∨ k = PointerContainerKind.QWeakPointer ∨ k = PointerContainerKind.QScopedPointer
        ∨ k = PointerContainerKind.unique_ptr ∨ k = PointerContainerKind.shared_ptr
        ∨ k = PointerContainerKind.weak_ptr then
      match template_instantiations with
      | ta :: _ => addArgument (argumentTypeInfo env ta ta.indirections.tail)
      | [] => some (some meta_type, true)
    else some (some meta_type, true)
  else if meta_type.typeEntry.isContainer then
    let container_type := type.containerKind
    if container_type = ContainerKind.StringListContainer
        ∨ container_type = ContainerKind.ByteArrayListContainer then
      let element : QString :=
        if container_type = ContainerKind.StringListContainer then qs "QString" else qs "QByteArray"
      match self { qualifiedName := [element] } true true true with
      | none => none
      | some (targ_type, ok) =>
        let meta_type :=
          match targ_type with
          | some t => meta_type.setInstantiations (meta_type.instantiations ++ [t])
          | none => meta_type
        some (some { meta_type with instantiationInCpp := false }, ok)
    else
      match translateContainerArguments self env
          (decide (container_type = ContainerKind.QQmlListPropertyContainer))
          template_instantiations meta_type with
      | none => none
      | some none => some (none, false)
      | some (some m) => some (some m, true)
  else if meta_type.typeEntry.isComplex && type.isGenericClass then
    match translateGenericArguments self env qualified_name backup_type template_instantiations
        meta_type with
    | none => none
    | some none => some (none, true)
    | some (some m) => some (some m, true)
  else if meta_type.typeEntry.isIterator then
    let byClass : Option MetaType :=
      match env.classesFindQualified meta_type.typeEntry.qualifiedCppName with
      | some iteratorClass =>
        match iteratorClass.typeAliasType with
        | some aliasType =>
          if aliasType.typeEntry.isAlias then some meta_type
          else
            let typeAliasType :=
              decideUsagePattern
                ((aliasType.setIndirections aliasType.indirections.tail).setReferenceType
                  ReferenceType.Reference)
            some { meta_type with
                   iteratorInstantiations := meta_type.iteratorInstantiations ++ [typeAliasType] }
        | none => none
      | none => none
    match byClass with
    | some m => some (some m, true)
    | none =>
      match env.m_current_class.bind
          (fun c => env.findIterator c.qualifiedCppName meta_type.typeEntry) with
      | some iteratorClass =>
        some (some { meta_type with
                     iteratorInstantiations := iteratorClass.templateBaseClassInstantiations }, true)
      | none => some (some meta_type, true)
  else some (some meta_type, true)

/-- The body of `MetaBuilder::translateType` (metabuilder.cpp 5857-6504) with
its recursive calls going to `self`; `fuel` also bounds the rounds of the
loops over base classes. -/
def translateTypeBody (self : TranslateFn) (fuel : Nat) (env : TranslateEnv) : TranslateFn :=
  fun type_info resolveType resolveScope prependScope =>
    let qname := join (qs "::") type_info.qualifiedName
    let part0 : Option (Option MetaType × List QString) :=
      if prependScope && !env.isUniqueClassName qname then
        let scopes : List QString :=
          match env.m_current_class with
          | some c => splitBy c.qualifiedCppName (qs "::")
          | none => env.currentScopeName
        prependScopeLoop self type_info resolveType resolveScope scopes.reverse []
      else some (none, [])
    match part0 with
    | none => none
    | some (some result, _) => some (some result, true)
    | some (none, visitedNames) =>
      -- 1. Test the type info without resolving typedefs
      match (if resolveType then self type_info false resolveScope prependScope
             else some (none, false)) with
      | none => none
      | some (t, ok) =>
        if resolveType && t.isSome && ok then some (t, true)
        else
          let typei : TypeInfo :=
            if !resolveType then type_info
            else resolveTypedefs env.resolveType type_info env.m_scopes.reverse {}
          if typei.isFunctionPointer then some (none, false)
          else
            let typeInfo := env.parse (env.typeInfoToString typei)
            if typeInfo.is_busted then
              match env.m_current_class.bind
                  (fun c => env.functionalByUsing c.qualifiedCppName
                    (join (qs "::") typei.qualifiedName)) with
              | some functional =>
                some (some (decideUsagePattern
                  { MetaType.fresh functional with
                    indirections := typei.indirections, referenceType := typei.referenceType,
                    constant := typei.isConstant,
                    originalTypeDescription := env.typeInfoToString type_info }), true)
              | none => some (none, false)
            else
              -- 2. Handle pointers specified as arrays with unspecified size
              let array_of_unspecified_size : Bool := typeInfo.arrays.all (fun a => a.isEmpty)
              if typeInfo.arrays.length > 0 && !array_of_unspecified_size then
                let newInfo : TypeInfo :=
                  { indirections := typeInfo.indirections, isConstant := typeInfo.is_constant,
                    isFunctionPointer := false, qualifiedName := typeInfo.qualified_name,
                    referenceType := typeInfo.reference_type, isVolatile := typeInfo.is_volatile }
                match self newInfo true resolveScope prependScope with
                | none => none
                | some (none, ok) => some (none, ok)
                | some (some elementType, ok) =>
                  -- a dimension that is no integer: `return nullptr`, `*ok` untouched
                  some (wrapArrays typeInfo.arrays.reverse elementType, ok)
              else
                let indirections : List Bool :=
                  typeInfo.indirections ++ List.replicate typeInfo.arrays.length false
                match typeInfo.qualified_name.getLast? with
                | none => some (none, false)
                | some name =>
                  let qualifier_list := typeInfo.qualified_name.dropLast
                  let qualified_name := join (qs "::") typeInfo.qualified_name
                  -- 3. Special case 'void' type
                  if name == qs "void" && indirections.length == 0 then some (none, true)
                  else
                    -- 4. Special case QFlags (include instantiation in name)
                    let qualified_name :=
                      if qualified_name == qs "QFlags" then env.infoToString typeInfo
                      else qualified_name
                    -- 5. Try to find the type
                    let found := env.findType qualified_name
                    let exchanged : Option TypeEntry × List ParserInfo :=
                      match found with
                      | some ty =>
                        if ty.isComplex && ty.isTemplate
                            && !typeInfo.template_instantiations.isEmpty then
                          match env.instantiation ty
                              (typeInfo.template_instantiations.map env.infoToString) with
                          | some instantiation =>
                            (some instantiation,
                              if !instantiation.isGenericClass then []
                              else typeInfo.template_instantiations)
                          | none => (found, typeInfo.template_instantiations)
                        else (found, typeInfo.template_instantiations)
                      | none => (none, typeInfo.template_instantiations)
                    let template_instantiations := exchanged.2
                    let voided : Option TypeEntry × Option TypeEntry × QString :=
                      match exchanged.1 with
                      | some ty =>
                        if (ty.isObject || ty.isValue)
                            && (match env.m_current_class with
                                | some c => c.typeEntry != ty
                                | none => true)
                            && (ty.codeGeneration == CodeGeneration.GenerateNothing
                                || ty.codeGeneration == CodeGeneration.GenerateForSubclass)
                            && template_instantiations.length == 1
                            && (template_instantiations.head?.map
                                  (fun i => join (qs "::") i.qualified_name)) == some (qs "void")
                            && startsWith qualified_name (qs "Q")
                            && !startsWith qualified_name (qs "Qt") then
                          let qn := qs "QVoid" ++ mid qualified_name 1
                          match env.findType qn with
                          | some _type => (some _type, some ty, qn)
                          | none => (some ty, none, qn)
                        else (some ty, none, qualified_name)
                      | none => (none, none, qualified_name)
                    let backup_type := voided.2.1
                    let qualified_name := voided.2.2
                    -- 6. to 8.1: flags, container, pointer container, initializer list
                    let type : Option TypeEntry :=
                      voided.1 |>.orElse (fun _ => env.findFlagsType qualified_name)
                        |>.orElse (fun _ => env.findContainerType name)
                        |>.orElse (fun _ => env.findPointerContainerType name)
                        |>.orElse (fun _ => env.findInitializerListType name)
                    -- 8.2. a template parameter of the current function or class
                    let type : Option TypeEntry :=
                      type.orElse (fun _ =>
                        match env.m_current_function with
                        | some f =>
                          ((f.templateParameters.filter
                            (fun t => t.type.typeEntry.name == qualified_name)).getLast?).map
                              (fun t => t.type.typeEntry)
                        | none => none)
                    let type : Option TypeEntry :=
                      type.orElse (fun _ =>
                        match env.m_current_class with
                        | some c => c.templateArguments.find? (fun te => te.name == qualified_name)
                        | none => none)
                    let containing_class := env.domFindClass (join (qs "::") qualifier_list)
                    let isClassRejected := env.isClassRejected qualified_name
                    -- 9. prefix with all base classes of the containing class
                    let step9 : Option (Option MetaType × List QString) :=
                      match containing_class with
                      | some baseClasses =>
                        if type.isNone && !isClassRejected && resolveScope then
                          (searchContainingClassBases self env prependScope typei name fuel
                            (removeDuplicates (baseClasses.map (fun p => p.1))) []
                            visitedNames).map (fun r => (r.1, r.2.1))
                        else some (none, visitedNames)
                      | none => some (none, visitedNames)
                    match step9 with
                    | none => none
                    | some (some t, _) => some (some t, true)
                    | some (none, visitedNames) =>
                      -- 12. prefix with the current context and all its base classes
                      let step12 : Option (Option MetaType) :=
                        match env.m_current_class with
                        | some current =>
                          if type.isNone && !isClassRejected && resolveScope then
                            let superClasses := publicBaseClassNames current
                            match collectSuperClasses env.metaFindClass fuel superClasses
                                (current.qualifiedCppName :: superClasses) with
                            | none => none
                            | some contexts =>
                              (searchCurrentClassBases self env prependScope typei qualified_name
                                current fuel
                                (removeDuplicates
                                  (contexts ++ [join (qs "::") env.currentScopeName]))
                                true false [] visitedNames).map (fun r => r.1)
                          else some none
                        | none => some none
                      match step12 with
                      | none => none
                      | some (some t) => some (some t, true)
                      | some none =>
                        -- if error happened in type resolving
                        match type with
                        | none => some (none, false)
                        | some ty =>
                          finishTranslation self env type_info typeInfo template_instantiations
                            indirections qualified_name backup_type ty

/-- `MetaBuilder::translateType`, with fuel for its recursion and its loops. -/
def translateType (env : TranslateEnv) : Nat → TranslateFn
  | 0 => fun _ _ _ _ => none
  | fuel + 1 => translateTypeBody (translateType env fuel) fuel env

/-! ### Sample environments for type translation -/

/-- A plain text for a descriptor: qualified name, one `*` per indirection,
`&` or `&&`, and the array dimensions in brackets. -/
def sampleTypeInfoToString (t : TypeInfo) : QString :=
  (if t.isConstant then qs "const " else [])
    ++ join (qs "::") t.qualifiedName
    ++ (t.indirections.flatMap (fun _ => qs "*"))
    ++ (match t.referenceType with
        | ReferenceType.NoReference => []
        | ReferenceType.Reference => qs "&"
        | ReferenceType.RReference => qs "&&")
    ++ (t.arrayElements.flatMap (fun d => qs "[" ++ d ++ qs "]"))

/-- A parser result with only a qualified name. -/
def plainInfo (name : List QString) : ParserInfo :=
  { qualified_name := name, is_constant := false, is_volatile := false,
    reference_type := ReferenceType.NoReference, indirections := [], arrays := [],
    template_instantiations := [], is_busted := false }

/-- A parser for the texts of the samples: `int[N]`, `Box<Unknown>`, and plain
names. -/
def sampleParse (s : QString) : ParserInfo :=
  if s == qs "int[N]" then { plainInfo [qs "int"] with arrays := [qs "N"] }
  else if s == qs "Box<Unknown>" then
    { plainInfo [qs "Box"] with template_instantiations := [plainInfo [qs "Unknown"]] }
  else if s.isEmpty then { plainInfo [] with is_busted := true }
  else plainInfo (splitBy s (qs "::"))

/-- Typedef resolution of the samples: a descriptor whose name is a typedef
of the scope becomes the aliased descriptor. -/
def sampleResolveType (t : TypeInfo) (scope : Scope) : TypeInfo :=
  match scope.typeAliases.find? (fun p => p.1 == join (qs "::") t.qualifiedName) with
  | some p => p.2
  | none => t

/-- The entry of the primitive type `int`. -/
def sampleInt : TypeEntry :=
  { type := TypeEntryType.PrimitiveType, name := qs "int", qualifiedCppName := qs "int" }

/-- The entry of a generic class `Box`. -/
def sampleBox : TypeEntry :=
  { type := TypeEntryType.ObjectType, name := qs "Box", qualifiedCppName := qs "Box",
    isGenericClass := true }

/-- An environment with the types `int` and `Box` in the database, no current
class and only the global scope. -/
def sampleEnv : TranslateEnv :=
  { typeInfoToString := sampleTypeInfoToString,
    parse := sampleParse,
    infoToString := fun i => join (qs "::") i.qualified_name,
    instantiationName := fun i => join (qs "::") i.qualified_name,
    resolveType := sampleResolveType,
    domFindClass := fun _ => none,
    findType := fun n =>
      if n == qs "int" then some sampleInt else if n == qs "Box" then some sampleBox else none,
    findFlagsType := fun _ => none,
    findContainerType := fun _ => none,
    findPointerContainerType := fun _ => none,
    findInitializerListType := fun _ => none,
    isClassRejected := fun _ => false,
    isUniqueClassName := fun _ => true,
    instantiation := fun _ _ => none,
    interfaceOrigin := fun t => t,
    functionalByUsing := fun _ _ => none,
    m_scopes := [{}],
    m_current_class := none,
    m_current_function := none,
    metaFindClass := fun _ => none,
    classesFindQualified := fun _ => none,
    findIterator := fun _ _ => none }

/-- The descriptor of `int[N]`: an array whose dimension is no integer
literal. -/
def sampleIntArrayN : TypeInfo := { qualifiedName := [qs "int"], arrayElements := [qs "N"] }

/-- The descriptor of `Box<Unknown>`: a generic class instantiated with a type
the database does not know. -/
def sampleBoxOfUnknown : TypeInfo := { qualifiedName := [qs "Box<Unknown>"] }

/-- The class `A` with the public base class name `B`. -/
def sampleClassA : MetaClass :=
  { name := qs "A", qualifiedCppName := qs "A", baseClassNames := [(qs "B", true)] }

/-- The class `B` with the public base class name `A`. -/
def sampleClassB : MetaClass :=
  { name := qs "B", qualifiedCppName := qs "B", baseClassNames := [(qs "A", true)] }

/-- The lookup of the classes `A` and `B`, whose base-class names refer to
each other. -/
def sampleCyclicClasses (n : QString) : Option MetaClass :=
  if n == qs "A" then some sampleClassA else if n == qs "B" then some sampleClassB else none

/-- The sample environment inside the class `A` of the cyclic pair. -/
def sampleCyclicEnv : TranslateEnv :=
  { sampleEnv with m_current_class := some sampleClassA, metaFindClass := sampleCyclicClasses }

/-- The sample environment inside the class `A` whose base class `B` has no
base of its own. -/
def sampleAcyclicEnv : TranslateEnv :=
  { sampleEnv with
    m_current_class := some sampleClassA,
    metaFindClass := fun n =>
      if n == qs "B" then some { name := qs "B", qualifiedCppName := qs "B" } else none }

/-- The descriptor of a type `Missing` that no lookup finds. -/
def sampleMissing : TypeInfo := { qualifiedName := [qs "Missing"] }

/-- The global scope with the typedef `T = int`. -/
def sampleGlobalScope : Scope :=
  { qualifiedName := [], typeAliases := [(qs "T", { qualifiedName := [qs "int"] })] }

/-- The scope of a namespace `N` that declares the typedef `T = double`
anew. -/
def sampleInnerScope : Scope :=
  { qualifiedName := [qs "N"], typeAliases := [(qs "T", { qualifiedName := [qs "double"] })] }

/-! ## The functions of a class: the code model and the type system -/

/-- Modelled from the spec: `CodeModel::AccessPolicy`. -/
inductive AccessPolicy
  | Public | Protected | Private
  deriving DecidableEq, Repr

/-- Modelled from the spec: `CodeModel::FunctionType`. -/
inductive CodeFunctionType
  | Normal | Signal | PrivateSignal | Slot
  deriving DecidableEq, Repr

/-- Modelled from the spec: an argument of a function of the code model
(`ArgumentModelItem`). -/
structure ArgumentModelItem where
  name : QString := []
  type : TypeInfo := {}
  defaultValue : Bool := false
  defaultValueExpression : QString := []
  deriving DecidableEq, Repr

/-- Modelled from the spec: a template parameter of a function of the code
model (`TemplateParameterModelItem`); `ownerClass` tells whether the parameter
belongs to a class. -/
structure TemplateParameterModelItem where
  name : QString
  ownerClass : Bool := false
  defaultValue : QString := []
  deriving DecidableEq, Repr

/-- Modelled from the spec: a function of the code model
(`FunctionModelItem`), with the attributes `traverseFunction` and
`traverseFunctions` read. -/
structure FunctionModelItem where
  name : QString
  type : TypeInfo := {}
  arguments : List ArgumentModelItem := []
  templateParameters : List TemplateParameterModelItem := []
  referenceType : ReferenceType := ReferenceType.NoReference
  accessPolicy : AccessPolicy := AccessPolicy.Public
  functionType : CodeFunctionType := CodeFunctionType.Normal
  isConstant : Bool := false
  isFriend : Bool := false
  hasBody : Bool := false
  isAbstract : Bool := false
  isVirtual : Bool := false
  isDeclFinal : Bool := false
  isDeprecated : Bool := false
  deprecatedComment : QString := []
  isInvokable : Bool := false
  isStatic : Bool := false
  isVariadics : Bool := false
  isExplicit : Bool := false
  isInline : Bool := false
  isDeleted : Bool := false
  fileName : QString := []
  deriving DecidableEq, Repr

/-- Modelled from the spec: what `traverseFunction`, `traverseFunctions` and
`traverseField` ask of code that is not among the sources: the type database
(`isFunctionRejected`, `isFieldRejected`, `isPixmapType`,
the entries of `QVariant`, `QString` and `QChar`), `QMetaObject`
(`normalizedSignature`), the meta functions (`minimalSignature`, `signature`,
`isCopyConstructor`), the current scope (`findTypeAlias`, with the type of the
alias found), the type entries (`targetLangName`, `qualifiedTargetLangName`),
the list `m_templates` (`templatesFindClass`), `QFileInfo` (`fileNameOf`, and
`includePathFor`: the path of a file below the first include directory it lies
in). `translateDefaultValue` stands for the member function of that name
(metabuilder.cpp 6736-6928), which reads of the implementing class its name
and the function modifications of its type entry; its body is not part of this
development. -/
structure TraverseEnv where
  translate : TranslateEnv
  isFunctionRejected : QString → QString → Bool
  isFieldRejected : QString → QString → Bool
  isPixmapType : TypeEntry → Bool
  qvariantType : Option TypeEntry
  qstringType : Option TypeEntry
  qcharType : Option TypeEntry
  normalizedSignature : QString → QString
  minimalSignature : MetaFunction → QString
  signature : MetaFunction → QString
  isCopyConstructor : MetaFunction → Bool
  findTypeAlias : QString → Option TypeInfo
  targetLangName : TypeEntry → QString
  qualifiedTargetLangName : TypeEntry → QString
  templatesFindClass : QString → Option MetaClass
  fileNameOf : QString → QString
  includePathFor : QString → Option QString
  translateDefaultValue :
    QString → MetaType → MetaFunction → QString → List FunctionModification → Nat → QString

/-- The environment of `translateType` while `m_current_class` is the class
`c` and `m_current_function` is `f`. -/
def TranslateEnv.inFunction (env : TranslateEnv) (c : MetaClass) (f : Option MetaFunction) :
    TranslateEnv :=
  { env with m_current_class := some c, m_current_function := f }

/-- `*meta_function += attribute`: the flag is set. -/
def addAttribute (attributes : List MetaAttribute) (a : MetaAttribute) : List MetaAttribute :=
  if attributes.contains a then attributes else attributes ++ [a]

namespace MetaFunction

def isConstructor (f : MetaFunction) : Bool := f.functionType == FunctionType.ConstructorFunction

def isDestructor (f : MetaFunction) : Bool := f.functionType == FunctionType.DestructorFunction

/-- Modelled from the spec: `MetaFunction::isPrivate`. -/
def isPrivate (f : MetaFunction) : Bool := f.attributes.contains MetaAttribute.Private

/-- Modelled from the spec: `MetaFunction::isPublic`. -/
def isPublic (f : MetaFunction) : Bool := f.attributes.contains MetaAttribute.Public

/-- Modelled from the spec: `MetaFunction::isAbstract`. -/
def isAbstract (f : MetaFunction) : Bool := f.attributes.contains MetaAttribute.Abstract

/-- Modelled from the spec: `MetaFunction::wasPrivate`, the flag `Private`
among the original attributes. -/
def wasPrivate (f : MetaFunction) : Bool := f.originalAttributes.contains MetaAttribute.Private

/-- Modelled from the spec: `MetaFunction::hasRReferences`, some argument is
an rvalue reference. -/
def hasRReferences (f : MetaFunction) : Bool :=
  f.arguments.any (fun a => a.type.referenceType == ReferenceType.RReference)

/-- `*meta_function += attribute`. -/
def add (f : MetaFunction) (a : MetaAttribute) : MetaFunction :=
  { f with attributes := addAttribute f.attributes a }

end MetaFunction

namespace MetaClass

/-- Modelled from the spec: `ComplexTypeEntry::functionModifications(signature)`
on the type entry of the class, the modifications given for that signature. -/
def modificationsFor (c : MetaClass) (signature : QString) : List FunctionModification :=
  c.functionModifications.filter (fun m => m.signature == signature)

/-- `typeEntry()->addFunctionModification(mod)`. -/
def addFunctionModification (c : MetaClass) (mod : FunctionModification) : MetaClass :=
  { c with functionModifications := c.functionModifications ++ [mod] }

/-- Modelled from the spec: `MetaClass::queryFunctionsByName`, the functions
of the class's function list with that name. -/
def queryFunctionsByName (c : MetaClass) (name : QString) : List MetaFunction :=
  c.functions.filter (fun f => f.name == name)

/-- Modelled from the spec: `MetaClass::queryFunctions(Constructors)`, the
constructors in the class's function list. -/
def queryConstructors (c : MetaClass) : List MetaFunction :=
  c.functions.filter (fun f => f.isConstructor)

/-- Modelled from the spec: `MetaClass::propertySpecForRead` and its siblings
for the other accessors: the first property whose accessor has that name. -/
def propertySpecFor (c : MetaClass) (accessor : QPropertySpec → QString) (name : QString) :
    Option QPropertySpec :=
  c.propertySpecs.find? (fun p => accessor p == name)

/-- `meta_class->addFunction(meta_function)`. -/
def addFunction (c : MetaClass) (f : MetaFunction) : MetaClass :=
  { c with functions := c.functions ++ [f] }

/-- `meta_class->addInvalidFunction(meta_function)`. -/
def addInvalidFunction (c : MetaClass) (f : MetaFunction) : MetaClass :=
  { c with invalidFunctions := c.invalidFunctions ++ [f] }

/-- The class with another list of invalid functions. -/
def setInvalidFunctions (c : MetaClass) (l : List MetaFunction) : MetaClass :=
  { c with invalidFunctions := l }

end MetaClass

/-- Modelled from the spec: `MetaFunction::modifications(cls)`, the function
modifications that the type entry of the class holds for the minimal
signature of the function. -/
def modifications (env : TraverseEnv) (f : MetaFunction) (cls : MetaClass) :
    List FunctionModification :=
  cls.modificationsFor (env.minimalSignature f)

/-! ## Operators -/

/-- `strip_template_args` (metabuilder.cpp 48-51). -/
def strip_template_args (name : QString) : QString :=
  let pos := indexOfChar name '<'
  if pos < 0 then name else left name pos

/-- `MetaBuilder::RenamedOperator`. -/
structure RenamedOperator where
  newName : QString := []
  castType : Option TypeEntry := none
  skip : Bool := false
  deriving DecidableEq, Repr

/-- The table `operator_names` of `rename_operator` (metabuilder.cpp 61-117). -/
def operator_names : List (QString × QString) :=
  [(qs "+", qs "add"), (qs "-", qs "subtract"), (qs "*", qs "multiply"), (qs "/", qs "divide"),
   (qs "%", qs "modulo"), (qs "&", qs "and"), (qs "|", qs "or"), (qs "^", qs "xor"),
   (qs "~", qs "negate"), (qs "<<", qs "shift_left"), (qs ">>", qs "shift_right"),
   -- assigments
   (qs "=", qs "assign"), (qs "+=", qs "add_assign"), (qs "-=", qs "subtract_assign"),
   (qs "*=", qs "multiply_assign"), (qs "/=", qs "divide_assign"),
   (qs "%=", qs "modulo_assign"), (qs "&=", qs "and_assign"), (qs "|=", qs "or_assign"),
   (qs "^=", qs "xor_assign"), (qs "<<=", qs "shift_left_assign"),
   (qs ">>=", qs "shift_right_assign"),
   -- Logical
   (qs "&&", qs "logical_and"), (qs "||", qs "logical_or"), (qs "!", qs "not"),
   -- incr/decr
   (qs "++", qs "increment"), (qs "--", qs "decrement"),
   -- compare
   (qs "<", qs "less"), (qs ">", qs "greater"), (qs "<=", qs "less_or_equal"),
   (qs "<=>", qs "compare"), (qs ">=", qs "greater_or_equal"),
   (qs "!=", qs "not_equal"), (qs "==", qs "equal"),
   -- other
   (qs "[]", qs "subscript"), (qs "->", qs "pointer"), (qs "->.", qs "pointer_to_deref"),
   (qs ".", qs "deref"), (qs ".*", qs "deref_indirection"), (qs ",", qs "comma"),
   (qs "()", qs "call"), (qs "new", qs "cunstruct"), (qs "delete", qs "destruct")]

/-- `MetaBuilder::rename_operator` (metabuilder.cpp 59-142), with fuel for the
recursion through the type aliases of the current scope. -/
def rename_operator (env : TraverseEnv) : Nat → QString → Option RenamedOperator
  | 0, _ => none
  | fuel + 1, oper =>
    let op := trimmed oper
    if startsWith op (qs "typename") then some { skip := true }
    else
      match operator_names.find? (fun p => p.1 == op) with
      | none =>
        let typeInfo := env.translate.parse op
        let cast_to_name := join (qs "::") typeInfo.qualified_name
        let te := env.translate.findType cast_to_name
        if (match te with
            | some t => t.codeGeneration == CodeGeneration.GenerateNothing
            | none => false) || env.translate.isClassRejected cast_to_name then
          some { castType := te, skip := true }
        else if te.isSome then some { castType := te, skip := false }
        else
          match env.findTypeAlias cast_to_name with
          | some aliased =>
            if join (qs "::") aliased.qualifiedName != cast_to_name then
              rename_operator env fuel (join (qs "::") aliased.qualifiedName)
            else some {}
          | none => some {}
      | some p => some { newName := qs "operator_" ++ p.2 }

/-- The operators that return the object they are called on (metabuilder.cpp
5737-5746, 5779-5788). -/
def isAssignmentOperator (originalName : QString) : Bool :=
  originalName == qs "operator=" || originalName == qs "operator+="
    || originalName == qs "operator-=" || originalName == qs "operator*="
    || originalName == qs "operator/=" || originalName == qs "operator^="
    || originalName == qs "operator&=" || originalName == qs "operator|="
    || originalName == qs "operator<<=" || originalName == qs "operator>>="

/-! ## traverseFunction -/

/-- The place at which `traverseFunction` returned: `skipped` for
`return nullptr`, `unmatchedReturnType` and `unmatchedArgumentType` for the two
returns after `setInvalid(true)` (metabuilder.cpp 5534-5535, 5634-5635), where
nothing of the class has been written, and `function` for the return at the
end. `skipped` and `function` carry the current class as the call leaves it;
the other two carry the meta function as it is before `setInvalid(true)`. -/
inductive Traversed
  | skipped (cls : MetaClass)
  | unmatchedReturnType (f : MetaFunction)
  | unmatchedArgumentType (f : MetaFunction)
  | function (f : MetaFunction) (cls : MetaClass)

namespace Traversed

/-- The function returned, if any, and the current class after the call that
found it as `c`. -/
def result (c : MetaClass) : Traversed → Option MetaFunction × MetaClass
  | skipped cls => (none, cls)
  | unmatchedReturnType f => (some { f with invalid := true }, c)
  | unmatchedArgumentType f => (some { f with invalid := true }, c)
  | function f cls => (some f, cls)

/-- The call returned because the return type or an argument type did not
translate. -/
def isUnmatched : Traversed → Bool
  | unmatchedReturnType _ => true
  | unmatchedArgumentType _ => true
  | _ => false

/-- The outcome with the list of invalid functions of its class replaced. -/
def setInvalidFunctions (l : List MetaFunction) : Traversed → Traversed
  | skipped cls => skipped (cls.setInvalidFunctions l)
  | function f cls => function f (cls.setInvalidFunctions l)
  | t => t

end Traversed

/-- `MetaBuilder::argumentToClass` (metabuilder.cpp 234-254): the class found
for the type of an argument; `none` outside when the fuel has run out. -/
def argumentToClass (env : TraverseEnv) (fuel : Nat) (c : MetaClass)
    (current_function : Option MetaFunction) (argument : ArgumentModelItem) :
    Option (Option MetaClass) :=
  match translateType (env.translate.inFunction c current_function) fuel argument.type
      true true true with
  | none => none
  | some (type, ok) =>
    match (if ok then type else none) with
    | some t =>
      if t.typeEntry.isComplex then
        let entry := t.typeEntry
        some ((env.translate.metaFindClass entry.qualifiedCppName)
          |>.orElse (fun _ => env.translate.metaFindClass entry.name)
          |>.orElse (fun _ => env.templatesFindClass entry.qualifiedCppName)
          |>.orElse (fun _ => env.templatesFindClass entry.name))
      else
        let typeInfo := env.translate.parse (env.translate.typeInfoToString argument.type)
        if !typeInfo.template_instantiations.isEmpty then
          some (env.templatesFindClass (join (qs "::") typeInfo.qualified_name))
        else some none
    | none =>
      let typeInfo := env.translate.parse (env.translate.typeInfoToString argument.type)
      if !typeInfo.template_instantiations.isEmpty then
        some (env.templatesFindClass (join (qs "::") typeInfo.qualified_name))
      else some none

/-- A class found by a lookup is the current class: the pointers are compared
in the source, the qualified names here. -/
def isCurrentClass (c : MetaClass) (found : Option MetaClass) : Bool :=
  match found with
  | some cls => cls.qualifiedCppName == c.qualifiedCppName
  | none => false

/-- The test `arguments.size() == 1 || hasDefaultArgs` of the hash functions
(metabuilder.cpp 5401-5406, 263-273): `workaround` tells whether an argument of
type `QHashDummyValue` counts as one with a default, as it does in
`registerHashFunction`. The result is the test and `isWorkaround`. -/
def hashArguments (arguments : List ArgumentModelItem) (workaround : Bool) : Bool × Bool :=
  let looped : Bool × Bool :=
    arguments.tail.foldl
      (fun (acc : Bool × Bool) a =>
        if workaround && join (qs "::") a.type.qualifiedName == qs "QHashDummyValue" then
          (true, true)
        else (acc.1, acc.2 && a.defaultValue))
      (false, decide (arguments.length > 0))
  (arguments.length == 1 || looped.2, looped.1)

/-- `MetaBuilder::registerHashFunction` (metabuilder.cpp 259-287), as far as
it writes to the current class; what it writes to another class is not
kept. -/
def registerHashFunction (env : TraverseEnv) (fuel : Nat) (c : MetaClass)
    (function_item : FunctionModelItem) : Option MetaClass :=
  if function_item.isDeleted then some c
  else
    let test := hashArguments function_item.arguments true
    match function_item.arguments.head? with
    | some first =>
      if test.1 then
        match argumentToClass env fuel c none first with
        | none => none
        | some found =>
          if isCurrentClass c found then
            if (c.modificationsFor
                  (qs "qHash(" ++ c.typeEntry.qualifiedCppName ++ qs ")")).any
                (fun mod => mod.removal) then some c
            else
              some { c with
                     extraIncludes := c.extraIncludes ++ [env.fileNameOf function_item.fileName],
                     hasHashFunction := true,
                     needsHashWorkaround := test.2 }
          else some c
      else some c
    | none => some c

/-- The flag that the friend function `qHash` with a body sets on the current
class (metabuilder.cpp 5400-5408): the current class after that. -/
def flagHashFunction (env : TraverseEnv) (fuel : Nat) (c : MetaClass)
    (function_item : FunctionModelItem) : Option MetaClass :=
  match function_item.arguments.head? with
  | some first =>
    if (hashArguments function_item.arguments false).1 then
      match argumentToClass env fuel c none first with
      | none => none
      | some found =>
        if isCurrentClass c found then some { c with hasHashFunction := true } else some c
    else some c
  | none => some c

/-- The friend function `qHash` with a body (metabuilder.cpp 5400-5410): the
current class after the call. -/
def traverseHashFunction (env : TraverseEnv) (fuel : Nat) (c : MetaClass)
    (function_item : FunctionModelItem) : Option MetaClass :=
  match flagHashFunction env fuel c function_item with
  | none => none
  | some c => registerHashFunction env fuel c function_item

/-- The meta function as lines 5415-5450 set it up, and the template
parameters of lines 5451-5468 that do not belong to a class. -/
def newMetaFunction (function_item : FunctionModelItem) : MetaFunction :=
  let f : MetaFunction :=
    { name := function_item.name, originalName := function_item.name,
      constant := function_item.isConstant,
      functionReferenceType := function_item.referenceType,
      variadics := function_item.isVariadics }
  let f := if function_item.isAbstract then f.add MetaAttribute.Abstract else f
  let f := f.add MetaAttribute.Native
  let f := if !function_item.isVirtual then f.add MetaAttribute.Final else f
  let f := if function_item.isDeclFinal then
      (f.add MetaAttribute.Final).add MetaAttribute.DeclaredFinalInCpp
    else f
  let f := if function_item.isDeprecated then
      { f.add MetaAttribute.Deprecated with deprecatedComment := function_item.deprecatedComment }
    else f
  let f := if function_item.isInvokable then f.add MetaAttribute.Invokable else f
  let f := if function_item.isStatic then
      (f.add MetaAttribute.Static).add MetaAttribute.Final
    else f
  -- Access rights
  let f :=
    if function_item.accessPolicy == AccessPolicy.Public then f.add MetaAttribute.Public
    else if function_item.accessPolicy == AccessPolicy.Private then f.add MetaAttribute.Private
    else f.add MetaAttribute.Protected
  { f with
    templateParameters :=
      ((function_item.templateParameters.filter (fun p => !p.ownerClass)).enum).map
        (fun ip =>
          { name := ip.2.name,
            type := (MetaType.fresh { type := TypeEntryType.TemplateArgumentType,
                                       name := ip.2.name, ordinal := ip.1 }).setTypeUsagePattern
                      TypeUsagePattern.TemplateArgumentPattern,
            defaultType := ip.2.defaultValue }) }

/-- The type of a template parameter of the function, with the qualifiers of
its use (metabuilder.cpp 5491-5497, 5567-5573): `metaTemplateParameters` holds
the latest parameter of a name. -/
def templateParameterType (meta_function : MetaFunction) (info : TypeInfo) : Option MetaType :=
  ((meta_function.templateParameters.filter
      (fun t => t.name == join (qs "::") info.qualifiedName)).getLast?).map
    (fun tp =>
      ((tp.type.setIndirections info.indirections).setConstant info.isConstant).setReferenceType
        info.referenceType)

/-- A translated type inside `QVariant`, `QString` or `QChar` themselves takes
the entry of the class (metabuilder.cpp 5507-5515, 5577-5585). -/
def exchangeOwnEntry (env : TraverseEnv) (c : MetaClass) (type : MetaType) : MetaType :=
  if type.typeEntry.isVariant && some c.typeEntry == env.qvariantType then
    type.setTypeEntry c.typeEntry
  else if type.typeEntry.isQString && some c.typeEntry == env.qstringType then
    type.setTypeEntry c.typeEntry
  else if type.typeEntry.isChar && some c.typeEntry == env.qcharType then
    type.setTypeEntry c.typeEntry
  else type

/-- The translation of the return type (metabuilder.cpp 5488-5516): the type
and `ok`. -/
def translateReturnType (env : TraverseEnv) (fuel : Nat) (c : MetaClass)
    (function_item : FunctionModelItem) (meta_function : MetaFunction) :
    Option (Option MetaType × Bool) :=
  let function_type := function_item.type
  match templateParameterType meta_function function_type with
  | some type => some (some type, true)
  | none =>
    let function_type : TypeInfo :=
      if function_type.qualifiedName.isEmpty
          && startsWith meta_function.originalName (qs "operator ") then
        let typeInfo := env.translate.parse (mid meta_function.originalName 9)
        if !typeInfo.qualified_name.isEmpty then
          { function_type with qualifiedName := typeInfo.qualified_name }
        else function_type
      else function_type
    match translateType (env.translate.inFunction c (some meta_function)) fuel function_type
        true true true with
    | none => none
    | some (type, ok) => some (type.map (exchangeOwnEntry env c), ok)

/-- The translation of the type of an argument (metabuilder.cpp 5565-5596):
the type and `ok`. An enum entry without scope is tried again under the
qualified name of the class. -/
def translateArgumentType (env : TraverseEnv) (fuel : Nat) (c : MetaClass)
    (meta_function : MetaFunction) (arg : ArgumentModelItem) : Option (Option MetaType × Bool) :=
  match templateParameterType meta_function arg.type with
  | some type => some (some type, true)
  | none =>
    match translateType (env.translate.inFunction c (some meta_function)) fuel arg.type
        true true true with
    | none => none
    | some (none, ok) => some (none, ok)
    | some (some t, ok) =>
      let meta_type := exchangeOwnEntry env c t
      if ok && meta_type.typeEntry.isEnum
          && !contains meta_type.typeEntry.qualifiedCppName (qs "::") then
        let typeInfo : TypeInfo :=
          { arg.type with
            qualifiedName := splitBy c.typeEntry.qualifiedCppName (qs "::")
              ++ arg.type.qualifiedName }
        match translateType (env.translate.inFunction c (some meta_function)) fuel typeInfo
            true true true with
        | none => none
        | some (some _meta_type, true) => some (some _meta_type, ok)
        | some _ => some (some meta_type, ok)
      else some (some meta_type, ok)

/-- How the loop over the arguments ended: at an argument whose type does not
translate, at `return nullptr`, or after the last argument, with the meta
function, the meta arguments and the arguments they were made of, the
argument modifications collected in `mod`, and the text of the signature. -/
inductive ArgumentsResult
  | unmatched (meta_function : MetaFunction)
  | skipped
  | done (meta_function : MetaFunction) (meta_arguments : List MetaArgument)
      (items : List ArgumentModelItem) (argument_mods : List ArgumentModification)
      (originalSignature : QString)

/-- The loop over the arguments (metabuilder.cpp 5551-5672); `i` is the index
of the first argument of the list. -/
def traverseArguments (env : TraverseEnv) (fuel : Nat) (c : MetaClass)
    (function_item : FunctionModelItem) :
    Nat → List ArgumentModelItem → MetaFunction → List MetaArgument → List ArgumentModelItem →
      List ArgumentModification → QString → Option ArgumentsResult
  | _, [], meta_function, meta_arguments, items, argument_mods, originalSignature =>
    some (ArgumentsResult.done meta_function meta_arguments items argument_mods
      originalSignature)
  | i, arg :: rest, meta_function, meta_arguments, items, argument_mods, originalSignature =>
    if arg.type.referenceType == ReferenceType.NoReference
        && arg.type.indirections.isEmpty
        && function_item.arguments.length == 1
        && env.translate.typeInfoToString arg.type == qs "void" then
      traverseArguments env fuel c function_item (i + 1) rest meta_function meta_arguments items
        argument_mods originalSignature
    else
      let originalSignature :=
        (if i > 0 then originalSignature ++ qs "," else originalSignature)
          ++ env.translate.typeInfoToString arg.type
      match translateArgumentType env fuel c meta_function arg with
      | none => none
      | some (some meta_type, true) =>
        if function_item.isFriend && function_item.hasBody && i == 0 then
          if meta_type.typeEntry == c.typeEntry && meta_type.indirections.isEmpty then
            traverseArguments env fuel c function_item (i + 1) rest
              { meta_function with
                functionType := FunctionType.GlobalScopeFunction,
                originalAttributes := meta_function.attributes }
              meta_arguments items argument_mods originalSignature
          else some ArgumentsResult.skipped
        else
          let swap : Bool :=
            c.typeEntry.isValue && function_item.arguments.length == 1
              && meta_type.referenceType == ReferenceType.Reference
              && !meta_type.constant
              && meta_type.typeEntry == c.typeEntry
              && meta_function.name == qs "swap"
          let meta_type :=
            if swap then meta_type.setTypeUsagePattern TypeUsagePattern.ValuePattern
            else meta_type
          let argumentModification : ArgumentModification :=
            { index := meta_arguments.length + 1, no_null_pointers := swap,
              thread_affine := env.isPixmapType meta_type.typeEntry }
          let argument_mods :=
            if argumentModification.no_null_pointers || argumentModification.thread_affine then
              argument_mods ++ [argumentModification]
            else argument_mods
          let meta_argument : MetaArgument :=
            { type := meta_type, name := arg.name, argumentIndex := meta_arguments.length }
          traverseArguments env fuel c function_item (i + 1) rest meta_function
            (meta_arguments ++ [meta_argument]) (items ++ [arg]) argument_mods originalSignature
      | some _ =>
        match (if arg.type.isVolatile then
                 translateType (env.translate.inFunction c (some meta_function)) fuel arg.type
                   true true true
               else some (none, false)) with
        | none => none
        | some _ => some (ArgumentsResult.unmatched meta_function)

/-- The function modifications that the type system holds for the function
(metabuilder.cpp 5698-5717): whether one removes it from the target language,
whether one renames it, whether one changes the return value, and the meta
arguments with the names the modifications give them. -/
def applyModifications (mods : List FunctionModification) (meta_arguments : List MetaArgument) :
    Bool × Bool × Bool × List MetaArgument :=
  mods.foldl
    (fun acc mod =>
      let isRemoved := acc.1 || mod.removalTargetLang
      let isRenamed := acc.2.1 || mod.isRenameModifier
      let inner := mod.argument_mods.foldl
        (fun (a : Bool × List MetaArgument) (argumentModification : ArgumentModification) =>
          if argumentModification.isDefault then
            let isReturnChanged := a.1 || argumentModification.index == 0
            if !argumentModification.modified_name.isEmpty && argumentModification.index > 0
                && argumentModification.index ≤ a.2.length then
              (isReturnChanged,
                a.2.modify
                  (fun m => { m with modifiedName := argumentModification.modified_name })
                  (argumentModification.index - 1))
            else (isReturnChanged, a.2)
          else a)
        (acc.2.2.1, acc.2.2.2)
      (isRemoved, isRenamed, inner.1, inner.2))
    (false, false, false, meta_arguments)

/-- The return type of a cast operator takes the entry the operator casts to
(`meta_function->type()->setTypeEntry(castType); decideUsagePattern(...)`); a
function without return type, which the source would dereference, keeps
none. -/
def setCastType (meta_function : MetaFunction) (castType : TypeEntry) : MetaFunction :=
  { meta_function with
    type := meta_function.type.map (fun t => decideUsagePattern (t.setTypeEntry castType)) }

/-- The modification that makes an assignment operator return `this`
(metabuilder.cpp 5747-5756, 5789-5798), added to the argument modifications
when the operator returns a plain reference to the class. -/
def returnThis (env : TraverseEnv) (c : MetaClass) (meta_function : MetaFunction)
    (isReturnChanged : Bool) (argument_mods : List ArgumentModification) :
    List ArgumentModification :=
  if !isReturnChanged && isAssignmentOperator meta_function.originalName
      && (match meta_function.type with
          | some t => t.typeEntry == c.typeEntry && !t.constant
              && t.referenceType == ReferenceType.Reference
          | none => false) then
    argument_mods ++
      [{ index := 0, modified_type := env.qualifiedTargetLangName c.typeEntry,
         replace_value := qs "this" }]
  else argument_mods

/-- The renaming of operators and the removal of move constructors and move
assignments (metabuilder.cpp 5719-5808): the meta function and the
modification `mod`, or `none` inside for `return nullptr`. -/
def traverseOperator (env : TraverseEnv) (fuel : Nat) (c : MetaClass)
    (meta_function : MetaFunction) (mod : FunctionModification)
    (isRemoved isRenamed isReturnChanged : Bool) :
    Option (Option (MetaFunction × FunctionModification)) :=
  let moved : Bool :=
    !meta_function.isPrivate && meta_function.arguments.length == 1
      && (meta_function.arguments.head?.map
            (fun a => a.type.referenceType == ReferenceType.RReference)) == some true
  if !isRemoved && startsWith meta_function.originalName (qs "operator") then
    if meta_function.originalName == qs "operator=" && moved then
      some (some (meta_function, { mod with removal := true, removalTargetLang := true }))
    else
      match rename_operator env fuel (mid meta_function.originalName 8) with
      | none => none
      | some renamedOperator =>
        if isRenamed then
          match renamedOperator.castType with
          | some castType => some (some (setCastType meta_function castType, mod))
          | none =>
            some (some (meta_function,
              { mod with
                argument_mods :=
                  returnThis env c meta_function isReturnChanged mod.argument_mods }))
        else if renamedOperator.newName.isEmpty then
          match renamedOperator.castType with
          | some castType =>
            some (some (setCastType
              { meta_function with
                name := qs "operator_cast_" ++
                  (env.targetLangName castType).map
                    (fun ch => if ch == '.' || ch == '$' then '_' else ch) }
              castType, mod))
          | none => some none
        else
          let meta_function := { meta_function with name := renamedOperator.newName }
          match renamedOperator.castType with
          | some castType => some (some (setCastType meta_function castType, mod))
          | none =>
            some (some (meta_function,
              { mod with
                argument_mods :=
                  returnThis env c meta_function isReturnChanged mod.argument_mods }))
  else if meta_function.functionType == FunctionType.ConstructorFunction && moved
      && (meta_function.arguments.head?.map (fun a => a.type.typeEntry == c.typeEntry))
          == some true then
    some (some (meta_function, { mod with removal := true, removalTargetLang := true }))
  else some (some (meta_function, mod))

/-- The loop that finds the default values (metabuilder.cpp 5815-5842): the
meta arguments seen, in reverse, and `first_default_argument`. The function
handed to `translateDefaultValue` is the meta function with its arguments as
they are at that moment. -/
def translateDefaults (env : TraverseEnv) (c : MetaClass) (meta_function : MetaFunction)
    (size : Nat) :
    Nat → List MetaArgument → List ArgumentModelItem → List MetaArgument → Nat →
      List MetaArgument × Nat
  | _, [], _, seen, first_default_argument => (seen.reverse, first_default_argument)
  | _, meta_arg :: rest, [], seen, first_default_argument =>
    (seen.reverse ++ meta_arg :: rest, first_default_argument)
  | i, meta_arg :: rest, arg :: items, seen, first_default_argument =>
    if env.translate.typeInfoToString arg.type == qs "void"
        && arg.type.referenceType == ReferenceType.NoReference
        && arg.type.indirections.isEmpty
        && size == 1 then
      translateDefaults env c meta_function size (i + 1) rest items (meta_arg :: seen)
        first_default_argument
    else if arg.defaultValue then
      let meta_arg :=
        if !arg.defaultValueExpression.isEmpty then
          { meta_arg with originalDefaultValueExpression := arg.defaultValueExpression }
        else meta_arg
      let expr := env.translateDefaultValue arg.defaultValueExpression meta_arg.type
        { meta_function with arguments := seen.reverse ++ meta_arg :: rest }
        c.name c.functionModifications i
      if expr.isEmpty then
        translateDefaults env c meta_function size (i + 1) rest items (meta_arg :: seen) i
      else
        translateDefaults env c meta_function size (i + 1) rest items
          ({ meta_arg with defaultValueExpression := expr } :: seen) first_default_argument
    else
      translateDefaults env c meta_function size (i + 1) rest items (meta_arg :: seen)
        first_default_argument

/-- The loop that resets the default values before `first_default_argument`
(metabuilder.cpp 5846-5847). -/
def resetDefaults (meta_arguments : List MetaArgument) (first_default_argument : Nat) :
    List MetaArgument :=
  (meta_arguments.enum).map
    (fun im => if im.1 < first_default_argument then
        { im.2 with defaultValueExpression := [] } else im.2)

/-- The part of `traverseFunction` after the loop over the arguments
(metabuilder.cpp 5673-5853). -/
def finishFunction (env : TraverseEnv) (fuel : Nat) (c : MetaClass)
    (function_item : FunctionModelItem) (meta_function : MetaFunction)
    (meta_arguments : List MetaArgument) (items : List ArgumentModelItem)
    (mod : FunctionModification) (originalSignature : QString) : Option Traversed :=
  let meta_function := { meta_function with arguments := meta_arguments }
  let originalSignature := originalSignature ++ qs ")"
  let originalSignature :=
    if function_item.isConstant then originalSignature ++ qs "const" else originalSignature
  let meta_function :=
    if !contains originalSignature (qs "std::function<")
        && !contains originalSignature (qs "qxp::function_ref<") then
      { meta_function with originalSignature := env.normalizedSignature originalSignature }
    else { meta_function with originalSignature := originalSignature }
  let meta_function :=
    if function_item.isFriend && function_item.hasBody then
      { meta_function with
        functionType := FunctionType.GlobalScopeFunction,
        originalAttributes := meta_function.attributes }
    else meta_function
  let modified :=
    applyModifications (c.modificationsFor (env.minimalSignature meta_function)) meta_arguments
  let isRemoved := modified.1
  let isRenamed := modified.2.1
  let isReturnChanged := modified.2.2.1
  let meta_function := { meta_function with arguments := modified.2.2.2 }
  match traverseOperator env fuel c meta_function mod isRemoved isRenamed isReturnChanged with
  | none => none
  | some none => some (Traversed.skipped c)
  | some (some (meta_function, mod)) =>
    let c :=
      if !mod.argument_mods.isEmpty || mod.pixmapThreadAffine || mod.removal then
        c.addFunctionModification { mod with signature := env.minimalSignature meta_function }
      else c
    -- Find the correct default values
    let defaults :=
      translateDefaults env c meta_function meta_function.arguments.length 0
        meta_function.arguments items [] 0
    -- If we where not able to translate the default argument make it
    -- reset all default arguments before this one too.
    some (Traversed.function
      { meta_function with arguments := resetDefaults defaults.1 defaults.2 } c)

/-- The kind of the function and its return type (metabuilder.cpp
5475-5547): the meta function, or none inside when the return type does not
translate. -/
def classifyFunction (env : TraverseEnv) (fuel : Nat) (c : MetaClass)
    (function_item : FunctionModelItem) (meta_function : MetaFunction) :
    Option (Option MetaFunction) :=
  let function_name := function_item.name
  let class_name := c.typeEntry.qualifiedCppName
  let cc_pos := lastIndexOf class_name (qs "::")
  let stripped_class_name :=
    if cc_pos > 0 then mid class_name (cc_pos.toNat + 2) else class_name
  if startsWith function_name (qs "~") then
    some (some { meta_function with
                 functionType := FunctionType.DestructorFunction, invalid := true })
  else if strip_template_args function_name == stripped_class_name then
    some (some { meta_function with
                 functionType := FunctionType.ConstructorFunction,
                 isExplicit := function_item.isExplicit,
                 name := c.simpleName })
  else
    match translateReturnType env fuel c function_item meta_function with
    | none => none
    | some (_, false) => some none
    | some (type, true) =>
      some (some { meta_function with
                   type := type,
                   functionType :=
                     if function_item.functionType == CodeFunctionType.Signal then
                       FunctionType.SignalFunction
                     else if function_item.functionType == CodeFunctionType.PrivateSignal then
                       FunctionType.PrivateSignalFunction
                     else if function_item.functionType == CodeFunctionType.Slot then
                       FunctionType.SlotFunction
                     else meta_function.functionType })

/-- The modification `mod` as line 5555-5560 set it up: thread affine when the
class or the return type is a pixmap type. -/
def pixmapModification (env : TraverseEnv) (c : MetaClass) (function_item : FunctionModelItem)
    (meta_function : MetaFunction) : FunctionModification :=
  { pixmapThreadAffine :=
      meta_function.functionType != FunctionType.DestructorFunction
        && function_item.accessPolicy != AccessPolicy.Private
        && (env.isPixmapType c.typeEntry
            || (match meta_function.type with
                | some t => env.isPixmapType t.typeEntry
                | none => false)) }

/-- The part of `traverseFunction` that builds the meta function (metabuilder.cpp
5415-5853). -/
def traverseFunctionBody (env : TraverseEnv) (fuel : Nat) (c : MetaClass)
    (function_item : FunctionModelItem) : Option Traversed :=
  let meta_function := newMetaFunction function_item
  match classifyFunction env fuel c function_item meta_function with
  | none => none
  | some none => some (Traversed.unmatchedReturnType meta_function)
  | some (some meta_function) =>
    let mod := pixmapModification env c function_item meta_function
    match traverseArguments env fuel c function_item 0 function_item.arguments
        meta_function [] [] [] (function_item.name ++ qs "(") with
    | none => none
    | some (ArgumentsResult.unmatched f) => some (Traversed.unmatchedArgumentType f)
    | some ArgumentsResult.skipped => some (Traversed.skipped c)
    | some (ArgumentsResult.done meta_function meta_arguments items argument_mods
        originalSignature) =>
      finishFunction env fuel c function_item meta_function meta_arguments items
        { mod with argument_mods := argument_mods } originalSignature

/-- `MetaBuilder::traverseFunction` (metabuilder.cpp 5304-5853) on the current
class `c`, with the place of its return. The registers of rejected functions
and the messages to `ReportHandler`, which only the log reads, are not kept;
the result is `none` when the fuel of a type translation has run out. -/
def traverseFunctionCore (env : TraverseEnv) (fuel : Nat) (c : MetaClass)
    (function_item : FunctionModelItem) : Option Traversed :=
  if function_item.referenceType == ReferenceType.RReference then some (Traversed.skipped c)
  else if function_item.name == qs "static_assert" then some (Traversed.skipped c)
  else if env.isFunctionRejected c.typeEntry.qualifiedCppName function_item.name then
    some (Traversed.skipped c)
  else if function_item.isFriend && function_item.hasBody
      && function_item.name == qs "qHash" then
    (traverseHashFunction env fuel c function_item).map Traversed.skipped
  else if function_item.isFriend && !function_item.hasBody then some (Traversed.skipped c)
  else traverseFunctionBody env fuel c function_item

/-- `MetaBuilder::traverseFunction`: the meta function returned, or none for
`nullptr`, and the current class after the call. -/
def traverseFunction (env : TraverseEnv) (fuel : Nat) (c : MetaClass)
    (function_item : FunctionModelItem) : Option (Option MetaFunction × MetaClass) :=
  (traverseFunctionCore env fuel c function_item).map (Traversed.result c)

/-! ## traverseFunctions -/

/-- The class and the local variables of `traverseFunctions` between two
rounds of its loop; `rValueFunctions` holds the positions of its functions in
the function list of the class. -/
structure FunctionsState where
  meta_class : MetaClass
  hasPrivateConstructors : Bool := false
  hasVirtualDestructor : Bool := false
  hasPublicDestructor : Bool := true
  hasPrivateDestructor : Bool := false
  unimplementablePureVirtualFunctions : List QString := []
  rValueFunctions : List Nat := []

/-- `setupFunctionDefaults` (metabuilder.cpp 4547-4560): the function and the
class. -/
def setupFunctionDefaults (meta_function : MetaFunction) (meta_class : MetaClass) :
    MetaFunction × MetaClass :=
  -- Set the default value of the declaring class. This may be changed
  -- in fixFunctions later on
  let meta_function :=
    { meta_function with
      declaringClass := some meta_class.name, implementingClass := some meta_class.name }
  if meta_function.originalName == qs "operator==" && !meta_function.wasPrivate then
    (meta_function, { meta_class with hasEqualsOperator := true })
  else (meta_function, meta_class)

/-- The property accessor flags of a valid function (metabuilder.cpp
4603-4630). -/
def markPropertyAccessor (meta_class : MetaClass) (meta_function : MetaFunction) : MetaFunction :=
  match meta_class.propertySpecFor (fun p => p.read) meta_function.name with
  | some read =>
    { meta_function.add MetaAttribute.PropertyReader with propertySpec := some read.name }
  | none =>
    match meta_class.propertySpecFor (fun p => p.write) meta_function.name with
    | some write =>
      { meta_function.add MetaAttribute.PropertyWriter with propertySpec := some write.name }
    | none =>
      match meta_class.propertySpecFor (fun p => p.reset) meta_function.name with
      | some reset =>
        { meta_function.add MetaAttribute.PropertyResetter with propertySpec := some reset.name }
      | none =>
        match meta_class.propertySpecFor (fun p => p.bindable) meta_function.name with
        | some reset =>
          { meta_function.add MetaAttribute.PropertyBindable with
            propertySpec := some reset.name }
        | none =>
          match meta_class.propertySpecFor (fun p => p.notify) meta_function.name with
          | some reset =>
            { meta_function.add MetaAttribute.PropertyNotify with
              propertySpec := some reset.name }
          | none => meta_function

/-- The test for an inline function that the class has already (metabuilder.cpp
4580-4591). -/
def isDuplicate (env : TraverseEnv) (function : FunctionModelItem) (meta_function : MetaFunction)
    (meta_class : MetaClass) : Bool :=
  function.isInline && !meta_function.isConstructor
    && !meta_function.originalSignature.isEmpty
    && (meta_class.queryFunctionsByName meta_function.originalName).any
        (fun f => f.originalSignature == meta_function.originalSignature
          || env.minimalSignature f == env.minimalSignature meta_function)

/-- The function as lines 4592-4630 leave it: a private signal by
modification, its original attributes, `Static` in a namespace, and the
property flags when it is valid. -/
def prepareFunction (env : TraverseEnv) (meta_class : MetaClass) (meta_function : MetaFunction) :
    MetaFunction :=
  let meta_function :=
    if (modifications env meta_function meta_class).any (fun m => m.isPrivateSignal) then
      { meta_function with functionType := FunctionType.PrivateSignalFunction }
    else meta_function
  let meta_function := { meta_function with originalAttributes := meta_function.attributes }
  let meta_function :=
    if meta_class.typeEntry.isNamespace then meta_function.add MetaAttribute.Static
    else meta_function
  if !meta_function.invalid then markPropertyAccessor meta_class meta_function
  else meta_function

/-- The local variables of `traverseFunctions` after lines 4632-4640. -/
def updateFlags (env : TraverseEnv) (st : FunctionsState) (function : FunctionModelItem)
    (meta_function : MetaFunction) : FunctionsState :=
  if meta_function.isDestructor then
    { st with
      hasVirtualDestructor := function.isVirtual,
      hasPrivateDestructor := meta_function.isPrivate,
      hasPublicDestructor := meta_function.isPublic }
  else if meta_function.isConstructor then
    { st with
      hasPrivateConstructors :=
        st.hasPrivateConstructors || meta_function.invalid || meta_function.isPrivate }
  else if meta_function.invalid && meta_function.isAbstract then
    { st with
      unimplementablePureVirtualFunctions :=
        if st.unimplementablePureVirtualFunctions.contains (env.signature meta_function)
        then st.unimplementablePureVirtualFunctions
        else st.unimplementablePureVirtualFunctions ++ [env.signature meta_function] }
  else st

/-- The branch of the loop that adds a function to the function list of the
class (metabuilder.cpp 4646-4687). -/
def addValidFunction (env : TraverseEnv) (st : FunctionsState) (function : FunctionModelItem)
    (meta_function : MetaFunction) (meta_class : MetaClass) : FunctionsState :=
  let defaults := setupFunctionDefaults meta_function meta_class
  let meta_function := defaults.1
  let meta_class := defaults.2
  let rValueFunctions :=
    if meta_function.hasRReferences && !meta_function.isPrivate
        && !(modifications env meta_function meta_class).any (fun m => m.removalTargetLang) then
      st.rValueFunctions ++ [meta_class.functions.length]
    else st.rValueFunctions
  let meta_class :=
    if meta_class.typeEntry.isNamespace then
      match env.includePathFor function.fileName with
      | some path => { meta_class with extraIncludes := meta_class.extraIncludes ++ [path] }
      | none => meta_class
    else meta_class
  { st with meta_class := meta_class.addFunction meta_function, rValueFunctions := rValueFunctions }

/-- The body of the loop of `traverseFunctions` for a function that
`traverseFunction` returned (metabuilder.cpp 4580-4691), `meta_class` being the
class after that call. -/
def processFunction (env : TraverseEnv) (st : FunctionsState) (function : FunctionModelItem)
    (meta_function : MetaFunction) (meta_class : MetaClass) : FunctionsState :=
  if isDuplicate env function meta_function meta_class then { st with meta_class := meta_class }
  else
    let meta_function := prepareFunction env meta_class meta_function
    let st := updateFlags env st function meta_function
    if !meta_function.isDestructor && !meta_function.invalid
        && (!meta_function.isConstructor || !meta_function.isPrivate) then
      addValidFunction env st function meta_function meta_class
    else if !meta_function.isDestructor && !meta_function.isConstructor
        && meta_function.invalid then
      { st with meta_class := meta_class.addInvalidFunction meta_function }
    else { st with meta_class := meta_class }

/-- One round of the loop of `traverseFunctions` (metabuilder.cpp
4576-4692). -/
def traverseFunctionsStep (env : TraverseEnv) (fuel : Nat) (st : FunctionsState)
    (function : FunctionModelItem) : Option FunctionsState :=
  match traverseFunction env fuel st.meta_class function with
  | none => none
  | some (none, meta_class) => some { st with meta_class := meta_class }
  | some (some meta_function, meta_class) =>
    some (processFunction env st function meta_function meta_class)

/-- The loop of `traverseFunctions` over the functions of the scope. -/
def traverseFunctionsLoop (env : TraverseEnv) (fuel : Nat) :
    List FunctionModelItem → FunctionsState → Option FunctionsState
  | [], st => some st
  | function :: rest, st =>
    match traverseFunctionsStep env fuel st function with
    | none => none
    | some st => traverseFunctionsLoop env fuel rest st

/-- The removal of the functions that have a namesake with the same argument
entries as an rvalue function (metabuilder.cpp 4701-4724): the function
modifications to add to the type entry of the class. -/
def rValueRemovals (env : TraverseEnv) (meta_class : MetaClass) (rValueFunctions : List Nat) :
    List FunctionModification :=
  rValueFunctions.flatMap (fun index =>
    match meta_class.functions.get? index with
    | none => []
    | some meta_function =>
      ((meta_class.functions.enum).filter (fun io =>
          io.1 != index
            && io.2.name == meta_function.name
            && io.2.arguments.length == meta_function.arguments.length
            && (List.zip io.2.arguments meta_function.arguments).all
                (fun p => p.1.type.typeEntry == p.2.type.typeEntry))).map
        (fun _ =>
          { removal := true, removalTargetLang := true,
            signature := env.minimalSignature meta_function }))

/-- The part of `traverseFunctions` after its loop (metabuilder.cpp
4693-4733). -/
def finishFunctions (env : TraverseEnv) (st : FunctionsState) : MetaClass :=
  let meta_class := st.meta_class
  let hasJustPrivateConstructors : Bool :=
    st.hasPrivateConstructors &&
      -- do not generate derived class when only copy constructor is available
      (let functions := meta_class.queryConstructors
       functions.isEmpty
        || (functions.length == 1
            && (functions.head?.map env.isCopyConstructor) == some true))
  -- remove duplicates by rvalue
  let meta_class :=
    { meta_class with
      functionModifications :=
        meta_class.functionModifications ++ rValueRemovals env meta_class st.rValueFunctions }
  let meta_class :=
    if hasJustPrivateConstructors || st.hasPrivateDestructor then
      { meta_class with attributes := addAttribute meta_class.attributes MetaAttribute.Final }
    else meta_class
  { meta_class with
    hasPublicDestructor := st.hasPublicDestructor,
    hasPrivateDestructor := st.hasPrivateDestructor,
    hasVirtualDestructor := st.hasVirtualDestructor,
    hasJustPrivateConstructors := hasJustPrivateConstructors,
    unimplementablePureVirtualFunctions := st.unimplementablePureVirtualFunctions }

/-- `MetaBuilder::traverseFunctions` (metabuilder.cpp 4562-4734) on the
functions of the scope and the class, which is the current class: the class
after the call, `none` when the fuel of a type translation has run out. -/
def traverseFunctions (env : TraverseEnv) (fuel : Nat) (functions : List FunctionModelItem)
    (meta_class : MetaClass) : Option MetaClass :=
  (traverseFunctionsLoop env fuel functions { meta_class := meta_class }).map
    (finishFunctions env)

/-- What the function list of the class, in the end, depends on of the state
of the loop: the class apart from its list of invalid functions, and the
positions of the rvalue functions. -/
def FunctionsState.kept (st : FunctionsState) : MetaClass × List Nat :=
  (st.meta_class.setInvalidFunctions [], st.rValueFunctions)

/-- What a class offers of its members: its function list, its fields and its
enums. -/
def members (c : MetaClass) : List MetaFunction × List MetaField × List Nat :=
  (c.functions, c.fields, c.enums)

/-! ### Samples for the functions of a class -/

/-- An environment on the sample type database: nothing is rejected, a
signature is the name of the function with the names of the entries of its
arguments, and every default value translates to itself. -/
def sampleTraverseEnv : TraverseEnv :=
  { translate := sampleEnv,
    isFunctionRejected := fun _ _ => false,
    isFieldRejected := fun _ _ => false,
    isPixmapType := fun _ => false,
    qvariantType := none,
    qstringType := none,
    qcharType := none,
    normalizedSignature := fun s => s,
    minimalSignature := fun f =>
      f.name ++ qs "(" ++ join (qs ",") (f.arguments.map (fun a => a.type.typeEntry.name))
        ++ qs ")",
    signature := fun f =>
      f.name ++ qs "(" ++ join (qs ",") (f.arguments.map (fun a => a.type.typeEntry.name))
        ++ qs ")",
    isCopyConstructor := fun _ => false,
    findTypeAlias := fun _ => none,
    targetLangName := fun t => t.name,
    qualifiedTargetLangName := fun t => t.name,
    templatesFindClass := fun _ => none,
    fileNameOf := fun s => s,
    includePathFor := fun _ => none,
    translateDefaultValue := fun expr _ _ _ _ _ => expr }

/-- The class `Foo`, without members yet. -/
def sampleFoo : MetaClass :=
  { name := qs "Foo", qualifiedCppName := qs "Foo", simpleName := qs "Foo",
    typeEntry := { type := TypeEntryType.ObjectType, name := qs "Foo",
                   qualifiedCppName := qs "Foo" } }

/-- The function `int count()`. -/
def sampleCount : FunctionModelItem :=
  { name := qs "count", type := { qualifiedName := [qs "int"] } }

/-- The function `int broken(Missing m)`, whose argument type no lookup
finds. -/
def sampleBroken : FunctionModelItem :=
  { name := qs "broken", type := { qualifiedName := [qs "int"] },
    arguments := [{ name := qs "m", type := { qualifiedName := [qs "Missing"] } }] }

/-- The function `void setCount(int n)`. -/
def sampleSetCount : FunctionModelItem :=
  { name := qs "setCount", type := { qualifiedName := [qs "void"] },
    arguments := [{ name := qs "n", type := { qualifiedName := [qs "int"] } }] }

/-! ## Samples for the usage pattern -/

/-- The primitive entry of `std::nullptr_t`. -/
def sampleNullptrEntry : TypeEntry :=
  { type := TypeEntryType.PrimitiveType, name := qs "std::nullptr_t",
    qualifiedCppName := qs "std::nullptr_t" }

/-- The primitive entry of `int`. -/
def sampleIntEntry : TypeEntry :=
  { type := TypeEntryType.PrimitiveType, name := qs "int", qualifiedCppName := qs "int" }

/-- The primitive entry of `long`. -/
def sampleLongEntry : TypeEntry :=
  { type := TypeEntryType.PrimitiveType, name := qs "long", qualifiedCppName := qs "long" }

/-- An object type entry `Widget`. -/
def sampleWidgetEntry : TypeEntry :=
  { type := TypeEntryType.ObjectType, name := qs "Widget", qualifiedCppName := qs "Widget" }

/-- The type `Widget * const &`: a const reference to a pointer to an object
type. -/
def sampleConstRefToWidgetPointer : MetaType :=
  { MetaType.fresh sampleWidgetEntry with
    constant := true, referenceType := ReferenceType.Reference, indirections := [false] }

/-! ## Samples for constructors and destructors -/

/-- The destructor `~Foo()` of the class `Foo`. -/
def sampleFooDestructor : FunctionModelItem :=
  { name := qs "~Foo", isVirtual := true }

/-- The constructor `explicit Foo(int n)` of the class `Foo`. -/
def sampleFooConstructor : FunctionModelItem :=
  { name := qs "Foo", isExplicit := true,
    arguments := [{ name := qs "n", type := { qualifiedName := [qs "int"] } }] }

/-! ### The rounds of the retry loop -/

/-- The name `Ck` of the class number `k`. -/
def className (k : Nat) : QString := qs "C" ++ number (k : Int)

/-- A builder with the classes `C1` to `Cn`, declared in this order, each with
one 32-bit enum `E` holding one constant `X`: the one of `Ck` is declared as
`X = C(k+1)::X`, the one of `Cn` as `X = 5`. -/
def classChainBuilder (n : Nat) : Builder :=
  { classes := (List.range n).map (fun k =>
      { name := className (k + 1), qualifiedCppName := className (k + 1), enums := [k] }),
    m_meta_classes := List.range n,
    enums := (List.range n).map (fun k =>
      { name := qs "E",
        typeEntry := { size := 32, qualifiedTargetLangName := className (k + 1) ++ qs ".E" },
        values := [k], enclosingClass := k }),
    enumValues := (List.range n).map (fun k =>
      { name := qs "X", cppName := qs "X",
        stringValue := if k + 1 < n then className (k + 2) ++ qs "::X" else qs "5",
        enumId := k }),
    m_enum_values := (List.range n).map (fun k => (className (k + 1) ++ qs "::X", k)) }

/-- The retry loop `while(i<3)` of `figureOutEnumValues` (metabuilder.cpp
3541-3554) with its rounds on record: for every round run, the set of
unresolved classes before it and the set after it. `order` is the order in
which a round walks the `QSet` of unresolved classes, which Qt leaves
unspecified; `rounds` bounds the number of rounds. -/
def retryEnumRounds (order : List Nat → List Nat) (fuel : Nat) :
    Nat → Nat → List Nat → List Nat → Builder →
      Option (List (List Nat × List Nat) × Builder)
  | 0, _, _, _, _ => none
  | rounds + 1, i, classes, repeatClasses, b =>
    if i < 3 then
      let b := { b with warnings := [] }
      match figureOutEnumValuesForClasses fuel (order repeatClasses) classes [] b with
      | none => none
      | some (classes, _repeatClasses, b1) =>
        if _repeatClasses.isEmpty || sameSet _repeatClasses repeatClasses then
          some ([(repeatClasses, _repeatClasses)], b1)
        else
          match retryEnumRounds order fuel rounds
              (if _repeatClasses.length == repeatClasses.length then i + 1 else i)
              classes _repeatClasses b1 with
          | none => none
          | some (trace, b2) => some ((repeatClasses, _repeatClasses) :: trace, b2)
    else some ([], b)

/-- The rounds of `figureOutEnumValues` (metabuilder.cpp 3529-3570): the record
of its retry rounds and the state after the pass. -/
def figureOutEnumRounds (order : List Nat → List Nat) (fuel : Nat) (b : Builder) :
    Option (List (List Nat × List Nat) × Builder) :=
  match figureOutEnumValuesForClasses fuel b.m_meta_classes [] [] { b with warnings := [] } with
  | none => none
  | some (classes, repeatClasses, b1) =>
    if !repeatClasses.isEmpty then
      match retryEnumRounds order fuel fuel 0 classes repeatClasses b1 with
      | none => none
      | some (trace, b2) =>
        some (trace, { b2 with reported := b2.reported ++ b2.warnings.map Warning.text })
    else some ([], b1)

/-- The rounds on record that left a set of unresolved classes of another
size than they found. -/
def resizingRounds (trace : List (List Nat × List Nat)) : List (List Nat × List Nat) :=
  trace.filter (fun p => p.2.length != p.1.length)

/-! ## Template instantiation of a function -/

/-- `templateTypes[name]` on the `QMap<QString,MetaType*>` of the template
parameters bound so far: the type bound to the name, or none for the null
pointer of a name that is not bound. -/
def templateTypesValue (templateTypes : List (QString × MetaType)) (name : QString) :
    Option MetaType :=
  (templateTypes.find? (fun p => p.1 == name)).map Prod.snd

/-- What `exchangeTemplateTypes` does to a type that names the template
parameter bound to `ttype`, before it turns to the instantiations
(metabuilder.cpp 4739-4747). -/
def exchangeBound (type ttype : MetaType) (isReturn : Bool) : MetaType :=
  let rtype := type
  let rtype := rtype.setConstant (ttype.constant || type.constant)
  let rtype := rtype.setIndirections (ttype.indirections ++ type.indirections)
  let rtype := rtype.setReferenceType ttype.referenceType
  let rtype := rtype.setTypeEntry ttype.typeEntry
  let rtype := decideUsagePattern rtype
  if !rtype.indirections.isEmpty && isReturn then
    rtype.setTypeUsagePattern TypeUsagePattern.ObjectPattern
  else rtype

mutual
/-- `MetaBuilder::exchangeTemplateTypes` (metabuilder.cpp 4736-4767). The
instantiations of the copy `rtype` are those of `type`, on which the recursion
runs. Where the source returns `type` itself because no instantiation changed,
the value is the same as that of the copy with the exchanged instantiations. -/
def exchangeTemplateTypes (templateTypes : List (QString × MetaType)) :
    MetaType → Bool → MetaType
  | MetaType.mk typeEntry constant isVolatile referenceType indirections instantiations
      typeUsagePattern forceBoxedPrimitives originalTemplateType originalTypeDescription
      arrayElementCount arrayElementType instantiationInCpp iteratorInstantiations, isReturn =>
    let type : MetaType :=
      MetaType.mk typeEntry constant isVolatile referenceType indirections instantiations
        typeUsagePattern forceBoxedPrimitives originalTemplateType originalTypeDescription
        arrayElementCount arrayElementType instantiationInCpp iteratorInstantiations
    if typeEntry.isTemplateArgument then
      match templateTypesValue templateTypes typeEntry.name with
      | some ttype =>
        { exchangeBound type ttype isReturn with
          instantiations := exchangeInstantiations templateTypes instantiations }
      | none => type
    else
      { type with instantiations := exchangeInstantiations templateTypes instantiations }
/-- The loop `instantiations << exchangeTemplateTypes(instantiation, false,
templateTypes)`. -/
def exchangeInstantiations (templateTypes : List (QString × MetaType)) :
    List MetaType → List MetaType
  | [] => []
  | instantiation :: rest =>
    exchangeTemplateTypes templateTypes instantiation false
      :: exchangeInstantiations templateTypes rest
end

/-- The binding of the template parameter `T` to `Int32`. -/
def sampleTemplateTypes : List (QString × MetaType) := [(qs "T", sampleInt32Arg)]

/-! ## Filing the classes -/

/-- Modelled from the spec: a class of the code model (`ClassModelItem`), with
what `traverseClass` reads of it to make the class and its inner classes. -/
structure ClassModelItem where
  name : QString
  baseClasses : List (QString × Bool) := []
  classes : List ClassModelItem
  templateParameters : List TemplateParameterModelItem := []
  accessPolicy : AccessPolicy := AccessPolicy.Public
  fileName : QString := []
  isDeclFinal : Bool := false
  isDeclDeprecated : Bool := false
  isUnion : Bool := false

/-- Modelled from the spec: a namespace of the code model
(`NamespaceModelItem`): its classes and, in the order of `namespaceMap()`, its
namespaces. -/
structure NamespaceModelItem where
  name : QString
  qualifiedName : List QString := []
  fileName : QString := []
  classes : List ClassModelItem
  namespaces : List NamespaceModelItem

/-- Modelled from the spec: what the filing of the classes asks of code that is
not among the sources: the type database (`findComplexType`,
`findNamespaceType`, `isClassRejected`, the entries of `QString`, `QVariant`
and `QChar`, `findTypeSystem` on the target type system of a class), the type
entries (`designatedInterface`, `instantiations`, `targetLangName`, `isString`,
and for an iterator entry whether its `containerType()` is a container), the
free function `isClass`, the major version of Qt, and of the meta classes
`package` and the content of the class that `extractInterfaceImpl` makes.
`findType` is that of the type database. -/
structure RegistryEnv where
  findComplexType : QString → Option TypeEntry
  findNamespaceType : QString → Option TypeEntry
  isClassRejected : QString → Bool
  qstringType : Option TypeEntry
  qvariantType : Option TypeEntry
  qcharType : Option TypeEntry
  designatedInterface : TypeEntry → Option TypeEntry
  instantiations : TypeEntry → List TypeEntry
  targetLangName : TypeEntry → QString
  isString : TypeEntry → Bool
  iteratorOfContainer : TypeEntry → Bool
  isClass : QString → QString → Bool
  m_qtVersionMajor : Nat
  findTypeSystem : MetaClass → Option QString
  package : MetaClass → QString
  interfaceImpl : MetaClass → MetaClass
  findType : QString → Option TypeEntry

/-- Modelled from the spec: the enum `MetaBuilder::RejectReason` (declared in
`metabuilder.h`), in the order in which `write_reject_log_file` walks it
(metabuilder.cpp 7942-7975). -/
inductive RejectReason
  | NotInTypeSystem | IsPrivate | IsGlobal | GenerationDisabled | RedefinedToNotClass
  | UnmatchedReturnType | UnmatchedArgumentType | NoReason
  deriving DecidableEq, Repr

/-- A log of rejections: a `QMap` from the pair of a qualified name and a file
name to the reason, as a list of its entries. -/
abbrev RejectLog := List ((QString × QString) × RejectReason)

/-- `QMap::insert(key, reason)`: an entry with the same key is replaced. -/
def RejectLog.insert (log : RejectLog) (key : QString × QString) (reason : RejectReason) :
    RejectLog :=
  log.filter (fun e => e.1 != key) ++ [(key, reason)]

/-- The classes of the builder: the arena `classes` of all `MetaClass` objects
(a pointer to a class is its index), the list `m_meta_classes` of the classes
to emit, the registers `m_templates` and `m_template_iterators`, the map
`m_typeSystemByPackage`, the set `m_setup_inheritance_done` in the order of
insertion, the current class, the messages given to
`ReportHandler::warning` and the log `m_rejected_classes`. -/
structure ClassGraph where
  classes : List MetaClass := []
  m_meta_classes : List Nat := []
  m_templates : List Nat := []
  m_template_iterators : List Nat := []
  m_typeSystemByPackage : List (QString × QString) := []
  m_setup_inheritance_done : List Nat := []
  m_current_class : Option Nat := none
  warnings : List QString := []
  m_rejected_classes : RejectLog := []

namespace ClassGraph

/-- The class with index `i`. -/
def cls (g : ClassGraph) (i : Nat) : MetaClass :=
  (g.classes.get? i).getD { name := [] }

/-- A write to the class with index `i`. -/
def modifyClass (g : ClassGraph) (i : Nat) (f : MetaClass → MetaClass) : ClassGraph :=
  { g with classes := g.classes.modify f i }

/-- `new MetaClass()`: the index of the new class and the arena with it. -/
def newClass (g : ClassGraph) (c : MetaClass) : Nat × ClassGraph :=
  (g.classes.length, { g with classes := g.classes ++ [c] })

/-- `ReportHandler::warning`. -/
def warn (g : ClassGraph) (msg : QString) : ClassGraph :=
  { g with warnings := g.warnings ++ [msg] }

/-- The qualified C++ names of the classes of a list. -/
def names (g : ClassGraph) (l : List Nat) : List QString :=
  l.map (fun i => (g.cls i).qualifiedCppName)

end ClassGraph

/-- Modelled from the spec: `new MetaClass()` followed by `setTypeEntry(type)`;
the names of a class are those of its type entry. -/
def newMetaClass (env : RegistryEnv) (type : TypeEntry) : MetaClass :=
  { name := env.targetLangName type, qualifiedCppName := type.qualifiedCppName,
    simpleName := type.name, typeEntry := type, isQObject := type.isQObject }

/-- Modelled from the spec: `MetaClass::extractInterfaceImpl`, the
implementation class of an interface, made at the first call. -/
def extractInterfaceImpl (env : RegistryEnv) (cls : Nat) (g : ClassGraph) : Nat × ClassGraph :=
  match (g.cls cls).interfaceImpl with
  | some impl => (impl, g)
  | none =>
    let r := g.newClass (env.interfaceImpl (g.cls cls))
    (r.1, r.2.modifyClass cls (fun c => { c with interfaceImpl := some r.1 }))

/-- The entry of `m_typeSystemByPackage` for the package of a class that is no
string (metabuilder.cpp 2359-2362). -/
def registerTypeSystem (env : RegistryEnv) (cls : Nat) (g : ClassGraph) : ClassGraph :=
  if !env.isString (g.cls cls).typeEntry then
    match env.findTypeSystem (g.cls cls) with
    | some ts =>
      { g with
        m_typeSystemByPackage :=
          g.m_typeSystemByPackage.filter (fun p => p.1 != env.package (g.cls cls))
            ++ [(env.package (g.cls cls), ts)] }
    | none => g
  else g

/-- The lines that put a class into `m_meta_classes` (metabuilder.cpp
2358-2367), which `traverseNamespace` repeats for the classes of a namespace
(2431-2440). `MetaClass::isInterface` is taken to be `isInterface` of the type
entry. -/
def fileMetaClass (env : RegistryEnv) (cls : Nat) (g : ClassGraph) : ClassGraph :=
  let g := registerTypeSystem env cls { g with m_meta_classes := g.m_meta_classes ++ [cls] }
  if (g.cls cls).typeEntry.isInterface then
    let r := extractInterfaceImpl env cls g
    { r.2 with m_meta_classes := r.2.m_meta_classes ++ [r.1] }
  else g

/-- `MetaBuilder::addAbstractMetaClass` (metabuilder.cpp 2339-2369). -/
def addAbstractMetaClass (env : RegistryEnv) (cls : Option Nat) (g : ClassGraph) : ClassGraph :=
  match cls with
  | none => g
  | some cls =>
    let g := g.modifyClass cls (fun c => { c with originalAttributes := c.attributes })
    if (g.cls cls).typeEntry.isTemplate
        || ((g.cls cls).typeEntry.isContainer
            && (g.cls cls).typeEntry.containerKind != ContainerKind.StringListContainer) then
      { g with m_templates := g.m_templates ++ [cls] }
    else if (g.cls cls).typeEntry.isIterator
        && env.iteratorOfContainer (g.cls cls).typeEntry then
      { g with m_template_iterators := g.m_template_iterators ++ [cls] }
    else fileMetaClass env cls g

/-- `meta_class->addEnclosedClass(cl)` when the target name of the class starts
with that of `meta_class` and `$` (metabuilder.cpp 2427-2430, 4292-4294). -/
def encloseClass (env : RegistryEnv) (meta_class cl : Nat) (g : ClassGraph) : ClassGraph :=
  if startsWith (env.targetLangName (g.cls cl).typeEntry)
      (env.targetLangName (g.cls meta_class).typeEntry ++ qs "$") then
    g.modifyClass meta_class (fun c => { c with enclosedClasses := c.enclosedClasses ++ [cl] })
  else g

/-- The type entry that `traverseClass` finds for a class name (metabuilder.cpp
4178-4189), or none when the class is rejected (4190-4208). -/
def classTypeEntry (env : RegistryEnv) (full_class_name : QString) : Option TypeEntry :=
  let type := env.findComplexType full_class_name
  let type :=
    match type with
    | some t =>
      if t.isQString && env.qstringType.isSome then env.qstringType
      else if t.isVariant && env.qvariantType.isSome then env.qvariantType
      else if t.isChar && env.qcharType.isSome then env.qcharType
      else some t
    | none => none
  let type :=
    match type with
    | some t => (match env.designatedInterface t with | some d => some d | none => some t)
    | none => none
  if env.isClassRejected full_class_name then none
  else
    match type with
    | none => none
    | some t =>
      if t.codeGeneration == CodeGeneration.GenerateNothing then none
      else if t.isObject && env.isClass full_class_name (qs "QObject") then
        some { t with isQObject := true }
      else some t

/-- The reason for which `traverseClass` rejects a class, `NoReason` when it
does not (metabuilder.cpp 4178-4203). -/
def classRejectReason (env : RegistryEnv) (accessPolicy : AccessPolicy) (fileName : QString)
    (full_class_name : QString) : RejectReason :=
  let type := env.findComplexType full_class_name
  let type :=
    match type with
    | some t =>
      if t.isQString && env.qstringType.isSome then env.qstringType
      else if t.isVariant && env.qvariantType.isSome then env.qvariantType
      else if t.isChar && env.qcharType.isSome then env.qcharType
      else some t
    | none => none
  let type :=
    match type with
    | some t => (match env.designatedInterface t with | some d => some d | none => some t)
    | none => none
  if env.isClassRejected full_class_name then RejectReason.GenerationDisabled
  else
    match type with
    | none =>
      let te := env.findType full_class_name
      if (te.map (fun te => !te.isComplex)).getD false then RejectReason.RedefinedToNotClass
      else if accessPolicy == AccessPolicy.Private
          || startsWith full_class_name (qs "QtPrivate::")
          || endsWith fileName (qs "_p.h") then RejectReason.IsPrivate
      else RejectReason.NotInTypeSystem
    | some t =>
      if t.codeGeneration == CodeGeneration.GenerateNothing then RejectReason.GenerationDisabled
      else RejectReason.NoReason

/-- The classes that `traverseClass` makes for the instantiations of a
template entry (metabuilder.cpp 4397-4475), each handed to
`addAbstractMetaClass`. -/
def addInstantiations (env : RegistryEnv) (meta_class : Nat) :
    List TypeEntry → ClassGraph → ClassGraph
  | [], g => g
  | instantiation :: rest, g =>
    let c := g.cls meta_class
    let instantiation :=
      if c.typeEntry.isObject && c.typeEntry.isQObject then
        { instantiation with isQObject := true }
      else instantiation
    let r := g.newClass
      { newMetaClass env instantiation with
        templateBaseClass := some meta_class, attributes := c.attributes,
        originalAttributes := c.originalAttributes }
    let g :=
      match r.2.m_current_class with
      | some cur =>
        r.2.modifyClass cur (fun c => { c with enclosedClasses := c.enclosedClasses ++ [r.1] })
      | none => r.2
    addInstantiations env meta_class rest (addAbstractMetaClass env (some r.1) g)

mutual
/-- `MetaBuilder::traverseClass` (metabuilder.cpp 4169-4477) as far as it makes
and files classes: the class returned, or none for `nullptr`. The members of
the class (functions, enums, fields, properties), its type aliases, the
include of its type entry and the register of container base classes are left
out. -/
def traverseClass (env : RegistryEnv) : ClassModelItem → ClassGraph → Option Nat × ClassGraph
  | ⟨name, baseClasses, classes, templateParameters, accessPolicy, fileName, isDeclFinal,
      isDeclDeprecated, isUnion⟩, g =>
    let class_name := strip_template_args name
    -- we have an inner class
    let full_class_name :=
      match g.m_current_class with
      | some cur =>
        strip_template_args (g.cls cur).typeEntry.qualifiedCppName ++ qs "::" ++ class_name
      | none => class_name
    match classTypeEntry env full_class_name with
    | none =>
      (none,
        { g with
          m_rejected_classes :=
            g.m_rejected_classes.insert (full_class_name, fileName)
              (classRejectReason env accessPolicy fileName full_class_name) })
    | some type =>
      let baseClasses :=
        if env.m_qtVersionMajor ≥ 6 then
          baseClasses.map (fun p =>
            if p.1 == qs "QList<QString>" then (qs "QStringList", p.2)
            else if p.1 == qs "QByteArrayList" then (qs "QList<QByteArray>", p.2)
            else p)
        else baseClasses
      let attributes := [MetaAttribute.Public]
      let attributes :=
        if isDeclFinal then
          addAttribute (addAttribute attributes MetaAttribute.Final)
            MetaAttribute.DeclaredFinalInCpp
        else attributes
      let attributes :=
        if isDeclDeprecated then addAttribute attributes MetaAttribute.Deprecated
        else attributes
      let r := g.newClass
        { newMetaClass env type with
          baseClassNames := baseClasses, attributes := attributes,
          templateArguments := (templateParameters.enum).map (fun ip =>
            { type := TypeEntryType.TemplateArgumentType, name := ip.2.name,
              ordinal := ip.1 }) }
      let meta_class := r.1
      let old_current_class := g.m_current_class
      let g := { r.2 with m_current_class := some meta_class }
      -- Inner classes
      let g := traverseInnerClasses env meta_class classes g
      let g := { g with m_current_class := old_current_class }
      -- not possible to inherit from a union type, so declare final
      let g :=
        if isUnion then
          g.modifyClass meta_class
            (fun c => { c with attributes := addAttribute c.attributes MetaAttribute.Final })
        else g
      let g :=
        if (g.cls meta_class).typeEntry.isTemplate then
          addInstantiations env meta_class (env.instantiations (g.cls meta_class).typeEntry) g
        else g
      (some meta_class, g)
/-- The loop over the inner classes of a class (metabuilder.cpp 4286-4300). -/
def traverseInnerClasses (env : RegistryEnv) (meta_class : Nat) :
    List ClassModelItem → ClassGraph → ClassGraph
  | [], g => g
  | ci :: rest, g =>
    match traverseClass env ci g with
    | (none, g) => traverseInnerClasses env meta_class rest g
    | (some cl, g) =>
      traverseInnerClasses env meta_class rest
        (addAbstractMetaClass env (some cl) (encloseClass env meta_class cl g))
end

/-- The loop `addAbstractMetaClass(traverseClass(cls))` over the classes of the
global scope (metabuilder.cpp 685-687). -/
def traverseGlobalClasses (env : RegistryEnv) : List ClassModelItem → ClassGraph → ClassGraph
  | [], g => g
  | cls :: rest, g =>
    let r := traverseClass env cls g
    traverseGlobalClasses env rest (addAbstractMetaClass env r.1 r.2)

/-- What `traverseNamespace` does with a class `mjc` of the namespace that
`traverseClass` has returned (metabuilder.cpp 2426-2441). -/
def fileNamespaceClass (env : RegistryEnv) (meta_class mjc : Nat) (g : ClassGraph) :
    ClassGraph :=
  fileMetaClass env mjc (encloseClass env meta_class mjc g)

/-- The loop over the classes of a namespace (metabuilder.cpp 2422-2442). -/
def traverseNamespaceClasses (env : RegistryEnv) (meta_class : Nat) :
    List ClassModelItem → ClassGraph → ClassGraph
  | [], g => g
  | cls :: rest, g =>
    match traverseClass env cls g with
    | (none, g) => traverseNamespaceClasses env meta_class rest g
    | (some mjc, g) =>
      -- the classes inside of a namespace are realized as static member classes
      -- of the namespace representing java interface.
      traverseNamespaceClasses env meta_class rest (fileNamespaceClass env meta_class mjc g)

/-- The lines that put a namespace into `m_meta_classes` (metabuilder.cpp
691-697, 2486-2490). -/
def fileNamespace (env : RegistryEnv) (cls : Nat) (g : ClassGraph) : ClassGraph :=
  registerTypeSystem env cls { g with m_meta_classes := g.m_meta_classes ++ [cls] }

mutual
/-- `MetaBuilder::traverseNamespace` (metabuilder.cpp 2372-2500) as far as it
makes and files classes; `m_namespace_prefix` is passed along. The enums,
functions, fields and type aliases of the namespace are left out. -/
def traverseNamespace (env : RegistryEnv) :
    NamespaceModelItem → QString → ClassGraph → Option Nat × ClassGraph
  | ⟨name, qualifiedName, fileName, classes, namespaces⟩, m_namespace_prefix, g =>
    let namespace_name :=
      (if ! m_namespace_prefix.isEmpty then m_namespace_prefix ++ qs "::" else []) ++ name
    if env.isClassRejected namespace_name then
      (none,
        { g with
          m_rejected_classes :=
            g.m_rejected_classes.insert (namespace_name, fileName)
              RejectReason.GenerationDisabled })
    else
      match env.findNamespaceType namespace_name with
      | none =>
        (none, g.warn (qs "namespace '" ++ namespace_name ++ qs "' does not have a type entry"))
      | some type =>
        let r := g.newClass { newMetaClass env type with attributes := [MetaAttribute.Public] }
        let meta_class := r.1
        let g := { r.2 with m_current_class := some meta_class }
        let g := traverseNamespaceClasses env meta_class classes g
        -- Traverse namespaces recursively
        let g := traverseNamespaces env meta_class namespaces (join (qs "::") qualifiedName) g
        (some meta_class, { g with m_current_class := none })
/-- The loop over the namespaces of a namespace (metabuilder.cpp 2477-2492). -/
def traverseNamespaces (env : RegistryEnv) (meta_class : Nat) :
    List NamespaceModelItem → QString → ClassGraph → ClassGraph
  | [], _, g => g
  | ns :: rest, m_namespace_prefix, g =>
    match traverseNamespace env ns m_namespace_prefix g with
    | (none, g) => traverseNamespaces env meta_class rest m_namespace_prefix g
    | (some mjc, g) =>
      traverseNamespaces env meta_class rest m_namespace_prefix
        (fileNamespace env mjc (encloseClass env meta_class mjc g))
end

/-- The loop over the namespaces of the global scope (metabuilder.cpp
689-699). -/
def traverseGlobalNamespaces (env : RegistryEnv) :
    List NamespaceModelItem → ClassGraph → ClassGraph
  | [], g => g
  | ns :: rest, g =>
    match traverseNamespace env ns [] g with
    | (none, g) => traverseGlobalNamespaces env rest g
    | (some meta_class, g) => traverseGlobalNamespaces env rest (fileNamespace env meta_class g)

/-- The start of the generation (metabuilder.cpp 684-699): the classes of the
global scope, then its namespaces. -/
def traverseDom (env : RegistryEnv) (classes : List ClassModelItem)
    (namespaces : List NamespaceModelItem) (g : ClassGraph) : ClassGraph :=
  traverseGlobalNamespaces env namespaces (traverseGlobalClasses env classes g)

/-! ### Sample code model for the filing -/

/-- A type database with the template entries `Box`, `Outer::Inner` and
`N::Box`, the object entry `Outer` and the namespace entry `N`. -/
def sampleRegistryEnv : RegistryEnv :=
  { findComplexType := fun name =>
      if name == qs "Box" || name == qs "Outer::Inner" || name == qs "N::Box" then
        some { type := TypeEntryType.ObjectType, name := name, qualifiedCppName := name,
               isTemplate := true }
      else if name == qs "Outer" then
        some { type := TypeEntryType.ObjectType, name := name, qualifiedCppName := name }
      else none,
    findNamespaceType := fun name =>
      if name == qs "N" then
        some { type := TypeEntryType.NamespaceType, name := name, qualifiedCppName := name }
      else none,
    isClassRejected := fun _ => false,
    qstringType := none,
    qvariantType := none,
    qcharType := none,
    designatedInterface := fun _ => none,
    instantiations := fun _ => [],
    targetLangName := fun t => t.name,
    isString := fun _ => false,
    iteratorOfContainer := fun _ => false,
    isClass := fun _ _ => false,
    m_qtVersionMajor := 6,
    findTypeSystem := fun _ => none,
    package := fun _ => [],
    interfaceImpl := fun c => c,
    findType := fun _ => none }

/-- The class template `template<class T> class Box`. -/
def sampleBoxItem : ClassModelItem :=
  { name := qs "Box", classes := [], templateParameters := [{ name := qs "T" }] }

/-- The class `Outer` with the inner class template `Inner`. -/
def sampleOuterItem : ClassModelItem :=
  { name := qs "Outer",
    classes := [{ name := qs "Inner", classes := [],
                  templateParameters := [{ name := qs "T" }] }] }

/-- The namespace `N` with the class template `Box`. -/
def sampleNamespaceItem : NamespaceModelItem :=
  { name := qs "N", qualifiedName := [qs "N"], classes := [sampleBoxItem], namespaces := [] }

/-! ## The members of a hidden base class -/

/-- Modelled from the spec: `QString::replace(before, after)`, every
occurrence of `before` from left to right; `n` bounds the characters looked
at. -/
def replaceAux (before after : QString) : Nat → QString → QString
  | 0, s => s
  | _ + 1, [] => []
  | n + 1, c :: cs =>
    if startsWith (c :: cs) before then
      after ++ replaceAux before after n ((c :: cs).drop before.length)
    else c :: replaceAux before after n cs

/-- Modelled from the spec: `QString::replace(before, after)`; an empty
`before` matches before every character and at the end. -/
def replace (s before after : QString) : QString :=
  if before.isEmpty then after ++ (s.map (fun c => c :: after)).flatten
  else replaceAux before after (s.length + 1) s

/-- Modelled from the spec: what `inheritHiddenBaseType` asks of code that is
not among the sources, besides what `traverseFunction` asks: the iterator entry
of a container entry (`findIteratorType`), whether the type system removes a
function (`isModifiedRemoved(TS::All)`), the entry
`InstantiatedTemplateArgumentEntry(i, argument, t)`, and of an iterator entry
`clone(entry, name)` and `extraIncludes()`. `registry` is what the filing of a
class asks. -/
structure InheritEnv where
  traverse : TraverseEnv
  registry : RegistryEnv
  findIteratorType : TypeEntry → Option TypeEntry
  isModifiedRemoved : MetaFunction → Bool
  instantiatedTemplateArgument : Nat → TypeEntry → TypeEntry → TypeEntry
  cloneIterator : TypeEntry → TypeEntry → QString → TypeEntry
  iteratorExtraIncludes : TypeEntry → List QString

/-- Modelled from the spec: `MetaFunction::isStatic` and `MetaField::isStatic`,
the attribute `Static`. -/
def isStaticMember (attributes : List MetaAttribute) : Bool :=
  attributes.contains MetaAttribute.Static

/-- The loop that makes `template_types` from the instantiation arguments of
the base-class name (metabuilder.cpp 7025-7053); `i` is the index of the first
argument of the list and `inTemplates` is `m_templates.contains(subclass)`. -/
def templateTypesOf (env : InheritEnv) (inTemplates : Bool)
    (subclass hidden_base_class : MetaClass) :
    Nat → List ParserInfo → List MetaType → List MetaType
  | _, [], template_types => template_types
  | i, ti :: rest, template_types =>
    match env.traverse.translate.findType (join (qs "::") ti.qualified_name) with
    | some t =>
      let temporary_type := MetaType.fresh t
      let temporary_type := temporary_type.setConstant ti.is_constant
      let temporary_type := temporary_type.setReferenceType ti.reference_type
      let temporary_type := temporary_type.setIndirections ti.indirections
      let temporary_type :=
        if t.isPrimitive && temporary_type.indirections.isEmpty
            && (hidden_base_class.typeEntry.isContainer
                || hidden_base_class.typeEntry.isIterator) then
          temporary_type.setForceBoxedPrimitives true
        else temporary_type
      let temporary_type := decideUsagePattern temporary_type
      let temporary_type :=
        match (if subclass.typeEntry.isGenericClass then
                 hidden_base_class.templateArguments.get? i else none) with
        | some argument =>
          temporary_type.setTypeEntry (env.instantiatedTemplateArgument i argument t)
        | none => temporary_type
      templateTypesOf env inTemplates subclass hidden_base_class (i + 1) rest
        (template_types ++ [temporary_type])
    | none =>
      match (if inTemplates then subclass.templateArguments.get? template_types.length
             else none) with
      | some argument =>
        let temporary_type := MetaType.fresh argument
        let temporary_type := temporary_type.setConstant ti.is_constant
        let temporary_type := temporary_type.setReferenceType ti.reference_type
        let temporary_type := temporary_type.setIndirections ti.indirections
        templateTypesOf env inTemplates subclass hidden_base_class (i + 1) rest
          (template_types ++ [decideUsagePattern temporary_type])
      | none =>
        templateTypesOf env inTemplates subclass hidden_base_class (i + 1) rest template_types

/-- What `inheritHiddenBaseType` hands from one member to the next: the class
of the template, the base-class name as parsed, the instantiation arguments,
and the iterator entry of the template with the type entry of the iterator
class made for the subclass, if there are any. -/
structure InheritContext where
  hidden_base_class : MetaClass
  info : ParserInfo
  template_types : List MetaType
  iteratorTypeEntry : Option TypeEntry := none
  newIteratorEntry : Option TypeEntry := none

/-- The type of a member of the template in the subclass (metabuilder.cpp
7120-7159 for the type of a function, 7166-7205 for that of an argument,
7325-7364 for that of a field): `none` when the fuel of `inheritTemplateType`
has run out, `some none` when `ok` is false afterwards. -/
def inheritMemberType (env : InheritEnv) (fuel : Nat) (ctx : InheritContext)
    (ftype : MetaType) : Option (Option MetaType) :=
  let exchanged : Option MetaType :=
    if ftype.typeEntry.isComplex && ftype.typeEntry.isTemplate
        && !ctx.info.template_instantiations.isEmpty then
      let templateArgs := ctx.info.template_instantiations.map env.traverse.translate.infoToString
      match env.traverse.translate.instantiation ftype.typeEntry templateArgs with
      | some instantiation =>
        let _ftype :=
          if !instantiation.isGenericClass then
            (ftype.setInstantiations []).setTypeEntry instantiation
          else ftype.setInstantiations ctx.template_types
        some (decideUsagePattern _ftype)
      | none => none
    else none
  match exchanged with
  | some _ftype => some (some _ftype)
  | none =>
    if ftype.typeEntry.qualifiedCppName == ctx.hidden_base_class.typeEntry.qualifiedCppName
        && ftype.instantiations.length == 0 then
      inheritTemplateTypeCore fuel ctx.template_types (ftype.setInstantiations ctx.template_types)
    else
      match (if ctx.iteratorTypeEntry == some ftype.typeEntry then ctx.newIteratorEntry
             else none) with
      | some entry => inheritTemplateTypeCore fuel ctx.template_types (ftype.setTypeEntry entry)
      | none => inheritTemplateTypeCore fuel ctx.template_types ftype

/-- The loop over the arguments of a function of the template (metabuilder.cpp
7162-7217): the clone `f` with the arguments added, `some none` when the loop
has left `ok` false. -/
def inheritArguments (env : InheritEnv) (fuel : Nat) (ctx : InheritContext)
    (subclass : MetaClass) : List MetaArgument → MetaFunction → Option (Option MetaFunction)
  | [], f => some (some f)
  | argument :: rest, f =>
    match inheritMemberType env fuel ctx argument.type with
    | none => none
    | some none => some none
    | some (some type) =>
      let arg := { argument with type := type }
      let arg :=
        if !arg.defaultValueExpression.isEmpty && argument.type.typeEntry.isTemplateArgument then
          let exp := arg.defaultValueExpression
          let arg := { arg with originalDefaultValueExpression := exp }
          let exp := replace exp argument.type.typeEntry.qualifiedCppName
            arg.type.typeEntry.qualifiedCppName
          let exp := env.traverse.translateDefaultValue exp arg.type f subclass.name
            subclass.functionModifications f.arguments.length
          { arg with defaultValueExpression := exp }
        else arg
      inheritArguments env fuel ctx subclass rest { f with arguments := f.arguments ++ [arg] }

/-- The clone of a function of the template for the subclass (metabuilder.cpp
7115-7245), before the test for shadowing: `some none` for `delete f;
continue;` after a failed substitution. -/
def inheritFunction (env : InheritEnv) (fuel : Nat) (ctx : InheritContext)
    (subclass : MetaClass) (function : MetaFunction) : Option (Option MetaFunction) :=
  let f := { function with arguments := [] }
  match (match function.type with
         | some ftype => (inheritMemberType env fuel ctx ftype).map (fun r => (r, r.isSome))
         | none => some (none, true)) with
  | none => none
  | some (_, false) => some none
  | some (type, true) =>
    match inheritArguments env fuel ctx subclass function.arguments { f with type := type } with
    | none => none
    | some none => some none
    | some (some f) =>
      -- There is no base class in java to inherit from here, so the
      -- template instantiation is the class that implements the function..
      let f := { f with implementingClass := some subclass.name }
      -- We also set it as the declaring class, since the superclass is
      -- supposed to disappear.
      let f := { f with declaringClass := some subclass.name }
      let f := { f with originalSignature := function.originalSignature }
      if f.isConstructor then some (some { f with name := subclass.simpleName })
      else some (some f)

/-- The comparison of the arguments of `f` and `f2` in the test for shadowing
(metabuilder.cpp 7255-7269): the value of `found` after the inner loop. -/
def sameArgumentTypes (f f2 : MetaFunction) : Bool :=
  (f.arguments.zip f2.arguments).all (fun p =>
    !(p.1.type.constant != p.2.type.constant
      || p.1.type.indirections != p.2.type.indirections
      || p.1.type.typeUsagePattern != p.2.type.typeUsagePattern
      || p.1.type.typeEntry.qualifiedCppName != p.2.type.typeEntry.qualifiedCppName))

/-- The test for shadowing (metabuilder.cpp 7250-7273): the value of `found`
after the loop over the functions of the subclass. A function of the same name
and number of arguments sets `found` to the outcome of the comparison of the
arguments, and the loop goes on to the next function in either case. -/
def isShadowed (funcs : List MetaFunction) (f : MetaFunction) : Bool :=
  funcs.foldl
    (fun found f2 =>
      if f2.name == f.name && f2.arguments.length == f.arguments.length then
        sameArgumentTypes f f2
      else found)
    false

/-- One round of the loop over the functions of the template (metabuilder.cpp
7111-7314). `funcs` is the function list of the subclass as it is at that
moment. The code snippets of a modification are not kept. -/
def inheritFunctionsStep (env : InheritEnv) (fuel : Nat) (ctx : InheritContext)
    (subclass : MetaClass) (function : MetaFunction) : Option MetaClass :=
  if env.isModifiedRemoved function || isStaticMember function.attributes then some subclass
  else
    match inheritFunction env fuel ctx subclass function with
    | none => none
    | some none => some subclass
    | some (some f) =>
      -- if the instantiation has a function named the same as an existing
      -- function we have shadowing so we need to skip it.
      if isShadowed subclass.functions f then some subclass
      else
        let mods := modifications env.traverse function ctx.hidden_base_class
        let subclass :=
          mods.foldl
            (fun (te : MetaClass) mod =>
              te.addFunctionModification
                { mod with signature := env.traverse.minimalSignature f })
            subclass
        some (subclass.addFunction f)

/-- The loop over the functions of the template. -/
def inheritFunctions (env : InheritEnv) (fuel : Nat) (ctx : InheritContext) :
    List MetaFunction → MetaClass → Option MetaClass
  | [], subclass => some subclass
  | function :: rest, subclass =>
    match inheritFunctionsStep env fuel ctx subclass function with
    | none => none
    | some subclass => inheritFunctions env fuel ctx rest subclass

/-- One round of the loop over the fields of the template (metabuilder.cpp
7317-7395). -/
def inheritFieldsStep (env : InheritEnv) (fuel : Nat) (ctx : InheritContext)
    (subclass : MetaClass) (field : MetaField) : Option MetaClass :=
  if isStaticMember field.attributes then some subclass
  else
    match inheritMemberType env fuel ctx field.type with
    | none => none
    | some none => some subclass
    | some (some type) =>
      let f := { field with type := type }
      if subclass.fields.any (fun f2 => f2.name == f.name) then some subclass
      else some { subclass with fields := subclass.fields ++ [f] }

/-- The loop over the fields of the template. -/
def inheritFields (env : InheritEnv) (fuel : Nat) (ctx : InheritContext) :
    List MetaField → MetaClass → Option MetaClass
  | [], subclass => some subclass
  | field :: rest, subclass =>
    match inheritFieldsStep env fuel ctx subclass field with
    | none => none
    | some subclass => inheritFields env fuel ctx rest subclass

/-- The loops of `inheritHiddenBaseType` over the functions `functions` and the
fields `fields` of the template (metabuilder.cpp 7110-7395). -/
def inheritMembers (env : InheritEnv) (fuel : Nat) (ctx : InheritContext)
    (functions : List MetaFunction) (fields : List MetaField) (subclass : MetaClass) :
    Option MetaClass :=
  match inheritFunctions env fuel ctx functions subclass with
  | none => none
  | some subclass => inheritFields env fuel ctx fields subclass

/-- Modelled from the spec: `MetaClassList::findClass`, the first class of the
list with the given qualified C++ name or name. -/
def ClassGraph.findClass (g : ClassGraph) (l : List Nat) (name : QString) : Option Nat :=
  l.find? (fun c => (g.cls c).qualifiedCppName == name || (g.cls c).name == name)

/-- `MetaBuilder::instantiateIterator` (metabuilder.cpp 5239-5287): the
iterator class of `targetClass`, made from the iterator template if no class
of that name exists. The new entry is not added to the type database, which is
a fixed function here. -/
def instantiateIterator (env : InheritEnv) (iteratorTypeEntry : TypeEntry) (targetClass : Nat)
    (template_types : List MetaType) (g : ClassGraph) : Option Nat × ClassGraph :=
  match g.m_template_iterators.find? (fun c => (g.cls c).typeEntry == iteratorTypeEntry) with
  | none => (none, g)
  | some iteratorClass =>
    let name := (g.cls targetClass).qualifiedCppName ++ qs "::" ++ iteratorTypeEntry.name
    match (match g.findClass g.m_meta_classes name with
           | some c => some c
           | none => g.findClass g.m_templates name) with
    | some instantiationClass => (some instantiationClass, g)
    | none =>
      let g := g.modifyClass targetClass (fun c =>
        { c with extraIncludes := c.extraIncludes ++ env.iteratorExtraIncludes iteratorTypeEntry })
      let newIteratorTypeEntry := env.cloneIterator iteratorTypeEntry (g.cls targetClass).typeEntry
        (((g.cls targetClass).baseClassNames.head?.map Prod.fst).getD [])
      let it := g.cls iteratorClass
      let r := g.newClass
        { newMetaClass env.registry newIteratorTypeEntry with
          attributes := it.attributes,
          originalAttributes := it.originalAttributes,
          hasEqualsOperator := it.hasEqualsOperator,
          hasHashFunction := it.hasHashFunction,
          hasJustPrivateConstructors := it.hasJustPrivateConstructors,
          hasPrivateDestructor := it.hasPrivateDestructor,
          hasVirtualDestructor := it.hasVirtualDestructor,
          unimplementablePureVirtualFunctions := it.unimplementablePureVirtualFunctions,
          hasPublicDestructor := it.hasPublicDestructor,
          templateBaseClass := some iteratorClass,
          templateBaseClassInstantiations := template_types }
      let g := r.2.modifyClass targetClass
        (fun c => { c with enclosedClasses := c.enclosedClasses ++ [r.1] })
      (some r.1, addAbstractMetaClass env.registry (some r.1) g)

/-- The containers whose members `inheritHiddenBaseType` does not clone
(metabuilder.cpp 7082-7099). -/
def isPlainContainer (t : TypeEntry) : Bool :=
  t.isContainer
    && (t.containerKind == ContainerKind.ListContainer
        || t.containerKind == ContainerKind.LinkedListContainer
        || t.containerKind == ContainerKind.VectorContainer
        || t.containerKind == ContainerKind.StackContainer
        || t.containerKind == ContainerKind.QueueContainer
        || t.containerKind == ContainerKind.SetContainer
        || t.containerKind == ContainerKind.MapContainer
        || t.containerKind == ContainerKind.HashContainer
        || t.containerKind == ContainerKind.MultiMapContainer
        || t.containerKind == ContainerKind.MultiHashContainer)

/-- The head of `inheritHiddenBaseType` (metabuilder.cpp 7055-7080): the
template base class of the subclass and the interfaces it implements. The
entries of `template_types_by_name` are walked in the order of the template
parameters. -/
def inheritHeader (env : InheritEnv) (hidden_base_class : Nat) (hidden : MetaClass)
    (info : ParserInfo) (template_types : List MetaType) (subclass : MetaClass) : MetaClass :=
  let template_types_by_name :=
    (hidden.templateArguments.zip template_types).take info.template_instantiations.length
  let subclass :=
    if !info.template_instantiations.isEmpty then
      { subclass with
        templateBaseClass := some hidden_base_class,
        templateBaseClassInstantiations := template_types,
        interfaces := hidden.interfaces,
        baseClass := hidden.baseClass }
    else subclass
  if !hidden.implements.isEmpty then
    let implements :=
      template_types_by_name.foldl
        (fun implements ki =>
          if ki.2.typeEntry.isTemplateArgument then
            replace implements (qs "%" ++ ki.1.name) (qs "%" ++ ki.2.typeEntry.qualifiedCppName)
          else
            replace implements (qs "%" ++ ki.1.name)
              (env.traverse.qualifiedTargetLangName ki.2.typeEntry))
        hidden.implements
    if subclass.implements.isEmpty then { subclass with implements := implements }
    else { subclass with implements := subclass.implements ++ qs ", " ++ implements }
  else subclass

/-- Modelled from the spec: `MetaType::isPrimitive`, the usage pattern
`PrimitivePattern`. -/
def MetaType.isPrimitive (m : MetaType) : Bool :=
  m.typeUsagePattern == TypeUsagePattern.PrimitivePattern

/-- The tail of `inheritHiddenBaseType` (metabuilder.cpp 7397-7428): the
private renaming of `pop`, `lastKey` and `firstKey` for primitive
instantiations, of which only the signature and the renaming are kept, and the
flags of the constructors and the destructor. -/
def inheritTail (env : InheritEnv) (hidden : MetaClass) (template_types : List MetaType)
    (subclass : MetaClass) : MetaClass :=
  let name := hidden.typeEntry.qualifiedCppName
  let subclass :=
    if name == qs "QStack" && (template_types.head?.map MetaType.isPrimitive) == some true then
      subclass.addFunctionModification
        { signature := env.traverse.normalizedSignature (qs "pop()"), isRenameModifier := true }
    else if (name == qs "QMap" || name == qs "QMultiMap" || name == qs "QHash"
              || name == qs "QMultiHash") && template_types.length > 1 then
      if (template_types.head?.map MetaType.isPrimitive) == some true
          && (name == qs "QMap" || name == qs "QMultiMap") then
        (subclass.addFunctionModification
          { signature := env.traverse.normalizedSignature (qs "lastKey() const"),
            isRenameModifier := true }).addFunctionModification
          { signature := env.traverse.normalizedSignature (qs "firstKey() const"),
            isRenameModifier := true }
      else subclass
    else subclass
  { subclass with
    hasJustPrivateConstructors := hidden.hasJustPrivateConstructors,
    hasPublicDestructor := hidden.hasPublicDestructor,
    hasVirtualDestructor := hidden.hasVirtualDestructor,
    hasPrivateDestructor := hidden.hasPrivateDestructor }

/-- `MetaBuilder::inheritHiddenBaseType` (metabuilder.cpp 7020-7430) for a
template `hidden_base_class` that is another class than `subclass`: the value
returned and the classes after the call, or `none` when the fuel of
`inheritTemplateType` has run out. -/
def inheritHiddenBaseType (env : InheritEnv) (fuel : Nat) (subclass hidden_base_class : Nat)
    (info : ParserInfo) (g : ClassGraph) : Option (Bool × ClassGraph) :=
  let hidden := g.cls hidden_base_class
  let template_types :=
    templateTypesOf env (g.m_templates.contains subclass) (g.cls subclass) hidden 0
      info.template_instantiations []
  let g := g.modifyClass subclass (inheritHeader env hidden_base_class hidden info template_types)
  if isPlainContainer hidden.typeEntry then some (true, g)
  else
    let iteratorTypeEntry := env.findIteratorType hidden.typeEntry
    let r :=
      match iteratorTypeEntry with
      | some entry => instantiateIterator env entry subclass template_types g
      | none => (none, g)
    let g := r.2
    let ctx : InheritContext :=
      { hidden_base_class := hidden, info := info, template_types := template_types,
        iteratorTypeEntry := iteratorTypeEntry,
        newIteratorEntry := r.1.map (fun c => (g.cls c).typeEntry) }
    match inheritMembers env fuel ctx hidden.functions hidden.fields (g.cls subclass) with
    | none => none
    | some sub =>
      some (true, g.modifyClass subclass (fun _ => inheritTail env hidden template_types sub))

/-! ### Sample template for the hidden base class -/

/-- The entry of the primitive type `double`. -/
def sampleDouble : TypeEntry :=
  { type := TypeEntryType.PrimitiveType, name := qs "double", qualifiedCppName := qs "double" }

/-- The entry of `void`. -/
def sampleVoid : TypeEntry :=
  { type := TypeEntryType.VoidType, name := qs "void", qualifiedCppName := qs "void" }

/-- An environment whose database knows `int`, `double` and `void`; no
function is removed and no template has an iterator. -/
def sampleInheritEnv : InheritEnv :=
  { traverse :=
      { sampleTraverseEnv with
        translate :=
          { sampleEnv with
            findType := fun n =>
              if n == qs "int" then some sampleInt
              else if n == qs "double" then some sampleDouble
              else if n == qs "void" then some sampleVoid
              else none } },
    registry := sampleRegistryEnv,
    findIteratorType := fun _ => none,
    isModifiedRemoved := fun _ => false,
    instantiatedTemplateArgument := fun _ _ t => t,
    cloneIterator := fun entry _ _ => entry,
    iteratorExtraIncludes := fun _ => [] }

/-- The use `T` of the template parameter. -/
def sampleTUse : MetaType :=
  { MetaType.fresh sampleT with typeUsagePattern := TypeUsagePattern.TemplateArgumentPattern }

/-- The type `int`. -/
def sampleIntType : MetaType := decideUsagePattern (MetaType.fresh sampleInt)

/-- The type `double`. -/
def sampleDoubleType : MetaType := decideUsagePattern (MetaType.fresh sampleDouble)

/-- The function `int size()`. -/
def sampleSize : MetaFunction := { name := qs "size", type := some sampleIntType }

/-- The function `T get()`. -/
def sampleGet : MetaFunction := { name := qs "get", type := some sampleTUse }

/-- The function `void set(T t)`. -/
def sampleSet : MetaFunction :=
  { name := qs "set", arguments := [{ name := qs "t", type := sampleTUse }] }

/-- The function `void clear()`. -/
def sampleClear : MetaFunction := { name := qs "clear" }

/-- The class template `template<class T> class Box` with the functions
`size`, `get`, `set` and `clear` and the fields `count` and `item`. -/
def sampleBoxTemplate : MetaClass :=
  { name := qs "Box", qualifiedCppName := qs "Box", simpleName := qs "Box",
    typeEntry := { type := TypeEntryType.ObjectType, name := qs "Box",
                   qualifiedCppName := qs "Box", isTemplate := true },
    templateArguments := [sampleT],
    functions := [sampleSize, sampleGet, sampleSet, sampleClear],
    fields := [{ name := qs "count", type := sampleIntType },
               { name := qs "item", type := sampleTUse }] }

/-- A class without members of its own whose base-class name is the given
instantiation of `Box`. -/
def sampleBoxSubclass (name base : QString) (functions : List MetaFunction) : MetaClass :=
  { name := name, qualifiedCppName := name, simpleName := name,
    typeEntry := { type := TypeEntryType.ObjectType, name := name, qualifiedCppName := name },
    baseClassNames := [(base, true)], functions := functions }

/-- The base-class name `Box<arg>` as parsed. -/
def sampleBoxInfo (arg : QString) : ParserInfo :=
  { plainInfo [qs "Box"] with template_instantiations := [plainInfo [arg]] }

/-- The classes `Box` (a template) and a subclass of an instantiation of it. -/
def sampleBoxGraph (subclass : MetaClass) : ClassGraph :=
  { classes := [sampleBoxTemplate, subclass], m_templates := [0], m_meta_classes := [1] }

/-- The function `void set(int t)`. -/
def sampleSetInt : MetaFunction :=
  { name := qs "set", arguments := [{ name := qs "t", type := sampleIntType }] }

/-- The function `void set(double t)`. -/
def sampleSetDouble : MetaFunction :=
  { name := qs "set", arguments := [{ name := qs "t", type := sampleDoubleType }] }

/-- The signatures of the functions and the names of the fields of the class
with index `i`, if the call has returned. -/
def membersOf (r : Option (Bool × ClassGraph)) (i : Nat) :
    Option (List QString × List QString) :=
  r.map (fun p =>
    ((p.2.cls i).functions.map sampleTraverseEnv.signature,
      (p.2.cls i).fields.map (fun f => f.name)))

/-- The context of the members of `Box` for the base-class name `Box<arg>`,
with the instantiation arguments that `inheritHiddenBaseType` makes for it. -/
def sampleBoxContext (arg : QString) : InheritContext :=
  { hidden_base_class := sampleBoxTemplate, info := sampleBoxInfo arg,
    template_types :=
      templateTypesOf sampleInheritEnv false (sampleBoxSubclass (qs "Sub") [] [])
        sampleBoxTemplate 0 (sampleBoxInfo arg).template_instantiations [] }

/-- The signatures of the functions and the names of the fields of a class. -/
def memberNames (c : MetaClass) : List QString × List QString :=
  (c.functions.map sampleTraverseEnv.signature, c.fields.map (fun f => f.name))

/-! ## Inheritance -/

/-- The outcome of a call of `setupInheritance` or of a part of it: the value
it returns, or no return because `translateType` or `inheritTemplateType` has
run out of its fuel, or no return because the recursion of `setupInheritance`
itself has run out of fuel. -/
inductive Setup (α : Type) where
  | returned (a : α)
  | calleeOutOfFuel
  | outOfFuel

/-- What follows a call that has returned. -/
def Setup.bind {α β : Type} (r : Setup α) (f : α → Setup β) : Setup β :=
  match r with
  | Setup.returned a => f a
  | Setup.calleeOutOfFuel => Setup.calleeOutOfFuel
  | Setup.outOfFuel => Setup.outOfFuel

/-- The shape of `setupInheritance` as its own callee: the class and the
classes of the builder; the result holds the value returned. -/
abbrev SetupFn := Nat → ClassGraph → Setup (Bool × ClassGraph)

/-- Modelled from the spec: what `setupInheritance` asks of code that is not
among the sources, besides what `inheritHiddenBaseType` asks:
`MetaClass::fullName` and `InterfaceTypeEntry::implName`. -/
structure SetupEnv where
  inherit : InheritEnv
  fullName : MetaClass → QString
  implName : QString → QString

/-- The environment of `translateType` on the classes of the builder. -/
def SetupEnv.translateEnv (env : SetupEnv) (g : ClassGraph) : TranslateEnv :=
  { env.inherit.traverse.translate with
    m_current_class := g.m_current_class.map g.cls,
    m_current_function := none,
    metaFindClass := fun name => (g.findClass g.m_meta_classes name).map g.cls,
    classesFindQualified := fun name =>
      (g.m_meta_classes.find? (fun c => (g.cls c).qualifiedCppName == name)).map g.cls }

/-- `meta_class->addInterface(iface)` unless `interfaces()` contains it. -/
def addInterface (meta_class iface : Nat) (g : ClassGraph) : ClassGraph :=
  if (g.cls meta_class).interfaces.contains iface then g
  else g.modifyClass meta_class (fun c => { c with interfaces := c.interfaces ++ [iface] })

/-- The interface of the class takes the interface of the base class as its
interface, when the entries of both classes have a designated interface and
both classes have their interface class (metabuilder.cpp 5169-5175,
5223-5230). -/
def linkInterfaces (env : SetupEnv) (meta_class base_class : Nat) (g : ClassGraph) : ClassGraph :=
  if (env.inherit.registry.designatedInterface (g.cls meta_class).typeEntry).isSome
      && (env.inherit.registry.designatedInterface (g.cls base_class).typeEntry).isSome then
    match (g.cls meta_class).extractInterface, (g.cls base_class).extractInterface with
    | some iface, some baseIface => addInterface iface baseIface g
    | _, _ => g
  else g

/-- The branch of `setupInheritance` for the instantiation of a template
(metabuilder.cpp 4941-4949). -/
def setupTemplateBase (env : SetupEnv) (typeFuel : Nat) (self : SetupFn)
    (meta_class templateBaseClass : Nat) (g : ClassGraph) : Setup (Bool × ClassGraph) :=
  (self templateBaseClass g).bind (fun r =>
    let g := r.2
    let info := env.inherit.traverse.translate.parse (g.cls meta_class).qualifiedCppName
    let old_current_class := g.m_current_class
    match inheritHiddenBaseType env.inherit typeFuel meta_class templateBaseClass info
        { g with m_current_class := some meta_class } with
    | none => Setup.calleeOutOfFuel
    | some r => Setup.returned (true, { r.2 with m_current_class := old_current_class }))

/-- The type of the alias class `meta_class` from that of the class `cls` it
is an alias of (metabuilder.cpp 4968-4981). -/
def aliasedType (typeAliasType clsType : MetaType) : MetaType :=
  let newTypeAliasType := clsType
  let newTypeAliasType :=
    if newTypeAliasType.indirections.isEmpty
        && newTypeAliasType.referenceType == ReferenceType.NoReference
        && !newTypeAliasType.typeEntry.isPrimitive then
      newTypeAliasType.setReferenceType typeAliasType.referenceType
    else newTypeAliasType
  let newTypeAliasType :=
    newTypeAliasType.setIndirections (newTypeAliasType.indirections ++ typeAliasType.indirections)
  let newTypeAliasType :=
    if (!newTypeAliasType.typeEntry.isPrimitive || !newTypeAliasType.indirections.isEmpty)
        && typeAliasType.constant then
      newTypeAliasType.setConstant true
    else newTypeAliasType
  decideUsagePattern newTypeAliasType

/-- The part of `setupInheritance` for a class that is a type alias
(metabuilder.cpp 4963-4984). -/
def setupTypeAlias (self : SetupFn) (meta_class : Nat) (publicBaseClasses : List QString)
    (g : ClassGraph) : Setup ClassGraph :=
  match (if publicBaseClasses.isEmpty then (g.cls meta_class).typeAliasType else none) with
  | none => Setup.returned g
  | some typeAliasType =>
    match (if typeAliasType.typeEntry.isAlias then
             g.findClass g.m_meta_classes typeAliasType.typeEntry.qualifiedCppName
           else none) with
    | none => Setup.returned g
    | some cls =>
      (self cls g).bind (fun r =>
        match (r.2.cls cls).typeAliasType with
        | some clsType =>
          Setup.returned (r.2.modifyClass meta_class
            (fun c => { c with typeAliasType := some (aliasedType typeAliasType clsType) }))
        | none => Setup.returned r.2)

/-- The text `scope.mid(0, i).join("::") + "::"` for `i > 0`, the empty text
for `i = 0`. -/
def scopePrefix (scope : List QString) (i : Nat) : QString :=
  if i > 0 then join (qs "::") (scope.take i) ++ qs "::" else []

/-- The template of a base-class name (metabuilder.cpp 4999-5008): the first
class of `m_templates` whose entry has the name, otherwise the class that
`m_meta_classes.findClass` finds. -/
def findTemplate (g : ClassGraph) (base_name : QString) : Option Nat :=
  match g.m_templates.find? (fun c => (g.cls c).typeEntry.name == base_name) with
  | some templ => some templ
  | none => g.findClass g.m_meta_classes base_name

/-- The loop over the scopes for a class with one public base class that is a
template instantiation (metabuilder.cpp 4989-5021); the list holds the values
of `i`, from `scope.size()` down to 0. The comparison of the Qt version with
6.0.0 is that of the major version with 6. -/
def setupSingleTemplateBase (env : SetupEnv) (typeFuel : Nat) (self : SetupFn)
    (meta_class : Nat) (base : QString) (scope : List QString) :
    List Nat → ClassGraph → Setup (Bool × ClassGraph)
  | [], g =>
    Setup.returned (false,
      g.warn (qs "template baseclass '" ++ base ++ qs "' of '" ++ (g.cls meta_class).name
        ++ qs "' is not known"))
  | i :: rest, g =>
    let complete_name := scopePrefix scope i ++ base
    let info := env.inherit.traverse.translate.parse complete_name
    let base_name := join (qs "::") info.qualified_name
    let base_name :=
      if env.inherit.registry.m_qtVersionMajor ≥ 6 && base_name == qs "QVector" then qs "QList"
      else base_name
    match findTemplate g base_name with
    | some templ =>
      (self templ g).bind (fun r =>
        match inheritHiddenBaseType env.inherit typeFuel meta_class templ info r.2 with
        | none => Setup.calleeOutOfFuel
        | some r => Setup.returned (true, r.2))
    | none => setupSingleTemplateBase env typeFuel self meta_class base scope rest g

/-- The inner loop that replaces a base-class name by its name in one of the
scopes of the class (metabuilder.cpp 5024-5035): the list holds the values of
`l`, and every round reads the name as the rounds before have left it. -/
def resolveBaseInScope (env : SetupEnv) (scope : List QString) : List Nat → QString → QString
  | [], name => name
  | l :: rest, name =>
    let complete_name := scopePrefix scope l ++ name
    let info := env.inherit.traverse.translate.parse complete_name
    let base_name := join (qs "::") info.qualified_name
    if (env.inherit.traverse.translate.findType base_name).isSome then
      resolveBaseInScope env scope rest base_name
    else resolveBaseInScope env scope rest name

/-- The descriptor of a pointer to a base class, for the delegate function
(metabuilder.cpp 5067-5074, 5125-5132). -/
def delegateTypeInfo (env : SetupEnv) (info : ParserInfo) : TypeInfo :=
  { arrayElements := info.arrays, indirections := [false], isConstant := info.is_constant,
    isFunctionPointer := false,
    qualifiedName := [env.inherit.traverse.translate.instantiationName info],
    referenceType := info.reference_type, isVolatile := info.is_volatile }

/-- The delegate function to a base class (metabuilder.cpp 5077-5088,
5135-5146); `access` is `Public` for a public and `Protected` for a protected
base class. A type that `translateType` has left null stays null. -/
def delegateFunction (meta_class : MetaClass) (type : Option MetaType) (delegate : QString)
    (access : MetaAttribute) : MetaFunction :=
  let f : MetaFunction :=
    { name := delegate, originalName := delegate, type := type.map decideUsagePattern,
      functionType := FunctionType.BaseClassDelegateFunction,
      originalAttributes := [MetaAttribute.Final, MetaAttribute.Protected] }
  let f := ((f.add MetaAttribute.Final).add access).add MetaAttribute.Native
  { f with declaringClass := some meta_class.name, implementingClass := some meta_class.name }

/-- The name `to<Base>` of a delegate function, without a leading `Q` of the
base class. -/
def delegateName (base_name : QString) : QString :=
  if startsWith base_name (qs "Q") then qs "to" ++ mid base_name 1 else qs "to" ++ base_name

/-- What the loop over the public base classes keeps between two rounds
(metabuilder.cpp 5038-5039): `primary` (none for -1), `primaries`, the class
and the messages given to `ReportHandler::warning`. -/
structure PrimaryState where
  primary : Option Nat := none
  primaries : Nat := 0
  meta_class : MetaClass
  warnings : List QString := []

/-- One round of the loop over the public base classes (metabuilder.cpp
5040-5102); `none` when `translateType` has run out of fuel. -/
def primaryStep (env : SetupEnv) (tenv : TranslateEnv) (typeFuel : Nat)
    (publicBaseClasses : List QString) (i : Nat) (base_class_name : QString)
    (st : PrimaryState) : Option PrimaryState :=
  if env.inherit.traverse.translate.isClassRejected base_class_name then some st
  else
    let info := env.inherit.traverse.translate.parse base_class_name
    let base_name := join (qs "::") info.qualified_name
    match env.inherit.traverse.translate.findType base_name with
    | none =>
      some { st with
        warnings := st.warnings ++
          [qs "class '" ++ st.meta_class.name ++ qs "' inherits from unknown base class '"
            ++ base_class_name ++ qs "'"] }
    | some base_class_entry =>
      -- true for primary base class
      if (env.inherit.registry.designatedInterface base_class_entry).isNone
          && !base_class_entry.isInterface then
        if st.primaries > 0 then
          match st.meta_class.delegatedBaseClasses.find? (fun p => p.1 == base_class_name) with
          | some p =>
            let delegate := if p.2.isEmpty then delegateName base_name else p.2
            match translateType tenv typeFuel (delegateTypeInfo env info) true true true with
            | none => none
            | some (type, true) =>
              some { st with
                meta_class :=
                  st.meta_class.addFunction
                    (delegateFunction st.meta_class type delegate MetaAttribute.Public) }
            | some (_, false) => some st
          | none =>
            some { st with
              warnings := st.warnings ++
                [qs "class '" ++ st.meta_class.name
                  ++ qs "' has multiple primary public base classes '"
                  ++ ((st.primary.bind (fun p => publicBaseClasses.get? p)).getD [])
                  ++ qs "' and '" ++ base_class_name ++ qs "'"] }
        else some { st with primaries := st.primaries + 1, primary := some i }
      else some st

/-- The loop over the public base classes (metabuilder.cpp 5040-5102); `i` is
the index of the first name of the list. -/
def primaryLoop (env : SetupEnv) (tenv : TranslateEnv) (typeFuel : Nat)
    (publicBaseClasses : List QString) : Nat → List QString → PrimaryState → Option PrimaryState
  | _, [], st => some st
  | i, base_class_name :: rest, st =>
    match primaryStep env tenv typeFuel publicBaseClasses i base_class_name st with
    | none => none
    | some st => primaryLoop env tenv typeFuel publicBaseClasses (i + 1) rest st

/-- The loop over the protected base classes (metabuilder.cpp 5103-5150). -/
def protectedLoop (env : SetupEnv) (tenv : TranslateEnv) (typeFuel : Nat) :
    List QString → PrimaryState → Option PrimaryState
  | [], st => some st
  | base_class_name :: rest, st =>
    if env.inherit.traverse.translate.isClassRejected base_class_name then
      protectedLoop env tenv typeFuel rest st
    else
      let info := env.inherit.traverse.translate.parse base_class_name
      let base_name := join (qs "::") info.qualified_name
      match env.inherit.traverse.translate.findType base_name with
      | none =>
        protectedLoop env tenv typeFuel rest
          { st with
            warnings := st.warnings ++
              [qs "class '" ++ st.meta_class.name ++ qs "' inherits from unknown base class '"
                ++ base_class_name ++ qs "'"] }
      | some _ =>
        let delegate :=
          match st.meta_class.delegatedBaseClasses.find? (fun p => p.1 == base_class_name) with
          | some p => if !p.2.isEmpty then p.2 else delegateName base_class_name
          | none => delegateName base_class_name
        match translateType tenv typeFuel (delegateTypeInfo env info) true true true with
        | none => none
        | some (type, true) =>
          protectedLoop env tenv typeFuel rest
            { st with
              meta_class :=
                st.meta_class.addFunction
                  (delegateFunction st.meta_class type delegate MetaAttribute.Protected) }
        | some (_, false) => protectedLoop env tenv typeFuel rest st

/-- The part of `setupInheritance` for the primary base class (metabuilder.cpp
5152-5189): the value is false for `return false`. -/
def setupPrimaryBase (env : SetupEnv) (self : SetupFn) (meta_class : Nat)
    (base_class_name : QString) (g : ClassGraph) : Setup (Bool × ClassGraph) :=
  match g.findClass g.m_meta_classes base_class_name with
  | none =>
    Setup.returned (false,
      if !(g.cls meta_class).isTypeAlias then
        g.warn (qs "unknown baseclass for '" ++ (g.cls meta_class).name ++ qs "': '"
          ++ base_class_name ++ qs "'")
      else g)
  | some base_class =>
    ((if (g.cls base_class).typeEntry.isInterface then
        let r := extractInterfaceImpl env.inherit.registry base_class g
        (self r.1 r.2).bind (fun r => Setup.returned (addInterface meta_class base_class r.2))
      else
        (self base_class g).bind (fun r =>
          Setup.returned
            (linkInterfaces env meta_class base_class
              (r.2.modifyClass meta_class (fun c => { c with baseClass := some base_class })))))
      : Setup ClassGraph).bind (fun g =>
        Setup.returned (true,
          match env.inherit.registry.designatedInterface (g.cls meta_class).typeEntry with
          | some designated =>
            if !(g.cls base_class).typeEntry.isInterface then
              g.warn (qs "Interface type '" ++ designated.name ++ qs "' extending object type '"
                ++ (g.cls base_class).name
                ++ qs "'. This is not supported and the generated Java code will not compile.")
            else g
          | none => g))

/-- The interfaces of the implementation class of an interface become
interfaces of the class (metabuilder.cpp 5210-5220). -/
def addInterfacesOf (env : SetupEnv) (meta_class base_class : Nat) :
    List Nat → ClassGraph → ClassGraph
  | [], g => g
  | iface :: rest, g =>
    if (g.cls iface).typeEntry.isInterface then
      addInterfacesOf env meta_class base_class rest (addInterface meta_class iface g)
    else
      addInterfacesOf env meta_class base_class rest
        (g.warn (qs "inherited interface '" ++ env.fullName (g.cls base_class)
          ++ qs "' for class '" ++ (g.cls meta_class).name
          ++ qs "' is not an interface type: '" ++ env.fullName (g.cls iface) ++ qs "'"))

/-- The loop over the public base classes other than the primary one
(metabuilder.cpp 5191-5234); `i` is the index of the first name of the list. -/
def setupOtherBases (env : SetupEnv) (self : SetupFn) (meta_class : Nat)
    (primary : Option Nat) : Nat → List QString → ClassGraph → Setup ClassGraph
  | _, [], g => Setup.returned g
  | i, base_class_name :: rest, g =>
    if env.inherit.traverse.translate.isClassRejected base_class_name then
      setupOtherBases env self meta_class primary (i + 1) rest g
    else if primary == some i then setupOtherBases env self meta_class primary (i + 1) rest g
    else
      match g.m_meta_classes.find? (fun c => (g.cls c).qualifiedCppName == base_class_name) with
      | none => setupOtherBases env self meta_class primary (i + 1) rest g
      | some base_class =>
        if (g.cls base_class).typeEntry.isInterface then
          let r := extractInterfaceImpl env.inherit.registry base_class g
          (self r.1 r.2).bind (fun r =>
            let g := addInterface meta_class base_class r.2
            let impl_name :=
              replace (env.implName (env.fullName (g.cls base_class))) (qs "::") (qs "$")
            match g.m_meta_classes.find? (fun c => env.fullName (g.cls c) == impl_name) with
            | none =>
              setupOtherBases env self meta_class primary (i + 1) rest
                (g.warn (qs "unknown implementation for interface '" ++ (g.cls meta_class).name
                  ++ qs "': '" ++ impl_name ++ qs "'"))
            | some ifaceImpl =>
              setupOtherBases env self meta_class primary (i + 1) rest
                (addInterfacesOf env meta_class base_class (g.cls ifaceImpl).interfaces g))
        else
          (self base_class g).bind (fun r =>
            setupOtherBases env self meta_class primary (i + 1) rest
              (linkInterfaces env meta_class base_class r.2))

/-- The values of the loops `for (i = scope.size(); i >= 0; --i)`. -/
def scopeLevels (scope : List QString) : List Nat := (List.range (scope.length + 1)).reverse

/-- The part of `setupInheritance` from the primary base class on
(metabuilder.cpp 5038-5236). The two loops over the base classes write only
to the class itself, so `translateType` reads the classes as they are before
the loops. -/
def setupBases (env : SetupEnv) (typeFuel : Nat) (self : SetupFn) (meta_class : Nat)
    (publicBaseClasses protectedBaseClasses : List QString) (g : ClassGraph) :
    Setup (Bool × ClassGraph) :=
  match primaryLoop env (env.translateEnv g) typeFuel publicBaseClasses 0 publicBaseClasses
      { meta_class := g.cls meta_class } with
  | none => Setup.calleeOutOfFuel
  | some st =>
    match protectedLoop env (env.translateEnv g) typeFuel protectedBaseClasses st with
    | none => Setup.calleeOutOfFuel
    | some st1 =>
      let g := g.modifyClass meta_class (fun _ => st1.meta_class)
      let g := { g with warnings := g.warnings ++ st1.warnings }
      ((match st.primary.bind (fun p => publicBaseClasses.get? p) with
        | some base_class_name => setupPrimaryBase env self meta_class base_class_name g
        | none => Setup.returned (true, g)) : Setup (Bool × ClassGraph)).bind (fun r =>
          if r.1 then
            (setupOtherBases env self meta_class st.primary 0 publicBaseClasses r.2).bind
              (fun g => Setup.returned (true, g))
          else Setup.returned (false, r.2))

/-- `MetaBuilder::setupInheritance` after the class has been put into
`m_setup_inheritance_done` (metabuilder.cpp 4941-5236). -/
def setupInheritanceBody (env : SetupEnv) (typeFuel : Nat) (self : SetupFn) (meta_class : Nat)
    (g : ClassGraph) : Setup (Bool × ClassGraph) :=
  match (if endsWith (g.cls meta_class).qualifiedCppName (qs ">") then
           (g.cls meta_class).templateBaseClass else none) with
  | some templateBaseClass => setupTemplateBase env typeFuel self meta_class templateBaseClass g
  | none =>
    let publicBaseClasses :=
      ((g.cls meta_class).baseClassNames.filter (fun p => p.2)).map (fun p => p.1)
    let protectedBaseClasses :=
      ((g.cls meta_class).baseClassNames.filter (fun p => !p.2)).map (fun p => p.1)
    (setupTypeAlias self meta_class publicBaseClasses g).bind (fun g =>
      let scope := (splitBy (g.cls meta_class).typeEntry.qualifiedCppName (qs "::")).dropLast
      -- we only support our own containers and ONLY if there is only one baseclass
      match (if publicBaseClasses.length == 1 then
               publicBaseClasses.head?.filter (fun b => (b.filter (fun ch => ch == '<')).length == 1)
             else none) with
      | some base =>
        setupSingleTemplateBase env typeFuel self meta_class base scope (scopeLevels scope) g
      | none =>
        let publicBaseClasses :=
          if !scope.isEmpty then
            publicBaseClasses.map (resolveBaseInScope env scope (scopeLevels scope))
          else publicBaseClasses
        setupBases env typeFuel self meta_class publicBaseClasses protectedBaseClasses g)

/-- `MetaBuilder::setupInheritance` (metabuilder.cpp 4934-5236), with fuel for
its recursion and `typeFuel` for `translateType` and `inheritTemplateType`.
`m_setup_inheritance_done` is kept in the order of insertion. -/
def setupInheritance (env : SetupEnv) (typeFuel : Nat) : Nat → SetupFn
  | 0 => fun _ _ => Setup.outOfFuel
  | fuel + 1 => fun meta_class g =>
    if g.m_setup_inheritance_done.contains meta_class then Setup.returned (true, g)
    else
      setupInheritanceBody env typeFuel (setupInheritance env typeFuel fuel) meta_class
        { g with m_setup_inheritance_done := g.m_setup_inheritance_done ++ [meta_class] }

/-! ### The primary base class in the words of the specification -/

/-- A candidate for the primary base class in the words of the specification:
a public base class that is not rejected, whose type entry exists, and whose
entry is neither an interface nor has a designated interface. -/
def isPrimaryCandidate (env : SetupEnv) (base_class_name : QString) : Bool :=
  !env.inherit.traverse.translate.isClassRejected base_class_name
    && (match env.inherit.traverse.translate.findType
          (join (qs "::") (env.inherit.traverse.translate.parse base_class_name).qualified_name)
        with
        | some base_class_entry =>
          (env.inherit.registry.designatedInterface base_class_entry).isNone
            && !base_class_entry.isInterface
        | none => false)

/-- The primary base class in the words of the specification: the first public
base class, in the order of declaration, that is not rejected, whose type
entry exists and whose entry is neither an interface nor has a designated
interface; `i` is the index of the first name of the list. -/
def firstPrimaryBase (env : SetupEnv) : Nat → List QString → Option Nat
  | _, [] => none
  | i, base_class_name :: rest =>
    if isPrimaryCandidate env base_class_name then some i
    else firstPrimaryBase env (i + 1) rest

/-! ### The measure of the recursion of `setupInheritance` -/

namespace ClassGraph

/-- The number of classes of the arena that are not in
`m_setup_inheritance_done`. -/
def pending (g : ClassGraph) : Nat :=
  (List.range g.classes.length).countP (fun i => !g.m_setup_inheritance_done.contains i)

/-- The number of interfaces of the arena for which `extractInterfaceImpl` has
not made the implementation class yet. -/
def openInterfaces (g : ClassGraph) : Nat :=
  g.classes.countP (fun c => c.typeEntry.isInterface && c.interfaceImpl.isNone)

/-- The measure of the recursion of `setupInheritance`: the classes not set up
yet and the implementation classes not made yet. -/
def potential (g : ClassGraph) : Nat := g.pending + g.openInterfaces

/-- What a step of the inheritance set-up may do to the measure and to the set
of classes set up: the measure grows by at most `slack`, and the classes set
up before stay set up, each once if they were so before. -/
def Reach (slack : Nat) (g g1 : ClassGraph) : Prop :=
  g1.potential ≤ g.potential + slack
    ∧ (g.m_setup_inheritance_done.Nodup → g1.m_setup_inheritance_done.Nodup)
    ∧ ∀ i, i ∈ g.m_setup_inheritance_done → i ∈ g1.m_setup_inheritance_done

end ClassGraph

/-- The outcome `r` is not that the recursion has run out of fuel, and the
classes it returns are within `slack` of `g`. -/
def Setup.Within {α : Type} (g : ClassGraph) (slack : Nat) (r : Setup α)
    (classes : α → ClassGraph) : Prop :=
  r ≠ Setup.outOfFuel ∧ ∀ a, r = Setup.returned a → g.Reach slack (classes a)

/-- The callee `self` returns on all classes whose measure is at most `bound`,
without raising the measure. -/
def GoodSelf (self : SetupFn) (bound : Nat) : Prop :=
  ∀ (k : Nat) (g : ClassGraph), g.potential ≤ bound →
    Setup.Within g 0 (self k g) (fun r => r.2)

/-! ### Sample classes for the inheritance set-up -/

/-- The value returned, if the call has returned. -/
def Setup.value {α : Type} : Setup α → Option α
  | Setup.returned a => some a
  | _ => none

/-- A parser for the texts of the samples that also reads a pointer `T*`. -/
def samplePointerParse (s : QString) : ParserInfo :=
  if endsWith s (qs "*") then { sampleParse s.dropLast with indirections := [false] }
  else sampleParse s

/-- An environment whose database knows the object types `A`, `B` and `C` and
the interface type `I`; the implementation class of an interface is an object
class, and the clone of an iterator entry is an iterator entry. -/
def sampleSetupEnv : SetupEnv :=
  { inherit :=
      { sampleInheritEnv with
        traverse :=
          { sampleTraverseEnv with
            translate :=
              { sampleEnv with
                parse := samplePointerParse,
                findType := fun n =>
                  if n == qs "A" || n == qs "B" || n == qs "C" then
                    some { type := TypeEntryType.ObjectType, name := n, qualifiedCppName := n }
                  else if n == qs "I" then
                    some { type := TypeEntryType.InterfaceType, name := n, qualifiedCppName := n }
                  else none } },
        registry :=
          { sampleRegistryEnv with
            interfaceImpl := fun c =>
              { c with typeEntry := { c.typeEntry with type := TypeEntryType.ObjectType } } },
        cloneIterator := fun entry _ _ => { entry with type := TypeEntryType.IteratorType } },
    fullName := fun c => c.name,
    implName := fun n => n }

/-- The classes `A` and `B`, each with the other as its public base class. -/
def sampleCycleGraph : ClassGraph :=
  { classes := [sampleClassA, sampleClassB], m_meta_classes := [0, 1] }

/-- What the witness reads of a call that has returned: the value, the classes
set up in the order of their set-up, and the base classes of the first two
classes. -/
def setupSummary (r : Setup (Bool × ClassGraph)) :
    Option (Bool × List Nat × Option Nat × Option Nat) :=
  r.value.map (fun p =>
    (p.1, p.2.m_setup_inheritance_done, (p.2.cls 0).baseClass, (p.2.cls 1).baseClass))

/-- The public base classes of the class `D`, in the order of declaration:
the interface `I`, the unknown class `U` and the object types `A`, `B` and
`C`. -/
def sampleBases : List QString := [qs "I", qs "U", qs "A", qs "B", qs "C"]

/-- The class `D` with the public base classes `I`, `U`, `A`, `B` and `C`, of
which `B` is a delegated base class. -/
def sampleClassD : MetaClass :=
  { name := qs "D", qualifiedCppName := qs "D",
    baseClassNames := sampleBases.map (fun n => (n, true)),
    delegatedBaseClasses := [(qs "B", [])] }

/-- The classes `A`, `B`, `C` and `D`. -/
def sampleDelegateGraph : ClassGraph :=
  { classes := [{ name := qs "A", qualifiedCppName := qs "A" },
                { name := qs "B", qualifiedCppName := qs "B" },
                { name := qs "C", qualifiedCppName := qs "C" }, sampleClassD],
    m_meta_classes := [0, 1, 2, 3] }

/-- What the witness reads of the state after the loop over the public base
classes: `primary`, `primaries` and the names of the functions of the class
that are delegate functions to a base class. -/
def primarySummary (r : Option PrimaryState) : Option (Option Nat × Nat × List QString) :=
  r.map (fun st =>
    (st.primary, st.primaries,
      (st.meta_class.functions.filter
        (fun f => f.functionType == FunctionType.BaseClassDelegateFunction)).map
        (fun f => f.name)))

/-- The warnings of the state after the loop over the public base classes. -/
def primaryWarnings (r : Option PrimaryState) : Option (List QString) :=
  r.map (fun st => st.warnings)

/-- The base class of the class with index `i`, if the call has returned. -/
def setupBaseClass (r : Setup (Bool × ClassGraph)) (i : Nat) : Option (Option Nat) :=
  r.value.map (fun p => (p.2.cls i).baseClass)

/-! ### The text of a cast -/

/-- The text `static_cast<T>(e)`. -/
def staticCastOf (T e : QString) : QString :=
  qs "static_cast<" ++ T ++ qs ">(" ++ e ++ qs ")"

/-- The name under which `traverseClass` looks a class up (metabuilder.cpp
4170-4176): the name without template arguments, after the qualified name of
the entry of the current class for an inner class. -/
def fullClassName (g : ClassGraph) (class_item : ClassModelItem) : QString :=
  match g.m_current_class with
  | some cur =>
    strip_template_args (g.cls cur).typeEntry.qualifiedCppName ++ qs "::"
      ++ strip_template_args class_item.name
  | none => strip_template_args class_item.name

/-- The entry of a class as `traverseClass` uses it (metabuilder.cpp
4178-4189): the complex entry of the name, replaced by the entry of `QString`,
`QVariant` or `QChar` and then by its designated interface, if there are
any. -/
def classEntry (env : RegistryEnv) (full_class_name : QString) : Option TypeEntry :=
  let type :=
    match env.findComplexType full_class_name with
    | some t =>
      if t.isQString && env.qstringType.isSome then env.qstringType
      else if t.isVariant && env.qvariantType.isSome then env.qvariantType
      else if t.isChar && env.qcharType.isSome then env.qcharType
      else some t
    | none => none
  match type with
  | some t => (match env.designatedInterface t with | some d => some d | none => some t)
  | none => none

/-- The reject reason in the words of the specification: `GenerationDisabled`
if the database rejects the class name or its entry generates nothing,
`RedefinedToNotClass` if the name maps to an entry that is not complex,
`IsPrivate` if there is no entry and the class is private, in the namespace
`QtPrivate` or from a file ending in `_p.h`, and `NotInTypeSystem` otherwise;
`NoReason` for a class that is not rejected. -/
def specRejectReason (env : RegistryEnv) (accessPolicy : AccessPolicy) (fileName : QString)
    (full_class_name : QString) : RejectReason :=
  if env.isClassRejected full_class_name
      || (classEntry env full_class_name).any
          (fun t => t.codeGeneration == CodeGeneration.GenerateNothing) then
    RejectReason.GenerationDisabled
  else if (classEntry env full_class_name).isSome then RejectReason.NoReason
  else if (env.findType full_class_name).any (fun te => !te.isComplex) then
    RejectReason.RedefinedToNotClass
  else if accessPolicy == AccessPolicy.Private || startsWith full_class_name (qs "QtPrivate::")
      || endsWith fileName (qs "_p.h") then
    RejectReason.IsPrivate
  else RejectReason.NotInTypeSystem

/-! ### Sample classes for the rejection -/

/-- A type database that rejects the class `Rejected`, has the object entry
`Outer`, the object entry `Silent` that generates nothing and the enum entry
`Color`, and knows no other name. -/
def sampleRejectEnv : RegistryEnv :=
  { sampleRegistryEnv with
    findComplexType := fun name =>
      if name == qs "Outer" || name == qs "Rejected" then
        some { type := TypeEntryType.ObjectType, name := name, qualifiedCppName := name }
      else if name == qs "Silent" then
        some { type := TypeEntryType.ObjectType, name := name, qualifiedCppName := name,
               codeGeneration := CodeGeneration.GenerateNothing }
      else none,
    isClassRejected := fun name => name == qs "Rejected",
    findType := fun name =>
      if name == qs "Color" then
        some { type := TypeEntryType.EnumType, name := name, qualifiedCppName := name }
      else none }

/-- A class of the code model without inner classes, with its name, access
and file. -/
def sampleClassItem (name : QString) (accessPolicy : AccessPolicy) (fileName : QString) :
    ClassModelItem :=
  { name := name, classes := [], accessPolicy := accessPolicy, fileName := fileName }

/-- What the witness reads of a call of `traverseClass`: the class returned
and the log of rejected classes. -/
def rejectSummary (r : Option Nat × ClassGraph) : Option Nat × RejectLog :=
  (r.1, r.2.m_rejected_classes)

/-! ## The fields of a class -/

/-- Modelled from the spec: a variable of the code model
(`VariableModelItem`), with the attributes `traverseField` reads. -/
structure VariableModelItem where
  name : QString
  type : TypeInfo := {}
  accessPolicy : AccessPolicy := AccessPolicy.Public
  isFriend : Bool := false
  isStatic : Bool := false
  isConstExpr : Bool := false
  fileName : QString := []
  deriving DecidableEq, Repr

/-- What `traverseField` writes besides the field it returns: the log
`m_rejected_fields` and the messages given to `ReportHandler::warning`. -/
structure FieldLog where
  m_rejected_fields : RejectLog := []
  warnings : List QString := []
  deriving DecidableEq, Repr

/-- `MetaBuilder::traverseField` (metabuilder.cpp 4479-4534) while
`m_current_class` is the class `m_current_class` and no function is current:
the field returned (none for `nullptr`) and the log after the call, or `none`
when the fuel of `translateType` has run out. The enclosing class of the field
is not kept. -/
def traverseField (env : TraverseEnv) (fuel : Nat) (m_current_class cls : MetaClass)
    (field : VariableModelItem) (log : FieldLog) : Option (Option MetaField × FieldLog) :=
  let field_name := field.name
  let class_name := m_current_class.typeEntry.qualifiedCppName
  -- Ignore friend decl.
  if field.isFriend then some (none, log)
  else if field.accessPolicy == AccessPolicy.Private then some (none, log)
  else if env.isFieldRejected class_name field_name then
    some (none,
      { log with
        m_rejected_fields :=
          log.m_rejected_fields.insert (class_name ++ qs "::" ++ field_name, field.fileName)
            RejectReason.GenerationDisabled })
  else
    let field_type := field.type
    match translateType (env.translate.inFunction m_current_class none) fuel field_type
        true true true with
    | none => none
    | some (some meta_type, true) =>
      let attr : List MetaAttribute := []
      let attr := if field.isConstExpr then addAttribute attr MetaAttribute.ConstExpr else attr
      let attr :=
        if field.isStatic || cls.typeEntry.isNamespace then addAttribute attr MetaAttribute.Static
        else attr
      let attr :=
        if field.accessPolicy == AccessPolicy.Public then addAttribute attr MetaAttribute.Public
        else if field.accessPolicy == AccessPolicy.Protected then
          addAttribute attr MetaAttribute.Protected
        else addAttribute attr MetaAttribute.Private
      some (some { name := field_name, type := meta_type, attributes := attr }, log)
    | some _ =>
      let error :=
        qs "skipping field '" ++ m_current_class.name ++ qs "::" ++ field_name
          ++ qs "' with unmatched type '"
          ++ join (qs "::")
              (env.translate.resolveType field_type
                (env.translate.m_scopes.getLast?.getD {})).qualifiedName
          ++ qs "'"
      some (none, { log with warnings := log.warnings ++ [error] })

/-! ### Sample fields -/

/-- An environment on the sample type database that rejects the field
`Foo::hidden`. -/
def sampleFieldEnv : TraverseEnv :=
  { sampleTraverseEnv with
    isFieldRejected := fun c f => c == qs "Foo" && f == qs "hidden" }

/-- What the witness reads of a call of `traverseField`: the name of the field
returned and the log. -/
def fieldSummary (r : Option (Option MetaField × FieldLog)) :
    Option (Option QString × FieldLog) :=
  r.map (fun p => (p.1.map (fun f => f.name), p.2))

/-! ## Equality and comparison operators -/

/-- Modelled from the spec: the flags of `MetaClass::queryFunctions` that the
set-up of the operators, of the copy constructor and of the iterators uses. -/
inductive FunctionQueryOption
  | ClassImplements | Visible | NotRemovedFromTargetLang | Public | Constructors
  deriving DecidableEq, Repr

/-- The calls of `addFunctionModification` on type entries, in the order in
which they are made: the name of the class whose type entry receives the
modification, and the modification. -/
abbrev ModificationLog := List (Option QString × FunctionModification)

/-- Modelled from the spec: what the set-up of the operators asks of code that
is not among the sources: `MetaClass::queryFunctions`, which reads the
function modifications made so far, `MetaFunction::minimalSignature`,
`MetaFunction::actualMinimumArgumentCount`, and `MetaClass::isInterface` of a
class that a function refers to by name. -/
structure OperatorEnv where
  queryFunctions : MetaClass → List FunctionQueryOption → ModificationLog → List MetaFunction
  minimalSignature : MetaFunction → QString
  actualMinimumArgumentCount : MetaFunction → Nat
  isInterface : Option QString → Bool

/-- `hide_functions` (metabuilder.cpp 7699-7713). -/
def hide_functions (env : OperatorEnv) : List MetaFunction → ModificationLog → ModificationLog
  | [], log => log
  | f :: l, log =>
    if !env.isInterface f.declaringClass && !f.isAbstract
        && startsWith f.name (qs "operator_") then
      let mod : FunctionModification := { signature := env.minimalSignature f }
      let mod :=
        if env.isInterface f.implementingClass then { mod with isFriendly := true }
        else { mod with isPrivate := true }
      hide_functions env l (log ++ [(f.implementingClass, mod)])
    else hide_functions env l log

/-- `remove_function` (metabuilder.cpp 7715-7720). -/
def remove_function (env : OperatorEnv) (f : MetaFunction) (log : ModificationLog) :
    ModificationLog :=
  log ++ [(f.implementingClass,
    { removal := true, removalTargetLang := true, signature := env.minimalSignature f })]

/-- `filter_functions` (metabuilder.cpp 7722-7739): the functions kept, the
set of signatures and the modifications after the call. -/
def filter_functions (env : OperatorEnv) :
    List MetaFunction → List QString → ModificationLog →
      List MetaFunction × List QString × ModificationLog
  | [], signatures, log => ([], signatures, log)
  | f :: lst, signatures, log =>
    if f.wasPrivate then filter_functions env lst signatures log
    else
      let signature := env.minimalSignature f
      let start := indexOfChar signature '(' + 1
      let end_ := lastIndexOfChar signature ')'
      let signature := midN signature start.toNat (end_ - start)
      if signatures.contains signature then
        filter_functions env lst signatures (remove_function env f log)
      else
        let r := filter_functions env lst (signatures ++ [signature]) log
        (f :: r.1, r.2)

/-- The lists `equals` and `nequals` of `setupEquals`. -/
structure EqualsOperators where
  equals : List MetaFunction := []
  nequals : List MetaFunction := []

/-- The loop of `setupEquals` over the functions of the class (metabuilder.cpp
7790-7797). -/
def sortEqualsOperators : List MetaFunction → EqualsOperators → EqualsOperators
  | [], ops => ops
  | f :: functions, ops =>
    sortEqualsOperators functions
      (if f.arguments.length == 1 then
        if f.originalName == qs "operator==" then { ops with equals := ops.equals ++ [f] }
        else if f.originalName == qs "operator!=" then { ops with nequals := ops.nequals ++ [f] }
        else ops
      else ops)

/-- `MetaBuilder::setupEquals` (metabuilder.cpp 7779-7815): the class, the
modifications and the warnings after the call. -/
def setupEquals (env : OperatorEnv) (cls : MetaClass) (log : ModificationLog)
    (warnings : List QString) : MetaClass × ModificationLog × List QString :=
  let functions :=
    env.queryFunctions cls
      [FunctionQueryOption.ClassImplements, FunctionQueryOption.Visible,
        FunctionQueryOption.NotRemovedFromTargetLang] log
  let ops := sortEqualsOperators functions {}
  if !ops.equals.isEmpty || !ops.nequals.isEmpty then
    let warnings :=
      if !cls.hasHashFunction && cls.typeEntry.isValue
          && cls.typeEntry.codeGeneration == CodeGeneration.GenerateAll then
        warnings ++ [qs "Class '" ++ cls.name
          ++ qs "' has equals operators but no qHash() function. Hashcode of objects will consistently be 0."]
      else warnings
    let log := hide_functions env ops.equals log
    let log := hide_functions env ops.nequals log
    let func_signatures : List QString := []
    let r1 := filter_functions env ops.equals func_signatures log
    let r2 := filter_functions env ops.nequals r1.2.1 r1.2.2
    ({ cls with equalsFunctions := r1.1, notEqualsFunctions := r2.1 }, r2.2.2, warnings)
  else (cls, log, warnings)

/-- The five lists of `setupComparable`. -/
structure ComparisonOperators where
  greater : List MetaFunction := []
  greaterEquals : List MetaFunction := []
  less : List MetaFunction := []
  lessEquals : List MetaFunction := []
  compare : List MetaFunction := []

/-- The loop of `setupComparable` over the functions of the class
(metabuilder.cpp 7832-7845). -/
def sortComparisonOperators : List MetaFunction → ComparisonOperators → ComparisonOperators
  | [], ops => ops
  | f :: functions, ops =>
    sortComparisonOperators functions
      (if f.arguments.length == 1 then
        if f.originalName == qs "operator>" then { ops with greater := ops.greater ++ [f] }
        else if f.originalName == qs "operator>=" then
          { ops with greaterEquals := ops.greaterEquals ++ [f] }
        else if f.originalName == qs "operator<" then { ops with less := ops.less ++ [f] }
        else if f.originalName == qs "operator<=" then
          { ops with lessEquals := ops.lessEquals ++ [f] }
        else if f.originalName == qs "operator<=>" then
          { ops with compare := ops.compare ++ [f] }
        else ops
      else ops)

/-- The part of `MetaBuilder::setupComparable` after the loop over the
functions (metabuilder.cpp 7847-7900), given the five lists that the loop has
filled. -/
def setupComparableFrom (env : OperatorEnv) (cls : MetaClass) (log : ModificationLog)
    (ops : ComparisonOperators) : MetaClass × ModificationLog :=
  let greater := ops.greater
  let greaterEquals := ops.greaterEquals
  let less := ops.less
  let lessEquals := ops.lessEquals
  let compare := ops.compare
  let hasEquals := !cls.equalsFunctions.isEmpty || !cls.notEqualsFunctions.isEmpty
  let mightBeComparable :=
    !compare.isEmpty || !greater.isEmpty || !greaterEquals.isEmpty || !less.isEmpty
      || !lessEquals.isEmpty || greaterEquals.length == 1 || lessEquals.length == 1
  if mightBeComparable then
    let signatures : List QString := []
    -- the class, the modifications and `wasComparable`
    let r : MetaClass × ModificationLog × Bool :=
      if !compare.isEmpty then
        let r1 := filter_functions env compare signatures log
        ({ cls with compareFunctions := r1.1 }, r1.2.2, true)
      else if hasEquals && (!greater.isEmpty || !less.isEmpty) then
        let r1 := filter_functions env less signatures log
        let r2 := filter_functions env greater r1.2.1 r1.2.2
        let r3 := filter_functions env greaterEquals r2.2.1 r2.2.2
        let r4 := filter_functions env lessEquals r3.2.1 r3.2.2
        ({ cls with lessThanFunctions := r1.1, greaterThanFunctions := r2.1 }, r4.2.2, true)
      else if hasEquals && (!greaterEquals.isEmpty || !lessEquals.isEmpty) then
        let r1 := filter_functions env lessEquals signatures log
        let r2 := filter_functions env greaterEquals r1.2.1 r1.2.2
        let r3 := filter_functions env less r2.2.1 r2.2.2
        let r4 := filter_functions env greater r3.2.1 r3.2.2
        ({ cls with lessThanEqFunctions := r1.1, greaterThanEqFunctions := r2.1 }, r4.2.2, true)
      else if greaterEquals.length == 1 || lessEquals.length == 1 then
        let r1 := filter_functions env greaterEquals signatures log
        let r2 := filter_functions env lessEquals r1.2.1 r1.2.2
        let r3 := filter_functions env less r2.2.1 r2.2.2
        let r4 := filter_functions env greater r3.2.1 r3.2.2
        ({ cls with greaterThanEqFunctions := r1.1, lessThanEqFunctions := r2.1 }, r4.2.2, true)
      else if greater.length == 1 || less.length == 1 then
        let r1 := filter_functions env greater signatures log
        let r2 := filter_functions env less r1.2.1 r1.2.2
        let r3 := filter_functions env greaterEquals r2.2.1 r2.2.2
        let r4 := filter_functions env lessEquals r3.2.1 r3.2.2
        ({ cls with greaterThanFunctions := r1.1, lessThanFunctions := r2.1 }, r4.2.2, true)
      else (cls, log, false)
    if r.2.2 then
      let log := hide_functions env compare r.2.1
      let log := hide_functions env greater log
      let log := hide_functions env greaterEquals log
      let log := hide_functions env less log
      let log := hide_functions env lessEquals log
      (r.1, log)
    else (r.1, r.2.1)
  else (cls, log)

/-- `MetaBuilder::setupComparable` (metabuilder.cpp 7817-7902): the class and
the modifications after the call. -/
def setupComparable (env : OperatorEnv) (cls : MetaClass) (log : ModificationLog) :
    MetaClass × ModificationLog :=
  let functions :=
    env.queryFunctions cls
      [FunctionQueryOption.ClassImplements, FunctionQueryOption.NotRemovedFromTargetLang] log
  setupComparableFrom env cls log (sortComparisonOperators functions {})

/-- The loop of `setupClonable` over the constructors (metabuilder.cpp
7911-7918); `arguments.at(0)` of a function without arguments is not
modelled. -/
def removeCopyConstructors (env : OperatorEnv) (cls : MetaClass) :
    List MetaFunction → ModificationLog → ModificationLog
  | [], log => log
  | f :: functions, log =>
    removeCopyConstructors env cls functions
      (if env.actualMinimumArgumentCount f == 1 then
        match f.arguments.head? with
        | some a =>
          if cls.typeEntry.qualifiedCppName == a.type.typeEntry.qualifiedCppName then
            remove_function env f log
          else log
        | none => log
      else log)

/-- `MetaBuilder::setupClonable` (metabuilder.cpp 7904-7922). -/
def setupClonable (env : OperatorEnv) (cls : MetaClass) (log : ModificationLog) :
    MetaClass × ModificationLog :=
  if cls.typeEntry.isValue then
    let functions :=
      env.queryFunctions cls
        [FunctionQueryOption.ClassImplements, FunctionQueryOption.Public,
          FunctionQueryOption.Constructors] log
    ({ cls with hasCloneOperator := true }, removeCopyConstructors env cls functions log)
  else (cls, log)

/-- The modification that `setupBeginEnd` adds for each function of a list
(metabuilder.cpp 7762-7773). -/
def protect_functions (env : OperatorEnv) : List MetaFunction → ModificationLog → ModificationLog
  | [], log => log
  | f :: l, log =>
    protect_functions env l
      (log ++ [(f.implementingClass,
        { signature := env.minimalSignature f, isProtected := true })])

/-- The loop of `setupBeginEnd` over the functions of the class
(metabuilder.cpp 7752-7759): the lists `begins` and `ends`. -/
def sortBeginEnd :
    List MetaFunction → List MetaFunction × List MetaFunction →
      List MetaFunction × List MetaFunction
  | [], r => r
  | f :: functions, r =>
    sortBeginEnd functions
      (if (match f.type with
            | some t => t.typeEntry.isIterator
            | none => false) && f.arguments.length == 0 then
        if f.name == qs "begin" || f.name == qs "constBegin" then (r.1 ++ [f], r.2)
        else if f.name == qs "end" || f.name == qs "constEnd" then (r.1, r.2 ++ [f])
        else r
      else r)

/-- `MetaBuilder::setupBeginEnd` (metabuilder.cpp 7741-7777). -/
def setupBeginEnd (env : OperatorEnv) (cls : MetaClass) (log : ModificationLog) :
    MetaClass × ModificationLog :=
  let functions :=
    env.queryFunctions cls
      [FunctionQueryOption.ClassImplements, FunctionQueryOption.NotRemovedFromTargetLang] log
  let r := sortBeginEnd functions ([], [])
  let begins := r.1
  let ends := r.2
  if !begins.isEmpty || !ends.isEmpty then
    let log := protect_functions env begins log
    let log := protect_functions env ends log
    ({ cls with beginFunctions := begins, endFunctions := ends }, log)
  else (cls, log)

/-- What the classes, the modifications and the warnings are while the loops
at the end of `MetaBuilder::build` run. -/
structure SetupState where
  classes : List MetaClass := []
  log : ModificationLog := []
  warnings : List QString := []

/-- One of the two loops at the end of `MetaBuilder::build` (metabuilder.cpp
1193-1204): each class of the list is set up by `setupEquals`,
`setupComparable`, `setupClonable` and `setupBeginEnd`. The classes are
collected in `classes` as they are after their set-up. -/
def setupLoop (env : OperatorEnv) : List MetaClass → SetupState → SetupState
  | [], s => s
  | cls :: rest, s =>
    let r1 := setupEquals env cls s.log s.warnings
    let r2 := setupComparable env r1.1 r1.2.1
    let r3 := setupClonable env r2.1 r2.2
    let r4 := setupBeginEnd env r3.1 r3.2
    setupLoop env rest { classes := s.classes ++ [r4.1], log := r4.2, warnings := r1.2.2 }

/-- The two loops at the end of `MetaBuilder::build` (metabuilder.cpp
1193-1204): first the classes of `m_templates`, then those of
`m_meta_classes`. -/
def setupLoops (env : OperatorEnv) (m_templates m_meta_classes : List MetaClass)
    (s : SetupState) : SetupState :=
  setupLoop env m_meta_classes (setupLoop env m_templates s)

/-- A modification that hides a function: its modifier is `Private` or
`Friendly`. -/
def isHiding (m : Option QString × FunctionModification) : Bool :=
  m.2.isPrivate || m.2.isFriendly

/-- The class and the minimal signature that a modification is given for. -/
def modificationKey (m : Option QString × FunctionModification) : Option QString × QString :=
  (m.1, m.2.signature)

/-- The comparison capabilities that the specification lists for a class, in
the order of preference, and `NotComparable` when none of them applies. -/
inductive ComparableCase
  | Compare | LessGreater | LessGreaterEq | SingleEq | Single | NotComparable
  deriving DecidableEq, Repr

/-- The one-argument functions of a list with a given original name. -/
def operatorsNamed (functions : List MetaFunction) (name : QString) : List MetaFunction :=
  functions.filter (fun f => f.arguments.length == 1 && f.originalName == name)

/-- The capability that the specification picks for a class, given its
one-argument comparison operators by name: the `operator<=>` functions if any
exist; otherwise, when the class has equals functions, the `<`/`>` operators;
otherwise, when it has equals functions, the `<=`/`>=` operators; otherwise a
single `<=` or `>=`; otherwise a single `<` or `>`. -/
def specComparableCase (ops : ComparisonOperators) (hasEquals : Bool) : ComparableCase :=
  if !ops.compare.isEmpty then ComparableCase.Compare
  else if hasEquals && (!ops.less.isEmpty || !ops.greater.isEmpty) then
    ComparableCase.LessGreater
  else if hasEquals && (!ops.lessEquals.isEmpty || !ops.greaterEquals.isEmpty) then
    ComparableCase.LessGreaterEq
  else if ops.lessEquals.length == 1 || ops.greaterEquals.length == 1 then
    ComparableCase.SingleEq
  else if ops.less.length == 1 || ops.greater.length == 1 then ComparableCase.Single
  else ComparableCase.NotComparable

/-- The one-argument comparison operators among the functions of a list, by
their original names. -/
def comparisonOperators (functions : List MetaFunction) : ComparisonOperators :=
  { greater := operatorsNamed functions (qs "operator>"),
    greaterEquals := operatorsNamed functions (qs "operator>="),
    less := operatorsNamed functions (qs "operator<"),
    lessEquals := operatorsNamed functions (qs "operator<="),
    compare := operatorsNamed functions (qs "operator<=>") }

/-- The condition under which `hide_functions` gives a function a
modification (metabuilder.cpp 7701-7703). -/
def isHidable (env : OperatorEnv) (f : MetaFunction) : Bool :=
  !env.isInterface f.declaringClass && !f.isAbstract && startsWith f.name (qs "operator_")

/-- The modification that `hide_functions` gives a function, with the class
whose type entry receives it (metabuilder.cpp 7704-7710). -/
def hidingModification (env : OperatorEnv) (f : MetaFunction) :
    Option QString × FunctionModification :=
  (f.implementingClass,
    if env.isInterface f.implementingClass then
      { signature := env.minimalSignature f, isFriendly := true }
    else { signature := env.minimalSignature f, isPrivate := true })

/-- The hiding modifications of `log'` are those of `log` followed by one
for each function of a list without repetitions, all of them functions that
pass the condition of `hide_functions` and that `queryFunctions` returns for a
class of the given name. -/
def HidesOnce (env : OperatorEnv) (name : QString) (log log' : ModificationLog) : Prop :=
  ∃ L : List MetaFunction,
    log'.filter isHiding = log.filter isHiding ++ L.map (hidingModification env)
      ∧ L.Nodup
      ∧ ∀ f ∈ L, isHidable env f = true
          ∧ ∃ c options l, c.name = name ∧ f ∈ env.queryFunctions c options l

/-! ### Sample classes with operators -/

/-- A public member function of the class `cls` with one argument, of the
type `argument`. -/
def sampleOperator (cls name originalName argument : String) : MetaFunction :=
  { name := qs name, originalName := qs originalName,
    attributes := [MetaAttribute.Public],
    arguments :=
      [{ type := MetaType.fresh { type := TypeEntryType.ObjectType, name := qs argument,
                                  qualifiedCppName := qs argument } }],
    declaringClass := some (qs cls), implementingClass := some (qs cls) }

/-- A minimal signature for the samples: the original name and the types of
the arguments. -/
def sampleMinimalSignature (f : MetaFunction) : QString :=
  f.originalName ++ qs "("
    ++ join (qs ",") (f.arguments.map (fun a => a.type.typeEntry.qualifiedCppName)) ++ qs ")"

/-- The functions of the sample classes: `Version` has `<=>` and `<`; `Point`
has `==`, `!=`, `<`, `>` and `<=`; `Size` has `<=` alone; `Rank` has two
functions `<` and no other operator. -/
def sampleOperatorTable (name : QString) : List MetaFunction :=
  if name == qs "Version" then
    [sampleOperator "Version" "operator_compare" "operator<=>" "Version",
      sampleOperator "Version" "operator_less" "operator<" "Version"]
  else if name == qs "Point" then
    [sampleOperator "Point" "operator_equal" "operator==" "Point",
      sampleOperator "Point" "operator_not_equal" "operator!=" "Point",
      sampleOperator "Point" "operator_less" "operator<" "Point",
      sampleOperator "Point" "operator_greater" "operator>" "Point",
      sampleOperator "Point" "operator_less_or_equal" "operator<=" "Point"]
  else if name == qs "Size" then
    [sampleOperator "Size" "operator_less_or_equal" "operator<=" "Size"]
  else if name == qs "Rank" then
    [sampleOperator "Rank" "operator_less" "operator<" "Rank",
      sampleOperator "Rank" "operator_less" "operator<" "int"]
  else []

/-- An environment for the samples: a class has the functions that the table
gives for its name; a query leaves out the functions of other classes, and
with the matching flag the private ones, those that a modification removes,
those that are not public and those that are no constructors. No class is an
interface. -/
def sampleOperatorEnv : OperatorEnv :=
  { queryFunctions := fun cls options log =>
      (sampleOperatorTable cls.name).filter (fun f =>
        f.implementingClass == some cls.name
          && (!options.contains FunctionQueryOption.Visible || !f.isPrivate)
          && (!options.contains FunctionQueryOption.NotRemovedFromTargetLang
              || !log.any (fun m =>
                    m.1 == some cls.name && m.2.signature == sampleMinimalSignature f
                      && m.2.removalTargetLang))
          && (!options.contains FunctionQueryOption.Public || f.isPublic)
          && (!options.contains FunctionQueryOption.Constructors || f.isConstructor)),
    minimalSignature := sampleMinimalSignature,
    actualMinimumArgumentCount := fun f => f.arguments.length,
    isInterface := fun _ => false }

/-- The sample class of a given name. -/
def sampleOperatorClass (name : String) : MetaClass :=
  { name := qs name, qualifiedCppName := qs name, simpleName := qs name,
    typeEntry := { type := TypeEntryType.ObjectType, name := qs name,
                   qualifiedCppName := qs name } }

/-- What the witnesses read of a class and the modifications: the signatures
of the functions in `compareFunctions`, `lessThanFunctions`,
`greaterThanFunctions`, `lessThanEqFunctions` and `greaterThanEqFunctions`,
and those of the hiding modifications. -/
def operatorSummary (r : MetaClass × ModificationLog) : List (List QString) :=
  [r.1.compareFunctions.map sampleMinimalSignature,
    r.1.lessThanFunctions.map sampleMinimalSignature,
    r.1.greaterThanFunctions.map sampleMinimalSignature,
    r.1.lessThanEqFunctions.map sampleMinimalSignature,
    r.1.greaterThanEqFunctions.map sampleMinimalSignature,
    (r.2.filter isHiding).map (fun m => m.2.signature)]

/-- The class after `setupEquals` and `setupComparable`, with the
modifications. -/
def setupOperators (env : OperatorEnv) (cls : MetaClass) : MetaClass × ModificationLog :=
  setupComparable env (setupEquals env cls [] []).1 (setupEquals env cls [] []).2.1

/-! ## The classes in dependency order -/

/-- `QSet::insert` on a set kept as a list without repetitions. -/
def setInsert (s : List Nat) (x : Nat) : List Nat :=
  if s.contains x then s else s ++ [x]

/-- The set `depends` that `classesTopologicalSorted` fills for a class
(metabuilder.cpp 8059-8066): its base class and its interfaces. -/
def dependsOf (g : ClassGraph) (cls : Nat) : List Nat :=
  let depends : List Nat := []
  let depends :=
    match (g.cls cls).baseClass with
    | some b => setInsert depends b
    | none => depends
  (g.cls cls).interfaces.foldl setInsert depends

/-- Modelled from the spec: the orders in which Qt walks a hashed container,
which the sources do not fix: `QSet::values` of a set, and `QHashIterator`
over the keys of a hash. -/
structure SortEnv where
  values : List Nat → List Nat
  hashOrder : List Nat → List Nat

/-- The variables of `classesTopologicalSorted`: the list `res`, the set
`noDependency`, the keys of `hash`, and for each class the set `depends` that
`hash` holds for it. -/
structure SortState where
  res : List Nat := []
  noDependency : List Nat := []
  hash : List Nat := []
  depends : Nat → List Nat := fun _ => []

/-- The first loop of `classesTopologicalSorted` (metabuilder.cpp 8058-8073). -/
def collectDependencies (g : ClassGraph) : List Nat → SortState → SortState
  | [], s => s
  | cls :: classes, s =>
    let depends := dependsOf g cls
    collectDependencies g classes
      (if depends.isEmpty then { s with noDependency := setInsert s.noDependency cls }
      else
        { s with
          hash := setInsert s.hash cls,
          depends := fun c => if c == cls then depends else s.depends c })

/-- The loop with the `QHashIterator` (metabuilder.cpp 8080-8091) over the
keys that `hash` had when the loop began: the class `cls` is taken out of the
set of each key, and a key whose set is empty then moves from `hash` to
`noDependency`. -/
def releaseDependents (cls : Nat) : List Nat → SortState → SortState
  | [], s => s
  | key :: rest, s =>
    let value := (s.depends key).filter (fun d => d != cls)
    let s := { s with depends := fun c => if c == key then value else s.depends c }
    releaseDependents cls rest
      (if value.isEmpty then
        { s with
          noDependency := setInsert s.noDependency key,
          hash := s.hash.filter (fun k => k != key) }
      else s)

/-- The loop over `noDependency.values()` (metabuilder.cpp 8076-8093). -/
def releaseClasses (env : SortEnv) (g : ClassGraph) : List Nat → SortState → SortState
  | [], s => s
  | cls :: rest, s =>
    let s := if !(g.cls cls).typeEntry.isInterface then { s with res := s.res ++ [cls] } else s
    let s := { s with noDependency := s.noDependency.filter (fun c => c != cls) }
    releaseClasses env g rest (releaseDependents cls (env.hashOrder s.hash) s)

/-- The loop `while (!noDependency.empty())` (metabuilder.cpp 8075-8094), with
fuel for its rounds. -/
def sortLoop (env : SortEnv) (g : ClassGraph) : Nat → SortState → Option SortState
  | 0, _ => none
  | fuel + 1, s =>
    if !s.noDependency.isEmpty then
      sortLoop env g fuel (releaseClasses env g (env.values s.noDependency) s)
    else some s

/-- `MetaBuilder::classesTopologicalSorted` (metabuilder.cpp 8051-8099): the
list returned and the warnings, or `none` when the fuel has run out.
`MetaClass::isInterface` is taken to be `isInterface` of the type entry. -/
def classesTopologicalSorted (env : SortEnv) (g : ClassGraph) (fuel : Nat) :
    Option (List Nat × List QString) :=
  let classes := g.m_meta_classes
  match sortLoop env g fuel (collectDependencies g classes {}) with
  | none => none
  | some s =>
    some (s.res,
      if !s.noDependency.isEmpty || !s.hash.isEmpty then [qs "dependency graph was cyclic."]
      else [])

/-- The class `d` stands before the class `c` in a list. -/
def Before (d c : Nat) (l : List Nat) : Prop :=
  ∃ l1 l2, l = l1 ++ c :: l2 ∧ d ∈ l1

/-- The class `c` depends on the class `d`, directly or through other
classes. -/
def DependsOn (g : ClassGraph) : Nat → Nat → Prop :=
  Relation.TransGen (fun c d => d ∈ dependsOf g c)

/-- The class `c` depends, directly or transitively, on a class of a cycle of
dependencies. -/
def ReachesCycle (g : ClassGraph) (c : Nat) : Prop :=
  ∃ d, DependsOn g c d ∧ DependsOn g d d

/-- What holds of the variables of `classesTopologicalSorted` between two
classes of the loop, for the classes `listed` in `m_meta_classes` and the
classes `done` that the loop has taken out of `noDependency` so far, in this
order. -/
structure SortInv (g : ClassGraph) (listed done : List Nat) (s : SortState) : Prop where
  done_nodup : done.Nodup
  res_eq : s.res = done.filter (fun c => !(g.cls c).typeEntry.isInterface)
  nodep_nodup : s.noDependency.Nodup
  hash_nodup : s.hash.Nodup
  nodep_done : ∀ c ∈ s.noDependency, c ∉ done
  hash_done : ∀ k ∈ s.hash, k ∉ done
  hash_nodep : ∀ k ∈ s.hash, k ∉ s.noDependency
  listed_iff : ∀ c, c ∈ listed ↔ c ∈ done ∨ c ∈ s.noDependency ∨ c ∈ s.hash
  cover : ∀ k ∈ s.hash, ∀ d ∈ dependsOf g k, d ∈ s.depends k ∨ d ∈ done
  nodep_ready : ∀ c ∈ s.noDependency, ∀ d ∈ dependsOf g c, d ∈ done
  ordered : ∀ c ∈ done, ∀ d ∈ dependsOf g c, Before d c done

/-- The set of every key of `hash` is not empty and holds only dependencies of
the key that are not done, or that are `pending` for the key. -/
def Stuck (g : ClassGraph) (done : List Nat) (pending : Nat → Nat → Prop) (s : SortState) :
    Prop :=
  ∀ k ∈ s.hash, s.depends k ≠ []
    ∧ ∀ d ∈ s.depends k, d ∈ dependsOf g k ∧ (d ∉ done ∨ pending k d)

/-- What holds of the variables of `classesTopologicalSorted` during its first
loop, for the classes `seen` that the loop has read so far. -/
structure Collected (g : ClassGraph) (seen : List Nat) (s : SortState) : Prop where
  res_eq : s.res = []
  nodep_nodup : s.noDependency.Nodup
  hash_nodup : s.hash.Nodup
  seen_iff : ∀ c, c ∈ seen ↔ c ∈ s.noDependency ∨ c ∈ s.hash
  nodep_empty : ∀ c ∈ s.noDependency, dependsOf g c = []
  hash_depends : ∀ k ∈ s.hash, s.depends k = dependsOf g k ∧ dependsOf g k ≠ []
  size : s.noDependency.length + s.hash.length ≤ seen.length

/-! ### Sample classes for the sort -/

/-- The orders of the samples: a set is walked from its last element to its
first, the keys of a hash in the order of insertion. -/
def sampleSortEnv : SortEnv :=
  { values := fun l => l.reverse, hashOrder := fun l => l }

/-- A class for the samples of the sort. -/
def sampleSortClass (name : String) (baseClass : Option Nat) (interfaces : List Nat)
    (isInterface : Bool) : MetaClass :=
  { name := qs name, baseClass := baseClass, interfaces := interfaces,
    typeEntry :=
      { type := if isInterface then TypeEntryType.InterfaceType else TypeEntryType.ObjectType,
        name := qs name } }

/-- The classes `Derived : Base, Iface` (0), `Base` (1), the interface `Iface`
(2), `Leaf : Derived` (3), and the classes `A : B` (4), `B : A` (5) and
`C : A` (6), which depend on a cycle; all are in `m_meta_classes`. -/
def sampleSortGraph : ClassGraph :=
  { classes :=
      [sampleSortClass "Derived" (some 1) [2] false,
        sampleSortClass "Base" none [] false,
        sampleSortClass "Iface" none [] true,
        sampleSortClass "Leaf" (some 0) [] false,
        sampleSortClass "A" (some 5) [] false,
        sampleSortClass "B" (some 4) [] false,
        sampleSortClass "C" (some 4) [] false],
    m_meta_classes := [0, 1, 2, 3, 4, 5, 6] }

/-- The text of the character literal `'\uX'` for the text `X`. -/
def unicodeLiteral (X : QString) : QString :=
  [apostrophe, backslash, 'u'] ++ X ++ [apostrophe]

/-- The text of the character literal `'\c'` for the character `c`. -/
def escapedLiteral (c : Char) : QString := [apostrophe, backslash, c, apostrophe]

/-- What `rename_operator` needs of an entry of its table. -/
def tableEntryOk (p : QString × QString) : Bool :=
  p.1 != [] && (p.1.head?.all fun c => !isSpace c) && (p.1.getLast?.all fun c => !isSpace c)
    && !startsWith p.1 (qs "typename")
    && (operator_names.find? fun q => q.1 == p.1) == some p

/-- An operand text that `figureOutEnumValue` reads as the integer literal
`a` at the given enum size: a plain operand without the characters of the
operators `+`, `-`, `<<` and `~`, which the literal chain converts to `a`. -/
structure IntegerLiteral (size : Nat) (s : QString) (a : Int) : Prop where
  plain : PlainOperand s
  noPlus : '+' ∉ s
  noMinus : '-' ∉ s
  noShift : '<' ∉ s
  noTilde : '~' ∉ s
  parses : parseLiteral size s = (QVariant.int a, true)
  inRange : wrap (widthOf size) a = a

/-- The right-hand side of a binary operator inside one operand: not empty,
not ending in white space, without `|`, `(` and `+`. -/
structure RightOperand (s : QString) : Prop where
  nonempty : s ≠ []
  lastNoSpace : ∀ c ∈ s.getLast?, isSpace c = false
  noBar : '|' ∉ s
  noParen : '(' ∉ s
  noPlus : '+' ∉ s

/-- Whether a message is the warning about duplicate enum values. -/
def Warning.isDuplicateEnumValues : Warning → Bool
  | Warning.duplicateEnumValues _ _ _ _ _ _ => true
  | _ => false

/-- An enumerator that holds an integer and is not rejected by the type entry
of its enum. -/
def keptInteger (ete : EnumTypeEntry) (v : MetaEnumValue) : Bool :=
  v.value.isValid && !v.value.isString && !ete.isEnumValueRejected v.name

/-- Two enumerators of the list, at different places, that are both not
rejected and hold the same integer (compared as `qint64`). -/
def DuplicatePair (ete : EnumTypeEntry) (values : List MetaEnumValue) : Prop :=
  ∃ l1 a l2 c l3, values = l1 ++ a :: (l2 ++ c :: l3) ∧ keptInteger ete a = true
    ∧ keptInteger ete c = true ∧ a.value.toInt 64 = c.value.toInt 64

/-- The enum `{A = 1, B = 1}` in the class `Foo` after the loop over its
constants. -/
def duplicateBuilder : Builder :=
  ((classEnumBuilder 32 [(qs "A", qs "1"), (qs "B", qs "1")]).setValue 0 (QVariant.int 1)).setValue
    1 (QVariant.int 1)

/-- The text between the first `(` and the last `)` of the minimal signature
of a function, the key of the set `signatures` in `filter_functions`
(metabuilder.cpp 7727-7730). -/
def argumentListText (env : OperatorEnv) (f : MetaFunction) : QString :=
  let signature := env.minimalSignature f
  let start := indexOfChar signature '(' + 1
  let end_ := lastIndexOfChar signature ')'
  midN signature start.toNat (end_ - start)

/-- The entry `remove_function` adds for a function. -/
def removalOf (env : OperatorEnv) (f : MetaFunction) : Option QString × FunctionModification :=
  (f.implementingClass,
    { removal := true, removalTargetLang := true, signature := env.minimalSignature f })

/-- The rounds of the loop that finds the default values in which the
translation of the default value is empty, that is, the rounds that set
`first_default_argument` (metabuilder.cpp 5831-5832): the loop of
`translateDefaults`, recording the index `i` of those rounds instead of the
arguments. -/
def untranslatedDefaults (env : TraverseEnv) (c : MetaClass) (meta_function : MetaFunction)
    (size : Nat) :
    Nat → List MetaArgument → List ArgumentModelItem → List MetaArgument → List Nat
  | _, [], _, _ => []
  | _, _ :: _, [], _ => []
  | i, meta_arg :: rest, arg :: items, seen =>
    if env.translate.typeInfoToString arg.type == qs "void"
        && arg.type.referenceType == ReferenceType.NoReference
        && arg.type.indirections.isEmpty
        && size == 1 then
      untranslatedDefaults env c meta_function size (i + 1) rest items (meta_arg :: seen)
    else if arg.defaultValue then
      let meta_arg :=
        if !arg.defaultValueExpression.isEmpty then
          { meta_arg with originalDefaultValueExpression := arg.defaultValueExpression }
        else meta_arg
      let expr := env.translateDefaultValue arg.defaultValueExpression meta_arg.type
        { meta_function with arguments := seen.reverse ++ meta_arg :: rest }
        c.name c.functionModifications i
      if expr.isEmpty then
        i :: untranslatedDefaults env c meta_function size (i + 1) rest items (meta_arg :: seen)
      else
        untranslatedDefaults env c meta_function size (i + 1) rest items
          ({ meta_arg with defaultValueExpression := expr } :: seen)
    else
      untranslatedDefaults env c meta_function size (i + 1) rest items (meta_arg :: seen)

/-- The sample environment with a default value `unknown()` that cannot be
translated. -/
def sampleDefaultsEnv : TraverseEnv :=
  { sampleTraverseEnv with
    translateDefaultValue := fun expr _ _ _ _ _ => if expr == qs "unknown()" then [] else expr }

/-- The function `void resize(int w = 1, int h = unknown(), int d = 3)`. -/
def sampleResize : FunctionModelItem :=
  { name := qs "resize", type := { qualifiedName := [qs "void"] },
    arguments :=
      [{ name := qs "w", type := { qualifiedName := [qs "int"] }, defaultValue := true,
         defaultValueExpression := qs "1" },
       { name := qs "h", type := { qualifiedName := [qs "int"] }, defaultValue := true,
         defaultValueExpression := qs "unknown()" },
       { name := qs "d", type := { qualifiedName := [qs "int"] }, defaultValue := true,
         defaultValueExpression := qs "3" }] }

/-- The part of the builder state that the evaluation of enum values only
reads: the classes, their order, the enums and the register of constants. -/
def Builder.shape (b : Builder) :
    List MetaClass × List Nat × List MetaEnum × List (QString × Nat) :=
  (b.classes, b.m_meta_classes, b.enums, b.m_enum_values)

/-- An evaluation function that leaves the shape of the state as it is. -/
def KeepsShape (self : EvalFn) : Prop :=
  ∀ size s old global meta_enum b v b1,
    self size s old global meta_enum b = some (v, b1) → b1.shape = b.shape

/-- Every class of `S` with a base class has it in `C` or in `S`. -/
def BaseClosed (b : Builder) (C S : List Nat) : Prop :=
  ∀ x ∈ S, ∀ y, (b.cls x).baseClass = some y → y ∈ C ∨ y ∈ S

/-- What a call of `figureOutEnumValuesForClass` on the class `c` does to the
sets `classes` (from `C` to `C1`) and `repeatClasses` (from `R` to `R1`). -/
structure ClassStep (b : Builder) (c : Nat) (C R C1 R1 : List Nat) (b1 : Builder) : Prop where
  cls : ∀ x, b1.cls x = b.cls x
  subC : C ⊆ C1
  subR : R ⊆ R1
  done : c ∈ C1 ∨ c ∈ R1
  closed : BaseClosed b C R → BaseClosed b C1 R1
  within : ∀ S, c ∈ S → BaseClosed b C S → R ⊆ S → R1 ⊆ S
  nodup : R.Nodup → R1.Nodup

/-- What a loop of calls of `figureOutEnumValuesForClass` on the classes `l`
does to the two sets. -/
structure ClassesStep (b : Builder) (l : List Nat) (C R C1 R1 : List Nat) (b1 : Builder) :
    Prop where
  cls : ∀ x, b1.cls x = b.cls x
  subC : C ⊆ C1
  subR : R ⊆ R1
  closed : BaseClosed b C R → BaseClosed b C1 R1
  within : ∀ S, (∀ c ∈ l, c ∈ S) → BaseClosed b C S → R ⊆ S → R1 ⊆ S
  nodup : R.Nodup → R1.Nodup

/-- The record of the retry rounds is a descending chain: every round leaves a
subset of the set it found, and the round after it starts from that subset,
which is smaller than the set before. -/
structure ShrinkingRounds (trace : List (List Nat × List Nat)) (R : List Nat) : Prop where
  subset : ∀ p ∈ trace, p.2 ⊆ p.1
  chain : List.Chain' (fun p q => q.1 = p.2 ∧ q.1.length < p.1.length
    ∧ ∃ x ∈ p.1, x ∉ q.1) trace
  first : ∀ p ∈ trace.head?, p.1 = R
  bound : trace.length ≤ R.length

/-- The constants that hold an integer in `b` hold the same integer in `b1`,
except possibly the constant `ev`. -/
def KeepsIntegersBut (ev : Option Nat) (b b1 : Builder) : Prop :=
  ∀ i, some i ≠ ev → (b.value i).value.isValid = true → (b.value i).value.isString = false →
    (b1.value i).value = (b.value i).value

/-- The environment with another current function. -/
def TranslateEnv.withFunction (env : TranslateEnv) (f : Option MetaFunction) : TranslateEnv :=
  { env with m_current_function := f }

/-- The type entries of the template parameters of the current function, in
order; none when there is no current function. -/
def templateParameterEntries (f : Option MetaFunction) : Option (List TypeEntry) :=
  f.map (fun f => f.templateParameters.map (fun t => t.type.typeEntry))

/-- A function template `template<typename T> void convert(T)` as current
function: its template parameter `T`. -/
def sampleConvert : MetaFunction :=
  { name := qs "convert",
    templateParameters := [{ name := qs "T", type := MetaType.fresh sampleT }] }

/-- The descriptor of the type named `T`. -/
def sampleTypeT : TypeInfo := { qualifiedName := [qs "T"] }

/-- The part of `traverseFunction` between the loop over the arguments and the
loops over the default values (metabuilder.cpp 5673-5813), the first part of
`finishFunction`: the meta function and the current class with which the loop
that finds the default values starts; none inside for `return nullptr`. -/
def beforeDefaults (env : TraverseEnv) (fuel : Nat) (c : MetaClass)
    (function_item : FunctionModelItem) (meta_function : MetaFunction)
    (meta_arguments : List MetaArgument) (mod : FunctionModification)
    (originalSignature : QString) : Option (Option (MetaFunction × MetaClass)) :=
  let meta_function := { meta_function with arguments := meta_arguments }
  let originalSignature := originalSignature ++ qs ")"
  let originalSignature :=
    if function_item.isConstant then originalSignature ++ qs "const" else originalSignature
  let meta_function :=
    if !contains originalSignature (qs "std::function<")
        && !contains originalSignature (qs "qxp::function_ref<") then
      { meta_function with originalSignature := env.normalizedSignature originalSignature }
    else { meta_function with originalSignature := originalSignature }
  let meta_function :=
    if function_item.isFriend && function_item.hasBody then
      { meta_function with
        functionType := FunctionType.GlobalScopeFunction,
        originalAttributes := meta_function.attributes }
    else meta_function
  let modified :=
    applyModifications (c.modificationsFor (env.minimalSignature meta_function)) meta_arguments
  let isRemoved := modified.1
  let isRenamed := modified.2.1
  let isReturnChanged := modified.2.2.1
  let meta_function := { meta_function with arguments := modified.2.2.2 }
  match traverseOperator env fuel c meta_function mod isRemoved isRenamed isReturnChanged with
  | none => none
  | some none => some none
  | some (some (meta_function, mod)) =>
    let c :=
      if !mod.argument_mods.isEmpty || mod.pixmapThreadAffine || mod.removal then
        c.addFunctionModification { mod with signature := env.minimalSignature meta_function }
      else c
    some (some (meta_function, c))

/-- What the loops over the default values of `traverseFunction` start with
(metabuilder.cpp 5815): the current class, the meta function and the
arguments of the code model that its meta arguments were made of; none when
the call returns before it reaches the loops. -/
def defaultsInput (env : TraverseEnv) (fuel : Nat) (c : MetaClass)
    (function_item : FunctionModelItem) :
    Option (MetaClass × MetaFunction × List ArgumentModelItem) :=
  if function_item.referenceType == ReferenceType.RReference then none
  else if function_item.name == qs "static_assert" then none
  else if env.isFunctionRejected c.typeEntry.qualifiedCppName function_item.name then none
  else if function_item.isFriend && function_item.hasBody
      && function_item.name == qs "qHash" then none
  else if function_item.isFriend && !function_item.hasBody then none
  else
    match classifyFunction env fuel c function_item (newMetaFunction function_item) with
    | some (some meta_function) =>
      let mod := pixmapModification env c function_item meta_function
      match traverseArguments env fuel c function_item 0 function_item.arguments
          meta_function [] [] [] (function_item.name ++ qs "(") with
      | some (ArgumentsResult.done meta_function meta_arguments items argument_mods
          originalSignature) =>
        match beforeDefaults env fuel c function_item meta_function meta_arguments
            { mod with argument_mods := argument_mods } originalSignature with
        | some (some (meta_function, c)) => some (c, meta_function, items)
        | _ => none
      | _ => none
    | _ => none

/-- The function that `traverseFunction` returns when the loops over the
default values start with the class, the meta function and the arguments
given (metabuilder.cpp 5815-5852). -/
def afterDefaults (env : TraverseEnv)
    (input : MetaClass × MetaFunction × List ArgumentModelItem) : MetaFunction :=
  let defaults :=
    translateDefaults env input.1 input.2.1 input.2.1.arguments.length 0
      input.2.1.arguments input.2.2 [] 0
  { input.2.1 with arguments := resetDefaults defaults.1 defaults.2 }

/-! ### A class with two equals operators of one signature -/

/-- The member function `bool Pair::operator==(const Pair&) const` of the
sample class `Pair`. -/
def samplePairMember : MetaFunction :=
  sampleOperator "Pair" "operator_equal" "operator==" "Pair"

/-- The global function `bool operator==(const Pair&, const Pair&)` as
`traverseCompareOperator` adds it to the class `Pair` (metabuilder.cpp
313-358): the first argument is stripped, the function type is
`GlobalScopeFunction`, and `addFunction` is called with no look at the
functions that the class has already. -/
def samplePairGlobal : MetaFunction :=
  { samplePairMember with functionType := FunctionType.GlobalScopeFunction }

/-- The sample environment, except that the class `Pair` has the two
functions `operator==` above and no other function. -/
def duplicateOperatorEnv : OperatorEnv :=
  { sampleOperatorEnv with
    queryFunctions := fun cls options log =>
      (if cls.name == qs "Pair" then [samplePairMember, samplePairGlobal] else []).filter
        (fun f =>
          f.implementingClass == some cls.name
            && (!options.contains FunctionQueryOption.Visible || !f.isPrivate)
            && (!options.contains FunctionQueryOption.NotRemovedFromTargetLang
                || !log.any (fun m =>
                      m.1 == some cls.name && m.2.signature == sampleMinimalSignature f
                        && m.2.removalTargetLang))
            && (!options.contains FunctionQueryOption.Public || f.isPublic)
            && (!options.contains FunctionQueryOption.Constructors || f.isConstructor)) }

end MetaBuilder

/-! # Theorems -/

namespace MetaBuilder

/-! ## decideUsagePattern -/

theorem usagePatternChain_ne_invalid (t : TypeEntry) (r : ReferenceType) (c : Bool)
    (ind : List Bool) :
    (usagePatternChain t r c ind).1 ≠ TypeUsagePattern.InvalidPattern := by
  obtain ⟨k, n, qn, qo, it, ig, ord, cg, ck, pk⟩ := t
  cases k <;> simp [usagePatternChain] <;> (try split_ifs) <;> simp_all

theorem usagePatternChain_drop (t : TypeEntry) (r : ReferenceType) (c : Bool) (ind : List Bool)
    (h : (usagePatternChain t r c ind).2 = true) :
    t.type = TypeEntryType.ObjectType ∧ ind.length = 1 ∧ r = ReferenceType.Reference
      ∧ c = true := by
  obtain ⟨k, n, qn, qo, it, ig, ord, cg, ck, pk⟩ := t
  cases k <;> simp [usagePatternChain] at h ⊢ <;> (try split_ifs at h) <;> simp_all

theorem usagePatternChain_object_pointer (t : TypeEntry) (r : ReferenceType) (c : Bool)
    (ind : List Bool) (ht : t.type = TypeEntryType.ObjectType) (hi : ind.length = 1)
    (hr : r ≠ ReferenceType.RReference) :
    usagePatternChain t r c ind =
      (if t.isQObject then TypeUsagePattern.QObjectPattern else TypeUsagePattern.ObjectPattern,
        r == ReferenceType.Reference && c) := by
  obtain ⟨k, n, qn, qo, it, ig, ord, cg, ck, pk⟩ := t
  subst ht
  cases r <;> simp_all [usagePatternChain]

theorem decideUsagePattern_fixed (m : MetaType) :
    decideUsagePattern (decideUsagePattern m) = decideUsagePattern m := by
  cases hd : (usagePatternChain m.typeEntry m.referenceType m.constant m.indirections).2 with
  | false =>
    have h1 : decideUsagePattern m = m.setTypeUsagePattern
        (usagePatternChain m.typeEntry m.referenceType m.constant m.indirections).1 := by
      simp [decideUsagePattern, hd]
    rw [h1]
    simp [decideUsagePattern, MetaType.setTypeUsagePattern, hd]
  | true =>
    obtain ⟨ht, hi, hr, hc⟩ := usagePatternChain_drop _ _ _ _ hd
    have h1 : decideUsagePattern m = ((m.setTypeUsagePattern
        (usagePatternChain m.typeEntry m.referenceType m.constant m.indirections).1).setReferenceType
          ReferenceType.NoReference).setConstant false := by
      simp [decideUsagePattern, hd]
    have h2 := usagePatternChain_object_pointer m.typeEntry ReferenceType.NoReference false
      m.indirections ht hi (by decide)
    have h3 := usagePatternChain_object_pointer m.typeEntry m.referenceType m.constant
      m.indirections ht hi (by rw [hr]; decide)
    rw [h1, h3]
    simp [decideUsagePattern, MetaType.setTypeUsagePattern, MetaType.setReferenceType,
      MetaType.setConstant, h2]

/-- C3: `decideUsagePattern` is a total function that leaves every meta type
with exactly one usage-pattern tag, never the unassigned `InvalidPattern`, and
running it again on its own result changes neither the tag nor anything else
of the meta type. -/
theorem decideUsagePattern_total_idempotent (m : MetaType) :
    (decideUsagePattern m).typeUsagePattern ≠ TypeUsagePattern.InvalidPattern
      ∧ (decideUsagePattern (decideUsagePattern m)).typeUsagePattern
          = (decideUsagePattern m).typeUsagePattern
      ∧ decideUsagePattern (decideUsagePattern m) = decideUsagePattern m := by
  have hne := usagePatternChain_ne_invalid m.typeEntry m.referenceType m.constant m.indirections
  refine ⟨?_, ?_, decideUsagePattern_fixed m⟩
  · unfold decideUsagePattern
    dsimp only
    split <;>
      simpa [MetaType.setTypeUsagePattern, MetaType.setReferenceType, MetaType.setConstant]
        using hne
  · rw [decideUsagePattern_fixed]

/-! ## inheritTemplateType -/

theorem decideUsagePattern_typeEntry (m : MetaType) :
    (decideUsagePattern m).typeEntry = m.typeEntry := by
  unfold decideUsagePattern
  try dsimp only
  split <;> rfl

theorem decideUsagePattern_indirections (m : MetaType) :
    (decideUsagePattern m).indirections = m.indirections := by
  unfold decideUsagePattern
  try dsimp only
  split <;> rfl

theorem decideUsagePattern_instantiations (m : MetaType) :
    (decideUsagePattern m).instantiations = m.instantiations := by
  unfold decideUsagePattern
  try dsimp only
  split <;> rfl

@[simp] theorem setOriginalTemplateType_typeEntry (x o : MetaType) :
    (x.setOriginalTemplateType o).typeEntry = x.typeEntry := rfl

@[simp] theorem setOriginalTemplateType_indirections (x o : MetaType) :
    (x.setOriginalTemplateType o).indirections = x.indirections := rfl

@[simp] theorem setOriginalTemplateType_instantiations (x o : MetaType) :
    (x.setOriginalTemplateType o).instantiations = x.instantiations := rfl

theorem substituteParameter_typeEntry (returned a : MetaType) :
    (substituteParameter returned a).typeEntry = a.typeEntry := by
  unfold substituteParameter
  rw [decideUsagePattern_typeEntry]
  try dsimp only
  split <;> rfl

theorem substituteParameter_instantiations (returned a : MetaType) :
    (substituteParameter returned a).instantiations = returned.instantiations := by
  unfold substituteParameter
  rw [decideUsagePattern_instantiations]
  try dsimp only
  split <;> rfl

theorem substituteParameter_length (returned a : MetaType) :
    (substituteParameter returned a).indirections.length
      = if returned.indirections.length + a.indirections.length > 0 then 1 else 0 := by
  unfold substituteParameter
  rw [decideUsagePattern_indirections]
  try dsimp only
  have h : (returned.setTypeEntry a.typeEntry |>.setForceBoxedPrimitives
      a.forceBoxedPrimitives).indirections = returned.indirections := rfl
  rw [h]
  split <;> split <;> simp [MetaType.setIndirections] <;> omega

theorem inheritReturned_keeps (f : MetaType → Option (Option MetaType)) (x r : MetaType)
    (h : inheritReturned f x = some (some r)) :
    r.typeEntry = x.typeEntry ∧ r.indirections = x.indirections := by
  unfold inheritReturned at h
  split at h
  · split at h
    · simp at h
    · simp at h
    · simp only [Option.some.injEq] at h
      subst h
      exact ⟨rfl, rfl⟩
  · simp only [Option.some.injEq] at h
    subst h
    exact ⟨rfl, rfl⟩

theorem inheritTemplateTypeCore_keeps (fuel : Nat) (tt : List MetaType) (x r : MetaType)
    (hx : x.typeEntry.isTemplateArgument = false)
    (h : inheritTemplateTypeCore fuel tt x = some (some r)) :
    r.typeEntry = x.typeEntry ∧ r.indirections = x.indirections := by
  cases fuel with
  | zero => simp [inheritTemplateTypeCore] at h
  | succ n =>
    unfold inheritTemplateTypeCore at h
    split at h
    · simp only [Option.some.injEq] at h
      subst h
      exact ⟨rfl, rfl⟩
    · simp only [setOriginalTemplateType_typeEntry, hx, Bool.false_eq_true, ↓reduceIte] at h
      have hk := inheritReturned_keeps _ _ _ h
      exact hk


/-- C4 (counterexample): for the use `T*` (one indirection) and the
instantiation argument `Int32*` (one indirection) `inheritTemplateType`
returns a type on `Int32` with one indirection, not two. -/
theorem inheritTemplateType_collapses_pointer_to_pointer :
    ∃ r, inheritTemplateType 2 [sampleInt32PtrArg] (some sampleTPtr) = some (some r, true)
      ∧ r.typeEntry = sampleInt32PtrArg.typeEntry
      ∧ r.indirections.length = 1
      ∧ r.indirections.length
          ≠ sampleTPtr.indirections.length + sampleInt32PtrArg.indirections.length :=
  ⟨_, rfl, rfl, rfl, by decide⟩

/-- C4 (amended): for a type naming a class template parameter `T` with `k`
indirections and an instantiation argument bound to `T` whose entry is not
named `void`, with `m` indirections, every type `inheritTemplateType` returns
is on the argument's entry and has one indirection if `k + m > 0` and none
otherwise; and when the use of `T` has no instantiations of its own the call
does return such a type, with `ok = true`, for every fuel of at least 2. -/
theorem inheritTemplateType_parameter (template_types : List MetaType)
    (meta_type arg : MetaType)
    (hT : meta_type.typeEntry.isTemplateArgument = true)
    (hArg : template_types.get? meta_type.typeEntry.ordinal = some arg)
    (hVoid : arg.typeEntry.name ≠ qs "void") :
    (∀ fuel r ok, inheritTemplateType fuel template_types (some meta_type) = some (some r, ok) →
        ok = true ∧ r.typeEntry = arg.typeEntry
          ∧ r.indirections.length
              = if meta_type.indirections.length + arg.indirections.length > 0 then 1 else 0)
    ∧ (meta_type.instantiations = [] →
        ∀ fuel, ∃ r, inheritTemplateType (fuel + 2) template_types (some meta_type)
          = some (some r, true)) := by
  have hv : (arg.typeEntry.name == qs "void") = false := by
    simpa using hVoid
  constructor
  · intro fuel r ok h
    cases fuel with
    | zero => simp [inheritTemplateType, inheritTemplateTypeCore] at h
    | succ n =>
      simp only [inheritTemplateType, Option.map_eq_some', Prod.mk.injEq] at h
      obtain ⟨a, ha, har, hok⟩ := h
      subst har
      refine ⟨by simpa using hok.symm, ?_⟩
      unfold inheritTemplateTypeCore at ha
      simp only [setOriginalTemplateType_typeEntry, hT, Bool.not_true, Bool.false_and,
        Bool.false_eq_true, ↓reduceIte, hArg, hv] at ha
      split at ha
      · simp only [Option.some.injEq] at ha
        subst ha
        rw [substituteParameter_typeEntry, substituteParameter_length]
        exact ⟨rfl, rfl⟩
      · rename_i hnot
        split at ha
        · simp at ha
        · simp at ha
        · rename_i r1 hr1
          have hk := inheritTemplateTypeCore_keeps n template_types _ r1
            (by rw [substituteParameter_typeEntry]
                simpa using hnot) hr1
          have hk2 := inheritReturned_keeps _ _ _ ha
          rw [hk2.1, hk2.2, hk.1, hk.2, substituteParameter_typeEntry,
            substituteParameter_length]
          exact ⟨rfl, rfl⟩
  · intro hI fuel
    simp only [inheritTemplateType, Option.map_eq_some', Prod.mk.injEq]
    unfold inheritTemplateTypeCore
    simp only [setOriginalTemplateType_typeEntry, hT, Bool.not_true, Bool.false_and,
      Bool.false_eq_true, ↓reduceIte, hArg, hv]
    split
    · exact ⟨_, _, rfl, rfl, rfl⟩
    · rename_i hnot
      have hstep : ∀ x : MetaType, x.typeEntry.isTemplateArgument = false →
          x.instantiations = [] →
          inheritTemplateTypeCore (fuel + 1) template_types x = some (some x) := by
        intro x h1 h2
        have h1' : ¬ x.typeEntry.type = TypeEntryType.TemplateArgumentType := by simpa using h1
        unfold inheritTemplateTypeCore
        simp [h1', h2, MetaType.hasInstantiations]
      rw [hstep _ (by rw [substituteParameter_typeEntry]
                      simpa using hnot)
            (by rw [substituteParameter_instantiations]
                exact hI)]
      refine ⟨substituteParameter (meta_type.setOriginalTemplateType meta_type) arg,
        some (substituteParameter (meta_type.setOriginalTemplateType meta_type) arg), ?_, rfl, rfl⟩
      simp [inheritReturned, MetaType.hasInstantiations, substituteParameter_instantiations, hI]

/-- An instance of `inheritTemplateType_parameter`: `T*` instantiated with
`Int32`. -/
theorem inheritTemplateType_parameter_witness :
    (∀ fuel r ok, inheritTemplateType fuel [sampleInt32Arg] (some sampleTPtr) = some (some r, ok) →
        ok = true ∧ r.typeEntry = sampleInt32Arg.typeEntry
          ∧ r.indirections.length
              = if sampleTPtr.indirections.length + sampleInt32Arg.indirections.length > 0
                then 1 else 0)
    ∧ (sampleTPtr.instantiations = [] →
        ∀ fuel, ∃ r, inheritTemplateType (fuel + 2) [sampleInt32Arg] (some sampleTPtr)
          = some (some r, true)) :=
  inheritTemplateType_parameter [sampleInt32Arg] sampleTPtr sampleInt32Arg rfl rfl (by decide)

/-! ## Enum values: scenarios -/

/-- C2: for the enum `{A, B = A | 2, C = B << 1}` whose type entry has size 8,
enclosed in a class or in the global class, `figureOutEnumValuesForClass`
files the class as done, sets `A = 0`, `B = 2` and `C = 4`, each a value of
the signed 8-bit range, and hands no warning (so no duplicate-enum-values
warning) to the report handler. -/
theorem figureOutEnumValuesForClass_flags_enum :
    (figureOutEnumValuesForClass 10 0 [] [] (classEnumBuilder 8 flagsConstants)).map
        (fun r => (r.1, r.2.1, r.2.2.values, r.2.2.reported))
      = some ([0], [], [QVariant.int 0, QVariant.int 2, QVariant.int 4], [])
    ∧ (figureOutEnumValuesForClass 10 0 [] [] (globalEnumBuilder 8 flagsConstants)).map
        (fun r => (r.1, r.2.1, r.2.2.values, r.2.2.reported))
      = some ([0], [], [QVariant.int 0, QVariant.int 2, QVariant.int 4], [])
    ∧ wrap 8 0 = 0 ∧ wrap 8 2 = 2 ∧ wrap 8 4 = 4 := by
  refine ⟨by decide!, by decide!, by decide, by decide, by decide⟩

/-- C9 (counterexample): for the enum `{E1 = E2+1, E2 = E3+1, E3 = 5}` of the
global namespace `figureOutEnumValues` ends after one retry round and leaves
`E1` a symbolic text; only `E2 = 6` and `E3 = 5` are integers. -/
theorem figureOutEnumValues_global_chain_stays_symbolic :
    (figureOutEnumValues 10 (globalEnumBuilder 32 chainConstants)).map
        (fun r => (r.1, r.2.values))
      = some (1, [QVariant.str (qs "((E.E3.value()+1)+1)"), QVariant.int 6, QVariant.int 5]) := by
  decide!

/-- C9 (amended): for the enum `{E1 = E2+1, E2 = E3+1, E3 = 5}` enclosed in a
class, of size 8, 16, 32 or 64, `figureOutEnumValues` leaves `E1 = 7`,
`E2 = 6` and `E3 = 5` as integers, without any retry round and without a
warning. -/
theorem figureOutEnumValues_class_chain :
    (figureOutEnumValues 10 (classEnumBuilder 8 chainConstants)).map
        (fun r => (r.1, r.2.values, r.2.reported))
      = some (0, [QVariant.int 7, QVariant.int 6, QVariant.int 5], [])
    ∧ (figureOutEnumValues 10 (classEnumBuilder 16 chainConstants)).map
        (fun r => (r.1, r.2.values, r.2.reported))
      = some (0, [QVariant.int 7, QVariant.int 6, QVariant.int 5], [])
    ∧ (figureOutEnumValues 10 (classEnumBuilder 32 chainConstants)).map
        (fun r => (r.1, r.2.values, r.2.reported))
      = some (0, [QVariant.int 7, QVariant.int 6, QVariant.int 5], [])
    ∧ (figureOutEnumValues 10 (classEnumBuilder 64 chainConstants)).map
        (fun r => (r.1, r.2.values, r.2.reported))
      = some (0, [QVariant.int 7, QVariant.int 6, QVariant.int 5], []) := by
  refine ⟨by decide!, by decide!, by decide!, by decide!⟩

/-! ## Enum values: constants that refer to each other -/

theorem computeTarget_none (self : EvalFn) (size ev : Nat) (old : QVariant) (global : Option Nat)
    (target : Nat) (v : QVariant) (b : Builder)
    (h : self size (b.value ev).stringValue old global (some target) b = none) :
    computeTarget self size ev old global target v b = none := by
  unfold computeTarget
  rw [h]

theorem valueOrCompute_none (self : EvalFn) (size ev : Nat) (global : Option Nat)
    (target : Nat) (v : QVariant) (b : Builder)
    (hv : (b.value ev).value.isValid = false)
    (h : self size (b.value ev).stringValue QVariant.invalid global (some target) b = none) :
    valueOrCompute self size ev global target v b = none := by
  unfold valueOrCompute
  rw [hv, computeTarget_none _ _ _ _ _ _ _ _ h]
  rfl

theorem resolveUnregistered_own (self : EvalFn) (s : QString) (global : Option Nat)
    (me ev : Nat) (b : Builder)
    (hscoped : (b.enum me).typeEntry.isScopedEnum = false)
    (hfind : b.findInEnum me s = some ev) :
    resolveUnregistered self s global (some me) b
      = (valueOrCompute self (b.enum me).typeEntry.size ev global me QVariant.invalid b).map
          (fun p => (p.1, some ev, p.2)) := by
  unfold resolveUnregistered
  simp [hscoped, hfind]


/-- Evaluating the bare name of a constant of the enum at hand whose value is
not computed yet evaluates the initializer of that constant first: when that
evaluation does not return, neither does the evaluation of the name. -/
theorem figureOutEnumValueBody_reference_none (self : EvalFn) (useSet : Bool) (size : Nat)
    (text : QString) (old : QVariant) (me ev : Nat) (b : Builder)
    (hne : text.isEmpty = false)
    (hprep : prepareExpression text = (false, false, some [text]))
    (hop : prepareOperand text = text)
    (hfo : findOperatorWith self size text none (some me) b = some (Operator.new size, text, b))
    (hlit : (parseLiteral size text).2 = false)
    (hreg : b.registered text = none)
    (hscoped : (b.enum me).typeEntry.isScopedEnum = false)
    (hfind : b.findInEnum me text = some ev)
    (hv : (b.value ev).value.isValid = false)
    (hself : self (b.enum me).typeEntry.size (b.value ev).stringValue QVariant.invalid none
      (some me) b = none) :
    figureOutEnumValueBody self useSet size text old none (some me) b = none := by
  have hres : resolveUnregistered self text none (some me) b = none := by
    rw [resolveUnregistered_own self text none me ev b hscoped hfind,
      valueOrCompute_none self _ ev none me _ b hv hself]
    rfl
  unfold figureOutEnumValueBody
  simp only [hne, hprep, evalOperands, evalOperand, hop, hfo, hlit, hreg, hres]
  simp

/-- The builder with the class enum `{A = B, B = A}`. -/
theorem mutual_loop (fuel : Nat) :
    figureOutEnumValue true fuel 32 (qs "A") QVariant.invalid none (some 0)
        (classEnumBuilder 32 mutualConstants) = none
    ∧ figureOutEnumValue true fuel 32 (qs "B") QVariant.invalid none (some 0)
        (classEnumBuilder 32 mutualConstants) = none := by
  induction fuel with
  | zero => exact ⟨rfl, rfl⟩
  | succ n ih =>
    constructor
    · show figureOutEnumValueBody (figureOutEnumValue true n) true 32 (qs "A") _ _ _ _ = none
      exact figureOutEnumValueBody_reference_none _ true 32 (qs "A") _ 0 0 _ rfl (by decide)
        (by decide) rfl (by decide) (by decide) rfl (by decide) rfl ih.2
    · show figureOutEnumValueBody (figureOutEnumValue true n) true 32 (qs "B") _ _ _ _ = none
      exact figureOutEnumValueBody_reference_none _ true 32 (qs "B") _ 0 1 _ rfl (by decide)
        (by decide) rfl (by decide) (by decide) rfl (by decide) rfl ih.1

theorem figureOutEnumConstants_none (fuel e v : Nat) (rest : List Nat) (value : QVariant)
    (hasString : Bool) (b : Builder)
    (hv : (b.value v).value.isValid = false)
    (h : figureOutEnumValue true fuel (b.enum e).typeEntry.size (b.value v).stringValue value
      none (some e) b = none) :
    figureOutEnumConstants fuel e (v :: rest) value hasString b = none := by
  unfold figureOutEnumConstants
  simp [hv, h]

theorem figureOutEnumsOfClass_none (fuel e : Nat) (rest : List Nat) (clsName : QString)
    (hasString : Bool) (b : Builder)
    (h : figureOutEnumConstants fuel e (b.enum e).values (QVariant.int 0) hasString b = none) :
    figureOutEnumsOfClass fuel clsName (e :: rest) hasString b = none := by
  unfold figureOutEnumsOfClass
  simp [h]

theorem figureOutEnumValuesForClass_none (fuel c : Nat) (classes repeatClasses : List Nat)
    (b : Builder) (hbase : (b.cls c).baseClass = none) (hc : classes.contains c = false)
    (h : figureOutEnumsOfClass fuel (b.cls c).name (b.cls c).enums false b = none) :
    figureOutEnumValuesForClass (fuel + 1) c classes repeatClasses b = none := by
  have hc' : c ∉ classes := by simpa using hc
  unfold figureOutEnumValuesForClass
  simp [hbase, hc', h]

theorem self_loop (fuel : Nat) (old : QVariant) :
    figureOutEnumValue true fuel 32 (qs "A") old none (some 0)
        (classEnumBuilder 32 selfConstants) = none := by
  induction fuel generalizing old with
  | zero => rfl
  | succ n ih =>
    show figureOutEnumValueBody (figureOutEnumValue true n) true 32 (qs "A") _ _ _ _ = none
    exact figureOutEnumValueBody_reference_none _ true 32 (qs "A") _ 0 0 _ rfl (by decide)
      (by decide) rfl (by decide) (by decide) rfl (by decide) rfl (ih _)

theorem figureOutEnumValues_first_constant_none (fuel : Nat) (b : Builder) (v : Nat)
    (rest : List Nat) (hm : b.m_meta_classes = [0]) (hw : b.warnings = [])
    (hbase : (b.cls 0).baseClass = none) (he : (b.cls 0).enums = [0])
    (hvals : (b.enum 0).values = v :: rest) (hv : (b.value v).value.isValid = false)
    (h : ∀ n old, figureOutEnumValue true n (b.enum 0).typeEntry.size (b.value v).stringValue old
      none (some 0) b = none) :
    figureOutEnumValues fuel b = none := by
  have hb : { b with warnings := [] } = b := by
    cases b
    simp only at hw
    subst hw
    rfl
  unfold figureOutEnumValues
  rw [hb, hm]
  cases fuel with
  | zero => rfl
  | succ n =>
    have h1 : figureOutEnumConstants n 0 (b.enum 0).values (QVariant.int 0) false b = none := by
      rw [hvals]
      exact figureOutEnumConstants_none n 0 v rest _ false b hv (h n _)
    have h2 : figureOutEnumsOfClass n (b.cls 0).name (b.cls 0).enums false b = none := by
      rw [he]
      exact figureOutEnumsOfClass_none n 0 [] _ false b h1
    have h3 := figureOutEnumValuesForClass_none n 0 [] [] b hbase rfl h2
    simp [figureOutEnumValuesForClasses, h3]

/-- C10 (the code at the failing input): for a class enum whose constants
refer to each other, `{A = B, B = A}`, and for one whose constant refers to
itself, `{A = A}`, `figureOutEnumValues` returns with no amount of fuel: the
evaluation of a constant evaluates the constant its initializer names, which
is being evaluated already, without end. -/
theorem figureOutEnumValues_cyclic_reference_diverges (fuel : Nat) :
    figureOutEnumValues fuel (classEnumBuilder 32 mutualConstants) = none
      ∧ figureOutEnumValues fuel (classEnumBuilder 32 selfConstants) = none := by
  constructor
  · refine figureOutEnumValues_first_constant_none fuel _ 0 [1] rfl rfl rfl rfl rfl rfl ?_
    intro n old
    cases n with
    | zero => rfl
    | succ m =>
      exact figureOutEnumValueBody_reference_none _ true 32 (qs "B") _ 0 1 _ rfl (by decide)
        (by decide) rfl (by decide) (by decide) rfl (by decide) rfl (mutual_loop m).1
  · exact figureOutEnumValues_first_constant_none fuel _ 0 [] rfl rfl rfl rfl rfl rfl
      (fun n old => self_loop n old)

/-! ## QString lemmas -/

theorem trimStart_of_head (s : QString) (h : ∀ c ∈ s.head?, isSpace c = false) :
    trimStart s = s := by
  cases s with
  | nil => rfl
  | cons c cs =>
    have hc : isSpace c = false := h c (by simp)
    simp [trimStart, hc]

theorem trimEnd_of_last (s : QString) (h : ∀ c ∈ s.getLast?, isSpace c = false) :
    trimEnd s = s := by
  unfold trimEnd
  rw [trimStart_of_head s.reverse (by simpa using h)]
  simp

theorem trimmed_of_ends (s : QString) (h1 : ∀ c ∈ s.head?, isSpace c = false)
    (h2 : ∀ c ∈ s.getLast?, isSpace c = false) : trimmed s = s := by
  unfold trimmed
  rw [trimStart_of_head s h1, trimEnd_of_last s h2]

theorem trimmed_append_space (s : QString) (hne : s ≠ [])
    (h1 : ∀ c ∈ s.head?, isSpace c = false) (h2 : ∀ c ∈ s.getLast?, isSpace c = false) :
    trimmed (s ++ [' ']) = s := by
  unfold trimmed
  rw [trimStart_of_head (s ++ [' ']) (by
    cases s with
    | nil => exact absurd rfl hne
    | cons c cs => simpa using h1)]
  unfold trimEnd
  have hsp : isSpace ' ' = true := by decide
  simp only [List.reverse_append, List.reverse_cons, List.reverse_nil, List.nil_append,
    List.singleton_append, trimStart, hsp, if_true]
  rw [trimStart_of_head s.reverse (by simpa using h2)]
  simp

theorem trimmed_space_append (s : QString)
    (h1 : ∀ c ∈ s.head?, isSpace c = false) (h2 : ∀ c ∈ s.getLast?, isSpace c = false) :
    trimmed (' ' :: s) = s := by
  have hsp : isSpace ' ' = true := by decide
  unfold trimmed
  simp only [trimStart, hsp, if_true]
  rw [trimStart_of_head s h1, trimEnd_of_last s h2]

theorem startsWith_append_of_not_mem (s p rest : QString) (c : Char) (hc : c ∉ p) :
    startsWith (s ++ c :: rest) p = startsWith s p := by
  induction s generalizing p with
  | nil =>
    cases p with
    | nil => rfl
    | cons x xs =>
      have : c ≠ x := fun h => hc (by simp [h])
      simp [startsWith, this]
  | cons a as ih =>
    cases p with
    | nil => rfl
    | cons x xs =>
      have ih' := ih xs (fun h => hc (List.mem_cons_of_mem _ h))
      show (a == x && startsWith (as ++ c :: rest) xs) = (a == x && startsWith as xs)
      rw [ih']

theorem indexOfFrom_char_of_not_mem (c : Char) (s : QString) (off : Nat) (h : c ∉ s) :
    indexOfFrom [c] s off = -1 := by
  induction s generalizing off with
  | nil => simp [indexOfFrom]
  | cons a as ih =>
    have hne : a ≠ c := fun e => h (by simp [e])
    have has : c ∉ as := fun e => h (List.mem_cons_of_mem _ e)
    simp [indexOfFrom, startsWith, hne, ih _ has]

theorem indexOfChar_of_not_mem (c : Char) (s : QString) (h : c ∉ s) : indexOfChar s c = -1 :=
  indexOfFrom_char_of_not_mem c s 0 h

theorem splitAux_of_not_mem (sep : Char) (s cur : QString) (h : sep ∉ s) :
    splitAux sep s cur = [cur.reverse ++ s] := by
  induction s generalizing cur with
  | nil => simp [splitAux]
  | cons a as ih =>
    have hne : a ≠ sep := fun e => h (by simp [e])
    have has : sep ∉ as := fun e => h (List.mem_cons_of_mem _ e)
    simp [splitAux, hne, ih _ has]

theorem splitAux_append (sep : Char) (s rest cur : QString) (h : sep ∉ s) :
    splitAux sep (s ++ sep :: rest) cur = (cur.reverse ++ s) :: splitAux sep rest [] := by
  induction s generalizing cur with
  | nil => simp [splitAux]
  | cons a as ih =>
    have hne : a ≠ sep := fun e => h (by simp [e])
    have has : sep ∉ as := fun e => h (List.mem_cons_of_mem _ e)
    simp [splitAux, hne, ih _ has]

theorem stripParens_of_not_startsWith (s : QString) (h : startsWith s ['('] = false) :
    stripParens s = s := by
  unfold stripParens
  cases s.length with
  | zero => rfl
  | succ n => simp [stripParensAux, h]

theorem startsWith_singleton_of_not_mem (s : QString) (c : Char) (h : c ∉ s) :
    startsWith s [c] = false := by
  cases s with
  | nil => rfl
  | cons a as =>
    have hne : a ≠ c := fun e => h (by simp [e])
    simp [startsWith, hne]

theorem stripTypeCall_of_not_mem (castForm : Bool) (s : QString) (h : '(' ∉ s) :
    stripTypeCall castForm s = none := by
  unfold stripTypeCall
  simp [indexOfChar_of_not_mem _ _ h]

theorem stripStaticCast_of_not_startsWith (s : QString)
    (h : startsWith s (qs "static_cast") = false) : stripStaticCast s = s := by
  unfold stripStaticCast
  simp [h]

/-! ## Enum values: the bitwise OR of operands -/

theorem toUnsigned_wrap (w : Nat) (a : Int) : toUnsigned w (wrap w a) = toUnsigned w a := by
  unfold toUnsigned wrap
  congr 1
  rw [Int.sub_emod, Int.emod_emod_of_dvd _ (dvd_refl _), ← Int.sub_emod]
  simp

theorem bitOr_wrap (w : Nat) (a c : Int) : bitOr w (wrap w a) (wrap w c) = bitOr w a c := by
  unfold bitOr
  rw [toUnsigned_wrap, toUnsigned_wrap]

theorem prepareExpression_plain (A : QString) (h : PlainOperand A) :
    prepareExpression A = (false, false, some [A]) := by
  unfold prepareExpression
  simp only [trimmed_of_ends A h.headNoSpace h.lastNoSpace, h.noTilde, h.noMinus,
    Bool.not_false, Bool.and_false, Bool.or_false, Bool.false_eq_true, if_false,
    stripParens_of_not_startsWith A (startsWith_singleton_of_not_mem A _ h.noParen),
    stripStaticCast_of_not_startsWith A h.noCast, stripTypeCall_of_not_mem true A h.noParen,
    Option.isSome_none, Bool.false_and, Option.getD_none, split,
    splitAux_of_not_mem _ A [] h.noBar]
  simp

theorem plain_or (A B : QString) (hA : PlainOperand A) (hB : PlainOperand B) :
    (∀ c ∈ (A ++ qs " | " ++ B).head?, isSpace c = false)
      ∧ (∀ c ∈ (A ++ qs " | " ++ B).getLast?, isSpace c = false)
      ∧ '(' ∉ A ++ qs " | " ++ B := by
  refine ⟨?_, ?_, ?_⟩
  · cases A with
    | nil => exact absurd rfl hA.nonempty
    | cons a as => simpa using hA.headNoSpace
  · have hq : qs " | " = [' ', '|', ' '] := rfl
    have hl : (A ++ qs " | " ++ B).getLast? = B.getLast? := by
      rw [List.getLast?_append_of_ne_nil _ hB.nonempty]
    rw [hl]
    exact hB.lastNoSpace
  · have hq : qs " | " = [' ', '|', ' '] := rfl
    simp only [hq, List.mem_append, List.mem_cons, List.mem_singleton, List.not_mem_nil,
      or_false, not_or]
    exact ⟨⟨hA.noParen, by decide, by decide, by decide⟩, hB.noParen⟩

theorem prepareExpression_or (A B : QString) (hA : PlainOperand A) (hB : PlainOperand B) :
    prepareExpression (A ++ qs " | " ++ B) = (false, false, some [A ++ [' '], ' ' :: B]) := by
  obtain ⟨h1, h2, h3⟩ := plain_or A B hA hB
  have hq : A ++ qs " | " ++ B = A ++ ' ' :: ('|' :: ' ' :: B) := by
    simp [qs]
  have hq2 : A ++ qs " | " ++ B = (A ++ [' ']) ++ '|' :: (' ' :: B) := by
    simp [qs]
  have ht : startsWith (A ++ qs " | " ++ B) (qs "~") = false := by
    rw [hq, startsWith_append_of_not_mem A _ _ ' ' (by decide)]
    exact hA.noTilde
  have hm : startsWith (A ++ qs " | " ++ B) (qs "-") = false := by
    rw [hq, startsWith_append_of_not_mem A _ _ ' ' (by decide)]
    exact hA.noMinus
  have hc : startsWith (A ++ qs " | " ++ B) (qs "static_cast") = false := by
    rw [hq, startsWith_append_of_not_mem A _ _ ' ' (by decide)]
    exact hA.noCast
  have hbar : '|' ∉ A ++ [' '] := by
    simp only [List.mem_append, List.mem_singleton, not_or]
    exact ⟨hA.noBar, by decide⟩
  have hbar2 : '|' ∉ ' ' :: B := by
    simp only [List.mem_cons, not_or]
    exact ⟨by decide, hB.noBar⟩
  have hsplit : split (A ++ qs " | " ++ B) '|' = [A ++ [' '], ' ' :: B] := by
    unfold split
    rw [hq2, splitAux_append _ _ _ _ hbar, splitAux_of_not_mem _ _ _ hbar2]
    simp
  unfold prepareExpression
  simp only [trimmed_of_ends _ h1 h2, ht, hm, Bool.not_false, Bool.and_false, Bool.or_false,
    Bool.false_eq_true, if_false,
    stripParens_of_not_startsWith _ (startsWith_singleton_of_not_mem _ _ h3),
    stripStaticCast_of_not_startsWith _ hc, stripTypeCall_of_not_mem true _ h3,
    Option.isSome_none, Bool.false_and, Option.getD_none, hsplit]

theorem prepareOperand_congr (x y : QString) (h : trimmed x = trimmed y) :
    prepareOperand x = prepareOperand y := by
  unfold prepareOperand
  rw [h]

theorem evalOperand_congr (self : EvalFn) (useSet : Bool) (size : Nat)
    (global meta_enum : Option Nat) (x y : QString) (b : Builder)
    (h : prepareOperand x = prepareOperand y) :
    evalOperand self useSet size global meta_enum x b
      = evalOperand self useSet size global meta_enum y b := by
  unfold evalOperand
  rw [h]

/-- What a call on a plain operand that returns an integer and leaves the
state as it is tells about the round of the operand loop. -/
theorem evalOperand_of_plain (self : EvalFn) (useSet : Bool) (size : Nat) (A : QString)
    (old : QVariant) (global meta_enum : Option Nat) (b : Builder) (a : Int)
    (hA : PlainOperand A)
    (h : figureOutEnumValueBody self useSet size A old global meta_enum b
      = some (QVariant.int a, b)) :
    ∃ out, evalOperand self useSet size global meta_enum A b = some (out, b)
      ∧ out.2.2 = true ∧ out.2.1 = QVariant.int a := by
  have hne : A.isEmpty = false := by
    cases A with
    | nil => exact absurd rfl hA.nonempty
    | cons _ _ => rfl
  unfold figureOutEnumValueBody at h
  simp only [hne, Bool.false_eq_true, if_false, prepareExpression_plain A hA, evalOperands] at h
  cases he : evalOperand self useSet size global meta_enum A b with
  | none => simp [he] at h
  | some r =>
    obtain ⟨out, b1⟩ := r
    simp only [he, Option.some.injEq, Prod.mk.injEq] at h
    obtain ⟨hv, hb⟩ := h
    subst hb
    refine ⟨out, rfl, ?_⟩
    cases hflag : out.2.2 with
    | false => simp [combineOperands, hflag] at hv
    | true =>
      refine ⟨rfl, ?_⟩
      simpa [combineOperands, hflag] using hv

/-- C1 (counterexample): at width 32 the text `-1` evaluates to -1 and `2` to
2, whose bitwise OR is -1, but `-1 | 2` evaluates to -3: the leading minus is
taken off the whole expression and applied to `1 | 2`. -/
theorem figureOutEnumValue_leading_minus_negates_whole_or :
    (figureOutEnumValue true 3 32 (qs "-1") QVariant.invalid none none {}).map Prod.fst
        = some (QVariant.int (-1))
      ∧ (figureOutEnumValue true 3 32 (qs "2") QVariant.invalid none none {}).map Prod.fst
        = some (QVariant.int 2)
      ∧ (figureOutEnumValue true 3 32 (qs "-1 | 2") QVariant.invalid none none {}).map Prod.fst
        = some (QVariant.int (-3))
      ∧ bitOr 32 (-1) 2 = -1 := by
  refine ⟨by decide!, by decide!, by decide!, by decide⟩

/-- C1 (amended): for plain operand texts `A` and `B` (not empty, no
surrounding white space, no `|` or `(`, not starting with `~`, `-` or
`static_cast`) that `figureOutEnumValue` evaluates on their own at some width
to integers `a` and `c` without changing the state (no forward reference is
resolved on the way), the text `A | B` evaluates with the same fuel to the
bitwise OR of `a` and `c` at that width. -/
theorem figureOutEnumValue_or (useSet : Bool) (fuel size : Nat) (A B : QString)
    (old oldA oldB : QVariant) (global meta_enum : Option Nat) (b : Builder) (a c : Int)
    (hA : PlainOperand A) (hB : PlainOperand B)
    (ha : figureOutEnumValue useSet fuel size A oldA global meta_enum b
      = some (QVariant.int a, b))
    (hc : figureOutEnumValue useSet fuel size B oldB global meta_enum b
      = some (QVariant.int c, b)) :
    figureOutEnumValue useSet fuel size (A ++ qs " | " ++ B) old global meta_enum b
      = some (QVariant.int (bitOr (widthOf size) a c), b) := by
  cases fuel with
  | zero => simp [figureOutEnumValue] at ha
  | succ n =>
    obtain ⟨outA, heA, hfA, hvA⟩ := evalOperand_of_plain _ useSet size A oldA global meta_enum b a
      hA ha
    obtain ⟨outB, heB, hfB, hvB⟩ := evalOperand_of_plain _ useSet size B oldB global meta_enum b c
      hB hc
    have hne : (A ++ qs " | " ++ B).isEmpty = false := by
      cases A with
      | nil => exact absurd rfl hA.nonempty
      | cons _ _ => rfl
    have h1 : evalOperand (figureOutEnumValue useSet n) useSet size global meta_enum
        (A ++ [' ']) b = some (outA, b) := by
      rw [evalOperand_congr _ _ _ _ _ (A ++ [' ']) A b (prepareOperand_congr _ _ (by
        rw [trimmed_append_space A hA.nonempty hA.headNoSpace hA.lastNoSpace,
          trimmed_of_ends A hA.headNoSpace hA.lastNoSpace]))]
      exact heA
    have h2 : evalOperand (figureOutEnumValue useSet n) useSet size global meta_enum
        (' ' :: B) b = some (outB, b) := by
      rw [evalOperand_congr _ _ _ _ _ (' ' :: B) B b (prepareOperand_congr _ _ (by
        rw [trimmed_space_append B hB.headNoSpace hB.lastNoSpace,
          trimmed_of_ends B hB.headNoSpace hB.lastNoSpace]))]
      exact heB
    show figureOutEnumValueBody _ useSet size _ old global meta_enum b = _
    unfold figureOutEnumValueBody
    simp only [hne, Bool.false_eq_true, if_false, prepareExpression_or A B hA hB, evalOperands,
      h1, h2]
    simp [combineOperands, hfA, hfB, hvA, hvB, QVariant.toInt, bitOr_wrap]

/-- An instance of `figureOutEnumValue_or`: `1 | 2` at width 32 gives 3. -/
theorem figureOutEnumValue_or_witness :
    figureOutEnumValue true 3 32 (qs "1" ++ qs " | " ++ qs "2") QVariant.invalid none none {}
        = some (QVariant.int (bitOr (widthOf 32) 1 2), {})
      ∧ bitOr (widthOf 32) 1 2 = 3 :=
  ⟨figureOutEnumValue_or true 3 32 (qs "1") (qs "2") QVariant.invalid QVariant.invalid
      QVariant.invalid none none {} 1 2
      ⟨by decide, by decide, by decide, by decide, by decide, by decide, by decide, by decide⟩
      ⟨by decide, by decide, by decide, by decide, by decide, by decide, by decide, by decide⟩
      rfl rfl,
    by decide⟩

/-! ## translateType: typedef resolution -/

theorem resolveTypedefs_skip (resolve : TypeInfo → Scope → TypeInfo) (type_info : TypeInfo)
    (inner outer : List Scope) (s : Scope) (typei : TypeInfo)
    (hinner : ∀ x ∈ inner, join (qs "::") (resolve type_info x).qualifiedName
      = join (qs "::") type_info.qualifiedName) :
    resolveTypedefs resolve type_info (inner ++ s :: outer) typei
      = resolveTypedefs resolve type_info (s :: outer) typei := by
  induction inner generalizing typei with
  | nil => rfl
  | cons x xs ih =>
    have hx := hinner x (List.mem_cons_self _ _)
    have hxs : ∀ y ∈ xs, join (qs "::") (resolve type_info y).qualifiedName
        = join (qs "::") type_info.qualifiedName :=
      fun y hy => hinner y (List.mem_cons_of_mem _ hy)
    have h := ih (resolve type_info x) hxs
    simp only [List.cons_append, resolveTypedefs, hx, bne_self_eq_false, Bool.false_eq_true,
      if_false] at h ⊢
    exact h

/-- C8: the typedef resolution of `translateType` walks the scope stack from
its last, innermost scope outward and keeps the result of the first scope in
which resolution changes the qualified name: when no scope of `inner` changes
the name and the scope `s` below them does, the result is the resolution in
`s`, whatever the scopes `outer` further out, the global one included, would
resolve the name to. -/
theorem resolveTypedefs_innermost_wins (resolve : TypeInfo → Scope → TypeInfo)
    (type_info typei : TypeInfo) (outer inner : List Scope) (s : Scope)
    (hinner : ∀ x ∈ inner, join (qs "::") (resolve type_info x).qualifiedName
      = join (qs "::") type_info.qualifiedName)
    (hs : join (qs "::") (resolve type_info s).qualifiedName
      ≠ join (qs "::") type_info.qualifiedName) :
    resolveTypedefs resolve type_info (outer ++ s :: inner).reverse typei
      = resolve type_info s := by
  have hrev : ∀ x ∈ inner.reverse, join (qs "::") (resolve type_info x).qualifiedName
      = join (qs "::") type_info.qualifiedName :=
    fun x hx => hinner x (List.mem_reverse.mp hx)
  have hlist : (outer ++ s :: inner).reverse = inner.reverse ++ (s :: outer.reverse) := by
    simp
  rw [hlist, resolveTypedefs_skip resolve type_info _ _ _ typei hrev]
  simp [resolveTypedefs, hs]

theorem resolveTypedefs_innermost_wins_witness :
    resolveTypedefs sampleResolveType { qualifiedName := [qs "T"] }
        ([sampleGlobalScope] ++ sampleInnerScope :: [({} : Scope)]).reverse {}
      = { qualifiedName := [qs "double"] }
    ∧ sampleResolveType { qualifiedName := [qs "T"] } sampleGlobalScope
      = { qualifiedName := [qs "int"] } :=
  ⟨resolveTypedefs_innermost_wins sampleResolveType { qualifiedName := [qs "T"] } {}
      [sampleGlobalScope] [({} : Scope)] sampleInnerScope (by decide) (by decide),
    by decide⟩

/-! ## translateType: the searches over base classes -/

theorem collectSuperClasses_cyclic (fuel : Nat) :
    ∀ contexts : List QString,
      collectSuperClasses sampleCyclicClasses fuel [qs "B"] contexts = none
      ∧ collectSuperClasses sampleCyclicClasses fuel [qs "A"] contexts = none := by
  induction fuel with
  | zero => intro contexts; exact ⟨rfl, rfl⟩
  | succ n ih =>
    intro contexts
    have hB : nextSuperClasses sampleCyclicClasses [qs "B"] = [qs "A"] := by decide
    have hA : nextSuperClasses sampleCyclicClasses [qs "A"] = [qs "B"] := by decide
    constructor
    · show (if ([qs "B"] : List QString).isEmpty then some contexts
        else collectSuperClasses sampleCyclicClasses n
          (nextSuperClasses sampleCyclicClasses [qs "B"])
          (contexts ++ nextSuperClasses sampleCyclicClasses [qs "B"])) = none
      rw [hB]
      exact (ih _).2
    · show (if ([qs "A"] : List QString).isEmpty then some contexts
        else collectSuperClasses sampleCyclicClasses n
          (nextSuperClasses sampleCyclicClasses [qs "A"])
          (contexts ++ nextSuperClasses sampleCyclicClasses [qs "A"])) = none
      rw [hA]
      exact (ih _).1

theorem translateTypeBody_none_of_collect (self : TranslateFn) (fuel : Nat) (env : TranslateEnv)
    (type_info : TypeInfo) (prependScope : Bool) (info : ParserInfo) (name : QString)
    (cur : MetaClass)
    (hu : env.isUniqueClassName (join (qs "::") type_info.qualifiedName) = true)
    (hfp : type_info.isFunctionPointer = false)
    (hparse : env.parse (env.typeInfoToString type_info) = info)
    (hb : info.is_busted = false) (harr : info.arrays = [])
    (hlast : info.qualified_name.getLast? = some name)
    (hvoid : (name == qs "void") = false)
    (hflags : (join (qs "::") info.qualified_name == qs "QFlags") = false)
    (hfind : env.findType (join (qs "::") info.qualified_name) = none)
    (hff : env.findFlagsType (join (qs "::") info.qualified_name) = none)
    (hc : env.findContainerType name = none)
    (hpc : env.findPointerContainerType name = none)
    (hil : env.findInitializerListType name = none)
    (hfun : env.m_current_function = none)
    (hcur : env.m_current_class = some cur)
    (hta : cur.templateArguments.find?
      (fun te => te.name == join (qs "::") info.qualified_name) = none)
    (hdom : env.domFindClass (join (qs "::") info.qualified_name.dropLast) = none)
    (hrej : env.isClassRejected (join (qs "::") info.qualified_name) = false)
    (hcollect : collectSuperClasses env.metaFindClass fuel (publicBaseClassNames cur)
      (cur.qualifiedCppName :: publicBaseClassNames cur) = none) :
    translateTypeBody self fuel env type_info false true prependScope = none := by
  simp [translateTypeBody, hu, hfp, hparse, hb, harr, hlast, hvoid, hflags, hfind, hff, hc, hpc,
    hil, hfun, hcur, hta, hdom, hrej, hcollect]

theorem translateTypeBody_none_of_first_check (self : TranslateFn) (fuel : Nat)
    (env : TranslateEnv) (type_info : TypeInfo) (resolveScope prependScope : Bool)
    (hu : env.isUniqueClassName (join (qs "::") type_info.qualifiedName) = true)
    (hself : self type_info false resolveScope prependScope = none) :
    translateTypeBody self fuel env type_info true resolveScope prependScope = none := by
  simp [translateTypeBody, hu, hself]

theorem translateType_cyclic_none (fuel : Nat) :
    ∀ resolveType prependScope : Bool,
      translateType sampleCyclicEnv fuel sampleMissing resolveType true prependScope = none := by
  induction fuel with
  | zero => intro _ _; rfl
  | succ n ih =>
    intro resolveType prependScope
    cases resolveType with
    | false =>
      exact translateTypeBody_none_of_collect (translateType sampleCyclicEnv n) n sampleCyclicEnv
        sampleMissing prependScope (plainInfo [qs "Missing"]) (qs "Missing") sampleClassA
        (by decide) (by decide) rfl (by decide) (by decide) (by decide) (by decide)
        (by decide) (by decide) (by decide) (by decide) (by decide) (by decide) rfl
        rfl (by decide) (by decide) (by decide)
        (collectSuperClasses_cyclic n _).1
    | true =>
      exact translateTypeBody_none_of_first_check (translateType sampleCyclicEnv n) n
        sampleCyclicEnv sampleMissing true prependScope (by decide) (ih false prependScope)

/-- C7 (the code at the failing input): the base-class searches of
`translateType` end when the base-class names form no cycle, but not for
every finite base-class relation. Inside the
class `A` with the public base-class name `B`, a type name that no lookup
finds is given up when `B` has no base; when `B` has the public base-class
name `A`, the loop that collects the public bases of the current class never
ends, and no amount of fuel lets `translateType` return. -/
theorem translateType_cyclic_bases_diverges :
    (translateType sampleAcyclicEnv 9 sampleMissing true true true).map
        (fun r => (r.1.isSome, r.2)) = some (false, false)
    ∧ ∀ (fuel : Nat) (resolveType prependScope : Bool),
        translateType sampleCyclicEnv fuel sampleMissing resolveType true prependScope = none :=
  ⟨by decide!, fun fuel resolveType prependScope =>
    translateType_cyclic_none fuel resolveType prependScope⟩


/-! ## translateType: the result without a type -/

/-- C6 (the code at the failing input): `translateType` returns no type and
leaves `*ok` at `true` not only for `void`. It does so for the array `int[N]`, whose element type translates
and whose dimension is no integer literal, and for the generic class
`Box<Unknown>`, whose template argument does not translate; a type name that
no lookup finds gives no type and `*ok = false`. -/
theorem translateType_null_with_ok_for_array_dimension :
    (translateType sampleEnv 4 sampleIntArrayN true true true).map
        (fun r => (r.1.isSome, r.2)) = some (false, true)
    ∧ (translateType sampleEnv 4 sampleBoxOfUnknown true true true).map
        (fun r => (r.1.isSome, r.2)) = some (false, true)
    ∧ (translateType sampleEnv 4 { qualifiedName := [qs "void"] } true true true).map
        (fun r => (r.1.isSome, r.2)) = some (false, true)
    ∧ (translateType sampleEnv 4 sampleMissing true true true).map
        (fun r => (r.1.isSome, r.2)) = some (false, false) := by
  decide!

/-! ## translateType: the list of invalid functions is not read -/

theorem inFunction_m_current_class (env : TranslateEnv) (c : MetaClass)
    (f : Option MetaFunction) : (env.inFunction c f).m_current_class = some c := rfl

theorem searchContainingClassBases_frame (self : TranslateFn) (env : TranslateEnv) (c : MetaClass)
    (l : List MetaFunction) (f : Option MetaFunction) (prependScope : Bool) (typei : TypeInfo)
    (name : QString) (fuel : Nat) :
    ∀ contexts visitedContexts visitedNames,
      searchContainingClassBases self (env.inFunction (c.setInvalidFunctions l) f) prependScope
          typei name fuel contexts visitedContexts visitedNames
        = searchContainingClassBases self (env.inFunction c f) prependScope typei name fuel
          contexts visitedContexts visitedNames := by
  induction fuel with
  | zero => intro _ _ _; rfl
  | succ n ih =>
    intro contexts visitedContexts visitedNames
    cases contexts with
    | nil => rfl
    | cons base others =>
      simp only [searchContainingClassBases, ih]
      rfl

theorem searchCurrentClassBases_frame (self : TranslateFn) (env : TranslateEnv) (c : MetaClass)
    (l : List MetaFunction) (f : Option MetaFunction) (prependScope : Bool) (typei : TypeInfo)
    (qualified_name : QString) (fuel : Nat) :
    ∀ contexts current_class subclasses_done visitedContexts visitedNames,
      searchCurrentClassBases self (env.inFunction (c.setInvalidFunctions l) f) prependScope
          typei qualified_name (c.setInvalidFunctions l) fuel contexts current_class
          subclasses_done visitedContexts visitedNames
        = searchCurrentClassBases self (env.inFunction c f) prependScope typei qualified_name c
          fuel contexts current_class subclasses_done visitedContexts visitedNames := by
  induction fuel with
  | zero => intro _ _ _ _ _; rfl
  | succ n ih =>
    intro contexts current_class subclasses_done visitedContexts visitedNames
    cases contexts with
    | nil => rfl
    | cons base others =>
      simp only [searchCurrentClassBases, ih]
      rfl

theorem translateContainerArguments_frame (self : TranslateFn) (env : TranslateEnv)
    (c : MetaClass) (l : List MetaFunction) (f : Option MetaFunction) (isQmlList : Bool)
    (tas : List ParserInfo) :
    ∀ meta_type,
      translateContainerArguments self (env.inFunction (c.setInvalidFunctions l) f) isQmlList
          tas meta_type
        = translateContainerArguments self (env.inFunction c f) isQmlList tas meta_type := by
  induction tas with
  | nil => intro _; rfl
  | cons ta rest ih =>
    intro meta_type
    simp only [translateContainerArguments, ih]
    rfl

theorem translateGenericArguments_frame (self : TranslateFn) (env : TranslateEnv)
    (c : MetaClass) (l : List MetaFunction) (f : Option MetaFunction) (qualified_name : QString)
    (backup_type : Option TypeEntry) (tas : List ParserInfo) :
    ∀ meta_type,
      translateGenericArguments self (env.inFunction (c.setInvalidFunctions l) f) qualified_name
          backup_type tas meta_type
        = translateGenericArguments self (env.inFunction c f) qualified_name backup_type tas
          meta_type := by
  induction tas with
  | nil => intro _; rfl
  | cons ta rest ih =>
    intro meta_type
    simp only [translateGenericArguments, ih]
    rfl

theorem finishTranslation_frame (self : TranslateFn) (env : TranslateEnv) (c : MetaClass)
    (l : List MetaFunction) (f : Option MetaFunction) (type_info : TypeInfo)
    (typeInfo : ParserInfo) (template_instantiations : List ParserInfo)
    (indirections : List Bool) (qualified_name : QString) (backup_type : Option TypeEntry)
    (type : TypeEntry) :
    finishTranslation self (env.inFunction (c.setInvalidFunctions l) f) type_info typeInfo
        template_instantiations indirections qualified_name backup_type type
      = finishTranslation self (env.inFunction c f) type_info typeInfo template_instantiations
        indirections qualified_name backup_type type := by
  simp only [finishTranslation, translateContainerArguments_frame,
    translateGenericArguments_frame]
  rfl

theorem translateTypeBody_frame (self : TranslateFn) (fuel : Nat) (env : TranslateEnv)
    (c : MetaClass) (l : List MetaFunction) (f : Option MetaFunction) :
    translateTypeBody self fuel (env.inFunction (c.setInvalidFunctions l) f)
      = translateTypeBody self fuel (env.inFunction c f) := by
  funext type_info resolveType resolveScope prependScope
  simp only [translateTypeBody, finishTranslation_frame, searchContainingClassBases_frame,
    inFunction_m_current_class, searchCurrentClassBases_frame]
  rfl

theorem translateType_frame (env : TranslateEnv) (c : MetaClass) (l : List MetaFunction)
    (f : Option MetaFunction) (fuel : Nat) :
    translateType (env.inFunction (c.setInvalidFunctions l) f) fuel
      = translateType (env.inFunction c f) fuel := by
  induction fuel with
  | zero => rfl
  | succ n ih =>
    show translateTypeBody _ n _ = translateTypeBody _ n _
    rw [ih, translateTypeBody_frame]

/-! ## traverseFunction: the list of invalid functions is not read -/

theorem argumentToClass_frame (env : TraverseEnv) (fuel : Nat) (c : MetaClass)
    (l : List MetaFunction) (f : Option MetaFunction) (argument : ArgumentModelItem) :
    argumentToClass env fuel (c.setInvalidFunctions l) f argument
      = argumentToClass env fuel c f argument := by
  simp only [argumentToClass, translateType_frame]

theorem setInvalidFunctions_proj (c : MetaClass) (l : List MetaFunction) :
    (c.setInvalidFunctions l).name = c.name
    ∧ (c.setInvalidFunctions l).qualifiedCppName = c.qualifiedCppName
    ∧ (c.setInvalidFunctions l).simpleName = c.simpleName
    ∧ (c.setInvalidFunctions l).typeEntry = c.typeEntry
    ∧ (c.setInvalidFunctions l).attributes = c.attributes
    ∧ (c.setInvalidFunctions l).baseClassNames = c.baseClassNames
    ∧ (c.setInvalidFunctions l).baseClass = c.baseClass
    ∧ (c.setInvalidFunctions l).enums = c.enums
    ∧ (c.setInvalidFunctions l).functions = c.functions
    ∧ (c.setInvalidFunctions l).fields = c.fields
    ∧ (c.setInvalidFunctions l).templateArguments = c.templateArguments
    ∧ (c.setInvalidFunctions l).propertySpecs = c.propertySpecs
    ∧ (c.setInvalidFunctions l).functionModifications = c.functionModifications
    ∧ (c.setInvalidFunctions l).extraIncludes = c.extraIncludes
    ∧ (c.setInvalidFunctions l).designatedInterface = c.designatedInterface
    ∧ (c.setInvalidFunctions l).isQObject = c.isQObject
    ∧ (c.setInvalidFunctions l).hasEqualsOperator = c.hasEqualsOperator
    ∧ (c.setInvalidFunctions l).hasHashFunction = c.hasHashFunction
    ∧ (c.setInvalidFunctions l).needsHashWorkaround = c.needsHashWorkaround
    ∧ (c.setInvalidFunctions l).hasPublicDestructor = c.hasPublicDestructor
    ∧ (c.setInvalidFunctions l).hasPrivateDestructor = c.hasPrivateDestructor
    ∧ (c.setInvalidFunctions l).hasVirtualDestructor = c.hasVirtualDestructor
    ∧ (c.setInvalidFunctions l).hasJustPrivateConstructors = c.hasJustPrivateConstructors
    ∧ (c.setInvalidFunctions l).unimplementablePureVirtualFunctions = c.unimplementablePureVirtualFunctions
    ∧ (c.setInvalidFunctions l).typeAliasType = c.typeAliasType
    ∧ (c.setInvalidFunctions l).templateBaseClassInstantiations = c.templateBaseClassInstantiations :=
  ⟨rfl, rfl, rfl, rfl, rfl, rfl, rfl, rfl, rfl, rfl, rfl, rfl, rfl, rfl, rfl, rfl, rfl, rfl, rfl, rfl, rfl, rfl, rfl, rfl, rfl, rfl⟩

theorem registerHashFunction_frame (env : TraverseEnv) (fuel : Nat) (c : MetaClass)
    (l : List MetaFunction) (function_item : FunctionModelItem) :
    registerHashFunction env fuel (c.setInvalidFunctions l) function_item
      = (registerHashFunction env fuel c function_item).map
          (fun cls => cls.setInvalidFunctions l) := by
  simp only [registerHashFunction, argumentToClass_frame, MetaClass.modificationsFor,
    isCurrentClass, setInvalidFunctions_proj]
  split_ifs <;> try rfl
  all_goals (split <;> try rfl)
  all_goals (split <;> try rfl)
  all_goals (split_ifs <;> rfl)

theorem flagHashFunction_frame (env : TraverseEnv) (fuel : Nat) (c : MetaClass)
    (l : List MetaFunction) (function_item : FunctionModelItem) :
    flagHashFunction env fuel (c.setInvalidFunctions l) function_item
      = (flagHashFunction env fuel c function_item).map
          (fun cls => cls.setInvalidFunctions l) := by
  simp only [flagHashFunction, argumentToClass_frame, isCurrentClass, setInvalidFunctions_proj]
  split
  · split_ifs
    · split
      · rfl
      · split_ifs <;> rfl
    · rfl
  · rfl

theorem traverseHashFunction_frame (env : TraverseEnv) (fuel : Nat) (c : MetaClass)
    (l : List MetaFunction) (function_item : FunctionModelItem) :
    traverseHashFunction env fuel (c.setInvalidFunctions l) function_item
      = (traverseHashFunction env fuel c function_item).map
          (fun cls => cls.setInvalidFunctions l) := by
  simp only [traverseHashFunction, flagHashFunction_frame]
  cases flagHashFunction env fuel c function_item with
  | none => rfl
  | some c1 => exact registerHashFunction_frame env fuel c1 l function_item

theorem translateReturnType_frame (env : TraverseEnv) (fuel : Nat) (c : MetaClass)
    (l : List MetaFunction) (function_item : FunctionModelItem) (meta_function : MetaFunction) :
    translateReturnType env fuel (c.setInvalidFunctions l) function_item meta_function
      = translateReturnType env fuel c function_item meta_function := by
  simp only [translateReturnType, translateType_frame]
  rfl

theorem translateArgumentType_frame (env : TraverseEnv) (fuel : Nat) (c : MetaClass)
    (l : List MetaFunction) (meta_function : MetaFunction) (arg : ArgumentModelItem) :
    translateArgumentType env fuel (c.setInvalidFunctions l) meta_function arg
      = translateArgumentType env fuel c meta_function arg := by
  simp only [translateArgumentType, translateType_frame]
  rfl

theorem traverseArguments_frame (env : TraverseEnv) (fuel : Nat) (c : MetaClass)
    (l : List MetaFunction) (function_item : FunctionModelItem)
    (arguments : List ArgumentModelItem) :
    ∀ i meta_function meta_arguments items argument_mods originalSignature,
      traverseArguments env fuel (c.setInvalidFunctions l) function_item i arguments
          meta_function meta_arguments items argument_mods originalSignature
        = traverseArguments env fuel c function_item i arguments meta_function meta_arguments
          items argument_mods originalSignature := by
  induction arguments with
  | nil => intro _ _ _ _ _ _; rfl
  | cons arg rest ih =>
    intro i meta_function meta_arguments items argument_mods originalSignature
    simp only [traverseArguments, translateArgumentType_frame, translateType_frame, ih,
      setInvalidFunctions_proj]

theorem traverseOperator_frame (env : TraverseEnv) (fuel : Nat) (c : MetaClass)
    (l : List MetaFunction) (meta_function : MetaFunction) (mod : FunctionModification)
    (isRemoved isRenamed isReturnChanged : Bool) :
    traverseOperator env fuel (c.setInvalidFunctions l) meta_function mod isRemoved isRenamed
        isReturnChanged
      = traverseOperator env fuel c meta_function mod isRemoved isRenamed isReturnChanged := rfl

theorem translateDefaults_frame (env : TraverseEnv) (c : MetaClass) (l : List MetaFunction)
    (meta_function : MetaFunction) (size : Nat) (meta_arguments : List MetaArgument) :
    ∀ i items seen first_default_argument,
      translateDefaults env (c.setInvalidFunctions l) meta_function size i meta_arguments items
          seen first_default_argument
        = translateDefaults env c meta_function size i meta_arguments items seen
          first_default_argument := by
  induction meta_arguments with
  | nil => intro _ _ _ _; rfl
  | cons meta_arg rest ih =>
    intro i items seen first_default_argument
    cases items with
    | nil => rfl
    | cons arg items =>
      simp only [translateDefaults, ih, setInvalidFunctions_proj]

theorem addFunctionModification_setInvalidFunctions (c : MetaClass) (l : List MetaFunction)
    (mod : FunctionModification) :
    (c.setInvalidFunctions l).addFunctionModification mod
      = (c.addFunctionModification mod).setInvalidFunctions l := rfl

theorem finishFunction_frame (env : TraverseEnv) (fuel : Nat) (c : MetaClass)
    (l : List MetaFunction) (function_item : FunctionModelItem) (meta_function : MetaFunction)
    (meta_arguments : List MetaArgument) (items : List ArgumentModelItem)
    (mod : FunctionModification) (originalSignature : QString) :
    finishFunction env fuel (c.setInvalidFunctions l) function_item meta_function
        meta_arguments items mod originalSignature
      = (finishFunction env fuel c function_item meta_function meta_arguments items mod
          originalSignature).map (Traversed.setInvalidFunctions l) := by
  simp only [finishFunction, traverseOperator_frame, MetaClass.modificationsFor,
    setInvalidFunctions_proj]
  split
  · rfl
  · rfl
  · simp only [Option.map]
    split_ifs
    · simp only [addFunctionModification_setInvalidFunctions, translateDefaults_frame]
      rfl
    · simp only [translateDefaults_frame]
      rfl

theorem classifyFunction_frame (env : TraverseEnv) (fuel : Nat) (c : MetaClass)
    (l : List MetaFunction) (function_item : FunctionModelItem) (meta_function : MetaFunction) :
    classifyFunction env fuel (c.setInvalidFunctions l) function_item meta_function
      = classifyFunction env fuel c function_item meta_function := by
  simp only [classifyFunction, translateReturnType_frame, setInvalidFunctions_proj]

theorem traverseFunctionBody_frame (env : TraverseEnv) (fuel : Nat) (c : MetaClass)
    (l : List MetaFunction) (function_item : FunctionModelItem) :
    traverseFunctionBody env fuel (c.setInvalidFunctions l) function_item
      = (traverseFunctionBody env fuel c function_item).map
          (Traversed.setInvalidFunctions l) := by
  simp only [traverseFunctionBody, classifyFunction_frame, traverseArguments_frame]
  split
  · rfl
  · rfl
  · split
    · rfl
    · rfl
    · rfl
    · exact finishFunction_frame env fuel c l function_item _ _ _ _ _

theorem traverseFunctionCore_frame (env : TraverseEnv) (fuel : Nat) (c : MetaClass)
    (l : List MetaFunction) (function_item : FunctionModelItem) :
    traverseFunctionCore env fuel (c.setInvalidFunctions l) function_item
      = (traverseFunctionCore env fuel c function_item).map
          (Traversed.setInvalidFunctions l) := by
  simp only [traverseFunctionCore, traverseHashFunction_frame, traverseFunctionBody_frame,
    setInvalidFunctions_proj]
  split_ifs
  · rfl
  · rfl
  · rfl
  · cases traverseHashFunction env fuel c function_item <;> rfl
  · rfl
  · rfl

theorem traverseFunction_frame (env : TraverseEnv) (fuel : Nat) (c : MetaClass)
    (l : List MetaFunction) (function_item : FunctionModelItem) :
    traverseFunction env fuel (c.setInvalidFunctions l) function_item
      = (traverseFunction env fuel c function_item).map
          (fun r => (r.1, r.2.setInvalidFunctions l)) := by
  simp only [traverseFunction, traverseFunctionCore_frame]
  cases traverseFunctionCore env fuel c function_item with
  | none => rfl
  | some t => cases t <;> rfl

/-! ## traverseFunctions: a function that does not translate -/

theorem prepareFunction_frame (env : TraverseEnv) (c : MetaClass) (l : List MetaFunction)
    (meta_function : MetaFunction) :
    prepareFunction env (c.setInvalidFunctions l) meta_function
      = prepareFunction env c meta_function := rfl

theorem isDuplicate_frame (env : TraverseEnv) (function : FunctionModelItem)
    (meta_function : MetaFunction) (c : MetaClass) (l : List MetaFunction) :
    isDuplicate env function meta_function (c.setInvalidFunctions l)
      = isDuplicate env function meta_function c := rfl

theorem updateFlags_rValueFunctions (env : TraverseEnv) (st : FunctionsState)
    (function : FunctionModelItem) (meta_function : MetaFunction) :
    (updateFlags env st function meta_function).rValueFunctions = st.rValueFunctions := by
  simp only [updateFlags]
  split_ifs <;> rfl

theorem setupFunctionDefaults_frame (meta_function : MetaFunction) (c : MetaClass)
    (l : List MetaFunction) :
    setupFunctionDefaults meta_function (c.setInvalidFunctions l)
      = ((setupFunctionDefaults meta_function c).1,
          (setupFunctionDefaults meta_function c).2.setInvalidFunctions l) := by
  simp only [setupFunctionDefaults, setInvalidFunctions_proj]
  split_ifs <;> rfl

theorem addValidFunction_frame (env : TraverseEnv) (st : FunctionsState)
    (function : FunctionModelItem) (meta_function : MetaFunction) (c : MetaClass)
    (l : List MetaFunction) :
    addValidFunction env st function meta_function (c.setInvalidFunctions l)
      = { addValidFunction env st function meta_function c with
          meta_class :=
            (addValidFunction env st function meta_function c).meta_class.setInvalidFunctions
              l } := by
  simp only [addValidFunction, setupFunctionDefaults_frame, modifications,
    MetaClass.modificationsFor, setInvalidFunctions_proj]
  split_ifs <;> first | rfl | (split <;> rfl)

theorem addValidFunction_flags (env : TraverseEnv) (st1 st2 : FunctionsState)
    (function : FunctionModelItem) (meta_function : MetaFunction) (c : MetaClass)
    (h : st1.rValueFunctions = st2.rValueFunctions) :
    (addValidFunction env st1 function meta_function c).kept
      = (addValidFunction env st2 function meta_function c).kept := by
  simp only [addValidFunction, FunctionsState.kept, h]

theorem addValidFunction_kept (env : TraverseEnv) (st1 st2 : FunctionsState)
    (function : FunctionModelItem) (meta_function : MetaFunction) (c : MetaClass)
    (l1 l2 : List MetaFunction) (h : st1.rValueFunctions = st2.rValueFunctions) :
    (addValidFunction env st1 function meta_function (c.setInvalidFunctions l1)).kept
      = (addValidFunction env st2 function meta_function (c.setInvalidFunctions l2)).kept := by
  rw [addValidFunction_frame, addValidFunction_frame]
  exact addValidFunction_flags env st1 st2 function meta_function c h

theorem prepareFunction_invalid (env : TraverseEnv) (c : MetaClass)
    (meta_function : MetaFunction) (h : meta_function.invalid = true) :
    (prepareFunction env c meta_function).invalid = true := by
  simp only [prepareFunction, MetaFunction.add]
  split_ifs <;> simp_all

theorem processFunction_kept (env : TraverseEnv) (st1 st2 : FunctionsState)
    (function : FunctionModelItem) (meta_function : MetaFunction) (c : MetaClass)
    (l1 l2 : List MetaFunction) (h : st1.rValueFunctions = st2.rValueFunctions) :
    (processFunction env st1 function meta_function (c.setInvalidFunctions l1)).kept
      = (processFunction env st2 function meta_function (c.setInvalidFunctions l2)).kept := by
  simp only [processFunction, isDuplicate_frame, prepareFunction_frame]
  split_ifs
  · simp only [FunctionsState.kept, h]; rfl
  · exact addValidFunction_kept env _ _ function _ c l1 l2
      (by rw [updateFlags_rValueFunctions, updateFlags_rValueFunctions, h])
  · simp only [FunctionsState.kept, updateFlags_rValueFunctions, h]; rfl
  · simp only [FunctionsState.kept, updateFlags_rValueFunctions, h]; rfl

theorem processFunction_invalid_kept (env : TraverseEnv) (st : FunctionsState)
    (function : FunctionModelItem) (meta_function : MetaFunction) (c : MetaClass)
    (h : meta_function.invalid = true) :
    (processFunction env st function meta_function c).kept
      = (c.setInvalidFunctions [], st.rValueFunctions) := by
  have hinv := prepareFunction_invalid env c meta_function h
  simp only [processFunction, hinv]
  split_ifs
  · rfl
  · simp_all
  · simp only [FunctionsState.kept, updateFlags_rValueFunctions]; rfl
  · simp only [FunctionsState.kept, updateFlags_rValueFunctions]

theorem setInvalidFunctions_self (c : MetaClass) :
    (c.setInvalidFunctions []).setInvalidFunctions c.invalidFunctions = c := rfl

theorem traverseFunctionsStep_kept (env : TraverseEnv) (fuel : Nat) (st1 st2 : FunctionsState)
    (function : FunctionModelItem) (h : st1.kept = st2.kept) :
    (traverseFunctionsStep env fuel st1 function).map FunctionsState.kept
      = (traverseFunctionsStep env fuel st2 function).map FunctionsState.kept := by
  have hc : st1.meta_class.setInvalidFunctions [] = st2.meta_class.setInvalidFunctions [] :=
    congrArg Prod.fst h
  have hr : st1.rValueFunctions = st2.rValueFunctions := congrArg Prod.snd h
  have h1 := traverseFunction_frame env fuel (st1.meta_class.setInvalidFunctions [])
    st1.meta_class.invalidFunctions function
  have h2 := traverseFunction_frame env fuel (st2.meta_class.setInvalidFunctions [])
    st2.meta_class.invalidFunctions function
  rw [setInvalidFunctions_self] at h1 h2
  rw [← hc] at h2
  simp only [traverseFunctionsStep, h1, h2]
  cases traverseFunction env fuel (st1.meta_class.setInvalidFunctions []) function with
  | none => rfl
  | some r =>
    obtain ⟨f, cls⟩ := r
    cases f with
    | none =>
      simp only [Option.map, FunctionsState.kept, hr]
      rfl
    | some meta_function =>
      simp only [Option.map]
      exact congrArg some (processFunction_kept env st1 st2 function meta_function cls _ _ hr)

theorem traverseFunctionsLoop_kept (env : TraverseEnv) (fuel : Nat)
    (functions : List FunctionModelItem) :
    ∀ st1 st2 : FunctionsState, st1.kept = st2.kept →
      (traverseFunctionsLoop env fuel functions st1).map FunctionsState.kept
        = (traverseFunctionsLoop env fuel functions st2).map FunctionsState.kept := by
  induction functions with
  | nil => intro st1 st2 h; simp only [traverseFunctionsLoop, Option.map, h]
  | cons function rest ih =>
    intro st1 st2 h
    have hstep := traverseFunctionsStep_kept env fuel st1 st2 function h
    simp only [traverseFunctionsLoop]
    cases h1 : traverseFunctionsStep env fuel st1 function with
    | none =>
      cases h2 : traverseFunctionsStep env fuel st2 function with
      | none => rfl
      | some s2 => rw [h1, h2] at hstep; cases hstep
    | some s1 =>
      cases h2 : traverseFunctionsStep env fuel st2 function with
      | none => rw [h1, h2] at hstep; cases hstep
      | some s2 =>
        rw [h1, h2] at hstep
        exact ih s1 s2 (Option.some.inj hstep)

theorem traverseFunctionsLoop_append (env : TraverseEnv) (fuel : Nat)
    (xs ys : List FunctionModelItem) :
    ∀ st : FunctionsState,
      traverseFunctionsLoop env fuel (xs ++ ys) st
        = (traverseFunctionsLoop env fuel xs st).bind (traverseFunctionsLoop env fuel ys) := by
  induction xs with
  | nil => intro st; rfl
  | cons x xs ih =>
    intro st
    simp only [List.cons_append, traverseFunctionsLoop]
    cases traverseFunctionsStep env fuel st x with
    | none => rfl
    | some s => exact ih s

theorem members_finishFunctions (env : TraverseEnv) (st : FunctionsState) :
    members (finishFunctions env st) = members st.kept.1 := by
  simp only [finishFunctions, members, FunctionsState.kept]
  split_ifs <;> rfl

theorem traverseFunctionsStep_unmatched (env : TraverseEnv) (fuel : Nat) (st : FunctionsState)
    (function : FunctionModelItem) (t : Traversed)
    (ht : traverseFunctionCore env fuel st.meta_class function = some t)
    (hu : t.isUnmatched = true) :
    ∃ st', traverseFunctionsStep env fuel st function = some st' ∧ st'.kept = st.kept := by
  cases t with
  | skipped cls => cases hu
  | function f cls => cases hu
  | unmatchedReturnType f =>
    refine ⟨processFunction env st function { f with invalid := true } st.meta_class, ?_, ?_⟩
    · simp only [traverseFunctionsStep, traverseFunction, ht, Option.map, Traversed.result]
    · exact processFunction_invalid_kept env st function _ _ rfl
  | unmatchedArgumentType f =>
    refine ⟨processFunction env st function { f with invalid := true } st.meta_class, ?_, ?_⟩
    · simp only [traverseFunctionsStep, traverseFunction, ht, Option.map, Traversed.result]
    · exact processFunction_invalid_kept env st function _ _ rfl

/-- C5: when, after the functions `before` of a scope, `traverseFunction`
returns the function `failing` as invalid because its return type or the type
of an argument does not translate, `traverseFunctions` on the whole scope
returns exactly when it returns on the scope without `failing`, and leaves the
same function list, the same fields and the same enums in the class: the
functions after `failing` are processed as if it were absent. -/
theorem traverseFunctions_unmatched_function_frame (env : TraverseEnv) (fuel : Nat)
    (meta_class : MetaClass) (before after : List FunctionModelItem)
    (failing : FunctionModelItem)
    (hfail : ((traverseFunctionsLoop env fuel before { meta_class := meta_class }).bind
        (fun st => traverseFunctionCore env fuel st.meta_class failing)).map
          Traversed.isUnmatched = some true) :
    (traverseFunctions env fuel (before ++ failing :: after) meta_class).map members
      = (traverseFunctions env fuel (before ++ after) meta_class).map members := by
  simp only [traverseFunctions, traverseFunctionsLoop_append, Option.map_map]
  cases hpre : traverseFunctionsLoop env fuel before { meta_class := meta_class } with
  | none => rw [hpre] at hfail; cases hfail
  | some st =>
    rw [hpre] at hfail
    simp only [Option.bind] at hfail ⊢
    cases ht : traverseFunctionCore env fuel st.meta_class failing with
    | none => rw [ht] at hfail; cases hfail
    | some t =>
      rw [ht] at hfail
      have hu : t.isUnmatched = true := Option.some.inj hfail
      obtain ⟨st', hstep, hkept⟩ := traverseFunctionsStep_unmatched env fuel st failing t ht hu
      simp only [traverseFunctionsLoop, hstep]
      have hloop := traverseFunctionsLoop_kept env fuel after st' st hkept
      have hmem : (members ∘ finishFunctions env) = (fun k => members k.1) ∘ FunctionsState.kept := by
        funext s
        exact members_finishFunctions env s
      rw [hmem, ← Option.map_map, ← Option.map_map, hloop]

theorem traverseFunctions_unmatched_function_frame_witness :
    ((traverseFunctionsLoop sampleTraverseEnv 6 [sampleCount] { meta_class := sampleFoo }).bind
        (fun st => traverseFunctionCore sampleTraverseEnv 6 st.meta_class sampleBroken)).map
          Traversed.isUnmatched = some true
    ∧ (traverseFunctions sampleTraverseEnv 6 ([sampleCount] ++ sampleBroken :: [sampleSetCount])
          sampleFoo).map members
        = (traverseFunctions sampleTraverseEnv 6 ([sampleCount] ++ [sampleSetCount])
          sampleFoo).map members
    ∧ ((traverseFunctions sampleTraverseEnv 6 ([sampleCount] ++ sampleBroken :: [sampleSetCount])
          sampleFoo).map (fun c => c.functions.map (fun f => f.name)))
        = some [qs "count", qs "setCount"] :=
  ⟨by decide!,
    traverseFunctions_unmatched_function_frame sampleTraverseEnv 6 sampleFoo [sampleCount]
      [sampleSetCount] sampleBroken (by decide!),
    by decide!⟩

/-! ## What the usage pattern depends on -/

theorem usagePatternChain_congr (t1 t2 : TypeEntry) (r : ReferenceType) (c : Bool)
    (i1 i2 : List Bool) (hk : t1.type = t2.type)
    (hn : (t1.qualifiedCppName == qs "std::nullptr_t")
      = (t2.qualifiedCppName == qs "std::nullptr_t"))
    (hj : startsWith t1.qualifiedCppName (qs "_j") = startsWith t2.qualifiedCppName (qs "_j"))
    (hq : t1.isQObject = t2.isQObject) (hi : i1.length = i2.length) :
    usagePatternChain t1 r c i1 = usagePatternChain t2 r c i2 := by
  simp only [usagePatternChain, TypeEntry.isPrimitive, TypeEntry.isAuto, TypeEntry.isVoid,
    TypeEntry.isFunctional, TypeEntry.isQString, TypeEntry.isLatin1String,
    TypeEntry.isLatin1StringView, TypeEntry.isStringView, TypeEntry.isUtf8StringView,
    TypeEntry.isAnyStringView, TypeEntry.isStringRef, TypeEntry.isChar,
    TypeEntry.isJObjectWrapper, TypeEntry.isJMapWrapper, TypeEntry.isJCollectionWrapper,
    TypeEntry.isJEnumWrapper, TypeEntry.isJIteratorWrapper, TypeEntry.isJQFlagsWrapper,
    TypeEntry.isVariant, TypeEntry.isEnum, TypeEntry.isObject, TypeEntry.isContainer,
    TypeEntry.isPointerContainer, TypeEntry.isInitializerList, TypeEntry.isTemplateArgument,
    TypeEntry.isFlags, TypeEntry.isArray, TypeEntry.isIterator, TypeEntry.isQMetaObjectType,
    TypeEntry.isQMetaObjectConnectionType, TypeEntry.isValue, hk, hn, hj, hq, hi]

theorem decideUsagePattern_typeUsagePattern (m : MetaType) :
    (decideUsagePattern m).typeUsagePattern
      = (usagePatternChain m.typeEntry m.referenceType m.constant m.indirections).1 := by
  unfold decideUsagePattern
  dsimp only
  split <;> rfl

/-- C13 (amended): the tag chosen by `decideUsagePattern` depends only on the
entry kind, on whether the entry's qualified C++ name is `std::nullptr_t`, on
whether that name starts with `_j`, on the entry's QObject flag, on the
indirection count, the reference kind and the constness: two meta types that
agree on these seven receive the same usage pattern. -/
theorem decideUsagePattern_tag_inputs (m1 m2 : MetaType)
    (hk : m1.typeEntry.type = m2.typeEntry.type)
    (hn : (m1.typeEntry.qualifiedCppName == qs "std::nullptr_t")
      = (m2.typeEntry.qualifiedCppName == qs "std::nullptr_t"))
    (hj : startsWith m1.typeEntry.qualifiedCppName (qs "_j")
      = startsWith m2.typeEntry.qualifiedCppName (qs "_j"))
    (hq : m1.typeEntry.isQObject = m2.typeEntry.isQObject)
    (hi : m1.indirections.length = m2.indirections.length)
    (hr : m1.referenceType = m2.referenceType) (hc : m1.constant = m2.constant) :
    (decideUsagePattern m1).typeUsagePattern = (decideUsagePattern m2).typeUsagePattern := by
  rw [decideUsagePattern_typeUsagePattern, decideUsagePattern_typeUsagePattern, hr, hc]
  exact congrArg Prod.fst (usagePatternChain_congr _ _ _ _ _ _ hk hn hj hq hi)

theorem decideUsagePattern_tag_inputs_witness :
    (decideUsagePattern (MetaType.fresh sampleIntEntry)).typeUsagePattern
      = (decideUsagePattern (MetaType.fresh sampleLongEntry)).typeUsagePattern :=
  decideUsagePattern_tag_inputs (MetaType.fresh sampleIntEntry) (MetaType.fresh sampleLongEntry)
    (by decide) (by decide) (by decide) (by decide) (by decide) (by decide) (by decide)

/-- C13 (counterexample): the meta types of the primitive entries
`std::nullptr_t` and `int`, both without indirection, reference or constness,
agree on entry kind, indirection count, reference kind and constness, and
receive the different tags `NullptrPattern` and `PrimitivePattern`. -/
theorem decideUsagePattern_tag_depends_on_entry_name :
    (MetaType.fresh sampleNullptrEntry).typeEntry.type
        = (MetaType.fresh sampleIntEntry).typeEntry.type
      ∧ (MetaType.fresh sampleNullptrEntry).indirections.length
        = (MetaType.fresh sampleIntEntry).indirections.length
      ∧ (MetaType.fresh sampleNullptrEntry).referenceType
        = (MetaType.fresh sampleIntEntry).referenceType
      ∧ (MetaType.fresh sampleNullptrEntry).constant = (MetaType.fresh sampleIntEntry).constant
      ∧ (decideUsagePattern (MetaType.fresh sampleNullptrEntry)).typeUsagePattern
        = TypeUsagePattern.NullptrPattern
      ∧ (decideUsagePattern (MetaType.fresh sampleIntEntry)).typeUsagePattern
        = TypeUsagePattern.PrimitivePattern := by
  decide

/-- C14 (amended): `decideUsagePattern` never changes the type entry or the
indirection list; it leaves the reference kind and the constness as they were
except for a const lvalue reference to a pointer (one indirection) to an object
type, where it sets the reference kind to `NoReference` and clears the
constness. -/
theorem decideUsagePattern_frame (m : MetaType) :
    (decideUsagePattern m).typeEntry = m.typeEntry
      ∧ (decideUsagePattern m).indirections = m.indirections
      ∧ (if m.typeEntry.type = TypeEntryType.ObjectType ∧ m.indirections.length = 1
            ∧ m.referenceType = ReferenceType.Reference ∧ m.constant = true
          then (decideUsagePattern m).referenceType = ReferenceType.NoReference
            ∧ (decideUsagePattern m).constant = false
          else (decideUsagePattern m).referenceType = m.referenceType
            ∧ (decideUsagePattern m).constant = m.constant) := by
  refine ⟨decideUsagePattern_typeEntry m, decideUsagePattern_indirections m, ?_⟩
  cases hd : (usagePatternChain m.typeEntry m.referenceType m.constant m.indirections).2 with
  | false =>
    have hn : ¬ (m.typeEntry.type = TypeEntryType.ObjectType ∧ m.indirections.length = 1
        ∧ m.referenceType = ReferenceType.Reference ∧ m.constant = true) := by
      rintro ⟨ht, hi, hr, hc⟩
      have h3 := usagePatternChain_object_pointer m.typeEntry m.referenceType m.constant
        m.indirections ht hi (by rw [hr]; decide)
      rw [h3, hr, hc] at hd
      simp at hd
    rw [if_neg hn]
    simp [decideUsagePattern, hd, MetaType.setTypeUsagePattern]
  | true =>
    have hp := usagePatternChain_drop _ _ _ _ hd
    rw [if_pos hp]
    simp [decideUsagePattern, hd, MetaType.setTypeUsagePattern, MetaType.setReferenceType,
      MetaType.setConstant]

/-- C14 (counterexample): for `Widget * const &` the call changes the reference
kind from `Reference` to `NoReference` and the constness from true to false,
besides setting the tag `ObjectPattern`. -/
theorem decideUsagePattern_drops_const_reference :
    sampleConstRefToWidgetPointer.referenceType = ReferenceType.Reference
      ∧ sampleConstRefToWidgetPointer.constant = true
      ∧ (decideUsagePattern sampleConstRefToWidgetPointer).referenceType
          = ReferenceType.NoReference
      ∧ (decideUsagePattern sampleConstRefToWidgetPointer).constant = false
      ∧ (decideUsagePattern sampleConstRefToWidgetPointer).typeUsagePattern = TypeUsagePattern.ObjectPattern := by
  decide

/-! ## traverseFunction: constructors and destructors -/

theorem add_type (f : MetaFunction) (a : MetaAttribute) : (f.add a).type = f.type := by
  rfl

theorem add_functionType (f : MetaFunction) (a : MetaAttribute) :
    (f.add a).functionType = f.functionType := by
  rfl

theorem newMetaFunction_type (function_item : FunctionModelItem) :
    (newMetaFunction function_item).type = none := by
  simp only [newMetaFunction, apply_ite MetaFunction.type, add_type, ite_self]

theorem traverseArguments_classified (env : TraverseEnv) (fuel : Nat) (c : MetaClass)
    (function_item : FunctionModelItem) (args : List ArgumentModelItem) :
    ∀ (i : Nat) (meta_function : MetaFunction) (meta_arguments : List MetaArgument)
      (items : List ArgumentModelItem) (argument_mods : List ArgumentModification)
      (originalSignature : QString),
      match traverseArguments env fuel c function_item i args meta_function meta_arguments items
          argument_mods originalSignature with
      | some (ArgumentsResult.done f _ _ _ _) =>
        f.type = meta_function.type ∧ f.originalName = meta_function.originalName
          ∧ ((function_item.isFriend && function_item.hasBody) = false →
              f.functionType = meta_function.functionType)
      | some (ArgumentsResult.unmatched f) =>
        f.type = meta_function.type
          ∧ ((function_item.isFriend && function_item.hasBody) = false →
              f.functionType = meta_function.functionType)
      | _ => True := by
  induction args with
  | nil => intro i mf ma it am os; simp [traverseArguments]
  | cons arg rest ih =>
    intro i mf ma it am os
    simp only [traverseArguments]
    by_cases h1 : (arg.type.referenceType == ReferenceType.NoReference
        && arg.type.indirections.isEmpty
        && function_item.arguments.length == 1
        && env.translate.typeInfoToString arg.type == qs "void") = true
    · rw [if_pos h1]
      exact ih _ _ _ _ _ _
    · rw [if_neg h1]
      cases hta : translateArgumentType env fuel c mf arg with
      | none => trivial
      | some p =>
        obtain ⟨t, ok⟩ := p
        cases t with
        | none =>
          dsimp only
          generalize (if arg.type.isVolatile = true then
            translateType (env.translate.inFunction c (some mf)) fuel arg.type true true true
            else some (none, false)) = o
          cases o <;> simp
        | some meta_type =>
          cases ok with
          | false =>
            dsimp only
            generalize (if arg.type.isVolatile = true then
              translateType (env.translate.inFunction c (some mf)) fuel arg.type true true true
              else some (none, false)) = o
            cases o <;> simp
          | true =>
            dsimp only
            by_cases h2 : (function_item.isFriend && function_item.hasBody && i == 0) = true
            · rw [if_pos h2]
              have hf : (function_item.isFriend && function_item.hasBody) = true := by
                simp only [Bool.and_eq_true] at h2 ⊢
                exact h2.1
              by_cases h3 : (meta_type.typeEntry == c.typeEntry
                  && meta_type.indirections.isEmpty) = true
              · rw [if_pos h3]
                have h := ih (i + 1) { mf with
                    functionType := FunctionType.GlobalScopeFunction,
                    originalAttributes := mf.attributes } ma it am
                  ((if i > 0 then os ++ qs "," else os)
                    ++ env.translate.typeInfoToString arg.type)
                revert h
                split <;> simp_all
              · rw [if_neg h3]
                trivial
            · rw [if_neg h2]
              exact ih _ _ _ _ _ _

theorem setCastType_classified (f : MetaFunction) (castType : TypeEntry) (h : f.type = none) :
    (setCastType f castType).type = none
      ∧ (setCastType f castType).functionType = f.functionType := by
  simp [setCastType, h]

theorem traverseOperator_classified (env : TraverseEnv) (fuel : Nat) (c : MetaClass)
    (meta_function : MetaFunction) (mod : FunctionModification)
    (isRemoved isRenamed isReturnChanged : Bool) (f : MetaFunction) (m : FunctionModification)
    (h : traverseOperator env fuel c meta_function mod isRemoved isRenamed isReturnChanged
      = some (some (f, m)))
    (ht : meta_function.type = none) :
    f.type = none ∧ f.functionType = meta_function.functionType := by
  simp only [traverseOperator] at h
  iterate 8 (all_goals (try split at h))
  all_goals first
    | (cases h; done)
    | (simp only [Option.some.injEq, Prod.mk.injEq] at h
       rw [← h.1]
       first | exact ⟨ht, rfl⟩ | exact setCastType_classified _ _ ht)

theorem finishFunction_classified (env : TraverseEnv) (fuel : Nat) (c : MetaClass)
    (function_item : FunctionModelItem) (meta_function : MetaFunction)
    (meta_arguments : List MetaArgument) (items : List ArgumentModelItem)
    (mod : FunctionModification) (originalSignature : QString) (t : Traversed)
    (h : finishFunction env fuel c function_item meta_function meta_arguments items mod
      originalSignature = some t)
    (ht : meta_function.type = none) (f : MetaFunction) (c1 : MetaClass)
    (hf : (Traversed.result c1 t).1 = some f) :
    f.type = none
      ∧ ((function_item.isFriend && function_item.hasBody) = false →
          f.functionType = meta_function.functionType) := by
  simp only [finishFunction] at h
  split at h
  · cases h
  · cases h
    cases hf
  · rename_i g m hop
    have hop2 := traverseOperator_classified _ _ _ _ _ _ _ _ _ _ hop
      (by split_ifs <;> exact ht)
    cases h
    simp only [Traversed.result, Option.some.injEq] at hf
    rw [← hf]
    refine ⟨hop2.1, fun hfree => ?_⟩
    rw [hop2.2, hfree]
    simp only [Bool.false_eq_true, if_false]
    split_ifs <;> rfl

theorem traverseFunctionBody_classified (env : TraverseEnv) (fuel : Nat) (c : MetaClass)
    (function_item : FunctionModelItem) (g : MetaFunction)
    (hc : classifyFunction env fuel c function_item (newMetaFunction function_item)
      = some (some g))
    (hg : g.type = none) (t : Traversed)
    (h : traverseFunctionBody env fuel c function_item = some t) (f : MetaFunction)
    (c1 : MetaClass) (hf : (Traversed.result c1 t).1 = some f) :
    f.type = none
      ∧ ((function_item.isFriend && function_item.hasBody) = false →
          f.functionType = g.functionType) := by
  simp only [traverseFunctionBody, hc] at h
  have ha := traverseArguments_classified env fuel c function_item function_item.arguments 0 g
    [] [] [] (function_item.name ++ qs "(")
  cases hta : traverseArguments env fuel c function_item 0 function_item.arguments g [] [] []
      (function_item.name ++ qs "(") with
  | none => rw [hta] at h; cases h
  | some r =>
    rw [hta] at h ha
    cases r with
    | unmatched u =>
      cases h
      simp only [Traversed.result, Option.some.injEq] at hf
      rw [← hf]
      exact ⟨ha.1.trans hg, ha.2⟩
    | skipped =>
      cases h
      cases hf
    | done mf ma it am os =>
      dsimp only at h ha
      have hfin := finishFunction_classified env fuel c function_item mf ma it _ os t h
        (ha.1.trans hg) f c1 hf
      exact ⟨hfin.1, fun hfree => (hfin.2 hfree).trans (ha.2.2 hfree)⟩

theorem traverseFunction_classified (env : TraverseEnv) (fuel : Nat) (c : MetaClass)
    (function_item : FunctionModelItem) (g : MetaFunction)
    (hc : classifyFunction env fuel c function_item (newMetaFunction function_item)
      = some (some g))
    (hg : g.type = none) (f : MetaFunction) (c1 : MetaClass)
    (h : traverseFunction env fuel c function_item = some (some f, c1)) :
    f.type = none
      ∧ ((function_item.isFriend && function_item.hasBody) = false →
          f.functionType = g.functionType) := by
  simp only [traverseFunction, Option.map_eq_some'] at h
  obtain ⟨t, ht, hr⟩ := h
  have hf : (Traversed.result c t).1 = some f := by rw [hr]
  simp only [traverseFunctionCore] at ht
  split_ifs at ht
  · cases ht; cases hf
  · cases ht; cases hf
  · cases ht; cases hf
  · simp only [Option.map_eq_some'] at ht
    obtain ⟨c2, _, rfl⟩ := ht
    cases hf
  · cases ht; cases hf
  · exact traverseFunctionBody_classified env fuel c function_item g hc hg t ht f c hf

theorem classifyFunction_destructor (env : TraverseEnv) (fuel : Nat) (c : MetaClass)
    (function_item : FunctionModelItem) (meta_function : MetaFunction)
    (h : startsWith function_item.name (qs "~") = true) :
    classifyFunction env fuel c function_item meta_function
      = some (some { meta_function with
          functionType := FunctionType.DestructorFunction, invalid := true }) := by
  simp only [classifyFunction, h, if_true]

theorem classifyFunction_constructor (env : TraverseEnv) (fuel : Nat) (c : MetaClass)
    (function_item : FunctionModelItem) (meta_function : MetaFunction)
    (h : startsWith function_item.name (qs "~") = false)
    (hn : strip_template_args function_item.name
      = (if lastIndexOf c.typeEntry.qualifiedCppName (qs "::") > 0 then
          mid c.typeEntry.qualifiedCppName
            ((lastIndexOf c.typeEntry.qualifiedCppName (qs "::")).toNat + 2)
         else c.typeEntry.qualifiedCppName)) :
    classifyFunction env fuel c function_item meta_function
      = some (some { meta_function with
          functionType := FunctionType.ConstructorFunction,
          isExplicit := function_item.isExplicit,
          name := c.simpleName }) := by
  simp only [classifyFunction, h, hn]
  simp

/-- C20: `traverseFunction` classifies a function whose name starts with `~` as
a destructor and, otherwise, one whose name without template arguments equals
the last segment of the qualified C++ name of the current class (the text
after its last `::`, the whole name when there is none) as a constructor, in both cases without return type (lines 5474-5548). Every
`MetaFunction` it returns for such a function has no return type, and has that
function type unless the function is a friend function with a body, which the
later lines file as a function of the global scope. -/
theorem traverseFunction_constructor_destructor (env : TraverseEnv) (fuel : Nat)
    (c : MetaClass) (function_item : FunctionModelItem) :
    (startsWith function_item.name (qs "~") = true →
      classifyFunction env fuel c function_item (newMetaFunction function_item)
          = some (some { newMetaFunction function_item with
              functionType := FunctionType.DestructorFunction, invalid := true })
        ∧ (newMetaFunction function_item).type = none
        ∧ ∀ (f : MetaFunction) (c1 : MetaClass),
            traverseFunction env fuel c function_item = some (some f, c1) →
            f.type = none
              ∧ ((function_item.isFriend && function_item.hasBody) = false →
                  f.functionType = FunctionType.DestructorFunction))
    ∧ (startsWith function_item.name (qs "~") = false →
        strip_template_args function_item.name
          = (if lastIndexOf c.typeEntry.qualifiedCppName (qs "::") > 0 then
              mid c.typeEntry.qualifiedCppName
                ((lastIndexOf c.typeEntry.qualifiedCppName (qs "::")).toNat + 2)
             else c.typeEntry.qualifiedCppName) →
        classifyFunction env fuel c function_item (newMetaFunction function_item)
            = some (some { newMetaFunction function_item with
                functionType := FunctionType.ConstructorFunction,
                isExplicit := function_item.isExplicit,
                name := c.simpleName })
          ∧ (newMetaFunction function_item).type = none
          ∧ ∀ (f : MetaFunction) (c1 : MetaClass),
              traverseFunction env fuel c function_item = some (some f, c1) →
              f.type = none
                ∧ ((function_item.isFriend && function_item.hasBody) = false →
                    f.functionType = FunctionType.ConstructorFunction)) := by
  refine ⟨fun h => ?_, fun h hn => ?_⟩
  · have hc := classifyFunction_destructor env fuel c function_item
      (newMetaFunction function_item) h
    exact ⟨hc, newMetaFunction_type function_item, fun f c1 hf =>
      traverseFunction_classified env fuel c function_item _ hc
        (newMetaFunction_type function_item) f c1 hf⟩
  · have hc := classifyFunction_constructor env fuel c function_item
      (newMetaFunction function_item) h hn
    exact ⟨hc, newMetaFunction_type function_item, fun f c1 hf =>
      traverseFunction_classified env fuel c function_item _ hc
        (newMetaFunction_type function_item) f c1 hf⟩

theorem returned_of_isSome {α β : Type} (o : Option (Option α × β))
    (h : (o.bind (fun r => r.1)).isSome = true) : ∃ (f : α) (c1 : β), o = some (some f, c1) := by
  cases o with
  | none => cases h
  | some r =>
    obtain ⟨f, c1⟩ := r
    cases f with
    | none => cases h
    | some f => exact ⟨f, c1, rfl⟩

theorem traverseFunction_constructor_destructor_witness :
    (∃ (f : MetaFunction) (c1 : MetaClass),
        traverseFunction sampleTraverseEnv 6 sampleFoo sampleFooDestructor = some (some f, c1)
          ∧ f.type = none ∧ f.functionType = FunctionType.DestructorFunction)
      ∧ (∃ (f : MetaFunction) (c1 : MetaClass),
        traverseFunction sampleTraverseEnv 6 sampleFoo sampleFooConstructor = some (some f, c1)
          ∧ f.type = none ∧ f.functionType = FunctionType.ConstructorFunction) := by
  obtain ⟨f, c1, ed⟩ := returned_of_isSome
    (traverseFunction sampleTraverseEnv 6 sampleFoo sampleFooDestructor) (by decide!)
  obtain ⟨g, c2, ec⟩ := returned_of_isSome
    (traverseFunction sampleTraverseEnv 6 sampleFoo sampleFooConstructor) (by decide!)
  have td := ((traverseFunction_constructor_destructor sampleTraverseEnv 6 sampleFoo
    sampleFooDestructor).1 (by decide)).2.2 _ _ ed
  have tc := ((traverseFunction_constructor_destructor sampleTraverseEnv 6 sampleFoo
    sampleFooConstructor).2 (by decide) (by decide)).2.2 _ _ ec
  exact ⟨⟨_, _, ed, td.1, td.2 (by decide)⟩, ⟨_, _, ec, tc.1, tc.2 (by decide)⟩⟩

/-! ## figureOutEnumValues: the number of retry rounds -/

theorem retryEnumRounds_id (fuel : Nat) :
    ∀ (rounds done i : Nat) (classes repeatClasses : List Nat) (b : Builder),
      retryEnumValues fuel rounds done i classes repeatClasses b
        = (retryEnumRounds id fuel rounds i classes repeatClasses b).map
            (fun r => (done + r.1.length, r.2)) := by
  intro rounds
  induction rounds with
  | zero => intros; rfl
  | succ n ih =>
    intro done i classes repeatClasses b
    simp only [retryEnumValues, retryEnumRounds, id]
    by_cases hi : i < 3
    · rw [if_pos hi, if_pos hi]
      cases figureOutEnumValuesForClasses fuel repeatClasses classes []
          { b with warnings := [] } with
      | none => rfl
      | some r =>
        obtain ⟨cl, rc, b1⟩ := r
        dsimp only
        by_cases hb : (rc.isEmpty || sameSet rc repeatClasses) = true
        · rw [if_pos hb, if_pos hb]
          rfl
        · rw [if_neg hb, if_neg hb, ih]
          generalize (if (rc.length == repeatClasses.length) = true then i + 1 else i) = j
          cases retryEnumRounds id fuel n j cl rc b1 with
          | none => rfl
          | some r2 =>
            simp only [Option.map_some', List.length_cons]
            congr 2
            omega
    · rw [if_neg hi, if_neg hi]
      rfl

theorem figureOutEnumRounds_id (fuel : Nat) (b : Builder) :
    (figureOutEnumValues fuel b).map Prod.fst
      = (figureOutEnumRounds id fuel b).map (fun r => r.1.length) := by
  simp only [figureOutEnumValues, figureOutEnumRounds, retryEnumRounds_id]
  cases figureOutEnumValuesForClasses fuel b.m_meta_classes [] [] { b with warnings := [] } with
  | none => rfl
  | some r =>
    obtain ⟨cl, rc, b1⟩ := r
    dsimp only
    split_ifs
    · cases retryEnumRounds id fuel fuel 0 cl rc b1 with
      | none => rfl
      | some r2 => simp
    · rfl

theorem retryEnumRounds_bound (order : List Nat → List Nat) (fuel : Nat) :
    ∀ (rounds i : Nat) (classes repeatClasses : List Nat) (b : Builder)
      (trace : List (List Nat × List Nat)) (b2 : Builder),
      retryEnumRounds order fuel rounds i classes repeatClasses b = some (trace, b2) →
      i ≤ 3 → trace.length + i ≤ 3 + (resizingRounds trace).length := by
  intro rounds
  induction rounds with
  | zero => intro i classes repeatClasses b trace b2 h; cases h
  | succ n ih =>
    intro i classes repeatClasses b trace b2 h hi3
    simp only [retryEnumRounds] at h
    by_cases hi : i < 3
    · rw [if_pos hi] at h
      cases hf : figureOutEnumValuesForClasses fuel (order repeatClasses) classes []
          { b with warnings := [] } with
      | none => rw [hf] at h; cases h
      | some r =>
        obtain ⟨cl, rc, b1⟩ := r
        rw [hf] at h
        dsimp only at h
        by_cases hb : (rc.isEmpty || sameSet rc repeatClasses) = true
        · rw [if_pos hb] at h
          cases h
          simp only [List.length_singleton]
          omega
        · rw [if_neg hb] at h
          by_cases hl : (rc.length == repeatClasses.length) = true
          · rw [if_pos hl] at h
            cases hr : retryEnumRounds order fuel n (i + 1) cl rc b1 with
            | none => rw [hr] at h; cases h
            | some r2 =>
              obtain ⟨tr, b3⟩ := r2
              rw [hr] at h
              cases h
              have := ih _ _ _ _ _ _ hr (by omega)
              have hne : (rc.length != repeatClasses.length) = false := by
                simp only [bne, hl, Bool.not_true]
              simp only [resizingRounds, List.filter_cons, hne, List.length_cons] at this ⊢
              simp only [Bool.false_eq_true, if_false]
              omega
          · rw [if_neg hl] at h
            cases hr : retryEnumRounds order fuel n i cl rc b1 with
            | none => rw [hr] at h; cases h
            | some r2 =>
              obtain ⟨tr, b3⟩ := r2
              rw [hr] at h
              cases h
              have := ih _ _ _ _ _ _ hr hi3
              have hne : (rc.length != repeatClasses.length) = true := by
                simp only [bne, Bool.not_eq_true] at hl ⊢
                simp only [hl, Bool.not_false]
              simp only [resizingRounds, List.filter_cons, hne, List.length_cons] at this ⊢
              simp only [if_true, List.length_cons]
              omega
    · rw [if_neg hi] at h
      cases h
      simp only [List.length_nil]
      omega

/-- C11 (amended): the retry loop of `figureOutEnumValues` counts towards its
limit of 3 only the rounds that leave as many unresolved classes as they found,
with other members; a round that leaves a set of another size is not counted.
So, in whatever order the rounds walk the set of unresolved classes, the
number of retry rounds after the first full pass is at most 3 plus the number
of rounds that changed the size of that set. -/
theorem figureOutEnumRounds_bound (order : List Nat → List Nat) (fuel : Nat) (b : Builder)
    (trace : List (List Nat × List Nat)) (b2 : Builder)
    (h : figureOutEnumRounds order fuel b = some (trace, b2)) :
    trace.length ≤ 3 + (resizingRounds trace).length := by
  simp only [figureOutEnumRounds] at h
  cases hf : figureOutEnumValuesForClasses fuel b.m_meta_classes [] []
      { b with warnings := [] } with
  | none => rw [hf] at h; cases h
  | some r =>
    obtain ⟨cl, rc, b1⟩ := r
    rw [hf] at h
    dsimp only at h
    by_cases he : (!rc.isEmpty) = true
    · rw [if_pos he] at h
      cases hr : retryEnumRounds order fuel fuel 0 cl rc b1 with
      | none => rw [hr] at h; cases h
      | some r2 =>
        obtain ⟨tr, b3⟩ := r2
        rw [hr] at h
        cases h
        have := retryEnumRounds_bound order fuel fuel 0 cl rc b1 _ _ hr (by omega)
        omega
    · rw [if_neg he] at h
      cases h
      simp only [List.length_nil]
      omega

theorem figureOutEnumRounds_bound_witness :
    ∃ (trace : List (List Nat × List Nat)) (b2 : Builder),
      figureOutEnumRounds id 5 (classChainBuilder 6) = some (trace, b2)
        ∧ trace = [([0, 1, 2, 3, 4], [0, 1, 2, 3]), ([0, 1, 2, 3], [0, 1, 2]),
            ([0, 1, 2], [0, 1]), ([0, 1], [0]), ([0], [])]
        ∧ trace.length ≤ 3 + (resizingRounds trace).length := by
  have hs : (figureOutEnumRounds id 5 (classChainBuilder 6)).map (fun r => r.1)
      = some [([0, 1, 2, 3, 4], [0, 1, 2, 3]), ([0, 1, 2, 3], [0, 1, 2]),
          ([0, 1, 2], [0, 1]), ([0, 1], [0]), ([0], [])] := by
    decide!
  cases hr : figureOutEnumRounds id 5 (classChainBuilder 6) with
  | none => rw [hr] at hs; cases hs
  | some r =>
    obtain ⟨trace, b2⟩ := r
    rw [hr] at hs
    simp only [Option.map_some', Option.some.injEq] at hs
    exact ⟨trace, b2, rfl, hs,
      figureOutEnumRounds_bound id 5 (classChainBuilder 6) trace b2 hr⟩

theorem figureOutEnumRounds_reverse_order :
    (figureOutEnumRounds List.reverse 5 (classChainBuilder 6)).map (fun r => r.1)
      = some [([0, 1, 2, 3, 4], [])] := by
  decide!

/-- C11 (counterexample): for the six classes `C1` to `C6`, whose enum
constants are declared as `C1::X = C2::X`, ..., `C5::X = C6::X`, `C6::X = 5`,
`figureOutEnumValues`, walking every set of classes in the order of insertion,
runs five retry rounds after the first full pass (each resolves one more
class) and ends with all six constants equal to 5. -/
theorem figureOutEnumValues_five_retry_rounds :
    (figureOutEnumValues 5 (classChainBuilder 6)).map (fun r => (r.1, r.2.values))
      = some (5, [QVariant.int 5, QVariant.int 5, QVariant.int 5, QVariant.int 5,
          QVariant.int 5, QVariant.int 5]) := by
  decide!

/-! ## exchangeTemplateTypes: the usage pattern of the result -/

theorem decideUsagePattern_setInstantiations (m : MetaType) (l : List MetaType) :
    decideUsagePattern { m with instantiations := l }
      = { decideUsagePattern m with instantiations := l } := by
  simp only [decideUsagePattern, MetaType.setTypeUsagePattern, MetaType.setReferenceType,
    MetaType.setConstant]
  split_ifs <;> rfl

theorem decideUsagePattern_setTypeUsagePattern (m : MetaType) (p : TypeUsagePattern) :
    decideUsagePattern (m.setTypeUsagePattern p) = decideUsagePattern m := by
  simp only [decideUsagePattern, MetaType.setTypeUsagePattern, MetaType.setReferenceType,
    MetaType.setConstant]

theorem objectPattern_or_decided (a : MetaType) (isReturn : Bool)
    (ha : decideUsagePattern a = a) :
    (if (!a.indirections.isEmpty && isReturn) = true then
        a.setTypeUsagePattern TypeUsagePattern.ObjectPattern else a).typeUsagePattern
      = (if (!(if (!a.indirections.isEmpty && isReturn) = true then
            a.setTypeUsagePattern TypeUsagePattern.ObjectPattern
              else a).indirections.isEmpty && isReturn) = true then
          TypeUsagePattern.ObjectPattern
         else (decideUsagePattern (if (!a.indirections.isEmpty && isReturn) = true then
            a.setTypeUsagePattern TypeUsagePattern.ObjectPattern else a)).typeUsagePattern) := by
  by_cases hc : (!a.indirections.isEmpty && isReturn) = true
  · have hi : (a.setTypeUsagePattern TypeUsagePattern.ObjectPattern).indirections
        = a.indirections := rfl
    rw [if_pos hc, hi, if_pos hc]
    rfl
  · rw [if_neg hc, if_neg hc, ha]

theorem exchangeBound_typeUsagePattern (type ttype : MetaType) (isReturn : Bool) :
    (exchangeBound type ttype isReturn).typeUsagePattern
      = (if !(exchangeBound type ttype isReturn).indirections.isEmpty && isReturn then
          TypeUsagePattern.ObjectPattern
         else (decideUsagePattern (exchangeBound type ttype isReturn)).typeUsagePattern) := by
  simp only [exchangeBound]
  exact objectPattern_or_decided _ isReturn (decideUsagePattern_fixed _)

theorem exchangeTemplateTypes_bound (templateTypes : List (QString × MetaType))
    (type ttype : MetaType) (isReturn : Bool)
    (ht : type.typeEntry.isTemplateArgument = true)
    (hb : templateTypesValue templateTypes type.typeEntry.name = some ttype) :
    exchangeTemplateTypes templateTypes type isReturn
      = { exchangeBound type ttype isReturn with
          instantiations := exchangeInstantiations templateTypes type.instantiations } := by
  obtain ⟨e, c, v, r, i, ins, p, f, o, od, ac, ae, iic, ii⟩ := type
  simp only [exchangeTemplateTypes]
  rw [if_pos ht, hb]

theorem exchangeTemplateTypes_unbound (templateTypes : List (QString × MetaType))
    (type : MetaType) (isReturn : Bool)
    (h : type.typeEntry.isTemplateArgument = false
      ∨ templateTypesValue templateTypes type.typeEntry.name = none) :
    exchangeTemplateTypes templateTypes type isReturn
      = (if type.typeEntry.isTemplateArgument then type
         else { type with
                instantiations := exchangeInstantiations templateTypes type.instantiations }) := by
  obtain ⟨e, c, v, r, i, ins, p, f, o, od, ac, ae, iic, ii⟩ := type
  simp only [exchangeTemplateTypes]
  by_cases ht : (TypeEntry.isTemplateArgument e) = true
  · rw [if_pos ht, if_pos ht]
    rcases h with h | h
    · rw [ht] at h; cases h
    · rw [h]
  · rw [if_neg ht, if_neg ht]

theorem exchangeInstantiations_eq_map (templateTypes : List (QString × MetaType))
    (l : List MetaType) :
    exchangeInstantiations templateTypes l
      = l.map (fun instantiation => exchangeTemplateTypes templateTypes instantiation false) := by
  induction l with
  | nil => simp [exchangeInstantiations]
  | cons x xs ih => simp [exchangeInstantiations, ih]

/-- C15 (amended): for a type that names a template parameter bound to
`ttype`, `exchangeTemplateTypes` returns a type on the entry of `ttype`, with
the indirections of `ttype` followed by those of the type. As an argument type
(`isReturn` false), and as a return type without indirection, it carries the
usage pattern that `decideUsagePattern` assigns to it; as a return type with at
least one indirection it carries `ObjectPattern` whatever its entry. Its
instantiations are those of the type, exchanged as argument types. -/
theorem exchangeTemplateTypes_usage_pattern (templateTypes : List (QString × MetaType))
    (type ttype : MetaType) (isReturn : Bool)
    (ht : type.typeEntry.isTemplateArgument = true)
    (hb : templateTypesValue templateTypes type.typeEntry.name = some ttype) :
    (exchangeTemplateTypes templateTypes type isReturn).typeEntry = ttype.typeEntry
      ∧ (exchangeTemplateTypes templateTypes type isReturn).indirections
          = ttype.indirections ++ type.indirections
      ∧ (exchangeTemplateTypes templateTypes type isReturn).typeUsagePattern
          = (if !(ttype.indirections ++ type.indirections).isEmpty && isReturn then
              TypeUsagePattern.ObjectPattern
             else (decideUsagePattern
                (exchangeTemplateTypes templateTypes type isReturn)).typeUsagePattern)
      ∧ (exchangeTemplateTypes templateTypes type isReturn).instantiations
          = type.instantiations.map
              (fun instantiation => exchangeTemplateTypes templateTypes instantiation false) := by
  have hi : (exchangeBound type ttype isReturn).indirections
      = ttype.indirections ++ type.indirections := by
    simp only [exchangeBound]
    split_ifs <;>
      simp [MetaType.setTypeUsagePattern, decideUsagePattern_indirections, MetaType.setTypeEntry,
        MetaType.setReferenceType, MetaType.setIndirections, MetaType.setConstant]
  have he : (exchangeBound type ttype isReturn).typeEntry = ttype.typeEntry := by
    simp only [exchangeBound]
    split_ifs <;>
      simp [MetaType.setTypeUsagePattern, decideUsagePattern_typeEntry, MetaType.setTypeEntry,
        MetaType.setReferenceType, MetaType.setIndirections, MetaType.setConstant]
  rw [exchangeTemplateTypes_bound templateTypes type ttype isReturn ht hb,
    decideUsagePattern_setInstantiations, exchangeInstantiations_eq_map]
  refine ⟨he, hi, ?_, rfl⟩
  have hp := exchangeBound_typeUsagePattern type ttype isReturn
  rw [hi] at hp
  exact hp

theorem exchangeTemplateTypes_usage_pattern_witness :
    (exchangeTemplateTypes sampleTemplateTypes sampleTPtr false).typeEntry = sampleInt32
      ∧ (exchangeTemplateTypes sampleTemplateTypes sampleTPtr false).indirections = [false]
      ∧ (exchangeTemplateTypes sampleTemplateTypes sampleTPtr false).typeUsagePattern
          = TypeUsagePattern.NativePointerPattern
      ∧ (decideUsagePattern
          (exchangeTemplateTypes sampleTemplateTypes sampleTPtr false)).typeUsagePattern
          = TypeUsagePattern.NativePointerPattern := by
  have h := exchangeTemplateTypes_usage_pattern sampleTemplateTypes sampleTPtr sampleInt32Arg
    false (by decide) (by rfl)
  have hd : (decideUsagePattern
      (exchangeTemplateTypes sampleTemplateTypes sampleTPtr false)).typeUsagePattern
        = TypeUsagePattern.NativePointerPattern := by decide
  refine ⟨h.1, h.2.1, ?_, hd⟩
  rw [h.2.2.1]
  exact hd

/-- C15 (counterexample): with `T` bound to `Int32`, the return type `T*` is
exchanged for `Int32*` with the usage pattern `ObjectPattern`, whereas
`decideUsagePattern` assigns `NativePointerPattern` to that entry, indirection,
reference kind and constness, and the same type as an argument type gets
`NativePointerPattern`. -/
theorem exchangeTemplateTypes_return_pointer_object_pattern :
    (exchangeTemplateTypes sampleTemplateTypes sampleTPtr true).typeEntry = sampleInt32
      ∧ (exchangeTemplateTypes sampleTemplateTypes sampleTPtr true).indirections = [false]
      ∧ (exchangeTemplateTypes sampleTemplateTypes sampleTPtr true).typeUsagePattern
          = TypeUsagePattern.ObjectPattern
      ∧ (decideUsagePattern
          (exchangeTemplateTypes sampleTemplateTypes sampleTPtr true)).typeUsagePattern
          = TypeUsagePattern.NativePointerPattern
      ∧ (exchangeTemplateTypes sampleTemplateTypes sampleTPtr false).typeUsagePattern
          = TypeUsagePattern.NativePointerPattern := by
  decide

/-! ## The filing of template classes -/

theorem registerTypeSystem_same (env : RegistryEnv) (cls : Nat) (g : ClassGraph) :
    (registerTypeSystem env cls g).classes = g.classes
      ∧ (registerTypeSystem env cls g).m_setup_inheritance_done = g.m_setup_inheritance_done
      ∧ (registerTypeSystem env cls g).m_meta_classes = g.m_meta_classes
      ∧ (registerTypeSystem env cls g).m_templates = g.m_templates
      ∧ (registerTypeSystem env cls g).m_template_iterators = g.m_template_iterators := by
  simp only [registerTypeSystem]
  split_ifs
  · split <;> exact ⟨rfl, rfl, rfl, rfl, rfl⟩
  · exact ⟨rfl, rfl, rfl, rfl, rfl⟩

theorem fileMetaClass_registers (env : RegistryEnv) (cls : Nat) (g : ClassGraph) :
    (fileMetaClass env cls g).m_templates = g.m_templates
      ∧ (fileMetaClass env cls g).m_template_iterators = g.m_template_iterators
      ∧ cls ∈ (fileMetaClass env cls g).m_meta_classes := by
  have h := registerTypeSystem_same env cls
    { g with m_meta_classes := g.m_meta_classes ++ [cls] }
  simp only [fileMetaClass, extractInterfaceImpl, ClassGraph.newClass, ClassGraph.modifyClass]
  split_ifs <;> (try split) <;> simp [h.2.2.1, h.2.2.2.1, h.2.2.2.2]

theorem addAbstractMetaClass_template (env : RegistryEnv) (cls : Nat) (g : ClassGraph)
    (h : (g.cls cls).typeEntry.isTemplate = true) :
    (addAbstractMetaClass env (some cls) g).m_templates = g.m_templates ++ [cls]
      ∧ (addAbstractMetaClass env (some cls) g).m_meta_classes = g.m_meta_classes
      ∧ (addAbstractMetaClass env (some cls) g).m_template_iterators
          = g.m_template_iterators := by
  have h2 : ((g.modifyClass cls
      (fun c => { c with originalAttributes := c.attributes })).cls cls).typeEntry.isTemplate
        = true := by
    simp only [ClassGraph.cls, ClassGraph.modifyClass, List.get?_eq_getElem?,
      List.getElem?_modify_eq] at h ⊢
    cases hg : g.classes[cls]? with
    | none => rw [hg] at h; simp at h
    | some c => rw [hg] at h; simpa using h
  simp only [addAbstractMetaClass, h2, Bool.true_or, if_true]
  exact ⟨rfl, rfl, rfl⟩

theorem fileNamespaceClass_emits (env : RegistryEnv) (meta_class mjc : Nat) (g : ClassGraph) :
    mjc ∈ (fileNamespaceClass env meta_class mjc g).m_meta_classes
      ∧ (fileNamespaceClass env meta_class mjc g).m_templates = g.m_templates := by
  have h := fileMetaClass_registers env mjc (encloseClass env meta_class mjc g)
  refine ⟨h.2.2, ?_⟩
  rw [fileNamespaceClass, h.1]
  simp only [encloseClass, ClassGraph.modifyClass]
  split_ifs <;> rfl

/-- C12 (the code at the failing input): for the class template `Box` of the
global scope, the class template `Inner` inside the class `Outer` and the class
template `Box` inside the namespace `N`, each with a template type entry, the
traversal files `Box` and `Outer::Inner` in `m_templates` and leaves
`m_meta_classes` holding `Outer`, `N::Box` and `N`: the class template of the
namespace is in the list of classes to emit and not in the template register,
because `traverseNamespace` appends the classes of a namespace to
`m_meta_classes` itself instead of handing them to `addAbstractMetaClass`. -/
theorem traverseNamespace_files_template_as_emitted_class :
    ((traverseDom sampleRegistryEnv [sampleBoxItem, sampleOuterItem] [sampleNamespaceItem]
        {}).names
      (traverseDom sampleRegistryEnv [sampleBoxItem, sampleOuterItem] [sampleNamespaceItem]
        {}).m_templates) = [qs "Box", qs "Outer::Inner"]
    ∧ ((traverseDom sampleRegistryEnv [sampleBoxItem, sampleOuterItem] [sampleNamespaceItem]
        {}).names
      (traverseDom sampleRegistryEnv [sampleBoxItem, sampleOuterItem] [sampleNamespaceItem]
        {}).m_meta_classes) = [qs "Outer", qs "N::Box", qs "N"]
    ∧ ((traverseDom sampleRegistryEnv [sampleBoxItem, sampleOuterItem] [sampleNamespaceItem]
        {}).m_meta_classes.map
      (fun i => ((traverseDom sampleRegistryEnv [sampleBoxItem, sampleOuterItem]
        [sampleNamespaceItem] {}).cls i).typeEntry.isTemplate)) = [false, true, false] := by
  decide!

/-! ## inheritHiddenBaseType: members whose substitution fails -/

theorem inheritFunctions_append (env : InheritEnv) (fuel : Nat) (ctx : InheritContext)
    (l1 l2 : List MetaFunction) :
    ∀ (subclass : MetaClass),
      inheritFunctions env fuel ctx (l1 ++ l2) subclass
        = (inheritFunctions env fuel ctx l1 subclass).bind (inheritFunctions env fuel ctx l2) := by
  induction l1 with
  | nil => intro subclass; rfl
  | cons f rest ih =>
    intro subclass
    simp only [List.cons_append, inheritFunctions]
    cases inheritFunctionsStep env fuel ctx subclass f with
    | none => rfl
    | some s => exact ih s

theorem inheritFields_append (env : InheritEnv) (fuel : Nat) (ctx : InheritContext)
    (l1 l2 : List MetaField) :
    ∀ (subclass : MetaClass),
      inheritFields env fuel ctx (l1 ++ l2) subclass
        = (inheritFields env fuel ctx l1 subclass).bind (inheritFields env fuel ctx l2) := by
  induction l1 with
  | nil => intro subclass; rfl
  | cons f rest ih =>
    intro subclass
    simp only [List.cons_append, inheritFields]
    cases inheritFieldsStep env fuel ctx subclass f with
    | none => rfl
    | some s => exact ih s

theorem inheritFunctionsStep_failing (env : InheritEnv) (fuel : Nat) (ctx : InheritContext)
    (subclass : MetaClass) (failing : MetaFunction)
    (h : inheritFunction env fuel ctx subclass failing = some none) :
    inheritFunctionsStep env fuel ctx subclass failing = some subclass := by
  simp only [inheritFunctionsStep, h]
  split_ifs <;> rfl

theorem inheritFieldsStep_failing (env : InheritEnv) (fuel : Nat) (ctx : InheritContext)
    (subclass : MetaClass) (failing : MetaField)
    (h : inheritMemberType env fuel ctx failing.type = some none) :
    inheritFieldsStep env fuel ctx subclass failing = some subclass := by
  simp only [inheritFieldsStep, h]
  split_ifs <;> rfl

theorem inheritFunctions_failing (env : InheritEnv) (fuel : Nat) (ctx : InheritContext)
    (before after : List MetaFunction) (failing : MetaFunction) (subclass : MetaClass)
    (h : ∀ s, inheritFunction env fuel ctx s failing = some none) :
    inheritFunctions env fuel ctx (before ++ failing :: after) subclass
      = inheritFunctions env fuel ctx (before ++ after) subclass := by
  rw [inheritFunctions_append, inheritFunctions_append]
  cases inheritFunctions env fuel ctx before subclass with
  | none => rfl
  | some s =>
    simp only [Option.some_bind, inheritFunctions, inheritFunctionsStep_failing _ _ _ _ _ (h s)]

theorem inheritFields_failing (env : InheritEnv) (fuel : Nat) (ctx : InheritContext)
    (before after : List MetaField) (failing : MetaField) (subclass : MetaClass)
    (h : inheritMemberType env fuel ctx failing.type = some none) :
    inheritFields env fuel ctx (before ++ failing :: after) subclass
      = inheritFields env fuel ctx (before ++ after) subclass := by
  rw [inheritFields_append, inheritFields_append]
  cases inheritFields env fuel ctx before subclass with
  | none => rfl
  | some s =>
    simp only [Option.some_bind, inheritFields, inheritFieldsStep_failing _ _ _ _ _ h]

theorem inheritTemplateTypeCore_unbound (fuel : Nat) (template_types : List MetaType)
    (t : MetaType) (ht : t.typeEntry.isTemplateArgument = true)
    (hu : ∀ tt, template_types.get? t.typeEntry.ordinal = some tt →
      (tt.typeEntry.name == qs "void") = true) :
    inheritTemplateTypeCore (fuel + 1) template_types t = some none := by
  have ht2 : (t.setOriginalTemplateType t).typeEntry = t.typeEntry := rfl
  simp only [inheritTemplateTypeCore, ht, ht2, Bool.not_true, Bool.false_and, if_true,
    Bool.false_eq_true, if_false]
  cases hg : template_types.get? t.typeEntry.ordinal with
  | none => rfl
  | some tt => simp only [hu tt hg, if_true]

theorem inheritMemberType_unbound (env : InheritEnv) (fuel : Nat) (ctx : InheritContext)
    (t : MetaType) (ht : t.typeEntry.isTemplateArgument = true)
    (hu : ∀ tt, ctx.template_types.get? t.typeEntry.ordinal = some tt →
      (tt.typeEntry.name == qs "void") = true)
    (hi : ctx.iteratorTypeEntry = none) :
    inheritMemberType env (fuel + 1) ctx t = some none := by
  have hc : t.typeEntry.isComplex = false := by
    simp only [TypeEntry.isTemplateArgument, beq_iff_eq] at ht
    simp [TypeEntry.isComplex, ht]
  have h1 := inheritTemplateTypeCore_unbound fuel ctx.template_types t ht hu
  have h2 := inheritTemplateTypeCore_unbound fuel ctx.template_types
    (t.setInstantiations ctx.template_types) ht hu
  have hn : ((none : Option TypeEntry) == some t.typeEntry) = false := rfl
  simp only [inheritMemberType, hc, Bool.false_and, Bool.false_eq_true, if_false, hi, hn]
  split_ifs
  · exact h2
  · exact h1

theorem inheritFunction_unbound_return (env : InheritEnv) (fuel : Nat) (ctx : InheritContext)
    (subclass : MetaClass) (f : MetaFunction) (t : MetaType) (hf : f.type = some t)
    (ht : t.typeEntry.isTemplateArgument = true)
    (hu : ∀ tt, ctx.template_types.get? t.typeEntry.ordinal = some tt →
      (tt.typeEntry.name == qs "void") = true)
    (hi : ctx.iteratorTypeEntry = none) :
    inheritFunction env (fuel + 1) ctx subclass f = some none := by
  simp only [inheritFunction, hf, inheritMemberType_unbound env fuel ctx t ht hu hi]
  rfl

/-- C16: when the substitution of the instantiation arguments into the
function `failing` of the template fails (its clone is deleted because `ok` is
false) and so does the substitution into the type of the field `failingField`,
the loops of `inheritHiddenBaseType` over the members of the template leave the
subclass exactly as they leave it for the template without these two members:
they omit the function and the field and treat every other member as if the
failing ones were not there, and they return exactly when they return
without them. -/
theorem inheritMembers_drops_only_failing_members (env : InheritEnv) (fuel : Nat)
    (ctx : InheritContext) (before after : List MetaFunction) (failing : MetaFunction)
    (fieldsBefore fieldsAfter : List MetaField) (failingField : MetaField)
    (subclass : MetaClass)
    (hfunction : ∀ s, inheritFunction env fuel ctx s failing = some none)
    (hfield : inheritMemberType env fuel ctx failingField.type = some none) :
    inheritMembers env fuel ctx (before ++ failing :: after)
        (fieldsBefore ++ failingField :: fieldsAfter) subclass
      = inheritMembers env fuel ctx (before ++ after) (fieldsBefore ++ fieldsAfter) subclass := by
  simp only [inheritMembers, inheritFunctions_failing env fuel ctx before after failing subclass
    hfunction]
  cases inheritFunctions env fuel ctx (before ++ after) subclass with
  | none => rfl
  | some s => exact inheritFields_failing env fuel ctx fieldsBefore fieldsAfter failingField s hfield

theorem inheritMembers_drops_only_failing_members_witness :
    inheritMembers sampleInheritEnv 2 (sampleBoxContext (qs "void"))
        ([sampleSize] ++ sampleGet :: [sampleSet, sampleClear])
        ([{ name := qs "count", type := sampleIntType }]
          ++ { name := qs "item", type := sampleTUse } :: [])
        (sampleBoxSubclass (qs "VoidBox") (qs "Box<void>") [])
      = inheritMembers sampleInheritEnv 2 (sampleBoxContext (qs "void"))
        ([sampleSize] ++ [sampleSet, sampleClear])
        ([{ name := qs "count", type := sampleIntType }] ++ [])
        (sampleBoxSubclass (qs "VoidBox") (qs "Box<void>") [])
    ∧ (inheritMembers sampleInheritEnv 2 (sampleBoxContext (qs "void"))
        ([sampleSize] ++ sampleGet :: [sampleSet, sampleClear])
        ([{ name := qs "count", type := sampleIntType }]
          ++ { name := qs "item", type := sampleTUse } :: [])
        (sampleBoxSubclass (qs "VoidBox") (qs "Box<void>") [])).map memberNames
      = some ([qs "size()", qs "clear()"], [qs "count"]) := by
  refine ⟨inheritMembers_drops_only_failing_members sampleInheritEnv 2
    (sampleBoxContext (qs "void")) [sampleSize] [sampleSet, sampleClear] sampleGet
    [{ name := qs "count", type := sampleIntType }] [] { name := qs "item", type := sampleTUse }
    (sampleBoxSubclass (qs "VoidBox") (qs "Box<void>") []) ?_ ?_, by decide!⟩
  · intro s
    refine inheritFunction_unbound_return sampleInheritEnv 1 (sampleBoxContext (qs "void")) s
      sampleGet sampleTUse rfl (by decide) ?_ rfl
    intro tt h
    cases h
    decide
  · refine inheritMemberType_unbound sampleInheritEnv 1 (sampleBoxContext (qs "void"))
      sampleTUse (by decide) ?_ rfl
    intro tt h
    cases h
    decide

/-! ## inheritHiddenBaseType: the test for shadowing -/

theorem isShadowed_append (funcs : List MetaFunction) (f2 f : MetaFunction) :
    isShadowed (funcs ++ [f2]) f
      = (if f2.name == f.name && f2.arguments.length == f.arguments.length then
          sameArgumentTypes f f2
         else isShadowed funcs f) := by
  simp only [isShadowed, List.foldl_append, List.foldl_cons, List.foldl_nil]

/-- C17 (the code at the failing input): `IntBox`, whose base-class name is
`Box<int>`, declares `set(int)` and then `set(double)`; the template `Box` has
`set(T)`. `inheritHiddenBaseType` adds the clone `set(int)` to `IntBox`, which
then holds `set(int)` twice: in the test for shadowing the later overload
`set(double)`, of the same name and number of arguments, sets `found` back to
false. The clone and the declared `set(int)` agree in name, number of
arguments and, by the comparison of the test itself, argument types. With the
two overloads declared in the other order the clone is skipped. -/
theorem inheritHiddenBaseType_adds_shadowed_function :
    membersOf (inheritHiddenBaseType sampleInheritEnv 2 1 0 (sampleBoxInfo (qs "int"))
        (sampleBoxGraph (sampleBoxSubclass (qs "IntBox") (qs "Box<int>")
          [sampleSetInt, sampleSetDouble]))) 1
      = some ([qs "set(int)", qs "set(double)", qs "size()", qs "get()", qs "set(int)",
          qs "clear()"], [qs "count", qs "item"])
    ∧ membersOf (inheritHiddenBaseType sampleInheritEnv 2 1 0 (sampleBoxInfo (qs "int"))
        (sampleBoxGraph (sampleBoxSubclass (qs "IntBox") (qs "Box<int>")
          [sampleSetDouble, sampleSetInt]))) 1
      = some ([qs "set(double)", qs "set(int)", qs "size()", qs "get()", qs "clear()"],
          [qs "count", qs "item"])
    ∧ (inheritHiddenBaseType sampleInheritEnv 2 1 0 (sampleBoxInfo (qs "int"))
        (sampleBoxGraph (sampleBoxSubclass (qs "IntBox") (qs "Box<int>")
          [sampleSetInt, sampleSetDouble]))).map
        (fun r =>
          ((r.2.cls 1).functions.get? 0).bind (fun declared =>
            ((r.2.cls 1).functions.get? 4).map (fun clone =>
              declared.name == clone.name
                && declared.arguments.length == clone.arguments.length
                && sameArgumentTypes clone declared)))
      = some (some true) := by
  refine ⟨by decide!, by decide!, by decide!⟩

/-! ## setupInheritance: the recursion ends -/

theorem countP_modify_of_eq {α : Type} (p : α → Bool) (f : α → α) :
    ∀ (l : List α) (i : Nat), (∀ c, l.get? i = some c → p (f c) = p c) →
      (l.modify f i).countP p = l.countP p := by
  intro l
  induction l with
  | nil => intro i _; cases i <;> rfl
  | cons a rest ih =>
    intro i h
    cases i with
    | zero =>
      have := h a rfl
      rw [List.modify_zero_cons]
      simp [List.countP_cons, this]
    | succ j =>
      have := ih j (fun c hc => h c (by simpa using hc))
      rw [List.modify_succ_cons]
      simp [List.countP_cons, this]

theorem countP_modify_drop {α : Type} (p : α → Bool) (f : α → α) :
    ∀ (l : List α) (i : Nat) (c : α), l.get? i = some c → p c = true → p (f c) = false →
      (l.modify f i).countP p + 1 = l.countP p := by
  intro l
  induction l with
  | nil => intro i c h; cases i <;> simp at h
  | cons a rest ih =>
    intro i c h hp hf
    cases i with
    | zero =>
      simp at h
      subst h
      rw [List.modify_zero_cons]
      simp [List.countP_cons, hp, hf]
    | succ j =>
      have := ih j c (by simpa using h) hp hf
      rw [List.modify_succ_cons]
      simp only [List.countP_cons]
      omega

theorem countP_range_mark (done : List Nat) (k : Nat) (hn : done.contains k = false) :
    ∀ (n : Nat),
      (List.range n).countP (fun i => !(done ++ [k]).contains i) + (if k < n then 1 else 0)
        = (List.range n).countP (fun i => !done.contains i) := by
  intro n
  induction n with
  | zero => simp
  | succ m ih =>
    rw [List.range_succ, List.countP_append, List.countP_append]
    have h1 : [m].countP (fun i => !(done ++ [k]).contains i)
        = if (done.contains m || m == k) then 0 else 1 := by
      simp only [List.countP_cons, List.countP_nil, List.contains_eq_any_beq, List.any_append,
        List.any_cons, List.any_nil, Bool.or_false]
      by_cases h : (done.any (fun x => m == x) || m == k) = true <;> simp [h]
    have h2 : [m].countP (fun i => !done.contains i)
        = if done.contains m then 0 else 1 := by
      simp only [List.countP_cons, List.countP_nil]
      by_cases h : done.contains m = true <;> simp [h]
    rw [h1, h2]
    by_cases hkm : m = k
    · subst hkm
      have : ¬ m < m := lt_irrefl m
      simp only [this, if_false, Nat.add_zero] at ih
      simp only [hn, beq_self_eq_true, Bool.or_true, if_true, Nat.lt_succ_self, Bool.false_eq_true,
        if_false]
      omega
    · have hb : (m == k) = false := by simpa using hkm
      simp only [hb, Bool.or_false]
      by_cases hlt : k < m
      · have : k < m + 1 := by omega
        simp only [hlt, this, if_true] at ih ⊢
        omega
      · have : ¬ k < m + 1 := by omega
        simp only [hlt, this, if_false, Nat.add_zero] at ih ⊢
        omega

theorem pending_mark (g : ClassGraph) (k : Nat) (hk : k < g.classes.length)
    (hn : g.m_setup_inheritance_done.contains k = false) :
    ({ g with m_setup_inheritance_done := g.m_setup_inheritance_done ++ [k] } : ClassGraph).pending
      + 1 = g.pending := by
  have := countP_range_mark g.m_setup_inheritance_done k hn g.classes.length
  simp only [hk, if_true] at this
  exact this

theorem pending_mark_le (g : ClassGraph) (k : Nat) :
    ({ g with m_setup_inheritance_done := g.m_setup_inheritance_done ++ [k] } : ClassGraph).pending
      ≤ g.pending := by
  simp only [ClassGraph.pending]
  apply List.countP_mono_left
  intro i _ h
  simp only [List.contains_eq_any_beq, List.any_append, Bool.not_or, Bool.and_eq_true,
    Bool.not_eq_true'] at h ⊢
  exact h.1

theorem reach_refl (g : ClassGraph) : g.Reach 0 g :=
  ⟨Nat.le_refl _, fun h => h, fun _ h => h⟩

theorem reach_trans {s1 s2 : Nat} {g g1 g2 : ClassGraph} (h1 : g.Reach s1 g1)
    (h2 : g1.Reach s2 g2) : g.Reach (s1 + s2) g2 :=
  ⟨by have := h1.1; have := h2.1; omega, fun h => h2.2.1 (h1.2.1 h),
    fun i h => h2.2.2 i (h1.2.2 i h)⟩

theorem reach_mono {s1 s2 : Nat} {g g1 : ClassGraph} (h : g.Reach s1 g1) (hs : s1 ≤ s2) :
    g.Reach s2 g1 :=
  ⟨by have := h.1; omega, h.2.1, h.2.2⟩

theorem reach_of_same {g g1 : ClassGraph} (s : Nat) (hp : g1.potential ≤ g.potential + s)
    (hd : g1.m_setup_inheritance_done = g.m_setup_inheritance_done) : g.Reach s g1 :=
  ⟨hp, fun h => hd ▸ h, fun _ h => hd ▸ h⟩

theorem potential_modifyClass (g : ClassGraph) (i : Nat) (f : MetaClass → MetaClass)
    (h : ∀ c, g.classes.get? i = some c →
      (f c).typeEntry = c.typeEntry ∧ (f c).interfaceImpl = c.interfaceImpl) :
    (g.modifyClass i f).potential = g.potential := by
  simp only [ClassGraph.potential, ClassGraph.pending, ClassGraph.openInterfaces,
    ClassGraph.modifyClass, List.length_modify]
  congr 1
  apply countP_modify_of_eq
  intro c hc
  rw [(h c hc).1, (h c hc).2]

theorem reach_modifyClass (g : ClassGraph) (i : Nat) (f : MetaClass → MetaClass)
    (h : ∀ c, g.classes.get? i = some c →
      (f c).typeEntry = c.typeEntry ∧ (f c).interfaceImpl = c.interfaceImpl) :
    g.Reach 0 (g.modifyClass i f) :=
  reach_of_same 0 (by rw [potential_modifyClass g i f h]; omega) rfl

theorem reach_warn (g : ClassGraph) (msg : QString) : g.Reach 0 (g.warn msg) :=
  reach_of_same 0 (Nat.le_refl _) rfl

theorem reach_addInterface (meta_class iface : Nat) (g : ClassGraph) :
    g.Reach 0 (addInterface meta_class iface g) := by
  simp only [addInterface]
  split_ifs
  · exact reach_refl g
  · exact reach_modifyClass g _ _ (fun c _ => ⟨rfl, rfl⟩)

theorem reach_linkInterfaces (env : SetupEnv) (meta_class base_class : Nat) (g : ClassGraph) :
    g.Reach 0 (linkInterfaces env meta_class base_class g) := by
  simp only [linkInterfaces]
  split_ifs
  · split
    · exact reach_addInterface _ _ g
    · exact reach_refl g
  · exact reach_refl g

theorem cls_isInterface_get (g : ClassGraph) (i : Nat)
    (h : (g.cls i).typeEntry.isInterface = true) :
    ∃ c, g.classes.get? i = some c ∧ g.cls i = c := by
  simp only [ClassGraph.cls] at h ⊢
  cases hc : g.classes.get? i with
  | none => rw [hc] at h; simp at h
  | some c => exact ⟨c, rfl, rfl⟩

theorem reach_extractInterfaceImpl (env : RegistryEnv) (cls : Nat) (g : ClassGraph)
    (ha : ∀ c, (env.interfaceImpl c).typeEntry.isInterface = false)
    (h : (g.cls cls).typeEntry.isInterface = true) :
    g.Reach 0 (extractInterfaceImpl env cls g).2 := by
  obtain ⟨c, hget, hc⟩ := cls_isInterface_get g cls h
  simp only [extractInterfaceImpl]
  cases himpl : (g.cls cls).interfaceImpl with
  | some impl => exact reach_refl g
  | none =>
    refine reach_of_same 0 ?_ rfl
    simp only [ClassGraph.potential, ClassGraph.pending, ClassGraph.openInterfaces,
      ClassGraph.modifyClass, ClassGraph.newClass, List.length_modify, List.length_append,
      List.length_singleton]
    have hp : (c.typeEntry.isInterface && c.interfaceImpl.isNone) = true := by
      rw [hc] at h himpl
      simp only [h, himpl, Option.isNone_none, Bool.and_self]
    have hget2 : (g.classes ++ [env.interfaceImpl (g.cls cls)]).get? cls = some c := by
      rw [List.get?_eq_getElem?] at hget ⊢
      rw [List.getElem?_append_left]
      · exact hget
      · by_contra hlt
        rw [List.getElem?_eq_none (by omega)] at hget
        cases hget
    have hdrop := countP_modify_drop
      (fun c : MetaClass => c.typeEntry.isInterface && c.interfaceImpl.isNone)
      (fun c => { c with interfaceImpl := some g.classes.length })
      (g.classes ++ [env.interfaceImpl (g.cls cls)]) cls c hget2 hp (by simp)
    have hnew : (g.classes ++ [env.interfaceImpl (g.cls cls)]).countP
        (fun c : MetaClass => c.typeEntry.isInterface && c.interfaceImpl.isNone)
        = g.classes.countP (fun c : MetaClass => c.typeEntry.isInterface && c.interfaceImpl.isNone) := by
      have hia := ha (g.cls cls)
      simp only [List.countP_append, List.countP_cons, List.countP_nil, hia, Bool.false_and]
      simp
    have hpend : (List.range (g.classes.length + 1)).countP
        (fun i => !g.m_setup_inheritance_done.contains i)
        ≤ (List.range g.classes.length).countP
          (fun i => !g.m_setup_inheritance_done.contains i) + 1 := by
      rw [List.range_succ, List.countP_append]
      have := List.countP_le_length (fun i => !g.m_setup_inheritance_done.contains i)
        (l := [g.classes.length])
      simp only [List.length_singleton] at this
      omega
    omega

theorem potential_congr {g g1 : ClassGraph} (hc : g1.classes = g.classes)
    (hd : g1.m_setup_inheritance_done = g.m_setup_inheritance_done) :
    g1.potential = g.potential := by
  simp only [ClassGraph.potential, ClassGraph.pending, ClassGraph.openInterfaces, hc, hd]

theorem reach_congr_right {s : Nat} {g g1 g2 : ClassGraph} (h : g.Reach s g1)
    (hc : g2.classes = g1.classes)
    (hd : g2.m_setup_inheritance_done = g1.m_setup_inheritance_done) : g.Reach s g2 := by
  refine ⟨?_, ?_, ?_⟩
  · rw [potential_congr hc hd]; exact h.1
  · rw [hd]; exact h.2.1
  · rw [hd]; exact h.2.2

theorem reach_congr_left {s : Nat} {g g1 g2 : ClassGraph} (h : g1.Reach s g2)
    (hc : g1.classes = g.classes)
    (hd : g1.m_setup_inheritance_done = g.m_setup_inheritance_done) : g.Reach s g2 := by
  refine ⟨?_, ?_, ?_⟩
  · rw [← potential_congr hc hd]; exact h.1
  · rw [← hd]; exact h.2.1
  · rw [← hd]; exact h.2.2

theorem cls_congr {g g1 : ClassGraph} (hc : g1.classes = g.classes) (i : Nat) :
    g1.cls i = g.cls i := by
  simp only [ClassGraph.cls, hc]

theorem reach_fileMetaClass (env : RegistryEnv) (cls : Nat) (g : ClassGraph)
    (ha : ∀ c, (env.interfaceImpl c).typeEntry.isInterface = false) :
    g.Reach 0 (fileMetaClass env cls g) := by
  have hsame := registerTypeSystem_same env cls
    { g with m_meta_classes := g.m_meta_classes ++ [cls] }
  simp only [fileMetaClass]
  generalize registerTypeSystem env cls
    { g with m_meta_classes := g.m_meta_classes ++ [cls] } = g2 at hsame
  by_cases hi : (g2.cls cls).typeEntry.isInterface = true
  · rw [if_pos hi]
    have h := reach_extractInterfaceImpl env cls g2 ha hi
    exact reach_congr_left (reach_congr_right h rfl rfl) hsame.1 hsame.2.1
  · rw [if_neg hi]
    have hc : g2.classes = g.classes := hsame.1
    have hd : g2.m_setup_inheritance_done = g.m_setup_inheritance_done := hsame.2.1
    exact reach_of_same 0 (by rw [potential_congr hc hd]; omega) hd

theorem reach_addAbstractMetaClass (env : RegistryEnv) (cls : Option Nat) (g : ClassGraph)
    (ha : ∀ c, (env.interfaceImpl c).typeEntry.isInterface = false) :
    g.Reach 0 (addAbstractMetaClass env cls g) := by
  cases cls with
  | none => exact reach_refl g
  | some cls =>
    simp only [addAbstractMetaClass]
    have h1 : g.Reach 0 (g.modifyClass cls
        (fun c => { c with originalAttributes := c.attributes })) :=
      reach_modifyClass g _ _ (fun c _ => ⟨rfl, rfl⟩)
    split_ifs
    · exact reach_congr_right h1 rfl rfl
    · exact reach_congr_right h1 rfl rfl
    · exact reach_trans h1 (reach_fileMetaClass env cls _ ha)

theorem reach_newClass (g : ClassGraph) (c : MetaClass)
    (h : c.typeEntry.isInterface = false) : g.Reach 1 (g.newClass c).2 := by
  refine reach_of_same 1 ?_ rfl
  simp only [ClassGraph.potential, ClassGraph.pending, ClassGraph.openInterfaces,
    ClassGraph.newClass, List.length_append, List.length_singleton]
  have hnew : (g.classes ++ [c]).countP
      (fun c : MetaClass => c.typeEntry.isInterface && c.interfaceImpl.isNone)
      = g.classes.countP
        (fun c : MetaClass => c.typeEntry.isInterface && c.interfaceImpl.isNone) := by
    simp only [List.countP_append, List.countP_cons, List.countP_nil, h, Bool.false_and]
    simp
  have hpend : (List.range (g.classes.length + 1)).countP
      (fun i => !g.m_setup_inheritance_done.contains i)
      ≤ (List.range g.classes.length).countP
        (fun i => !g.m_setup_inheritance_done.contains i) + 1 := by
    rw [List.range_succ, List.countP_append]
    have := List.countP_le_length (fun i => !g.m_setup_inheritance_done.contains i)
      (l := [g.classes.length])
    simp only [List.length_singleton] at this
    omega
  omega

theorem reach_newIterator (env : RegistryEnv) (g : ClassGraph) (t : Nat) (c : MetaClass)
    (f : MetaClass → MetaClass) (k : Option Nat)
    (ha : ∀ c, (env.interfaceImpl c).typeEntry.isInterface = false)
    (hc : c.typeEntry.isInterface = false)
    (hf : ∀ c, (f c).typeEntry = c.typeEntry ∧ (f c).interfaceImpl = c.interfaceImpl) :
    g.Reach 1 (addAbstractMetaClass env k ((g.newClass c).2.modifyClass t f)) :=
  reach_trans (reach_newClass g c hc)
    (reach_trans (reach_modifyClass _ t f (fun c _ => hf c)) (reach_addAbstractMetaClass env k _ ha))

theorem reach_instantiateIterator (env : InheritEnv) (iteratorTypeEntry : TypeEntry)
    (targetClass : Nat) (template_types : List MetaType) (g : ClassGraph)
    (ha : ∀ c, (env.registry.interfaceImpl c).typeEntry.isInterface = false)
    (hb : ∀ e t n, (env.cloneIterator e t n).isInterface = false) :
    g.Reach 1 (instantiateIterator env iteratorTypeEntry targetClass template_types g).2 := by
  simp only [instantiateIterator]
  split
  · exact reach_mono (reach_refl g) (by omega)
  · split
    · exact reach_mono (reach_refl g) (by omega)
    · have h1 : g.Reach 0 (g.modifyClass targetClass (fun c =>
          { c with extraIncludes := c.extraIncludes ++ env.iteratorExtraIncludes iteratorTypeEntry })) :=
        reach_modifyClass g _ _ (fun c _ => ⟨rfl, rfl⟩)
      refine @reach_trans 0 1 _ _ _ h1 ?_
      apply reach_newIterator
      · exact ha
      · exact hb _ _ _
      · exact fun c => ⟨rfl, rfl⟩

theorem addFunctionModifications_same (sig : QString) :
    ∀ (mods : List FunctionModification) (c : MetaClass),
      (mods.foldl (fun (te : MetaClass) mod =>
          te.addFunctionModification { mod with signature := sig }) c).typeEntry = c.typeEntry
      ∧ (mods.foldl (fun (te : MetaClass) mod =>
          te.addFunctionModification { mod with signature := sig }) c).interfaceImpl
        = c.interfaceImpl := by
  intro mods
  induction mods with
  | nil => intro c; exact ⟨rfl, rfl⟩
  | cons m rest ih =>
    intro c
    simp only [List.foldl_cons]
    exact ih _

theorem inheritFunctionsStep_same (env : InheritEnv) (fuel : Nat) (ctx : InheritContext)
    (c c1 : MetaClass) (function : MetaFunction)
    (h : inheritFunctionsStep env fuel ctx c function = some c1) :
    c1.typeEntry = c.typeEntry ∧ c1.interfaceImpl = c.interfaceImpl := by
  simp only [inheritFunctionsStep] at h
  iterate 4 (all_goals (try split at h))
  all_goals first
    | (cases h; done)
    | (cases h; exact ⟨rfl, rfl⟩)
    | (cases h; exact addFunctionModifications_same _ _ _)

theorem inheritFunctions_same (env : InheritEnv) (fuel : Nat) (ctx : InheritContext) :
    ∀ (functions : List MetaFunction) (c c1 : MetaClass),
      inheritFunctions env fuel ctx functions c = some c1 →
      c1.typeEntry = c.typeEntry ∧ c1.interfaceImpl = c.interfaceImpl := by
  intro functions
  induction functions with
  | nil => intro c c1 h; cases h; exact ⟨rfl, rfl⟩
  | cons f rest ih =>
    intro c c1 h
    simp only [inheritFunctions] at h
    cases hs : inheritFunctionsStep env fuel ctx c f with
    | none => rw [hs] at h; cases h
    | some c2 =>
      rw [hs] at h
      have h1 := inheritFunctionsStep_same env fuel ctx c c2 f hs
      have h2 := ih c2 c1 h
      exact ⟨h2.1.trans h1.1, h2.2.trans h1.2⟩

theorem inheritFieldsStep_same (env : InheritEnv) (fuel : Nat) (ctx : InheritContext)
    (c c1 : MetaClass) (field : MetaField)
    (h : inheritFieldsStep env fuel ctx c field = some c1) :
    c1.typeEntry = c.typeEntry ∧ c1.interfaceImpl = c.interfaceImpl := by
  simp only [inheritFieldsStep] at h
  iterate 4 (all_goals (try split at h))
  all_goals first
    | (cases h; done)
    | (cases h; exact ⟨rfl, rfl⟩)

theorem inheritFields_same (env : InheritEnv) (fuel : Nat) (ctx : InheritContext) :
    ∀ (fields : List MetaField) (c c1 : MetaClass),
      inheritFields env fuel ctx fields c = some c1 →
      c1.typeEntry = c.typeEntry ∧ c1.interfaceImpl = c.interfaceImpl := by
  intro fields
  induction fields with
  | nil => intro c c1 h; cases h; exact ⟨rfl, rfl⟩
  | cons f rest ih =>
    intro c c1 h
    simp only [inheritFields] at h
    cases hs : inheritFieldsStep env fuel ctx c f with
    | none => rw [hs] at h; cases h
    | some c2 =>
      rw [hs] at h
      have h1 := inheritFieldsStep_same env fuel ctx c c2 f hs
      have h2 := ih c2 c1 h
      exact ⟨h2.1.trans h1.1, h2.2.trans h1.2⟩

theorem inheritMembers_same (env : InheritEnv) (fuel : Nat) (ctx : InheritContext)
    (functions : List MetaFunction) (fields : List MetaField) (c c1 : MetaClass)
    (h : inheritMembers env fuel ctx functions fields c = some c1) :
    c1.typeEntry = c.typeEntry ∧ c1.interfaceImpl = c.interfaceImpl := by
  simp only [inheritMembers] at h
  cases hs : inheritFunctions env fuel ctx functions c with
  | none => rw [hs] at h; cases h
  | some c2 =>
    rw [hs] at h
    have h1 := inheritFunctions_same env fuel ctx functions c c2 hs
    have h2 := inheritFields_same env fuel ctx fields c2 c1 h
    exact ⟨h2.1.trans h1.1, h2.2.trans h1.2⟩

theorem inheritHeader_same (env : InheritEnv) (hidden_base_class : Nat) (hidden : MetaClass)
    (info : ParserInfo) (template_types : List MetaType) (c : MetaClass) :
    (inheritHeader env hidden_base_class hidden info template_types c).typeEntry = c.typeEntry
      ∧ (inheritHeader env hidden_base_class hidden info template_types c).interfaceImpl
        = c.interfaceImpl := by
  simp only [inheritHeader]
  split_ifs <;> exact ⟨rfl, rfl⟩

theorem inheritTail_same (env : InheritEnv) (hidden : MetaClass) (template_types : List MetaType)
    (c : MetaClass) :
    (inheritTail env hidden template_types c).typeEntry = c.typeEntry
      ∧ (inheritTail env hidden template_types c).interfaceImpl = c.interfaceImpl := by
  simp only [inheritTail]
  split_ifs <;> exact ⟨rfl, rfl⟩

theorem cls_of_get {g : ClassGraph} {i : Nat} {c : MetaClass} (h : g.classes.get? i = some c) :
    g.cls i = c := by
  simp only [ClassGraph.cls, h, Option.getD_some]

theorem reach_inheritHiddenBaseType (env : InheritEnv) (fuel : Nat) (subclass hidden_base_class : Nat)
    (info : ParserInfo) (g : ClassGraph) (r : Bool × ClassGraph)
    (ha : ∀ c, (env.registry.interfaceImpl c).typeEntry.isInterface = false)
    (hb : ∀ e t n, (env.cloneIterator e t n).isInterface = false)
    (h : inheritHiddenBaseType env fuel subclass hidden_base_class info g = some r) :
    g.Reach 1 r.2 := by
  simp only [inheritHiddenBaseType] at h
  generalize templateTypesOf env (g.m_templates.contains subclass) (g.cls subclass)
    (g.cls hidden_base_class) 0 info.template_instantiations [] = tt at h
  have h1 : g.Reach 0 (g.modifyClass subclass
      (inheritHeader env hidden_base_class (g.cls hidden_base_class) info tt)) :=
    reach_modifyClass g _ _ (fun c _ => inheritHeader_same env _ _ _ _ c)
  generalize g.modifyClass subclass
    (inheritHeader env hidden_base_class (g.cls hidden_base_class) info tt) = g1 at h h1
  have key : ∀ r0 : Option Nat × ClassGraph, g1.Reach 1 r0.2 →
      (if isPlainContainer (g.cls hidden_base_class).typeEntry = true then some (true, g1)
        else
          match inheritMembers env fuel
              { hidden_base_class := g.cls hidden_base_class, info := info, template_types := tt,
                iteratorTypeEntry := env.findIteratorType (g.cls hidden_base_class).typeEntry,
                newIteratorEntry := r0.1.map (fun c => (r0.2.cls c).typeEntry) }
              (g.cls hidden_base_class).functions (g.cls hidden_base_class).fields
              (r0.2.cls subclass) with
          | none => none
          | some sub =>
            some (true, r0.2.modifyClass subclass
              (fun _ => inheritTail env (g.cls hidden_base_class) tt sub))) = some r →
      g.Reach 1 r.2 := by
    intro r0 h2 h
    split at h
    · cases h
      exact reach_mono h1 (by omega)
    · split at h
      · cases h
      · rename_i sub hsub
        cases h
        have h3 : r0.2.Reach 0 (r0.2.modifyClass subclass
            (fun _ => inheritTail env (g.cls hidden_base_class) tt sub)) := by
          apply reach_modifyClass
          intro c hc
          have h4 := inheritMembers_same _ _ _ _ _ _ _ hsub
          have h5 := inheritTail_same env (g.cls hidden_base_class) tt sub
          rw [cls_of_get hc] at h4
          exact ⟨h5.1.trans h4.1, h5.2.trans h4.2⟩
        exact reach_trans h1 (reach_trans h2 h3)
  cases hfi : env.findIteratorType (g.cls hidden_base_class).typeEntry with
  | none =>
    simp only [hfi] at h
    exact key (none, g1) (reach_mono (reach_refl _) (by omega)) (by simpa only [hfi] using h)
  | some entry =>
    simp only [hfi] at h
    exact key (instantiateIterator env entry subclass tt g1)
      (reach_instantiateIterator env _ _ _ _ ha hb) (by simpa only [hfi] using h)

theorem within_returned {α : Type} {g : ClassGraph} {s : Nat} {a : α} {classes : α → ClassGraph}
    (h : g.Reach s (classes a)) : Setup.Within g s (Setup.returned a) classes :=
  ⟨fun h => (by cases h), fun b hb => (by cases hb; exact h)⟩

theorem within_callee {α : Type} (g : ClassGraph) (s : Nat) (classes : α → ClassGraph) :
    Setup.Within g s (Setup.calleeOutOfFuel : Setup α) classes :=
  ⟨fun h => (by cases h), fun b hb => (by cases hb)⟩

theorem within_mono {α : Type} {g : ClassGraph} {s1 s2 : Nat} {r : Setup α}
    {classes : α → ClassGraph} (h : Setup.Within g s1 r classes) (hs : s1 ≤ s2) :
    Setup.Within g s2 r classes :=
  ⟨h.1, fun a ha => reach_mono (h.2 a ha) hs⟩

theorem within_bind {α β : Type} {g : ClassGraph} {s1 s2 : Nat} {r : Setup α}
    {c1 : α → ClassGraph} {f : α → Setup β} {c2 : β → ClassGraph}
    (h1 : Setup.Within g s1 r c1)
    (h2 : ∀ a, r = Setup.returned a → g.Reach s1 (c1 a) → Setup.Within (c1 a) s2 (f a) c2) :
    Setup.Within g (s1 + s2) (r.bind f) c2 := by
  cases r with
  | returned a =>
    have hr := h1.2 a rfl
    have := h2 a rfl hr
    exact ⟨this.1, fun b hb => reach_trans hr (this.2 b hb)⟩
  | calleeOutOfFuel => exact within_callee g _ c2
  | outOfFuel => exact absurd rfl h1.1

theorem within_left {α : Type} {g g0 : ClassGraph} {s : Nat} {r : Setup α}
    {classes : α → ClassGraph} (h0 : g0.Reach 0 g) (h : Setup.Within g s r classes) :
    Setup.Within g0 s r classes :=
  ⟨h.1, fun a ha => by have := reach_trans h0 (h.2 a ha); rwa [Nat.zero_add] at this⟩

theorem potential_le_of_reach {g g1 : ClassGraph} {bound : Nat} (h : g.Reach 0 g1)
    (hb : g.potential ≤ bound) : g1.potential ≤ bound := by
  have := h.1
  omega

theorem within_setupTemplateBase (env : SetupEnv) (typeFuel : Nat) (self : SetupFn)
    (meta_class templateBaseClass : Nat) (g : ClassGraph) (bound : Nat)
    (ha : ∀ c, (env.inherit.registry.interfaceImpl c).typeEntry.isInterface = false)
    (hb : ∀ e t n, (env.inherit.cloneIterator e t n).isInterface = false)
    (hself : GoodSelf self bound) (hg : g.potential ≤ bound) :
    Setup.Within g 1 (setupTemplateBase env typeFuel self meta_class templateBaseClass g)
      (fun r => r.2) := by
  simp only [setupTemplateBase]
  refine @within_bind _ _ g 0 1 _ (fun r => r.2) _ _ (hself _ g hg) ?_
  intro r _ _
  split
  · exact within_callee _ _ _
  · rename_i r1 hr1
    apply within_returned
    have := reach_inheritHiddenBaseType _ _ _ _ _ _ _ ha hb hr1
    exact reach_congr_left (reach_congr_right this rfl rfl) rfl rfl

theorem within_setupTypeAlias (self : SetupFn) (meta_class : Nat)
    (publicBaseClasses : List QString) (g : ClassGraph) (bound : Nat)
    (hself : GoodSelf self bound) (hg : g.potential ≤ bound) :
    Setup.Within g 0 (setupTypeAlias self meta_class publicBaseClasses g) (fun g => g) := by
  simp only [setupTypeAlias]
  split
  · exact within_returned (reach_refl g)
  · split
    · exact within_returned (reach_refl g)
    · refine @within_bind _ _ g 0 0 _ (fun r => r.2) _ _ (hself _ g hg) ?_
      intro r _ _
      split
      · exact within_returned (reach_modifyClass _ _ _ (fun c _ => ⟨rfl, rfl⟩))
      · exact within_returned (reach_refl _)

theorem within_setupSingleTemplateBase (env : SetupEnv) (typeFuel : Nat) (self : SetupFn)
    (meta_class : Nat) (base : QString) (scope : List QString) (bound : Nat)
    (ha : ∀ c, (env.inherit.registry.interfaceImpl c).typeEntry.isInterface = false)
    (hb : ∀ e t n, (env.inherit.cloneIterator e t n).isInterface = false)
    (hself : GoodSelf self bound) :
    ∀ (levels : List Nat) (g : ClassGraph), g.potential ≤ bound →
      Setup.Within g 1
        (setupSingleTemplateBase env typeFuel self meta_class base scope levels g)
        (fun r => r.2) := by
  intro levels
  induction levels with
  | nil =>
    intro g _
    simp only [setupSingleTemplateBase]
    exact within_returned (reach_mono (reach_warn g _) (by omega))
  | cons i rest ih =>
    intro g hg
    simp only [setupSingleTemplateBase]
    split
    · refine @within_bind _ _ g 0 1 _ (fun r => r.2) _ _ (hself _ g hg) ?_
      intro r _ _
      split
      · exact within_callee _ _ _
      · rename_i r1 hr1
        have h1 := reach_inheritHiddenBaseType _ _ _ _ _ _ _ ha hb hr1
        exact within_returned h1
    · exact ih g hg

theorem reach_addInterfacesOf (env : SetupEnv) (meta_class base_class : Nat) :
    ∀ (l : List Nat) (g : ClassGraph),
      g.Reach 0 (addInterfacesOf env meta_class base_class l g) := by
  intro l
  induction l with
  | nil => intro g; exact reach_refl g
  | cons i rest ih =>
    intro g
    simp only [addInterfacesOf]
    split_ifs
    · exact reach_trans (reach_addInterface meta_class i g) (ih _)
    · exact reach_trans (reach_warn g _) (ih _)

theorem within_setupPrimaryBase (env : SetupEnv) (self : SetupFn) (meta_class : Nat)
    (base_class_name : QString) (g : ClassGraph) (bound : Nat)
    (ha : ∀ c, (env.inherit.registry.interfaceImpl c).typeEntry.isInterface = false)
    (hself : GoodSelf self bound) (hg : g.potential ≤ bound) :
    Setup.Within g 0 (setupPrimaryBase env self meta_class base_class_name g) (fun r => r.2) := by
  simp only [setupPrimaryBase]
  split
  · apply within_returned
    split_ifs
    · exact reach_warn g _
    · exact reach_refl g
  · rename_i base_class _
    refine @within_bind _ _ g 0 0 _ (fun g => g) _ _ ?_ ?_
    · by_cases hi : (g.cls base_class).typeEntry.isInterface = true
      · rw [if_pos hi]
        have h1 := reach_extractInterfaceImpl env.inherit.registry base_class g ha hi
        refine within_left h1 ?_
        refine @within_bind _ _ _ 0 0 _ (fun r => r.2) _ _
          (hself _ _ (potential_le_of_reach h1 hg)) ?_
        intro r _ _
        exact within_returned (reach_addInterface _ _ _)
      · rw [if_neg hi]
        refine @within_bind _ _ g 0 0 _ (fun r => r.2) _ _ (hself _ g hg) ?_
        intro r _ _
        apply within_returned
        have h1 : r.2.Reach 0 (r.2.modifyClass meta_class
            (fun c => { c with baseClass := some base_class })) :=
          reach_modifyClass _ _ _ (fun c _ => ⟨rfl, rfl⟩)
        exact reach_trans h1 (reach_linkInterfaces env meta_class base_class _)
    · intro g1 _ _
      apply within_returned
      split
      · split_ifs
        · exact reach_warn g1 _
        · exact reach_refl g1
      · exact reach_refl g1

theorem within_setupOtherBases (env : SetupEnv) (self : SetupFn) (meta_class : Nat)
    (primary : Option Nat) (bound : Nat)
    (ha : ∀ c, (env.inherit.registry.interfaceImpl c).typeEntry.isInterface = false)
    (hself : GoodSelf self bound) :
    ∀ (l : List QString) (i : Nat) (g : ClassGraph), g.potential ≤ bound →
      Setup.Within g 0 (setupOtherBases env self meta_class primary i l g) (fun g => g) := by
  intro l
  induction l with
  | nil =>
    intro i g _
    simp only [setupOtherBases]
    exact within_returned (reach_refl g)
  | cons name rest ih =>
    intro i g hg
    simp only [setupOtherBases]
    by_cases hrej : env.inherit.traverse.translate.isClassRejected name = true
    · rw [if_pos hrej]; exact ih _ g hg
    · rw [if_neg hrej]
      by_cases hp : (primary == some i) = true
      · rw [if_pos hp]; exact ih _ g hg
      · rw [if_neg hp]
        split
        · exact ih _ g hg
        · rename_i base_class _
          by_cases hi : (g.cls base_class).typeEntry.isInterface = true
          · rw [if_pos hi]
            have h1 := reach_extractInterfaceImpl env.inherit.registry base_class g ha hi
            refine within_left h1 ?_
            refine @within_bind _ _ _ 0 0 _ (fun r => r.2) _ _
              (hself _ _ (potential_le_of_reach h1 hg)) ?_
            intro r _ hr
            have hr2 := potential_le_of_reach hr (potential_le_of_reach h1 hg)
            have h2 := reach_addInterface meta_class base_class r.2
            have hr3 := potential_le_of_reach h2 hr2
            split
            · have h3 := reach_warn (addInterface meta_class base_class r.2)
                (qs "unknown implementation for interface '"
                  ++ ((addInterface meta_class base_class r.2).cls meta_class).name
                  ++ qs "': '"
                  ++ replace (env.implName (env.fullName
                      ((addInterface meta_class base_class r.2).cls base_class)))
                    (qs "::") (qs "$")
                  ++ qs "'")
              refine within_left h2 (within_left h3 ?_)
              exact ih _ _ (potential_le_of_reach h3 hr3)
            · rename_i ifaceImpl _
              have h3 := reach_addInterfacesOf env meta_class base_class
                ((addInterface meta_class base_class r.2).cls ifaceImpl).interfaces
                (addInterface meta_class base_class r.2)
              refine within_left h2 (within_left h3 ?_)
              exact ih _ _ (potential_le_of_reach h3 hr3)
          · rw [if_neg hi]
            refine @within_bind _ _ g 0 0 _ (fun r => r.2) _ _ (hself _ g hg) ?_
            intro r _ hr
            have hr2 := potential_le_of_reach hr hg
            have h2 := reach_linkInterfaces env meta_class base_class r.2
            refine within_left h2 ?_
            exact ih _ _ (potential_le_of_reach h2 hr2)

theorem primaryStep_same (env : SetupEnv) (tenv : TranslateEnv) (typeFuel : Nat)
    (publicBaseClasses : List QString) (i : Nat) (name : QString) (st st1 : PrimaryState)
    (h : primaryStep env tenv typeFuel publicBaseClasses i name st = some st1) :
    st1.meta_class.typeEntry = st.meta_class.typeEntry
      ∧ st1.meta_class.interfaceImpl = st.meta_class.interfaceImpl := by
  simp only [primaryStep] at h
  iterate 7 (all_goals (try split at h))
  all_goals first
    | (cases h; done)
    | (cases h; exact ⟨rfl, rfl⟩)

theorem primaryLoop_same (env : SetupEnv) (tenv : TranslateEnv) (typeFuel : Nat)
    (publicBaseClasses : List QString) :
    ∀ (l : List QString) (i : Nat) (st st1 : PrimaryState),
      primaryLoop env tenv typeFuel publicBaseClasses i l st = some st1 →
      st1.meta_class.typeEntry = st.meta_class.typeEntry
        ∧ st1.meta_class.interfaceImpl = st.meta_class.interfaceImpl := by
  intro l
  induction l with
  | nil => intro i st st1 h; simp only [primaryLoop] at h; cases h; exact ⟨rfl, rfl⟩
  | cons name rest ih =>
    intro i st st1 h
    simp only [primaryLoop] at h
    cases hs : primaryStep env tenv typeFuel publicBaseClasses i name st with
    | none => rw [hs] at h; cases h
    | some st2 =>
      rw [hs] at h
      have h1 := primaryStep_same _ _ _ _ _ _ _ _ hs
      have h2 := ih _ _ _ h
      exact ⟨h2.1.trans h1.1, h2.2.trans h1.2⟩

theorem protectedLoop_same (env : SetupEnv) (tenv : TranslateEnv) (typeFuel : Nat) :
    ∀ (l : List QString) (st st1 : PrimaryState),
      protectedLoop env tenv typeFuel l st = some st1 →
      st1.meta_class.typeEntry = st.meta_class.typeEntry
        ∧ st1.meta_class.interfaceImpl = st.meta_class.interfaceImpl := by
  intro l
  induction l with
  | nil => intro st st1 h; simp only [protectedLoop] at h; cases h; exact ⟨rfl, rfl⟩
  | cons name rest ih =>
    intro st st1 h
    simp only [protectedLoop] at h
    iterate 5 (all_goals (try split at h))
    all_goals first
      | cases h
      | (have h2 := ih _ _ h; exact h2)

theorem within_setupBases (env : SetupEnv) (typeFuel : Nat) (self : SetupFn) (meta_class : Nat)
    (publicBaseClasses protectedBaseClasses : List QString) (g : ClassGraph) (bound : Nat)
    (ha : ∀ c, (env.inherit.registry.interfaceImpl c).typeEntry.isInterface = false)
    (hself : GoodSelf self bound) (hg : g.potential ≤ bound) :
    Setup.Within g 0
      (setupBases env typeFuel self meta_class publicBaseClasses protectedBaseClasses g)
      (fun r => r.2) := by
  simp only [setupBases]
  split
  · exact within_callee _ _ _
  · rename_i st hst
    split
    · exact within_callee _ _ _
    · rename_i st1 hst1
      have h1 : g.Reach 0 (g.modifyClass meta_class (fun _ => st1.meta_class)) := by
        apply reach_modifyClass
        intro c hc
        have h2 := primaryLoop_same _ _ _ _ _ _ _ _ hst
        have h3 := protectedLoop_same _ _ _ _ _ _ hst1
        rw [cls_of_get hc] at h2
        exact ⟨h3.1.trans h2.1, h3.2.trans h2.2⟩
      have h4 : g.Reach 0
          { g.modifyClass meta_class (fun _ => st1.meta_class) with
            warnings := (g.modifyClass meta_class (fun _ => st1.meta_class)).warnings
              ++ st1.warnings } :=
        reach_congr_right h1 rfl rfl
      refine within_left h4 ?_
      have hg4 := potential_le_of_reach h4 hg
      refine @within_bind _ _ _ 0 0 _ (fun r => r.2) _ _ ?_ ?_
      · split
        · exact within_setupPrimaryBase env self meta_class _ _ bound ha hself hg4
        · exact within_returned (reach_refl _)
      · intro r _ hr
        have hr2 := potential_le_of_reach hr hg4
        split_ifs
        · refine @within_bind _ _ _ 0 0 _ (fun g => g) _ _
            (within_setupOtherBases env self meta_class st.primary bound ha hself _ _ _ hr2) ?_
          intro g2 _ _
          exact within_returned (reach_refl _)
        · exact within_returned (reach_refl _)

theorem within_setupInheritanceBody (env : SetupEnv) (typeFuel : Nat) (self : SetupFn)
    (meta_class : Nat) (g : ClassGraph) (bound : Nat)
    (ha : ∀ c, (env.inherit.registry.interfaceImpl c).typeEntry.isInterface = false)
    (hb : ∀ e t n, (env.inherit.cloneIterator e t n).isInterface = false)
    (hself : GoodSelf self bound) (hg : g.potential ≤ bound) :
    Setup.Within g 1 (setupInheritanceBody env typeFuel self meta_class g) (fun r => r.2) := by
  simp only [setupInheritanceBody]
  split
  · exact within_setupTemplateBase env typeFuel self meta_class _ g bound ha hb hself hg
  · refine @within_bind _ _ g 0 1 _ (fun g => g) _ _
      (within_setupTypeAlias self meta_class _ g bound hself hg) ?_
    intro g1 _ hr
    have hg1 := potential_le_of_reach hr hg
    split
    · exact within_setupSingleTemplateBase env typeFuel self meta_class _ _ bound ha hb hself
        _ g1 hg1
    · exact within_mono
        (within_setupBases env typeFuel self meta_class _ _ g1 bound ha hself hg1) (by omega)

theorem cls_of_none {g : ClassGraph} {i : Nat} (h : g.classes.get? i = none) :
    g.cls i = { name := [] } := by
  simp only [ClassGraph.cls, h, Option.getD_none]

theorem within_setupInheritanceBody_leaf (env : SetupEnv) (typeFuel : Nat) (self : SetupFn)
    (meta_class : Nat) (g : ClassGraph) (h : g.classes.get? meta_class = none) :
    Setup.Within g 0 (setupInheritanceBody env typeFuel self meta_class g) (fun r => r.2) := by
  have hk := cls_of_none h
  have e : setupInheritanceBody env typeFuel self meta_class g
      = Setup.returned (true,
          { g.modifyClass meta_class (fun _ => g.cls meta_class) with
            warnings := (g.modifyClass meta_class (fun _ => g.cls meta_class)).warnings ++ [] }) := by
    simp only [setupInheritanceBody, hk, ite_self, List.filter_nil, List.map_nil, setupTypeAlias,
      List.isEmpty_nil, if_true, Setup.bind, List.length_nil, List.head?_nil, Option.filter,
      setupBases, primaryLoop, protectedLoop, Option.bind, setupOtherBases]
  rw [e]
  apply within_returned
  exact reach_congr_right (reach_modifyClass g meta_class _ (fun c hc => by rw [h] at hc; cases hc))
    rfl rfl

theorem reach_mark (g : ClassGraph) (k : Nat)
    (hn : g.m_setup_inheritance_done.contains k = false) :
    g.Reach 0
      { g with m_setup_inheritance_done := g.m_setup_inheritance_done ++ [k] } := by
  refine ⟨?_, ?_, ?_⟩
  · have := pending_mark_le g k
    simp only [ClassGraph.potential, ClassGraph.openInterfaces] at this ⊢
    omega
  · intro hd
    rw [List.nodup_append]
    refine ⟨hd, List.nodup_singleton k, ?_⟩
    intro a ha hb
    rw [List.mem_singleton] at hb
    subst hb
    have : g.m_setup_inheritance_done.contains a = true := by
      simpa using ha
    rw [this] at hn
    cases hn
  · intro i hi
    exact List.mem_append_left _ hi

theorem potential_mark (g : ClassGraph) (k : Nat) (hk : k < g.classes.length)
    (hn : g.m_setup_inheritance_done.contains k = false) :
    ({ g with m_setup_inheritance_done := g.m_setup_inheritance_done ++ [k] }
      : ClassGraph).potential + 1 = g.potential := by
  have := pending_mark g k hk hn
  simp only [ClassGraph.potential, ClassGraph.openInterfaces] at this ⊢
  omega

theorem setupInheritance_within (env : SetupEnv) (typeFuel : Nat)
    (ha : ∀ c, (env.inherit.registry.interfaceImpl c).typeEntry.isInterface = false)
    (hb : ∀ e t n, (env.inherit.cloneIterator e t n).isInterface = false) :
    ∀ (fuel meta_class : Nat) (g : ClassGraph), g.potential < fuel →
      Setup.Within g 0 (setupInheritance env typeFuel fuel meta_class g) (fun r => r.2)
        ∧ ∀ r, setupInheritance env typeFuel fuel meta_class g = Setup.returned r →
            meta_class ∈ r.2.m_setup_inheritance_done := by
  intro fuel
  induction fuel with
  | zero => intro k g h; omega
  | succ n ih =>
    intro k g hg
    simp only [setupInheritance]
    by_cases hc : g.m_setup_inheritance_done.contains k = true
    · rw [if_pos hc]
      refine ⟨within_returned (reach_refl g), ?_⟩
      intro r hr
      cases hr
      simpa using hc
    · rw [if_neg hc]
      have hn : g.m_setup_inheritance_done.contains k = false := by
        simpa using hc
      have hm := reach_mark g k hn
      have hin : k ∈ (g.m_setup_inheritance_done ++ [k]) := by simp
      cases hget : g.classes.get? k with
      | none =>
        have hw := within_setupInheritanceBody_leaf env typeFuel (setupInheritance env typeFuel n) k
          { g with m_setup_inheritance_done := g.m_setup_inheritance_done ++ [k] } hget
        refine ⟨within_left hm hw, ?_⟩
        intro r hr
        exact (hw.2 r hr).2.2 k hin
      | some c =>
        have hk : k < g.classes.length := by
          by_contra hlt
          rw [List.get?_eq_getElem?, List.getElem?_eq_none (by omega)] at hget
          cases hget
        have hp := potential_mark g k hk hn
        have hself : GoodSelf (setupInheritance env typeFuel n)
            ({ g with m_setup_inheritance_done := g.m_setup_inheritance_done ++ [k] }
              : ClassGraph).potential := by
          intro k2 g2 hg2
          exact (ih k2 g2 (by omega)).1
        have hw := within_setupInheritanceBody env typeFuel (setupInheritance env typeFuel n) k
          { g with m_setup_inheritance_done := g.m_setup_inheritance_done ++ [k] } _ ha hb hself
          (Nat.le_refl _)
        refine ⟨⟨hw.1, ?_⟩, ?_⟩
        · intro r hr
          have h1 := hw.2 r hr
          refine ⟨?_, fun hd => h1.2.1 (hm.2.1 hd), fun i hi => h1.2.2 i (hm.2.2 i hi)⟩
          have := h1.1
          omega
        · intro r hr
          exact (hw.2 r hr).2.2 k hin

/-- C18: `setupInheritance` ends on every finite set of classes, whatever the
base-class names are, cycles included, and sets up a class at most once. With
more fuel than the measure of the classes (the classes not in
`m_setup_inheritance_done` plus the interfaces whose implementation class is
not made yet), the recursion of `setupInheritance` never runs out of fuel: the
call returns, or it has stopped in `translateType` or `inheritTemplateType`,
whose fuel is `typeFuel`. When it returns, the class is in
`m_setup_inheritance_done`, the classes that were there are still there, the
list of the set-ups has no class twice if it had none twice before, and the
measure has not grown. For a class that is in `m_setup_inheritance_done` the
call returns at once and leaves the classes as they are. -/
theorem setupInheritance_terminates_once (env : SetupEnv) (typeFuel fuel meta_class : Nat)
    (g : ClassGraph)
    (ha : ∀ c, (env.inherit.registry.interfaceImpl c).typeEntry.isInterface = false)
    (hb : ∀ e t n, (env.inherit.cloneIterator e t n).isInterface = false)
    (hfuel : g.potential < fuel) :
    ((∃ r, setupInheritance env typeFuel fuel meta_class g = Setup.returned r
          ∧ meta_class ∈ r.2.m_setup_inheritance_done
          ∧ (∀ i, i ∈ g.m_setup_inheritance_done → i ∈ r.2.m_setup_inheritance_done)
          ∧ (g.m_setup_inheritance_done.Nodup → r.2.m_setup_inheritance_done.Nodup)
          ∧ r.2.potential ≤ g.potential)
        ∨ setupInheritance env typeFuel fuel meta_class g = Setup.calleeOutOfFuel)
      ∧ (meta_class ∈ g.m_setup_inheritance_done →
          setupInheritance env typeFuel fuel meta_class g = Setup.returned (true, g)) := by
  have h := setupInheritance_within env typeFuel ha hb fuel meta_class g hfuel
  constructor
  · cases hr : setupInheritance env typeFuel fuel meta_class g with
    | returned r =>
      have h1 := h.1.2 r hr
      refine Or.inl ⟨r, rfl, h.2 r hr, h1.2.2, h1.2.1, ?_⟩
      have h2 : r.2.potential ≤ g.potential + 0 := h1.1
      omega
    | calleeOutOfFuel => exact Or.inr rfl
    | outOfFuel => exact absurd hr h.1.1
  · intro hm
    cases fuel with
    | zero => omega
    | succ n =>
      have hc : g.m_setup_inheritance_done.contains meta_class = true := by
        simpa using hm
      simp only [setupInheritance, hc, if_true]

theorem setupInheritance_terminates_once_witness :
    sampleCycleGraph.potential < 3
      ∧ setupSummary (setupInheritance sampleSetupEnv 0 3 0 sampleCycleGraph)
        = some (true, [0, 1], some 1, some 0)
      ∧ ((∃ r, setupInheritance sampleSetupEnv 0 3 0 sampleCycleGraph = Setup.returned r
            ∧ 0 ∈ r.2.m_setup_inheritance_done
            ∧ (∀ i, i ∈ sampleCycleGraph.m_setup_inheritance_done →
                i ∈ r.2.m_setup_inheritance_done)
            ∧ (sampleCycleGraph.m_setup_inheritance_done.Nodup →
                r.2.m_setup_inheritance_done.Nodup)
            ∧ r.2.potential ≤ sampleCycleGraph.potential)
          ∨ setupInheritance sampleSetupEnv 0 3 0 sampleCycleGraph = Setup.calleeOutOfFuel)
      ∧ (0 ∈ sampleCycleGraph.m_setup_inheritance_done →
          setupInheritance sampleSetupEnv 0 3 0 sampleCycleGraph
            = Setup.returned (true, sampleCycleGraph)) :=
  ⟨by decide, by decide!,
    setupInheritance_terminates_once sampleSetupEnv 0 3 0 sampleCycleGraph (fun _ => rfl)
      (fun _ _ _ => rfl) (by decide)⟩

/-! ## setupInheritance: the primary base class -/

theorem primaryStep_primary (env : SetupEnv) (tenv : TranslateEnv) (typeFuel : Nat)
    (publicBaseClasses : List QString) (i : Nat) (name : QString) (st st1 : PrimaryState)
    (h : primaryStep env tenv typeFuel publicBaseClasses i name st = some st1) :
    (isPrimaryCandidate env name = true ∧ st.primaries = 0
        ∧ st1.primary = some i ∧ st1.primaries = 1)
      ∨ ((isPrimaryCandidate env name = false ∨ st.primaries > 0)
        ∧ st1.primary = st.primary ∧ st1.primaries = st.primaries) := by
  simp only [primaryStep] at h
  by_cases hrej : env.inherit.traverse.translate.isClassRejected name = true
  · rw [if_pos hrej] at h
    cases h
    exact Or.inr ⟨Or.inl (by simp [isPrimaryCandidate, hrej]), rfl, rfl⟩
  · rw [if_neg hrej] at h
    have hrej2 : env.inherit.traverse.translate.isClassRejected name = false := by
      simpa using hrej
    cases hf : env.inherit.traverse.translate.findType
        (join (qs "::") (env.inherit.traverse.translate.parse name).qualified_name) with
    | none =>
      rw [hf] at h
      cases h
      exact Or.inr ⟨Or.inl (by simp [isPrimaryCandidate, hrej2, hf]), rfl, rfl⟩
    | some entry =>
      rw [hf] at h
      dsimp only at h
      by_cases hc : ((env.inherit.registry.designatedInterface entry).isNone
          && !entry.isInterface) = true
      · rw [if_pos hc] at h
        have hcand : isPrimaryCandidate env name = true := by
          simp only [isPrimaryCandidate, hrej2, hf, hc]
          rfl
        by_cases hp : st.primaries > 0
        · rw [if_pos hp] at h
          iterate 3 (all_goals (try split at h))
          all_goals first
            | (cases h; done)
            | (cases h; exact Or.inr ⟨Or.inr hp, rfl, rfl⟩)
        · rw [if_neg hp] at h
          cases h
          have h0 : st.primaries = 0 := by omega
          exact Or.inl ⟨hcand, h0, rfl, by simp [h0]⟩
      · rw [if_neg hc] at h
        cases h
        refine Or.inr ⟨Or.inl ?_, rfl, rfl⟩
        have hc2 : ((env.inherit.registry.designatedInterface entry).isNone
          && !entry.isInterface) = false := by simpa using hc
        simp only [isPrimaryCandidate, hrej2, hf, hc2]
        rfl

theorem primaryLoop_primary (env : SetupEnv) (tenv : TranslateEnv) (typeFuel : Nat)
    (publicBaseClasses : List QString) :
    ∀ (l : List QString) (i : Nat) (st st1 : PrimaryState),
      primaryLoop env tenv typeFuel publicBaseClasses i l st = some st1 →
      (st.primaries > 0 → st1.primary = st.primary ∧ st1.primaries = st.primaries)
        ∧ (st.primaries = 0 →
            (firstPrimaryBase env i l = none → st1.primary = st.primary ∧ st1.primaries = 0)
              ∧ ∀ j, firstPrimaryBase env i l = some j →
                  st1.primary = some j ∧ st1.primaries = 1) := by
  intro l
  induction l with
  | nil =>
    intro i st st1 h
    simp only [primaryLoop] at h
    cases h
    refine ⟨fun _ => ⟨rfl, rfl⟩, fun h0 => ⟨fun _ => ⟨rfl, h0⟩, ?_⟩⟩
    intro j hj
    simp [firstPrimaryBase] at hj
  | cons name rest ih =>
    intro i st st1 h
    simp only [primaryLoop] at h
    cases hs : primaryStep env tenv typeFuel publicBaseClasses i name st with
    | none => rw [hs] at h; cases h
    | some st2 =>
      rw [hs] at h
      have h2 := ih (i + 1) st2 st1 h
      rcases primaryStep_primary env tenv typeFuel publicBaseClasses i name st st2 hs with
        ⟨hc, h0, hp, hn⟩ | ⟨hc, hp, hn⟩
      · refine ⟨fun hpos => (by omega), fun _ => ?_⟩
        have h3 := h2.1 (by omega)
        simp only [firstPrimaryBase, hc, if_true]
        refine ⟨fun hnone => (by cases hnone), ?_⟩
        intro j hj
        cases hj
        exact ⟨h3.1.trans hp, h3.2.trans hn⟩
      · refine ⟨fun hpos => ?_, fun h0 => ?_⟩
        · have h3 := h2.1 (by omega)
          exact ⟨h3.1.trans hp, h3.2.trans hn⟩
        · have hc2 : isPrimaryCandidate env name = false := by
            rcases hc with hc | hc
            · exact hc
            · omega
          have h3 := h2.2 (by omega)
          simp only [firstPrimaryBase, hc2, Bool.false_eq_true, if_false]
          refine ⟨fun hnone => ?_, fun j hj => h3.2 j hj⟩
          have h4 := h3.1 hnone
          exact ⟨h4.1.trans hp, h4.2⟩

theorem primaryStep_later (env : SetupEnv) (tenv : TranslateEnv) (typeFuel : Nat)
    (publicBaseClasses : List QString) (i : Nat) (name : QString) (st st1 : PrimaryState)
    (hp : st.primaries > 0)
    (h : primaryStep env tenv typeFuel publicBaseClasses i name st = some st1) :
    st1 = st
      ∨ (∃ f : MetaFunction, f.functionType = FunctionType.BaseClassDelegateFunction
          ∧ st1 = { st with meta_class := st.meta_class.addFunction f })
      ∨ ∃ w : QString, st1 = { st with warnings := st.warnings ++ [w] } := by
  simp only [primaryStep] at h
  iterate 7 (all_goals (try split at h))
  all_goals first
    | (cases h; done)
    | (cases h; exact Or.inl rfl)
    | (cases h; exact Or.inr (Or.inl ⟨_, rfl, rfl⟩))
    | (cases h; exact Or.inr (Or.inr ⟨_, rfl⟩))

theorem get_modifyClass (g : ClassGraph) (i k : Nat) (f : MetaClass → MetaClass) (c : MetaClass)
    (h : (g.modifyClass i f).classes.get? k = some c) :
    ∃ c0, g.classes.get? k = some c0 ∧ c = (if i = k then f c0 else c0) := by
  simp only [ClassGraph.modifyClass, List.get?_eq_getElem?, List.getElem?_modify] at h
  rw [List.get?_eq_getElem?]
  cases hc : g.classes[k]? with
  | none => rw [hc] at h; cases h
  | some c0 =>
    rw [hc] at h
    simp only [Option.map_eq_map, Option.map_some', Option.some.injEq] at h
    exact ⟨c0, rfl, h.symm⟩

theorem addInterface_baseClass (meta_class iface : Nat) (g : ClassGraph) (k : Nat)
    (c : MetaClass) (h : (addInterface meta_class iface g).classes.get? k = some c) :
    ∃ c0, g.classes.get? k = some c0 ∧ c.baseClass = c0.baseClass := by
  simp only [addInterface] at h
  split_ifs at h
  · exact ⟨c, h, rfl⟩
  · obtain ⟨c0, h0, hc⟩ := get_modifyClass _ _ _ _ _ h
    refine ⟨c0, h0, ?_⟩
    rw [hc]
    split_ifs <;> rfl

theorem linkInterfaces_baseClass (env : SetupEnv) (meta_class base_class : Nat)
    (g : ClassGraph) (k : Nat) (c : MetaClass)
    (h : (linkInterfaces env meta_class base_class g).classes.get? k = some c) :
    ∃ c0, g.classes.get? k = some c0 ∧ c.baseClass = c0.baseClass := by
  simp only [linkInterfaces] at h
  split_ifs at h
  · split at h
    · exact addInterface_baseClass _ _ _ _ _ h
    · exact ⟨c, h, rfl⟩
  · exact ⟨c, h, rfl⟩

theorem setupPrimaryBase_baseClass (env : SetupEnv) (self : SetupFn) (meta_class : Nat)
    (base_class_name : QString) (g : ClassGraph) (r : Bool × ClassGraph)
    (h : setupPrimaryBase env self meta_class base_class_name g = Setup.returned r) :
    (g.findClass g.m_meta_classes base_class_name = none → r.1 = false)
      ∧ ∀ base_class, g.findClass g.m_meta_classes base_class_name = some base_class →
          (g.cls base_class).typeEntry.isInterface = false →
          ∀ c, r.2.classes.get? meta_class = some c → c.baseClass = some base_class := by
  simp only [setupPrimaryBase] at h
  cases hf : g.findClass g.m_meta_classes base_class_name with
  | none =>
    rw [hf] at h
    cases h
    exact ⟨fun _ => rfl, fun b hb => (by cases hb)⟩
  | some b =>
    rw [hf] at h
    refine ⟨fun hn => (by cases hn), ?_⟩
    intro b2 hb2 hi c hc
    cases hb2
    have hi2 : ¬ (g.cls b).typeEntry.isInterface = true := by
      rw [hi]; exact Bool.false_ne_true
    dsimp only at h
    rw [if_neg hi2] at h
    cases hs : self b g with
    | calleeOutOfFuel => rw [hs] at h; cases h
    | outOfFuel => rw [hs] at h; cases h
    | returned r1 =>
      rw [hs] at h
      simp only [Setup.bind] at h
      have key : r.2.classes = (linkInterfaces env meta_class b
            (r1.2.modifyClass meta_class (fun c => { c with baseClass := some b }))).classes →
          c.baseClass = some b := by
        intro e1
        rw [List.get?_eq_getElem?, e1, ← List.get?_eq_getElem?] at hc
        obtain ⟨c0, h0, hc0⟩ := linkInterfaces_baseClass _ _ _ _ _ _ hc
        obtain ⟨c1, _, hc1⟩ := get_modifyClass _ _ _ _ _ h0
        rw [hc0, hc1, if_pos rfl]
      split at h
      · split_ifs at h
        · cases h; exact key rfl
        · cases h; exact key rfl
      · cases h; exact key rfl

theorem exists_of_isSome {α : Type} (o : Option α) (h : o.isSome = true) : ∃ a, o = some a := by
  cases o with
  | none => cases h
  | some a => exact ⟨a, rfl⟩

/-- C19: the loop of `setupInheritance` over the public base classes leaves in
`primary` the first public base class, in the order of declaration, that is
not rejected, whose type entry exists and whose entry is neither an interface
nor has a designated interface, and `primaries` is 1 if there is one and 0
otherwise. Once a primary base class is there, a round of the loop keeps
`primary` and `primaries` and changes nothing, or adds one delegate function
to the class, or gives one warning. The class that `m_meta_classes.findClass`
finds for the name of the primary base class, if it is no interface, is the
base class of the class when that part of `setupInheritance` returns. -/
theorem setupInheritance_primary_base (env : SetupEnv) (tenv : TranslateEnv) (typeFuel : Nat)
    (publicBaseClasses : List QString) (meta_class : MetaClass) (st : PrimaryState)
    (h : primaryLoop env tenv typeFuel publicBaseClasses 0 publicBaseClasses
      { meta_class := meta_class } = some st) :
    st.primary = firstPrimaryBase env 0 publicBaseClasses
      ∧ st.primaries = (if st.primary.isSome then 1 else 0)
      ∧ (∀ (i : Nat) (name : QString) (s s1 : PrimaryState), s.primaries > 0 →
          primaryStep env tenv typeFuel publicBaseClasses i name s = some s1 →
          s1.primary = s.primary ∧ s1.primaries = s.primaries
            ∧ (s1 = s
              ∨ (∃ f : MetaFunction, f.functionType = FunctionType.BaseClassDelegateFunction
                  ∧ s1 = { s with meta_class := s.meta_class.addFunction f })
              ∨ ∃ w : QString, s1 = { s with warnings := s.warnings ++ [w] }))
      ∧ (∀ (self : SetupFn) (k : Nat) (name : QString) (g : ClassGraph) (r : Bool × ClassGraph)
          (base_class : Nat),
          setupPrimaryBase env self k name g = Setup.returned r →
          g.findClass g.m_meta_classes name = some base_class →
          (g.cls base_class).typeEntry.isInterface = false →
          ∀ c, r.2.classes.get? k = some c → c.baseClass = some base_class) := by
  have h1 := (primaryLoop_primary env tenv typeFuel publicBaseClasses publicBaseClasses 0
    { meta_class := meta_class } st h).2 rfl
  refine ⟨?_, ?_, ?_, ?_⟩
  · cases hf : firstPrimaryBase env 0 publicBaseClasses with
    | none => exact (h1.1 hf).1
    | some j => exact (h1.2 j hf).1
  · cases hf : firstPrimaryBase env 0 publicBaseClasses with
    | none =>
      have := h1.1 hf
      rw [this.1, this.2]
      rfl
    | some j =>
      have := h1.2 j hf
      rw [this.1, this.2]
      rfl
  · intro i name s s1 hp hs
    rcases primaryStep_primary env tenv typeFuel publicBaseClasses i name s s1 hs with
      ⟨_, h0, _, _⟩ | ⟨_, hp1, hn1⟩
    · omega
    · exact ⟨hp1, hn1, primaryStep_later env tenv typeFuel publicBaseClasses i name s s1 hp hs⟩
  · intro self k name g r base_class hr hf hi c hc
    exact (setupPrimaryBase_baseClass env self k name g r hr).2 base_class hf hi c hc

theorem setupInheritance_primary_base_witness :
    (∃ st, primaryLoop sampleSetupEnv (sampleSetupEnv.translateEnv sampleDelegateGraph) 4
          sampleBases 0 sampleBases { meta_class := sampleClassD } = some st
        ∧ st.primary = some 2 ∧ st.primaries = 1)
      ∧ primarySummary (primaryLoop sampleSetupEnv
          (sampleSetupEnv.translateEnv sampleDelegateGraph) 4 sampleBases 0 sampleBases
          { meta_class := sampleClassD }) = some (some 2, 1, [qs "toB"])
      ∧ primaryWarnings (primaryLoop sampleSetupEnv
          (sampleSetupEnv.translateEnv sampleDelegateGraph) 4 sampleBases 0 sampleBases
          { meta_class := sampleClassD })
        = some [qs "class 'D' inherits from unknown base class 'U'",
            qs "class 'D' has multiple primary public base classes 'A' and 'C'"]
      ∧ setupBaseClass (setupInheritance sampleSetupEnv 4 5 3 sampleDelegateGraph) 3
        = some (some 0) := by
  obtain ⟨st, hst⟩ := exists_of_isSome
    (primaryLoop sampleSetupEnv (sampleSetupEnv.translateEnv sampleDelegateGraph) 4
      sampleBases 0 sampleBases { meta_class := sampleClassD }) (by decide!)
  have h := setupInheritance_primary_base sampleSetupEnv
    (sampleSetupEnv.translateEnv sampleDelegateGraph) 4 sampleBases sampleClassD st hst
  have hp : st.primary = some 2 := h.1.trans (by decide)
  refine ⟨⟨st, hst, hp, ?_⟩, by decide!, by decide!, by decide!⟩
  rw [h.2.1, hp]
  rfl

/-! ## Enum values: unresolved symbols and number suffixes -/

theorem toUpper_ne_lower_u (c : Char) : (toUpper c == 'u') = false := by
  simp only [beq_eq_false_iff_ne, ne_eq]
  intro h
  unfold toUpper at h
  split_ifs at h with hr
  · obtain ⟨h1, h2⟩ := hr
    generalize c.toNat = n at h h1 h2
    interval_cases n <;> exact absurd h (by decide)
  · rw [h] at hr
    exact hr (by decide)

/-- C27 (the code at the failing input): `figureOutEnumValue` returns a
concrete integer although an operand is an unresolved symbol. At width 32,
with no enum constant known, the text `X` gives the symbolic text `X`, but
`-X` gives 0 and `~X` gives -1 (the symbolic text is converted to the number 0
before it is negated), `-(X|1)` gives 0, and `1+X` gives 1 (the right operand
of `+` converts to 0). -/
theorem figureOutEnumValue_integer_for_unresolved_symbol :
    (figureOutEnumValue false 3 32 (qs "X") QVariant.invalid none none {}).map Prod.fst
        = some (QVariant.str (qs "X"))
      ∧ (figureOutEnumValue false 3 32 (qs "-X") QVariant.invalid none none {}).map Prod.fst
        = some (QVariant.int 0)
      ∧ (figureOutEnumValue false 3 32 (qs "~X") QVariant.invalid none none {}).map Prod.fst
        = some (QVariant.int (-1))
      ∧ (figureOutEnumValue false 3 32 (qs "-(X|1)") QVariant.invalid none none {}).map Prod.fst
        = some (QVariant.int 0)
      ∧ (figureOutEnumValue false 3 32 (qs "1+X") QVariant.invalid none none {}).map Prod.fst
        = some (QVariant.int 1) := by
  refine ⟨by decide!, by decide!, by decide!, by decide!, by decide!⟩

/-- C30 (the code at the failing input): at width 32 the texts `5U` and `5L`
give the integer 5, but `5UL` gives the symbolic text `5UL`. The branch for
the suffix `UL` compares the upper-case form of the last character but one
with the lower-case letter `u`, which no character equals, so the text goes to
the branch for the suffix `L`, where `5U` is no number. -/
theorem figureOutEnumValue_suffix_UL_stays_symbolic :
    (figureOutEnumValue false 3 32 (qs "5U") QVariant.invalid none none {}).map Prod.fst
        = some (QVariant.int 5)
      ∧ (figureOutEnumValue false 3 32 (qs "5L") QVariant.invalid none none {}).map Prod.fst
        = some (QVariant.int 5)
      ∧ (figureOutEnumValue false 3 32 (qs "5UL") QVariant.invalid none none {}).map Prod.fst
        = some (QVariant.str (qs "5UL"))
      ∧ (figureOutEnumValue false 3 32 (qs "0UL") QVariant.invalid none none {}).map Prod.fst
        = some (QVariant.str (qs "0UL"))
      ∧ ∀ c : Char, (toUpper c == 'u') = false := by
  refine ⟨by decide!, by decide!, by decide!, by decide!, toUpper_ne_lower_u⟩

/-! ## Enum values: character literals -/

theorem prepareOperand_plain (A : QString) (h : PlainOperand A) : prepareOperand A = A := by
  unfold prepareOperand
  simp only [trimmed_of_ends A h.headNoSpace h.lastNoSpace,
    stripParens_of_not_startsWith A (startsWith_singleton_of_not_mem A _ h.noParen),
    stripStaticCast_of_not_startsWith A h.noCast, stripTypeCall_of_not_mem _ A h.noParen,
    Option.getD_none]

theorem plain_character_literal (c : Char) (hbar : c ≠ '|') (hparen : c ≠ '(') :
    PlainOperand [apostrophe, c, apostrophe] where
  nonempty := by simp
  headNoSpace := by
    intro x hx
    simp only [List.head?_cons, Option.mem_def, Option.some.injEq] at hx
    subst hx
    decide
  lastNoSpace := by
    intro x hx
    simp only [List.getLast?_cons_cons, List.getLast?_singleton, Option.mem_def,
      Option.some.injEq] at hx
    subst hx
    decide
  noBar := by
    simp only [List.mem_cons, List.mem_singleton, List.not_mem_nil, or_false, not_or]
    exact ⟨by decide, fun h => hbar h.symm, by decide⟩
  noParen := by
    simp only [List.mem_cons, List.mem_singleton, List.not_mem_nil, or_false, not_or]
    exact ⟨by decide, fun h => hparen h.symm, by decide⟩
  noTilde := rfl
  noMinus := rfl
  noCast := rfl

theorem findOperatorWith_character_literal (self : EvalFn) (size : Nat) (c : Char)
    (global meta_enum : Option Nat) (b : Builder)
    (hplus : c ≠ '+') (hminus : c ≠ '-') (htilde : c ≠ '~') :
    findOperatorWith self size [apostrophe, c, apostrophe] global meta_enum b
      = some (Operator.new size, [apostrophe, c, apostrophe], b) := by
  have a1 : (apostrophe == '+') = false := by decide
  have a2 : (apostrophe == '-') = false := by decide
  have a3 : (apostrophe == '<') = false := by decide
  have a4 : (apostrophe == '~') = false := by decide
  have c1 : (c == '+') = false := by simpa using hplus
  have c2 : (c == '-') = false := by simpa using hminus
  have c4 : (c == '~') = false := by simpa using htilde
  have i1 : indexOf [apostrophe, c, apostrophe] (qs "+") = -1 := by
    simp [indexOf, indexOfFrom, startsWith, qs, a1, c1]
  have i2 : indexOf [apostrophe, c, apostrophe] (qs "-") = -1 := by
    simp [indexOf, indexOfFrom, startsWith, qs, a2, c2]
  have i3 : indexOf [apostrophe, c, apostrophe] (qs "<<") = -1 := by
    simp [indexOf, indexOfFrom, startsWith, qs, a3]
  have i4 : indexOf [apostrophe, c, apostrophe] (qs "~") = -1 := by
    simp [indexOf, indexOfFrom, startsWith, qs, a4, c4]
  simp [findOperatorWith, operatorNames, findOperatorLoop, i1, i2, i3, i4]

theorem parseLiteral_character_literal (c : Char) (hcode : c.toNat < 128) :
    parseLiteral 32 [apostrophe, c, apostrophe] = (QVariant.int (c.toNat : Int), true) := by
  have hs : startsWith [apostrophe, c, apostrophe] [apostrophe] = true := by
    simp [startsWith]
  have he : endsWith [apostrophe, c, apostrophe] [apostrophe] = true := by
    simp [endsWith, startsWith]
  have hl : toLatin1 c = (c.toNat : Int) := by
    unfold toLatin1
    have h1 : ¬ c.toNat > 255 := by omega
    have h2 : ¬ c.toNat ≥ 128 := by omega
    simp only [h1, h2, if_false]
  have hw : wrap (widthOf 32) (c.toNat : Int) = (c.toNat : Int) := by
    have : widthOf 32 = 32 := by decide
    rw [this]
    unfold wrap
    omega
  unfold parseLiteral
  simp [hs, he, charAt, hl, hw]

/-- C28 (counterexample): at width 32 the character literals of `-`, `+`, `~`,
`|` and `(` do not give the character code: the operator search and the split
at `|` take the character between the apostrophes for an operator, and the
result is a symbolic text. -/
theorem figureOutEnumValue_operator_character_literal :
    (figureOutEnumValue false 3 32 [apostrophe, '-', apostrophe] QVariant.invalid none none
        {}).map Prod.fst = some (QVariant.str (qs "(" ++ [apostrophe] ++ qs "-" ++ [apostrophe] ++ qs ")"))
      ∧ (figureOutEnumValue false 3 32 [apostrophe, '+', apostrophe] QVariant.invalid none none
        {}).map Prod.fst = some (QVariant.str (qs "(" ++ [apostrophe] ++ qs "+" ++ [apostrophe] ++ qs ")"))
      ∧ (figureOutEnumValue false 3 32 [apostrophe, '~', apostrophe] QVariant.invalid none none
        {}).map Prod.fst = some (QVariant.str (qs "~" ++ [apostrophe]))
      ∧ (figureOutEnumValue false 3 32 [apostrophe, '|', apostrophe] QVariant.invalid none none
        {}).map Prod.fst = some (QVariant.str ([apostrophe] ++ qs "|" ++ [apostrophe]))
      ∧ (figureOutEnumValue false 3 32 [apostrophe, '(', apostrophe] QVariant.invalid none none
        {}).map Prod.fst = some (QVariant.str [apostrophe]) := by
  refine ⟨by decide!, by decide!, by decide!, by decide!, by decide!⟩

/-- C28 (amended): for every character `c` with a code below 128 other than
`|`, `(`, `+`, `-` and `~`, `figureOutEnumValue` on the character literal of
`c` at width 32 returns the character code of `c` and leaves the state as it
is, with any fuel but none. -/
theorem figureOutEnumValue_character_literal (useSet : Bool) (fuel : Nat) (c : Char)
    (old : QVariant) (global meta_enum : Option Nat) (b : Builder)
    (hcode : c.toNat < 128) (hbar : c ≠ '|') (hparen : c ≠ '(') (hplus : c ≠ '+')
    (hminus : c ≠ '-') (htilde : c ≠ '~') :
    figureOutEnumValue useSet (fuel + 1) 32 [apostrophe, c, apostrophe] old global meta_enum b
      = some (QVariant.int (c.toNat : Int), b) := by
  have hp := plain_character_literal c hbar hparen
  simp only [figureOutEnumValue, figureOutEnumValueBody, List.isEmpty_cons, Bool.false_eq_true,
    if_false, prepareExpression_plain _ hp, evalOperands, evalOperand, prepareOperand_plain _ hp,
    findOperatorWith_character_literal _ 32 c global meta_enum b hplus hminus htilde,
    parseLiteral_character_literal c hcode, if_true]
  simp [operandOutput, combineOperands, QVariant.isString, QVariant.isValid, Operator.new,
    Operator.calculate]

theorem figureOutEnumValue_character_literal_witness :
    figureOutEnumValue false 1 32 [apostrophe, 'A', apostrophe] QVariant.invalid none none {}
      = some (QVariant.int 65, {}) :=
  figureOutEnumValue_character_literal false 0 'A' QVariant.invalid none none {} (by decide)
    (by decide) (by decide) (by decide) (by decide) (by decide)

/-! ## Enum values: the cast around an operand -/

theorem indexOfFrom_char_append (c : Char) (p rest : QString) (off : Nat) (h : c ∉ p) :
    indexOfFrom [c] (p ++ c :: rest) off = ((off + p.length : Nat) : Int) := by
  induction p generalizing off with
  | nil => simp [indexOfFrom, startsWith]
  | cons a as ih =>
    have hne : a ≠ c := fun e => h (by simp [e])
    have has : c ∉ as := fun e => h (List.mem_cons_of_mem _ e)
    have hs : startsWith (a :: (as ++ c :: rest)) [c] = false := by
      simp [startsWith, hne]
    show indexOfFrom [c] (a :: (as ++ c :: rest)) off = _
    rw [indexOfFrom, hs, if_neg Bool.false_ne_true, ih _ has, List.length_cons]
    congr 1
    omega

theorem lastIndexOfFrom_char_append (c : Char) (p : QString) (off : Nat) (best : Int) :
    lastIndexOfFrom [c] (p ++ [c]) off best = ((off + p.length : Nat) : Int) := by
  induction p generalizing off best with
  | nil => simp [lastIndexOfFrom, startsWith]
  | cons a as ih =>
    show lastIndexOfFrom [c] (a :: (as ++ [c])) off best = _
    rw [lastIndexOfFrom, ih, List.length_cons]
    congr 1
    omega

theorem remove_leading (s : QString) (n : Nat) (hn : 0 < n) (hs : s ≠ []) :
    remove s 0 (n : Int) = s.drop n := by
  have hl : 0 < s.length := List.length_pos.mpr hs
  unfold remove
  have h : ¬ ((0 : Int) < 0 ∨ (s.length : Int) ≤ 0 ∨ (n : Int) ≤ 0) := by omega
  rw [if_neg h]
  simp

theorem remove_last (p : QString) (c : Char) :
    remove (p ++ [c]) (p.length : Int) 1 = p := by
  unfold remove
  have h : ¬ ((p.length : Int) < 0 ∨ (((p ++ [c]).length : Nat) : Int) ≤ (p.length : Int)
      ∨ (1 : Int) ≤ 0) := by
    simp only [List.length_append, List.length_singleton]
    omega
  simp [h]

theorem trimmed_cons_snoc (a z : Char) (m : QString) (ha : isSpace a = false)
    (hz : isSpace z = false) : trimmed (a :: (m ++ [z])) = a :: (m ++ [z]) := by
  apply trimmed_of_ends
  · intro x hx
    simp only [List.head?_cons, Option.mem_def, Option.some.injEq] at hx
    subst hx
    exact ha
  · intro x hx
    have : (a :: (m ++ [z])).getLast? = some z := by
      rw [← List.cons_append, List.getLast?_append_of_ne_nil _ (by simp)]
      rfl
    rw [this] at hx
    simp only [Option.mem_def, Option.some.injEq] at hx
    subst hx
    exact hz

theorem trimmed_snoc (e : QString) (z : Char) (he : e ≠ [])
    (h1 : ∀ c ∈ e.head?, isSpace c = false) (hz : isSpace z = false) :
    trimmed (e ++ [z]) = e ++ [z] := by
  cases e with
  | nil => exact absurd rfl he
  | cons a as =>
    exact trimmed_cons_snoc a z as (h1 a (by simp)) hz

theorem startsWith_append_self (k r : QString) : startsWith (k ++ r) k = true := by
  induction k with
  | nil => cases r <;> rfl
  | cons a as ih => simp [startsWith, ih]

theorem stripStaticCast_staticCastOf (T e : QString) (hT : '>' ∉ T) :
    stripStaticCast (staticCastOf T e) = '>' :: '(' :: (e ++ [')']) := by
  have hX : staticCastOf T e
      = qs "static_cast" ++ ('<' :: (T ++ '>' :: '(' :: e) ++ [')']) := by
    simp [staticCastOf, qs]
  have hR1 : ('<' :: (T ++ '>' :: '(' :: e) ++ [')'] : QString)
      = ('<' :: T) ++ '>' :: ('(' :: (e ++ [')'])) := by simp
  have hk : (qs "static_cast").length = 11 := by decide
  have h1 : startsWith (staticCastOf T e) (qs "static_cast") = true := by
    rw [hX]; exact startsWith_append_self _ _
  have h2 : remove (staticCastOf T e) 0 ((qs "static_cast").length : Int)
      = '<' :: (T ++ '>' :: '(' :: e) ++ [')'] := by
    rw [hk, remove_leading _ 11 (by decide) (by rw [hX]; simp [qs]), hX]
    exact List.drop_left' hk
  have h3 : trimmed ('<' :: (T ++ '>' :: '(' :: e) ++ [')'])
      = '<' :: (T ++ '>' :: '(' :: e) ++ [')'] := by
    apply trimmed_cons_snoc <;> decide
  have h4 : indexOfChar ('<' :: (T ++ '>' :: '(' :: e) ++ [')']) '>' = ((T.length + 1 : Nat) : Int) := by
    rw [hR1]
    unfold indexOfChar indexOf
    rw [indexOfFrom_char_append '>' ('<' :: T) _ 0 (by
      simp only [List.mem_cons, not_or]
      exact ⟨by decide, hT⟩)]
    simp
  have h5 : remove ('<' :: (T ++ '>' :: '(' :: e) ++ [')']) 0 ((T.length + 1 : Nat) : Int)
      = '>' :: '(' :: (e ++ [')']) := by
    rw [remove_leading _ (T.length + 1) (by omega) (by simp), hR1]
    exact List.drop_left' (by simp)
  have h6 : trimmed ('>' :: '(' :: (e ++ [')'])) = '>' :: '(' :: (e ++ [')']) := by
    have := trimmed_cons_snoc '>' ')' ('(' :: e) (by decide) (by decide)
    simpa using this
  unfold stripStaticCast
  rw [if_pos h1]
  simp only [h2, h3, h4, h5, h6]
  simp [charAt]
  omega

theorem stripTypeCall_wrapped (e : QString) (he : e ≠ [])
    (h1 : ∀ c ∈ e.head?, isSpace c = false) (h2 : ∀ c ∈ e.getLast?, isSpace c = false)
    (hp : '(' ∉ e) :
    stripTypeCall true ('>' :: '(' :: (e ++ [')'])) = some e := by
  have i1 : indexOfChar ('>' :: '(' :: (e ++ [')'])) '(' = 1 := by
    have := indexOfFrom_char_append '(' ['>'] (e ++ [')']) 0 (by decide)
    simpa [indexOfChar, indexOf] using this
  have r1 : remove ('>' :: '(' :: (e ++ [')'])) 0 (1 + 1) = e ++ [')'] := by
    have := remove_leading ('>' :: '(' :: (e ++ [')'])) 2 (by decide) (by simp)
    simpa using this
  have t1 : trimmed (e ++ [')']) = e ++ [')'] := trimmed_snoc e ')' he h1 (by decide)
  have i2 : indexOfChar (e ++ [')']) '(' = -1 :=
    indexOfChar_of_not_mem _ _ (by
      simp only [List.mem_append, List.mem_singleton, not_or]
      exact ⟨hp, by decide⟩)
  have i3 : lastIndexOfChar (e ++ [')']) ')' = (e.length : Int) := by
    have := lastIndexOfFrom_char_append ')' e 0 (-1)
    simpa [lastIndexOfChar, lastIndexOf] using this
  have r2 : remove (e ++ [')']) (e.length : Int) 1 = e := remove_last e ')'
  have t2 : trimmed e = e := trimmed_of_ends e h1 h2
  unfold stripTypeCall
  simp only [i1, r1, t1]
  simp [i2, i3, r2, t2]

theorem prepareExpression_staticCastOf (T e : QString) (hT : '>' ∉ T) (he : PlainOperand e) :
    prepareExpression (staticCastOf T e) = prepareExpression e := by
  have hX : staticCastOf T e = 's' :: ((qs "tatic_cast<" ++ T ++ '>' :: '(' :: e) ++ [')']) := by
    simp [staticCastOf, qs]
  have a1 : trimmed (staticCastOf T e) = staticCastOf T e := by
    rw [hX]
    apply trimmed_cons_snoc <;> decide
  have a2 : startsWith (staticCastOf T e) (qs "~") = false := by rw [hX]; rfl
  have a3 : startsWith (staticCastOf T e) (qs "-") = false := by rw [hX]; rfl
  have a4 : stripParens (staticCastOf T e) = staticCastOf T e :=
    stripParens_of_not_startsWith _ (by rw [hX]; rfl)
  have a5 := stripStaticCast_staticCastOf T e hT
  have a6 := stripTypeCall_wrapped e he.nonempty he.headNoSpace he.lastNoSpace he.noParen
  have a7 : trimmed e = e := trimmed_of_ends e he.headNoSpace he.lastNoSpace
  have a8 : e.isEmpty = false := by
    cases e with
    | nil => exact absurd rfl he.nonempty
    | cons _ _ => rfl
  rw [prepareExpression_plain e he]
  unfold prepareExpression
  simp only [a1, a2, a3, Bool.not_false, Bool.and_false, Bool.or_false, Bool.false_eq_true,
    if_false, a4, a5, a6, Option.isSome_some, Option.getD_some, a7, a8, Bool.and_false, split,
    splitAux_of_not_mem _ e [] he.noBar]
  simp

/-- C29 (counterexample): at width 32 the text `~1` gives -2 but
`static_cast<Foo>(~1)` gives the symbolic text `~1`, and `(1)|(2)` gives 2 but
`static_cast<Foo>((1)|(2))` gives 3: a leading `~` and enclosing parentheses
are taken off the whole text only, before the cast is. -/
theorem figureOutEnumValue_static_cast_of_complement :
    (figureOutEnumValue false 3 32 (qs "~1") QVariant.invalid none none {}).map Prod.fst
        = some (QVariant.int (-2))
      ∧ (figureOutEnumValue false 3 32 (staticCastOf (qs "Foo") (qs "~1")) QVariant.invalid
          none none {}).map Prod.fst = some (QVariant.str (qs "~1"))
      ∧ (figureOutEnumValue false 3 32 (qs "(1)|(2)") QVariant.invalid none none {}).map Prod.fst
        = some (QVariant.int 2)
      ∧ (figureOutEnumValue false 3 32 (staticCastOf (qs "Foo") (qs "(1)|(2)")) QVariant.invalid
          none none {}).map Prod.fst = some (QVariant.int 3) := by
  refine ⟨by decide!, by decide!, by decide!, by decide!⟩

/-- C29 (amended): for every plain operand text `e` (not empty, no surrounding
white space, no `|` or `(`, not starting with `~`, `-` or `static_cast`) and
every type name `T` without `>`, `figureOutEnumValue` on `static_cast<T>(e)`
returns what it returns on `e` alone, at every width, with the same fuel and
in every state. -/
theorem figureOutEnumValue_static_cast (useSet : Bool) (fuel size : Nat) (T e : QString)
    (old : QVariant) (global meta_enum : Option Nat) (b : Builder)
    (hT : '>' ∉ T) (he : PlainOperand e) :
    figureOutEnumValue useSet fuel size (staticCastOf T e) old global meta_enum b
      = figureOutEnumValue useSet fuel size e old global meta_enum b := by
  cases fuel with
  | zero => rfl
  | succ n =>
    have h1 : (staticCastOf T e).isEmpty = false := by
      simp [staticCastOf, qs]
    have h2 : e.isEmpty = false := by
      cases e with
      | nil => exact absurd rfl he.nonempty
      | cons _ _ => rfl
    simp only [figureOutEnumValue, figureOutEnumValueBody, h1, h2, Bool.false_eq_true, if_false,
      prepareExpression_staticCastOf T e hT he]

theorem figureOutEnumValue_static_cast_witness :
    figureOutEnumValue false 3 32 (staticCastOf (qs "Foo") (qs "4")) QVariant.invalid none none {}
        = figureOutEnumValue false 3 32 (qs "4") QVariant.invalid none none {}
      ∧ (figureOutEnumValue false 3 32 (qs "static_cast<Foo>(4)") QVariant.invalid none none
          {}).map Prod.fst = some (QVariant.int 4) :=
  ⟨figureOutEnumValue_static_cast false 3 32 (qs "Foo") (qs "4") QVariant.invalid none none {}
      (by decide)
      ⟨by decide, by decide, by decide, by decide, by decide, by decide, by decide, by decide⟩,
    by decide!⟩

/-! ## traverseClass: the rejected classes -/

theorem classRejectReason_eq_spec (env : RegistryEnv) (accessPolicy : AccessPolicy)
    (fileName full_class_name : QString) :
    classRejectReason env accessPolicy fileName full_class_name
      = specRejectReason env accessPolicy fileName full_class_name := by
  have hc : classRejectReason env accessPolicy fileName full_class_name
      = (if env.isClassRejected full_class_name then RejectReason.GenerationDisabled
         else
           match classEntry env full_class_name with
           | none =>
             if ((env.findType full_class_name).map (fun te => !te.isComplex)).getD false then
               RejectReason.RedefinedToNotClass
             else if accessPolicy == AccessPolicy.Private
                 || startsWith full_class_name (qs "QtPrivate::")
                 || endsWith fileName (qs "_p.h") then RejectReason.IsPrivate
             else RejectReason.NotInTypeSystem
           | some t =>
             if t.codeGeneration == CodeGeneration.GenerateNothing then
               RejectReason.GenerationDisabled
             else RejectReason.NoReason) := rfl
  rw [hc]
  unfold specRejectReason
  by_cases hr : env.isClassRejected full_class_name = true
  · simp [hr]
  · have hr2 : env.isClassRejected full_class_name = false := by simpa using hr
    simp only [hr2, Bool.false_eq_true, if_false, Bool.false_or]
    cases he : classEntry env full_class_name with
    | none =>
      cases hf : env.findType full_class_name with
      | none => simp
      | some te => simp
    | some t =>
      by_cases hg : (t.codeGeneration == CodeGeneration.GenerateNothing) = true
      · simp [hg]
      · simp [hg]

theorem classTypeEntry_eq_none_iff (env : RegistryEnv) (accessPolicy : AccessPolicy)
    (fileName full_class_name : QString) :
    classTypeEntry env full_class_name = none
      ↔ classRejectReason env accessPolicy fileName full_class_name ≠ RejectReason.NoReason := by
  have hc : classTypeEntry env full_class_name
      = (if env.isClassRejected full_class_name then none
         else
           match classEntry env full_class_name with
           | none => none
           | some t =>
             if t.codeGeneration == CodeGeneration.GenerateNothing then none
             else if t.isObject && env.isClass full_class_name (qs "QObject") then
               some { t with isQObject := true }
             else some t) := rfl
  rw [hc, classRejectReason_eq_spec]
  unfold specRejectReason
  by_cases hr : env.isClassRejected full_class_name = true
  · simp [hr]
  · have hr2 : env.isClassRejected full_class_name = false := by simpa using hr
    simp only [hr2, Bool.false_eq_true, if_false, Bool.false_or]
    cases he : classEntry env full_class_name with
    | none =>
      simp only [Option.any_none, Bool.false_eq_true, if_false, Option.isSome_none, true_iff]
      split_ifs <;> simp
    | some t =>
      by_cases hg : (t.codeGeneration == CodeGeneration.GenerateNothing) = true
      · simp [hg]
      · simp only [hg, if_false, Option.any_some, Option.isSome_some, if_true]
        split_ifs <;> simp

theorem registerTypeSystem_rejected (env : RegistryEnv) (cls : Nat) (g : ClassGraph) :
    (registerTypeSystem env cls g).m_rejected_classes = g.m_rejected_classes := by
  unfold registerTypeSystem
  split_ifs
  · split <;> rfl
  · rfl

theorem extractInterfaceImpl_rejected (env : RegistryEnv) (cls : Nat) (g : ClassGraph) :
    (extractInterfaceImpl env cls g).2.m_rejected_classes = g.m_rejected_classes := by
  unfold extractInterfaceImpl
  split <;> rfl

theorem fileMetaClass_rejected (env : RegistryEnv) (cls : Nat) (g : ClassGraph) :
    (fileMetaClass env cls g).m_rejected_classes = g.m_rejected_classes := by
  have h := registerTypeSystem_rejected env cls
    { g with m_meta_classes := g.m_meta_classes ++ [cls] }
  unfold fileMetaClass
  dsimp only
  split_ifs
  · show (extractInterfaceImpl env cls _).2.m_rejected_classes = _
    rw [extractInterfaceImpl_rejected, h]
  · exact h

theorem addAbstractMetaClass_rejected (env : RegistryEnv) (cls : Option Nat) (g : ClassGraph) :
    (addAbstractMetaClass env cls g).m_rejected_classes = g.m_rejected_classes := by
  cases cls with
  | none => rfl
  | some c =>
    unfold addAbstractMetaClass
    dsimp only
    split_ifs
    · rfl
    · rfl
    · rw [fileMetaClass_rejected]
      rfl

theorem addInstantiations_rejected (env : RegistryEnv) (meta_class : Nat) :
    ∀ (l : List TypeEntry) (g : ClassGraph),
      (addInstantiations env meta_class l g).m_rejected_classes = g.m_rejected_classes := by
  intro l
  induction l with
  | nil => intro g; rfl
  | cons i rest ih =>
    intro g
    unfold addInstantiations
    dsimp only
    rw [ih, addAbstractMetaClass_rejected]
    split <;> rfl

theorem modifyClass_rejected (g : ClassGraph) (i : Nat) (f : MetaClass → MetaClass) :
    (g.modifyClass i f).m_rejected_classes = g.m_rejected_classes := rfl

theorem newClass_rejected (g : ClassGraph) (c : MetaClass) :
    (g.newClass c).2.m_rejected_classes = g.m_rejected_classes := rfl

theorem traverseClass_of_rejected (env : RegistryEnv) (class_item : ClassModelItem)
    (g : ClassGraph)
    (h : classTypeEntry env (fullClassName g class_item) = none) :
    traverseClass env class_item g
      = (none,
          { g with
            m_rejected_classes :=
              g.m_rejected_classes.insert (fullClassName g class_item, class_item.fileName)
                (classRejectReason env class_item.accessPolicy class_item.fileName
                  (fullClassName g class_item)) }) := by
  obtain ⟨name, baseClasses, classes, templateParameters, accessPolicy, fileName, isDeclFinal,
    isDeclDeprecated, isUnion⟩ := class_item
  cases hcur : g.m_current_class with
  | none =>
    simp only [fullClassName, hcur] at h ⊢
    simp only [traverseClass, hcur, h]
  | some cur =>
    simp only [fullClassName, hcur] at h ⊢
    simp only [traverseClass, hcur, h]

theorem traverseClass_of_accepted (env : RegistryEnv) (class_item : ClassModelItem)
    (g : ClassGraph) (type : TypeEntry)
    (h : classTypeEntry env (fullClassName g class_item) = some type) :
    (traverseClass env class_item g).1 = some g.classes.length
      ∧ (class_item.classes = [] →
          (traverseClass env class_item g).2.m_rejected_classes = g.m_rejected_classes) := by
  obtain ⟨name, baseClasses, classes, templateParameters, accessPolicy, fileName, isDeclFinal,
    isDeclDeprecated, isUnion⟩ := class_item
  cases hcur : g.m_current_class with
  | none =>
    simp only [fullClassName, hcur] at h
    constructor
    · simp only [traverseClass, hcur, h]
      rfl
    · intro hc
      dsimp only at hc
      subst hc
      simp only [traverseClass, hcur, h, traverseInnerClasses]
      simp only [apply_ite ClassGraph.m_rejected_classes, addInstantiations_rejected,
        modifyClass_rejected, newClass_rejected, ite_self]
  | some cur =>
    simp only [fullClassName, hcur] at h
    constructor
    · simp only [traverseClass, hcur, h]
      rfl
    · intro hc
      dsimp only at hc
      subst hc
      simp only [traverseClass, hcur, h, traverseInnerClasses]
      simp only [apply_ite ClassGraph.m_rejected_classes, addInstantiations_rejected,
        modifyClass_rejected, newClass_rejected, ite_self]

/-- C21: `traverseClass` returns no class exactly when the reason it computes
for the class is not `NoReason`; it then records the reason in
`m_rejected_classes` under the name of the class and its file and changes
nothing else, and a class without inner classes that is returned leaves the
log as it is. The reason is the one of the specification:
`GenerationDisabled` if the database rejects the class name or its entry
generates nothing, `RedefinedToNotClass` if the name maps to an entry that is
not complex, `IsPrivate` if there is no entry and the class is private, in
`QtPrivate` or from a file ending in `_p.h`, and `NotInTypeSystem`
otherwise. -/
theorem traverseClass_rejected_iff_logged (env : RegistryEnv) (class_item : ClassModelItem)
    (g : ClassGraph) :
    ((traverseClass env class_item g).1 = none
        ↔ classRejectReason env class_item.accessPolicy class_item.fileName
            (fullClassName g class_item) ≠ RejectReason.NoReason)
      ∧ (classRejectReason env class_item.accessPolicy class_item.fileName
            (fullClassName g class_item) ≠ RejectReason.NoReason →
          traverseClass env class_item g
            = (none,
                { g with
                  m_rejected_classes :=
                    g.m_rejected_classes.insert (fullClassName g class_item, class_item.fileName)
                      (classRejectReason env class_item.accessPolicy class_item.fileName
                        (fullClassName g class_item)) }))
      ∧ (classRejectReason env class_item.accessPolicy class_item.fileName
            (fullClassName g class_item) = RejectReason.NoReason →
          class_item.classes = [] →
          (traverseClass env class_item g).2.m_rejected_classes = g.m_rejected_classes)
      ∧ classRejectReason env class_item.accessPolicy class_item.fileName
            (fullClassName g class_item)
          = specRejectReason env class_item.accessPolicy class_item.fileName
              (fullClassName g class_item) := by
  have hiff := classTypeEntry_eq_none_iff env class_item.accessPolicy class_item.fileName
    (fullClassName g class_item)
  refine ⟨?_, ?_, ?_, classRejectReason_eq_spec _ _ _ _⟩
  · cases ht : classTypeEntry env (fullClassName g class_item) with
    | none =>
      rw [traverseClass_of_rejected env class_item g ht]
      exact ⟨fun _ => hiff.mp ht, fun _ => rfl⟩
    | some type =>
      rw [(traverseClass_of_accepted env class_item g type ht).1]
      constructor
      · intro h; cases h
      · intro h
        rw [hiff.mpr h] at ht
        cases ht
  · intro h
    exact traverseClass_of_rejected env class_item g (hiff.mpr h)
  · intro h hc
    cases ht : classTypeEntry env (fullClassName g class_item) with
    | none => exact absurd h (hiff.mp ht)
    | some type => exact (traverseClass_of_accepted env class_item g type ht).2 hc

theorem traverseClass_rejected_iff_logged_witness :
    traverseClass sampleRejectEnv (sampleClassItem (qs "Hidden") AccessPolicy.Private (qs "a.h")) {}
        = (none,
            { ({} : ClassGraph) with
              m_rejected_classes :=
                RejectLog.insert [] (qs "Hidden", qs "a.h") RejectReason.IsPrivate })
      ∧ rejectSummary (traverseClass sampleRejectEnv
          (sampleClassItem (qs "Rejected") AccessPolicy.Public (qs "a.h")) {})
        = (none, [((qs "Rejected", qs "a.h"), RejectReason.GenerationDisabled)])
      ∧ rejectSummary (traverseClass sampleRejectEnv
          (sampleClassItem (qs "Silent") AccessPolicy.Public (qs "a.h")) {})
        = (none, [((qs "Silent", qs "a.h"), RejectReason.GenerationDisabled)])
      ∧ rejectSummary (traverseClass sampleRejectEnv
          (sampleClassItem (qs "Color") AccessPolicy.Private (qs "a_p.h")) {})
        = (none, [((qs "Color", qs "a_p.h"), RejectReason.RedefinedToNotClass)])
      ∧ rejectSummary (traverseClass sampleRejectEnv
          (sampleClassItem (qs "Detail") AccessPolicy.Public (qs "a_p.h")) {})
        = (none, [((qs "Detail", qs "a_p.h"), RejectReason.IsPrivate)])
      ∧ rejectSummary (traverseClass sampleRejectEnv
          (sampleClassItem (qs "QtPrivate::Helper") AccessPolicy.Public (qs "a.h")) {})
        = (none, [((qs "QtPrivate::Helper", qs "a.h"), RejectReason.IsPrivate)])
      ∧ rejectSummary (traverseClass sampleRejectEnv
          (sampleClassItem (qs "Unknown") AccessPolicy.Public (qs "a.h")) {})
        = (none, [((qs "Unknown", qs "a.h"), RejectReason.NotInTypeSystem)])
      ∧ rejectSummary (traverseClass sampleRejectEnv
          (sampleClassItem (qs "Outer") AccessPolicy.Public (qs "a.h")) {})
        = (some 0, []) :=
  ⟨(traverseClass_rejected_iff_logged sampleRejectEnv
      (sampleClassItem (qs "Hidden") AccessPolicy.Private (qs "a.h")) {}).2.1 (by decide),
    by decide!, by decide!, by decide!, by decide!, by decide!, by decide!, by decide!⟩

/-! ## traverseField: the log of rejected fields -/

/-- C22 (counterexample): in the class `Foo` the private field `int secret`
and the public field `Missing broken`, whose type no lookup finds, are left
out of the class and `m_rejected_fields` stays empty; the second gives a
warning. The public field `int hidden`, which the database rejects, is
recorded with `GenerationDisabled`, and the public field `int count` is
returned. -/
theorem traverseField_unlogged_omissions :
    fieldSummary (traverseField sampleFieldEnv 8 sampleFoo sampleFoo
        { name := qs "secret", type := { qualifiedName := [qs "int"] },
          accessPolicy := AccessPolicy.Private, fileName := qs "foo.h" } {})
      = some (none, { m_rejected_fields := [], warnings := [] })
    ∧ fieldSummary (traverseField sampleFieldEnv 8 sampleFoo sampleFoo
        { name := qs "broken", type := { qualifiedName := [qs "Missing"] },
          fileName := qs "foo.h" } {})
      = some (none,
          { m_rejected_fields := [],
            warnings := [qs "skipping field 'Foo::broken' with unmatched type 'Missing'"] })
    ∧ fieldSummary (traverseField sampleFieldEnv 8 sampleFoo sampleFoo
        { name := qs "hidden", type := { qualifiedName := [qs "int"] },
          fileName := qs "foo.h" } {})
      = some (none,
          { m_rejected_fields :=
              [((qs "Foo::hidden", qs "foo.h"), RejectReason.GenerationDisabled)],
            warnings := [] })
    ∧ fieldSummary (traverseField sampleFieldEnv 8 sampleFoo sampleFoo
        { name := qs "count", type := { qualifiedName := [qs "int"] },
          fileName := qs "foo.h" } {})
      = some (some (qs "count"), { m_rejected_fields := [], warnings := [] }) := by
  refine ⟨by decide!, by decide!, by decide!, by decide!⟩

/-- C22 (amended): of the fields that `traverseField` leaves out of the class,
only a field that the database rejects is recorded in `m_rejected_fields`,
with the reason `GenerationDisabled`. A friend declaration and a private field
are left out with the log and the warnings unchanged; for every other field
that is not rejected the log of rejected fields stays as it is, a field that
is left out because its type does not translate adds one warning, and a field
that is returned changes nothing. -/
theorem traverseField_logs_only_database_rejections (env : TraverseEnv) (fuel : Nat)
    (m_current_class cls : MetaClass) (field : VariableModelItem) (log : FieldLog) :
    ((field.isFriend = true ∨ field.accessPolicy = AccessPolicy.Private) →
        traverseField env fuel m_current_class cls field log = some (none, log))
      ∧ (field.isFriend = false → field.accessPolicy ≠ AccessPolicy.Private →
          env.isFieldRejected m_current_class.typeEntry.qualifiedCppName field.name = true →
          traverseField env fuel m_current_class cls field log
            = some (none,
                { log with
                  m_rejected_fields :=
                    log.m_rejected_fields.insert
                      (m_current_class.typeEntry.qualifiedCppName ++ qs "::" ++ field.name,
                        field.fileName)
                      RejectReason.GenerationDisabled }))
      ∧ (field.isFriend = false → field.accessPolicy ≠ AccessPolicy.Private →
          env.isFieldRejected m_current_class.typeEntry.qualifiedCppName field.name = false →
          ∀ r log1, traverseField env fuel m_current_class cls field log = some (r, log1) →
            log1.m_rejected_fields = log.m_rejected_fields
              ∧ (r = none → ∃ w, log1 = { log with warnings := log.warnings ++ [w] })
              ∧ (r ≠ none → log1 = log)) := by
  refine ⟨?_, ?_, ?_⟩
  · intro h
    unfold traverseField
    rcases h with h | h
    · simp [h]
    · by_cases hf : field.isFriend = true
      · simp [hf]
      · simp [hf, h]
  · intro hf hp hr
    have hp2 : (field.accessPolicy == AccessPolicy.Private) = false := by simpa using hp
    unfold traverseField
    simp [hf, hp2, hr]
  · intro hf hp hr r log1 h
    have hp2 : (field.accessPolicy == AccessPolicy.Private) = false := by simpa using hp
    unfold traverseField at h
    simp only [hf, hp2, hr, Bool.false_eq_true, if_false] at h
    split at h
    · cases h
    · simp only [Option.some.injEq, Prod.mk.injEq] at h
      obtain ⟨h1, h2⟩ := h
      subst h1 h2
      exact ⟨rfl, (fun h => by cases h), fun _ => rfl⟩
    · simp only [Option.some.injEq, Prod.mk.injEq] at h
      obtain ⟨h1, h2⟩ := h
      subst h1 h2
      exact ⟨rfl, fun _ => ⟨_, rfl⟩, fun h => absurd rfl h⟩

theorem traverseField_logs_only_database_rejections_witness :
    traverseField sampleFieldEnv 8 sampleFoo sampleFoo
        { name := qs "secret", type := { qualifiedName := [qs "int"] },
          accessPolicy := AccessPolicy.Private, fileName := qs "foo.h" } {}
      = some (none, {}) :=
  (traverseField_logs_only_database_rejections sampleFieldEnv 8 sampleFoo sampleFoo
    { name := qs "secret", type := { qualifiedName := [qs "int"] },
      accessPolicy := AccessPolicy.Private, fileName := qs "foo.h" } {}).1 (Or.inr rfl)

/-! ## The operators of a class -/

theorem sortComparisonOperators_eq (functions : List MetaFunction) (ops : ComparisonOperators) :
    sortComparisonOperators functions ops
      = { greater := ops.greater ++ operatorsNamed functions (qs "operator>"),
          greaterEquals := ops.greaterEquals ++ operatorsNamed functions (qs "operator>="),
          less := ops.less ++ operatorsNamed functions (qs "operator<"),
          lessEquals := ops.lessEquals ++ operatorsNamed functions (qs "operator<="),
          compare := ops.compare ++ operatorsNamed functions (qs "operator<=>") } := by
  induction functions generalizing ops with
  | nil => simp [sortComparisonOperators, operatorsNamed]
  | cons f fs ih =>
    rw [sortComparisonOperators, ih]
    simp only [operatorsNamed, List.filter_cons]
    by_cases h1 : f.arguments.length = 1
    · by_cases h2 : f.originalName = qs "operator>"
      · simp [h1, h2, qs]
      · by_cases h3 : f.originalName = qs "operator>="
        · simp [h1, h3, qs]
        · by_cases h4 : f.originalName = qs "operator<"
          · simp [h1, h4, qs]
          · by_cases h5 : f.originalName = qs "operator<="
            · simp [h1, h5, qs]
            · by_cases h6 : f.originalName = qs "operator<=>"
              · simp [h1, h6, qs]
              · simp [h1, h2, h3, h4, h5, h6]
    · simp [h1]

theorem sortEqualsOperators_eq (functions : List MetaFunction) (ops : EqualsOperators) :
    sortEqualsOperators functions ops
      = { equals := ops.equals ++ operatorsNamed functions (qs "operator=="),
          nequals := ops.nequals ++ operatorsNamed functions (qs "operator!=") } := by
  induction functions generalizing ops with
  | nil => simp [sortEqualsOperators, operatorsNamed]
  | cons f fs ih =>
    rw [sortEqualsOperators, ih]
    simp only [operatorsNamed, List.filter_cons]
    by_cases h1 : f.arguments.length = 1
    · by_cases h2 : f.originalName = qs "operator=="
      · simp [h1, h2, qs]
      · by_cases h3 : f.originalName = qs "operator!="
        · simp [h1, h3, qs]
        · simp [h1, h2, h3]
    · simp [h1]

theorem sortComparisonOperators_empty (functions : List MetaFunction) :
    sortComparisonOperators functions {} = comparisonOperators functions := by
  rw [sortComparisonOperators_eq]
  rfl
theorem hide_functions_eq (env : OperatorEnv) (l : List MetaFunction) (log : ModificationLog) :
    hide_functions env l log = log ++ (l.filter (isHidable env)).map (hidingModification env) := by
  induction l generalizing log with
  | nil => simp [hide_functions]
  | cons f l ih =>
    rw [hide_functions]
    by_cases h : isHidable env f = true
    · have h2 := h
      unfold isHidable at h2
      rw [if_pos h2, ih, List.filter_cons_of_pos h, List.map_cons, List.append_assoc]
      unfold hidingModification
      by_cases hi : env.isInterface f.implementingClass = true <;> simp [hi]
    · have h2 := h
      unfold isHidable at h2
      rw [if_neg h2, ih, List.filter_cons_of_neg h]

theorem isHiding_hidingModification (env : OperatorEnv) (f : MetaFunction) :
    isHiding (hidingModification env f) = true := by
  unfold isHiding hidingModification
  by_cases hi : env.isInterface f.implementingClass = true <;> simp [hi]

theorem filter_isHiding_hidden (env : OperatorEnv) (l : List MetaFunction) :
    (l.map (hidingModification env)).filter isHiding = l.map (hidingModification env) := by
  rw [List.filter_eq_self]
  intro m hm
  obtain ⟨f, _, rfl⟩ := List.mem_map.mp hm
  exact isHiding_hidingModification env f

theorem hide_functions_hiding (env : OperatorEnv) (l : List MetaFunction)
    (log : ModificationLog) :
    (hide_functions env l log).filter isHiding
      = log.filter isHiding ++ (l.filter (isHidable env)).map (hidingModification env) := by
  rw [hide_functions_eq, List.filter_append, filter_isHiding_hidden]

theorem hide_functions_append (env : OperatorEnv) (l1 l2 : List MetaFunction)
    (log : ModificationLog) :
    hide_functions env (l1 ++ l2) log = hide_functions env l2 (hide_functions env l1 log) := by
  simp [hide_functions_eq]

theorem filter_functions_log (env : OperatorEnv) (l : List MetaFunction)
    (s : List QString) (log : ModificationLog) :
    ∃ X, (filter_functions env l s log).2.2 = log ++ X ∧ X.filter isHiding = [] := by
  induction l generalizing s log with
  | nil => exact ⟨[], by simp [filter_functions], rfl⟩
  | cons f l ih =>
    rw [filter_functions]
    by_cases h1 : f.wasPrivate = true
    · rw [if_pos h1]; exact ih s log
    · rw [if_neg h1]
      simp only []
      split
      · obtain ⟨X, hX, hX2⟩ := ih s (remove_function env f log)
        refine ⟨(f.implementingClass,
          { removal := true, removalTargetLang := true,
            signature := env.minimalSignature f }) :: X, ?_, ?_⟩
        · rw [hX, remove_function, List.append_assoc]; rfl
        · rw [List.filter_cons_of_neg (by simp [isHiding])]
          exact hX2
      · exact ih _ log

theorem filter_functions_hiding (env : OperatorEnv) (l : List MetaFunction)
    (s : List QString) (log : ModificationLog) :
    (filter_functions env l s log).2.2.filter isHiding = log.filter isHiding := by
  obtain ⟨X, hX, hX2⟩ := filter_functions_log env l s log
  rw [hX, List.filter_append, hX2, List.append_nil]
theorem setupComparableFrom_preference (env : OperatorEnv) (cls : MetaClass)
    (log : ModificationLog) (ops : ComparisonOperators) :
    let hasEquals := !cls.equalsFunctions.isEmpty || !cls.notEqualsFunctions.isEmpty
    let r := setupComparableFrom env cls log ops
    let case := specComparableCase ops hasEquals
    (case = ComparableCase.Compare →
        r.1 = { cls with compareFunctions := (filter_functions env ops.compare [] log).1 })
    ∧ (case = ComparableCase.LessGreater →
        let r1 := filter_functions env ops.less [] log
        r.1 = { cls with
                lessThanFunctions := r1.1,
                greaterThanFunctions := (filter_functions env ops.greater r1.2.1 r1.2.2).1 })
    ∧ (case = ComparableCase.LessGreaterEq →
        let r1 := filter_functions env ops.lessEquals [] log
        r.1 = { cls with
                lessThanEqFunctions := r1.1,
                greaterThanEqFunctions :=
                  (filter_functions env ops.greaterEquals r1.2.1 r1.2.2).1 })
    ∧ (case = ComparableCase.SingleEq →
        let r1 := filter_functions env ops.greaterEquals [] log
        r.1 = { cls with
                greaterThanEqFunctions := r1.1,
                lessThanEqFunctions := (filter_functions env ops.lessEquals r1.2.1 r1.2.2).1 })
    ∧ (case = ComparableCase.Single →
        let r1 := filter_functions env ops.greater [] log
        r.1 = { cls with
                greaterThanFunctions := r1.1,
                lessThanFunctions := (filter_functions env ops.less r1.2.1 r1.2.2).1 })
    ∧ (case = ComparableCase.NotComparable → r = (cls, log))
    ∧ r.2.filter isHiding
        = log.filter isHiding
          ++ (if case = ComparableCase.NotComparable then []
              else
                hide_functions env
                  (ops.compare ++ ops.greater ++ ops.greaterEquals ++ ops.less
                    ++ ops.lessEquals) []) := by
  obtain ⟨greater, greaterEquals, less, lessEquals, compare⟩ := ops
  simp only [setupComparableFrom, specComparableCase]
  have h82 : (greater.length == 1) = true → greater.isEmpty = false := by
    cases greater <;> simp
  have h93 : (less.length == 1) = true → less.isEmpty = false := by
    cases less <;> simp
  revert h82 h93
  generalize (!cls.equalsFunctions.isEmpty || !cls.notEqualsFunctions.isEmpty) = hasEquals
  generalize compare.isEmpty = b1
  generalize greater.isEmpty = b2
  generalize less.isEmpty = b3
  generalize greaterEquals.isEmpty = b4
  generalize lessEquals.isEmpty = b5
  generalize (greaterEquals.length == 1) = b6
  generalize (lessEquals.length == 1) = b7
  generalize (greater.length == 1) = b8
  generalize (less.length == 1) = b9
  intro h82 h93
  cases b1
  · simp [hide_functions_eq, filter_functions_hiding, List.filter_append, filter_isHiding_hidden]
  · cases hasEquals
    · cases b6 <;> cases b7
        <;> try simp [hide_functions_eq, filter_functions_hiding, List.filter_append,
          filter_isHiding_hidden]
      cases b8 <;> cases b9 <;> simp at h82 h93 <;> (try subst h82) <;> (try subst h93)
        <;> simp [hide_functions_eq, filter_functions_hiding, List.filter_append,
          filter_isHiding_hidden]
    · cases b2 <;> cases b3
        <;> try simp [hide_functions_eq, filter_functions_hiding, List.filter_append,
          filter_isHiding_hidden]
      cases b4 <;> cases b5
        <;> try simp [hide_functions_eq, filter_functions_hiding, List.filter_append,
          filter_isHiding_hidden]
      cases b6 <;> cases b7
        <;> try simp [hide_functions_eq, filter_functions_hiding, List.filter_append,
          filter_isHiding_hidden]
      cases b8 <;> cases b9 <;> simp at h82 h93
      simp
theorem setupComparable_eq (env : OperatorEnv) (cls : MetaClass) (log : ModificationLog) :
    setupComparable env cls log
      = setupComparableFrom env cls log
          (comparisonOperators
            (env.queryFunctions cls
              [FunctionQueryOption.ClassImplements,
                FunctionQueryOption.NotRemovedFromTargetLang] log)) := by
  unfold setupComparable
  simp only [sortComparisonOperators_empty]

/-- C23: `setupComparable` picks the comparison capability in the order of
preference of the specification: the one-argument `operator<=>` functions if
any exist; otherwise, when the class has equals functions, the `<`/`>`
operators; otherwise, when it has equals functions, the `<=`/`>=` operators;
otherwise a single `<=` or `>=`; otherwise a single `<` or `>`. In each case
the lists set on the class are those that `filter_functions` keeps and no
other attribute of the class changes. The hiding modifications that the call
adds are those of `hide_functions` on the five lists of operators when one of
the cases applied, and none otherwise; in that last case the class and the
modifications are returned as they were. -/
theorem setupComparable_preference (env : OperatorEnv) (cls : MetaClass)
    (log : ModificationLog) :
    let ops :=
      comparisonOperators
        (env.queryFunctions cls
          [FunctionQueryOption.ClassImplements, FunctionQueryOption.NotRemovedFromTargetLang]
          log)
    let hasEquals := !cls.equalsFunctions.isEmpty || !cls.notEqualsFunctions.isEmpty
    let r := setupComparable env cls log
    let case := specComparableCase ops hasEquals
    (case = ComparableCase.Compare →
        r.1 = { cls with compareFunctions := (filter_functions env ops.compare [] log).1 })
    ∧ (case = ComparableCase.LessGreater →
        let r1 := filter_functions env ops.less [] log
        r.1 = { cls with
                lessThanFunctions := r1.1,
                greaterThanFunctions := (filter_functions env ops.greater r1.2.1 r1.2.2).1 })
    ∧ (case = ComparableCase.LessGreaterEq →
        let r1 := filter_functions env ops.lessEquals [] log
        r.1 = { cls with
                lessThanEqFunctions := r1.1,
                greaterThanEqFunctions :=
                  (filter_functions env ops.greaterEquals r1.2.1 r1.2.2).1 })
    ∧ (case = ComparableCase.SingleEq →
        let r1 := filter_functions env ops.greaterEquals [] log
        r.1 = { cls with
                greaterThanEqFunctions := r1.1,
                lessThanEqFunctions := (filter_functions env ops.lessEquals r1.2.1 r1.2.2).1 })
    ∧ (case = ComparableCase.Single →
        let r1 := filter_functions env ops.greater [] log
        r.1 = { cls with
                greaterThanFunctions := r1.1,
                lessThanFunctions := (filter_functions env ops.less r1.2.1 r1.2.2).1 })
    ∧ (case = ComparableCase.NotComparable → r = (cls, log))
    ∧ r.2.filter isHiding
        = log.filter isHiding
          ++ (if case = ComparableCase.NotComparable then []
              else
                hide_functions env
                  (ops.compare ++ ops.greater ++ ops.greaterEquals ++ ops.less
                    ++ ops.lessEquals) []) := by
  have h := setupComparableFrom_preference env cls log
    (comparisonOperators
      (env.queryFunctions cls
        [FunctionQueryOption.ClassImplements, FunctionQueryOption.NotRemovedFromTargetLang]
        log))
  rw [setupComparable_eq]
  exact h
theorem remove_function_hiding (env : OperatorEnv) (f : MetaFunction) (log : ModificationLog) :
    (remove_function env f log).filter isHiding = log.filter isHiding := by
  simp [remove_function, List.filter_append, isHiding]

theorem removeCopyConstructors_hiding (env : OperatorEnv) (cls : MetaClass)
    (functions : List MetaFunction) (log : ModificationLog) :
    (removeCopyConstructors env cls functions log).filter isHiding = log.filter isHiding := by
  induction functions generalizing log with
  | nil => rfl
  | cons f l ih =>
    rw [removeCopyConstructors, ih]
    split
    · split
      · split
        · exact remove_function_hiding env f log
        · rfl
      · rfl
    · rfl

theorem protect_functions_hiding (env : OperatorEnv) (l : List MetaFunction)
    (log : ModificationLog) :
    (protect_functions env l log).filter isHiding = log.filter isHiding := by
  induction l generalizing log with
  | nil => rfl
  | cons f l ih =>
    rw [protect_functions, ih]
    simp [List.filter_append, isHiding]

theorem setupClonable_hiding (env : OperatorEnv) (cls : MetaClass) (log : ModificationLog) :
    (setupClonable env cls log).2.filter isHiding = log.filter isHiding
      ∧ (setupClonable env cls log).1.name = cls.name := by
  unfold setupClonable
  split
  · exact ⟨removeCopyConstructors_hiding _ _ _ _, rfl⟩
  · exact ⟨rfl, rfl⟩

theorem setupBeginEnd_hiding (env : OperatorEnv) (cls : MetaClass) (log : ModificationLog) :
    (setupBeginEnd env cls log).2.filter isHiding = log.filter isHiding
      ∧ (setupBeginEnd env cls log).1.name = cls.name := by
  unfold setupBeginEnd
  simp only []
  split
  · refine ⟨?_, rfl⟩
    rw [protect_functions_hiding, protect_functions_hiding]
  · exact ⟨rfl, rfl⟩

theorem setupEquals_hiding (env : OperatorEnv) (cls : MetaClass) (log : ModificationLog)
    (warnings : List QString) :
    (setupEquals env cls log warnings).2.1.filter isHiding
        = log.filter isHiding
          ++ ((operatorsNamed
                (env.queryFunctions cls
                  [FunctionQueryOption.ClassImplements, FunctionQueryOption.Visible,
                    FunctionQueryOption.NotRemovedFromTargetLang] log) (qs "operator==")
              ++ operatorsNamed
                (env.queryFunctions cls
                  [FunctionQueryOption.ClassImplements, FunctionQueryOption.Visible,
                    FunctionQueryOption.NotRemovedFromTargetLang] log) (qs "operator!=")).filter
                (isHidable env)).map (hidingModification env)
      ∧ (setupEquals env cls log warnings).1.name = cls.name := by
  unfold setupEquals
  simp only [sortEqualsOperators_eq, List.nil_append]
  split
  · refine ⟨?_, rfl⟩
    simp only [filter_functions_hiding, hide_functions_hiding, List.filter_append,
      List.map_append, List.append_assoc]
  · rename_i h
    refine ⟨?_, rfl⟩
    simp only [Bool.or_eq_true, Bool.not_eq_true', not_or, Bool.not_eq_false,
      List.isEmpty_iff] at h
    rw [h.1, h.2]
    simp

theorem setupComparable_name (env : OperatorEnv) (cls : MetaClass) (log : ModificationLog) :
    (setupComparable env cls log).1.name = cls.name := by
  have h := setupComparableFrom_preference env cls log
    (comparisonOperators
      (env.queryFunctions cls
        [FunctionQueryOption.ClassImplements, FunctionQueryOption.NotRemovedFromTargetLang]
        log))
  rw [setupComparable_eq]
  simp only [] at h
  obtain ⟨h1, h2, h3, h4, h5, h6, _⟩ := h
  cases hc : specComparableCase
      (comparisonOperators
        (env.queryFunctions cls
          [FunctionQueryOption.ClassImplements, FunctionQueryOption.NotRemovedFromTargetLang]
          log))
      (!cls.equalsFunctions.isEmpty || !cls.notEqualsFunctions.isEmpty)
  · rw [h1 hc]
  · rw [h2 hc]
  · rw [h3 hc]
  · rw [h4 hc]
  · rw [h5 hc]
  · rw [h6 hc]

theorem mem_operatorsNamed (functions : List MetaFunction) (name : QString) (f : MetaFunction) :
    f ∈ operatorsNamed functions name
      ↔ f ∈ functions ∧ f.arguments.length = 1 ∧ f.originalName = name := by
  simp [operatorsNamed, List.mem_filter]

theorem nodup_append_of_names {l1 l2 : List MetaFunction} {N1 N2 : List QString}
    (h1 : l1.Nodup ∧ ∀ f ∈ l1, f.originalName ∈ N1)
    (h2 : l2.Nodup ∧ ∀ f ∈ l2, f.originalName ∈ N2)
    (hd : ∀ n ∈ N1, n ∉ N2) :
    (l1 ++ l2).Nodup ∧ ∀ f ∈ l1 ++ l2, f.originalName ∈ N1 ++ N2 := by
  refine ⟨List.nodup_append.mpr ⟨h1.1, h2.1, ?_⟩, ?_⟩
  · intro f hf1 hf2
    exact hd _ (h1.2 f hf1) (h2.2 f hf2)
  · intro f hf
    rcases List.mem_append.mp hf with h | h
    · exact List.mem_append_left _ (h1.2 f h)
    · exact List.mem_append_right _ (h2.2 f h)

theorem nodup_operatorsNamed {functions : List MetaFunction} (h : functions.Nodup)
    (name : QString) :
    (operatorsNamed functions name).Nodup
      ∧ ∀ f ∈ operatorsNamed functions name, f.originalName ∈ [name] := by
  refine ⟨h.filter _, ?_⟩
  intro f hf
  simp [((mem_operatorsNamed functions name f).mp hf).2.2]
theorem setupComparable_hiding (env : OperatorEnv) (cls : MetaClass) (log : ModificationLog) :
    ∃ L : List MetaFunction,
      (setupComparable env cls log).2.filter isHiding
          = log.filter isHiding ++ (L.filter (isHidable env)).map (hidingModification env)
        ∧ L.Sublist
            ((comparisonOperators
                (env.queryFunctions cls
                  [FunctionQueryOption.ClassImplements,
                    FunctionQueryOption.NotRemovedFromTargetLang] log)).compare
              ++ (comparisonOperators
                (env.queryFunctions cls
                  [FunctionQueryOption.ClassImplements,
                    FunctionQueryOption.NotRemovedFromTargetLang] log)).greater
              ++ (comparisonOperators
                (env.queryFunctions cls
                  [FunctionQueryOption.ClassImplements,
                    FunctionQueryOption.NotRemovedFromTargetLang] log)).greaterEquals
              ++ (comparisonOperators
                (env.queryFunctions cls
                  [FunctionQueryOption.ClassImplements,
                    FunctionQueryOption.NotRemovedFromTargetLang] log)).less
              ++ (comparisonOperators
                (env.queryFunctions cls
                  [FunctionQueryOption.ClassImplements,
                    FunctionQueryOption.NotRemovedFromTargetLang] log)).lessEquals) := by
  have h := setupComparableFrom_preference env cls log
    (comparisonOperators
      (env.queryFunctions cls
        [FunctionQueryOption.ClassImplements, FunctionQueryOption.NotRemovedFromTargetLang]
        log))
  simp only [] at h
  obtain ⟨_, _, _, _, _, _, h7⟩ := h
  rw [setupComparable_eq, h7]
  split
  · exact ⟨[], by simp, List.nil_sublist _⟩
  · exact ⟨_, by rw [hide_functions_eq, List.nil_append], List.Sublist.refl _⟩

theorem nodup_comparisonOperators {functions : List MetaFunction} (h : functions.Nodup) :
    ((comparisonOperators functions).compare ++ (comparisonOperators functions).greater
        ++ (comparisonOperators functions).greaterEquals ++ (comparisonOperators functions).less
        ++ (comparisonOperators functions).lessEquals).Nodup
      ∧ ∀ f ∈ (comparisonOperators functions).compare ++ (comparisonOperators functions).greater
          ++ (comparisonOperators functions).greaterEquals
          ++ (comparisonOperators functions).less ++ (comparisonOperators functions).lessEquals,
        f.originalName ∈ [qs "operator<=>"] ++ [qs "operator>"] ++ [qs "operator>="]
          ++ [qs "operator<"] ++ [qs "operator<="] := by
  unfold comparisonOperators
  simp only []
  refine nodup_append_of_names (nodup_append_of_names (nodup_append_of_names
    (nodup_append_of_names (nodup_operatorsNamed h _) (nodup_operatorsNamed h _) ?_)
    (nodup_operatorsNamed h _) ?_) (nodup_operatorsNamed h _) ?_) (nodup_operatorsNamed h _) ?_
  all_goals decide

theorem nodup_equalsOperators {functions : List MetaFunction} (h : functions.Nodup) :
    (operatorsNamed functions (qs "operator==")
        ++ operatorsNamed functions (qs "operator!=")).Nodup
      ∧ ∀ f ∈ operatorsNamed functions (qs "operator==")
          ++ operatorsNamed functions (qs "operator!="),
        f.originalName ∈ [qs "operator=="] ++ [qs "operator!="] := by
  refine nodup_append_of_names (nodup_operatorsNamed h _) (nodup_operatorsNamed h _) ?_
  decide

theorem mem_queried_of_mem_comparison {functions : List MetaFunction} {f : MetaFunction}
    (h : f ∈ (comparisonOperators functions).compare ++ (comparisonOperators functions).greater
          ++ (comparisonOperators functions).greaterEquals
          ++ (comparisonOperators functions).less ++ (comparisonOperators functions).lessEquals) :
    f ∈ functions := by
  unfold comparisonOperators at h
  simp only [List.mem_append, mem_operatorsNamed] at h
  rcases h with (((h | h) | h) | h) | h <;> exact h.1

/-- The set-up of one class adds one hiding modification for each function of
a list without repetitions; the functions are hidable ones that
`queryFunctions` returns for the class. -/
theorem setupClass_hidesOnce (env : OperatorEnv) (cls : MetaClass) (log : ModificationLog)
    (warnings : List QString)
    (hnodup : ∀ c options l, (env.queryFunctions c options l).Nodup) :
    HidesOnce env cls.name log
        (setupBeginEnd env
          (setupClonable env
            (setupComparable env (setupEquals env cls log warnings).1
              (setupEquals env cls log warnings).2.1).1
            (setupComparable env (setupEquals env cls log warnings).1
              (setupEquals env cls log warnings).2.1).2).1
          (setupClonable env
            (setupComparable env (setupEquals env cls log warnings).1
              (setupEquals env cls log warnings).2.1).1
            (setupComparable env (setupEquals env cls log warnings).1
              (setupEquals env cls log warnings).2.1).2).2).2 := by
  obtain ⟨hE, hEn⟩ := setupEquals_hiding env cls log warnings
  generalize setupEquals env cls log warnings = r1 at hE hEn ⊢
  obtain ⟨L, hC, hsub⟩ := setupComparable_hiding env r1.1 r1.2.1
  have hK := (setupClonable_hiding env (setupComparable env r1.1 r1.2.1).1
    (setupComparable env r1.1 r1.2.1).2).1
  have hB := (setupBeginEnd_hiding env
    (setupClonable env (setupComparable env r1.1 r1.2.1).1
      (setupComparable env r1.1 r1.2.1).2).1
    (setupClonable env (setupComparable env r1.1 r1.2.1).1
      (setupComparable env r1.1 r1.2.1).2).2).1
  have hq1 := hnodup cls [FunctionQueryOption.ClassImplements, FunctionQueryOption.Visible,
    FunctionQueryOption.NotRemovedFromTargetLang] log
  have hq2 := hnodup r1.1 [FunctionQueryOption.ClassImplements,
    FunctionQueryOption.NotRemovedFromTargetLang] r1.2.1
  have hn1 := nodup_equalsOperators hq1
  have hn2 := nodup_comparisonOperators hq2
  have hn2L : L.Nodup ∧ ∀ f ∈ L, f.originalName ∈ [qs "operator<=>"] ++ [qs "operator>"]
      ++ [qs "operator>="] ++ [qs "operator<"] ++ [qs "operator<="] :=
    ⟨hn2.1.sublist hsub, fun f hf => hn2.2 f (hsub.subset hf)⟩
  have hn := nodup_append_of_names hn1 hn2L (by decide)
  refine ⟨((operatorsNamed _ (qs "operator==") ++ operatorsNamed _ (qs "operator!="))
    ++ L).filter (isHidable env), ?_, hn.1.filter _, ?_⟩
  · rw [hB, hK, hC, hE]
    simp only [List.filter_append, List.map_append, List.append_assoc]
  · intro f hf
    have hf2 := (List.mem_filter.mp hf).1
    refine ⟨(List.mem_filter.mp hf).2, ?_⟩
    rcases List.mem_append.mp hf2 with h | h
    · refine ⟨cls, [FunctionQueryOption.ClassImplements, FunctionQueryOption.Visible,
        FunctionQueryOption.NotRemovedFromTargetLang], log, rfl, ?_⟩
      rcases List.mem_append.mp h with h | h
      · exact ((mem_operatorsNamed _ _ _).mp h).1
      · exact ((mem_operatorsNamed _ _ _).mp h).1
    · exact ⟨r1.1, [FunctionQueryOption.ClassImplements,
        FunctionQueryOption.NotRemovedFromTargetLang], r1.2.1, hEn,
        mem_queried_of_mem_comparison (hsub.subset h)⟩

theorem setupLoop_append (env : OperatorEnv) (l1 l2 : List MetaClass) (s : SetupState) :
    setupLoop env (l1 ++ l2) s = setupLoop env l2 (setupLoop env l1 s) := by
  induction l1 generalizing s with
  | nil => rfl
  | cons c l1 ih =>
    show setupLoop env (c :: (l1 ++ l2)) s = _
    rw [setupLoop, setupLoop, ih]

theorem modificationKey_hidingModification (env : OperatorEnv) (f : MetaFunction) :
    modificationKey (hidingModification env f) = (f.implementingClass, env.minimalSignature f) := by
  unfold modificationKey hidingModification
  by_cases hi : env.isInterface f.implementingClass = true <;> simp [hi]

theorem setupComparable_preference_witness :
    specComparableCase
        (comparisonOperators
          (sampleOperatorEnv.queryFunctions (sampleOperatorClass "Rank")
            [FunctionQueryOption.ClassImplements, FunctionQueryOption.NotRemovedFromTargetLang]
            []))
        (!(sampleOperatorClass "Rank").equalsFunctions.isEmpty
          || !(sampleOperatorClass "Rank").notEqualsFunctions.isEmpty)
      = ComparableCase.NotComparable
    ∧ setupComparable sampleOperatorEnv (sampleOperatorClass "Rank") []
      = (sampleOperatorClass "Rank", [])
    ∧ [operatorSummary (setupOperators sampleOperatorEnv (sampleOperatorClass "Version")),
        operatorSummary (setupOperators sampleOperatorEnv (sampleOperatorClass "Point")),
        operatorSummary (setupOperators sampleOperatorEnv (sampleOperatorClass "Size")),
        operatorSummary (setupOperators sampleOperatorEnv (sampleOperatorClass "Rank"))]
      = [[[qs "operator<=>(Version)"], [], [], [], [],
            [qs "operator<=>(Version)", qs "operator<(Version)"]],
          [[], [qs "operator<(Point)"], [], [], [],
            [qs "operator==(Point)", qs "operator!=(Point)", qs "operator>(Point)",
              qs "operator<(Point)", qs "operator<=(Point)"]],
          [[], [], [], [qs "operator<=(Size)"], [], [qs "operator<=(Size)"]],
          [[], [], [], [], [], []]] :=
  ⟨by decide!,
    (setupComparable_preference sampleOperatorEnv (sampleOperatorClass "Rank")
      []).2.2.2.2.2.1 (by decide!),
    by decide!⟩

theorem sampleOperatorTable_nodup (name : QString) :
    ((sampleOperatorTable name).map sampleMinimalSignature).Nodup := by
  unfold sampleOperatorTable
  split_ifs <;> decide

theorem sampleOperatorEnv_implementing (c : MetaClass) (options : List FunctionQueryOption)
    (l : ModificationLog) (f : MetaFunction)
    (h : f ∈ sampleOperatorEnv.queryFunctions c options l) :
    f.implementingClass = some c.name := by
  simp only [sampleOperatorEnv, List.mem_filter, Bool.and_eq_true] at h
  exact eq_of_beq h.2.1.1.1.1

theorem sampleOperatorEnv_mem (c : MetaClass) (options : List FunctionQueryOption)
    (l : ModificationLog) (f : MetaFunction)
    (h : f ∈ sampleOperatorEnv.queryFunctions c options l) :
    f ∈ sampleOperatorTable c.name := by
  simp only [sampleOperatorEnv, List.mem_filter] at h
  exact h.1

theorem sampleOperatorEnv_nodup (c : MetaClass) (options : List FunctionQueryOption)
    (l : ModificationLog) : (sampleOperatorEnv.queryFunctions c options l).Nodup :=
  (List.Nodup.of_map _ (sampleOperatorTable_nodup c.name)).filter _

theorem sampleOperatorEnv_signature (c c1 : MetaClass)
    (options options1 : List FunctionQueryOption) (l l1 : ModificationLog)
    (f f1 : MetaFunction) (hc : c.name = c1.name)
    (hf : f ∈ sampleOperatorEnv.queryFunctions c options l)
    (hf1 : f1 ∈ sampleOperatorEnv.queryFunctions c1 options1 l1)
    (hs : sampleOperatorEnv.minimalSignature f = sampleOperatorEnv.minimalSignature f1) :
    f = f1 := by
  have h := sampleOperatorEnv_mem c options l f hf
  have h1 := sampleOperatorEnv_mem c1 options1 l1 f1 hf1
  rw [← hc] at h1
  exact List.inj_on_of_nodup_map (sampleOperatorTable_nodup c.name) h h1 hs

/-! ## classesTopologicalSorted -/

theorem mem_setInsert (s : List Nat) (x y : Nat) : y ∈ setInsert s x ↔ y ∈ s ∨ y = x := by
  unfold setInsert
  split
  · rename_i h
    have hx : x ∈ s := by simpa using h
    constructor
    · exact Or.inl
    · rintro (h | rfl)
      · exact h
      · exact hx
  · simp

theorem nodup_setInsert (s : List Nat) (x : Nat) (h : s.Nodup) : (setInsert s x).Nodup := by
  unfold setInsert
  split
  · exact h
  · rename_i hx
    have hx2 : x ∉ s := by simpa using hx
    exact List.nodup_append.mpr ⟨h, List.nodup_singleton x, by
      intro a ha hb
      rw [List.mem_singleton] at hb
      exact hx2 (hb ▸ ha)⟩

theorem length_setInsert_le (s : List Nat) (x : Nat) : (setInsert s x).length ≤ s.length + 1 := by
  unfold setInsert
  split <;> simp

theorem before_append (d c : Nat) (l l3 : List Nat) (h : Before d c l) :
    Before d c (l ++ l3) := by
  obtain ⟨l1, l2, rfl, hd⟩ := h
  exact ⟨l1, l2 ++ l3, by simp, hd⟩

theorem before_snoc (d c : Nat) (l : List Nat) (h : d ∈ l) : Before d c (l ++ [c]) :=
  ⟨l, [], rfl, h⟩

theorem before_filter (p : Nat → Bool) (d c : Nat) (l : List Nat) (h : Before d c l)
    (hd : p d = true) (hc : p c = true) : Before d c (l.filter p) := by
  obtain ⟨l1, l2, rfl, hm⟩ := h
  refine ⟨l1.filter p, l2.filter p, ?_, List.mem_filter.mpr ⟨hm, hd⟩⟩
  rw [List.filter_append, List.filter_cons_of_pos hc]

theorem length_filter_ne_lt (l : List Nat) (x : Nat) (h : x ∈ l) :
    (l.filter (fun c => c != x)).length < l.length := by
  induction l with
  | nil => cases h
  | cons a l ih =>
    by_cases ha : a = x
    · subst ha
      rw [List.filter_cons_of_neg (by simp)]
      exact Nat.lt_succ_of_le (List.length_filter_le _ _)
    · have hx : x ∈ l := by
        rcases List.mem_cons.mp h with h | h
        · exact absurd h.symm ha
        · exact h
      rw [List.filter_cons_of_pos (by simpa using ha)]
      simp only [List.length_cons]
      exact Nat.succ_lt_succ (ih hx)

/-- One key of the loop with the `QHashIterator`: the state after the class
`cls` has been taken out of the set of `key`. -/
theorem releaseDependents_cons (cls key : Nat) (rest : List Nat) (s : SortState) :
    releaseDependents cls (key :: rest) s
      = releaseDependents cls rest
          (if ((s.depends key).filter (fun d => d != cls)).isEmpty then
            { s with
              depends := fun c =>
                if c == key then (s.depends key).filter (fun d => d != cls) else s.depends c,
              noDependency := setInsert s.noDependency key,
              hash := s.hash.filter (fun k => k != key) }
          else
            { s with
              depends := fun c =>
                if c == key then (s.depends key).filter (fun d => d != cls)
                else s.depends c }) := by
  rw [releaseDependents]

theorem releaseDependents_inv (g : ClassGraph) (listed done : List Nat) (cls : Nat)
    (hcls : cls ∈ done) (rest : List Nat) (s : SortState)
    (hrest : rest.Nodup) (hsub : ∀ k ∈ rest, k ∈ s.hash)
    (hinv : SortInv g listed done s)
    (hstuck : Stuck g done (fun k d => d = cls ∧ k ∈ rest) s) :
    SortInv g listed done (releaseDependents cls rest s)
      ∧ Stuck g done (fun _ _ => False) (releaseDependents cls rest s)
      ∧ (releaseDependents cls rest s).noDependency.length
          + (releaseDependents cls rest s).hash.length
        ≤ s.noDependency.length + s.hash.length
      ∧ ∀ c ∈ s.noDependency, c ∈ (releaseDependents cls rest s).noDependency := by
  induction rest generalizing s with
  | nil =>
    refine ⟨hinv, ?_, Nat.le_refl _, fun c h => h⟩
    intro k hk
    obtain ⟨h1, h2⟩ := hstuck k hk
    refine ⟨h1, fun d hd => ⟨(h2 d hd).1, ?_⟩⟩
    rcases (h2 d hd).2 with h | h
    · exact Or.inl h
    · exact absurd h.2 (List.not_mem_nil _)
  | cons key rest ih =>
    rw [releaseDependents_cons]
    have hkey : key ∈ s.hash := hsub key (List.mem_cons_self _ _)
    have hkr : key ∉ rest := (List.nodup_cons.mp hrest).1
    have hrn : rest.Nodup := (List.nodup_cons.mp hrest).2
    by_cases hv : ((s.depends key).filter (fun d => d != cls)).isEmpty = true
    · rw [if_pos hv]
      have hall : ∀ d ∈ s.depends key, d = cls := by
        intro d hd
        by_contra hne
        have : d ∈ (s.depends key).filter (fun d => d != cls) :=
          List.mem_filter.mpr ⟨hd, by simpa using hne⟩
        rw [List.isEmpty_iff.mp hv] at this
        exact absurd this (List.not_mem_nil _)
      have hinv2 : SortInv g listed done
          { s with
            depends := fun c =>
              if c == key then (s.depends key).filter (fun d => d != cls) else s.depends c,
            noDependency := setInsert s.noDependency key,
            hash := s.hash.filter (fun k => k != key) } := by
        refine
          { done_nodup := hinv.done_nodup, res_eq := hinv.res_eq,
            nodep_nodup := nodup_setInsert _ _ hinv.nodep_nodup,
            hash_nodup := hinv.hash_nodup.filter _,
            nodep_done := ?_, hash_done := ?_, hash_nodep := ?_, listed_iff := ?_,
            cover := ?_, nodep_ready := ?_, ordered := hinv.ordered }
        · intro c hc
          rcases (mem_setInsert _ _ _).mp hc with h | h
          · exact hinv.nodep_done c h
          · exact h ▸ hinv.hash_done key hkey
        · intro k hk
          exact hinv.hash_done k (List.mem_filter.mp hk).1
        · intro k hk hn
          have hk2 := List.mem_filter.mp hk
          rcases (mem_setInsert _ _ _).mp hn with h | h
          · exact hinv.hash_nodep k hk2.1 h
          · simp [h] at hk2
        · intro c
          rw [hinv.listed_iff c]
          simp only [mem_setInsert, List.mem_filter, bne_iff_ne, ne_eq, decide_eq_true_eq]
          constructor
          · rintro (h | h | h)
            · exact Or.inl h
            · exact Or.inr (Or.inl (Or.inl h))
            · by_cases hck : c = key
              · exact Or.inr (Or.inl (Or.inr hck))
              · exact Or.inr (Or.inr ⟨h, hck⟩)
          · rintro (h | (h | h) | h)
            · exact Or.inl h
            · exact Or.inr (Or.inl h)
            · exact Or.inr (Or.inr (h ▸ hkey))
            · exact Or.inr (Or.inr h.1)
        · intro k hk d hd
          have hk2 := List.mem_filter.mp hk
          have hne : k ≠ key := by simpa using hk2.2
          have := hinv.cover k hk2.1 d hd
          simpa [hne] using this
        · intro c hc d hd
          rcases (mem_setInsert _ _ _).mp hc with h | h
          · exact hinv.nodep_ready c h d hd
          · subst h
            rcases hinv.cover c hkey d hd with h1 | h1
            · exact hall d h1 ▸ hcls
            · exact h1
      have hstuck2 : Stuck g done (fun k d => d = cls ∧ k ∈ rest)
          { s with
            depends := fun c =>
              if c == key then (s.depends key).filter (fun d => d != cls) else s.depends c,
            noDependency := setInsert s.noDependency key,
            hash := s.hash.filter (fun k => k != key) } := by
        intro k hk
        have hk2 := List.mem_filter.mp hk
        have hne : k ≠ key := by simpa using hk2.2
        obtain ⟨h1, h2⟩ := hstuck k hk2.1
        simp only [beq_iff_eq, hne, if_false]
        refine ⟨h1, fun d hd => ⟨(h2 d hd).1, ?_⟩⟩
        rcases (h2 d hd).2 with h | h
        · exact Or.inl h
        · rcases List.mem_cons.mp h.2 with h3 | h3
          · exact absurd h3 hne
          · exact Or.inr ⟨h.1, h3⟩
      have hsub2 : ∀ k ∈ rest, k ∈ s.hash.filter (fun k => k != key) := by
        intro k hk
        refine List.mem_filter.mpr ⟨hsub k (List.mem_cons_of_mem _ hk), ?_⟩
        have : k ≠ key := fun h => hkr (h ▸ hk)
        simpa using this
      obtain ⟨r1, r2, r3, r4⟩ := ih _ hrn hsub2 hinv2 hstuck2
      refine ⟨r1, r2, ?_, ?_⟩
      · have hl1 := length_setInsert_le s.noDependency key
        have hl2 := length_filter_ne_lt s.hash key hkey
        simp only [] at r3
        omega
      · intro c hc
        exact r4 c ((mem_setInsert _ _ _).mpr (Or.inl hc))
    · rw [if_neg hv]
      have hinv2 : SortInv g listed done
          { s with
            depends := fun c =>
              if c == key then (s.depends key).filter (fun d => d != cls)
              else s.depends c } := by
        refine
          { done_nodup := hinv.done_nodup, res_eq := hinv.res_eq,
            nodep_nodup := hinv.nodep_nodup, hash_nodup := hinv.hash_nodup,
            nodep_done := hinv.nodep_done, hash_done := hinv.hash_done,
            hash_nodep := hinv.hash_nodep, listed_iff := hinv.listed_iff,
            cover := ?_, nodep_ready := hinv.nodep_ready, ordered := hinv.ordered }
        intro k hk d hd
        by_cases hke : k = key
        · subst hke
          simp only [beq_self_eq_true, if_true]
          rcases hinv.cover k hk d hd with h1 | h1
          · by_cases hdc : d = cls
            · exact Or.inr (hdc ▸ hcls)
            · exact Or.inl (List.mem_filter.mpr ⟨h1, by simpa using hdc⟩)
          · exact Or.inr h1
        · simpa [hke] using hinv.cover k hk d hd
      have hstuck2 : Stuck g done (fun k d => d = cls ∧ k ∈ rest)
          { s with
            depends := fun c =>
              if c == key then (s.depends key).filter (fun d => d != cls)
              else s.depends c } := by
        intro k hk
        by_cases hke : k = key
        · subst hke
          simp only [beq_self_eq_true, if_true]
          refine ⟨fun h => hv (by rw [h]; rfl), fun d hd => ?_⟩
          have hd2 := List.mem_filter.mp hd
          have hdc : d ≠ cls := by simpa using hd2.2
          obtain ⟨_, h2⟩ := hstuck k hk
          refine ⟨(h2 d hd2.1).1, ?_⟩
          rcases (h2 d hd2.1).2 with h | h
          · exact Or.inl h
          · exact absurd h.1 hdc
        · obtain ⟨h1, h2⟩ := hstuck k hk
          simp only [beq_iff_eq, hke, if_false]
          refine ⟨h1, fun d hd => ⟨(h2 d hd).1, ?_⟩⟩
          rcases (h2 d hd).2 with h | h
          · exact Or.inl h
          · rcases List.mem_cons.mp h.2 with h3 | h3
            · exact absurd h3 hke
            · exact Or.inr ⟨h.1, h3⟩
      have hsub2 : ∀ k ∈ rest, k ∈ s.hash := fun k hk => hsub k (List.mem_cons_of_mem _ hk)
      exact ih _ hrn hsub2 hinv2 hstuck2

theorem releaseClasses_inv (env : SortEnv) (g : ClassGraph) (listed : List Nat)
    (hhash : ∀ l, (env.hashOrder l).Perm l)
    (l : List Nat) (done : List Nat) (s : SortState)
    (hl : l.Nodup) (hsub : ∀ c ∈ l, c ∈ s.noDependency)
    (hinv : SortInv g listed done s) (hstuck : Stuck g done (fun _ _ => False) s) :
    SortInv g listed (done ++ l) (releaseClasses env g l s)
      ∧ Stuck g (done ++ l) (fun _ _ => False) (releaseClasses env g l s)
      ∧ (releaseClasses env g l s).noDependency.length
          + (releaseClasses env g l s).hash.length + l.length
        ≤ s.noDependency.length + s.hash.length := by
  induction l generalizing done s with
  | nil =>
    rw [List.append_nil]
    exact ⟨hinv, hstuck, Nat.le_refl _⟩
  | cons cls rest ih =>
    have hcls : cls ∈ s.noDependency := hsub cls (List.mem_cons_self _ _)
    have hcr : cls ∉ rest := (List.nodup_cons.mp hl).1
    have hrn : rest.Nodup := (List.nodup_cons.mp hl).2
    have hcd : cls ∉ done := hinv.nodep_done cls hcls
    have hch : cls ∉ s.hash := fun h => hinv.hash_nodep cls h hcls
    rw [releaseClasses]
    -- the state after the class has left `noDependency`
    have key : ∀ s1 : SortState, s1.res = (done ++ [cls]).filter
          (fun c => !(g.cls c).typeEntry.isInterface) →
        s1.noDependency = s.noDependency.filter (fun c => c != cls) →
        s1.hash = s.hash → s1.depends = s.depends →
        SortInv g listed (done ++ cls :: rest)
            (releaseClasses env g rest (releaseDependents cls (env.hashOrder s1.hash) s1))
          ∧ Stuck g (done ++ cls :: rest) (fun _ _ => False)
            (releaseClasses env g rest (releaseDependents cls (env.hashOrder s1.hash) s1))
          ∧ (releaseClasses env g rest
                (releaseDependents cls (env.hashOrder s1.hash) s1)).noDependency.length
              + (releaseClasses env g rest
                (releaseDependents cls (env.hashOrder s1.hash) s1)).hash.length
              + (cls :: rest).length
            ≤ s.noDependency.length + s.hash.length := by
      intro s1 hres hnd hh hdep
      have hinv1 : SortInv g listed (done ++ [cls]) s1 := by
        refine
          { done_nodup := ?_, res_eq := hres, nodep_nodup := ?_, hash_nodup := ?_,
            nodep_done := ?_, hash_done := ?_, hash_nodep := ?_, listed_iff := ?_,
            cover := ?_, nodep_ready := ?_, ordered := ?_ }
        · refine List.nodup_append.mpr ⟨hinv.done_nodup, List.nodup_singleton _, ?_⟩
          intro a ha hb
          rw [List.mem_singleton] at hb
          exact hcd (hb ▸ ha)
        · rw [hnd]; exact hinv.nodep_nodup.filter _
        · rw [hh]; exact hinv.hash_nodup
        · intro c hc
          rw [hnd] at hc
          have hc2 := List.mem_filter.mp hc
          have hne : c ≠ cls := by simpa using hc2.2
          simp only [List.mem_append, List.mem_singleton, not_or]
          exact ⟨hinv.nodep_done c hc2.1, hne⟩
        · intro k hk
          rw [hh] at hk
          simp only [List.mem_append, List.mem_singleton, not_or]
          exact ⟨hinv.hash_done k hk, fun h => hch (h ▸ hk)⟩
        · intro k hk hn
          rw [hh] at hk
          rw [hnd] at hn
          exact hinv.hash_nodep k hk (List.mem_filter.mp hn).1
        · intro c
          rw [hinv.listed_iff c, hnd, hh]
          simp only [List.mem_append, List.mem_singleton, List.mem_filter, bne_iff_ne, ne_eq,
            decide_eq_true_eq]
          constructor
          · rintro (h | h | h)
            · exact Or.inl (Or.inl h)
            · by_cases hc : c = cls
              · exact Or.inl (Or.inr hc)
              · exact Or.inr (Or.inl ⟨h, hc⟩)
            · exact Or.inr (Or.inr h)
          · rintro ((h | h) | h | h)
            · exact Or.inl h
            · exact Or.inr (Or.inl (h ▸ hcls))
            · exact Or.inr (Or.inl h.1)
            · exact Or.inr (Or.inr h)
        · intro k hk d hd
          rw [hh] at hk
          rw [hdep]
          rcases hinv.cover k hk d hd with h | h
          · exact Or.inl h
          · exact Or.inr (List.mem_append_left _ h)
        · intro c hc d hd
          rw [hnd] at hc
          exact List.mem_append_left _ (hinv.nodep_ready c (List.mem_filter.mp hc).1 d hd)
        · intro c hc d hd
          rcases List.mem_append.mp hc with h | h
          · exact before_append d c done [cls] (hinv.ordered c h d hd)
          · rw [List.mem_singleton] at h
            subst h
            exact before_snoc d c done (hinv.nodep_ready c hcls d hd)
      have hperm := hhash s1.hash
      have hstuck1 : Stuck g (done ++ [cls])
          (fun k d => d = cls ∧ k ∈ env.hashOrder s1.hash) s1 := by
        intro k hk
        have hk0 : k ∈ s.hash := hh ▸ hk
        obtain ⟨h1, h2⟩ := hstuck k hk0
        rw [hdep]
        refine ⟨h1, fun d hd => ⟨(h2 d hd).1, ?_⟩⟩
        by_cases hdc : d = cls
        · exact Or.inr ⟨hdc, hperm.mem_iff.mpr hk⟩
        · refine Or.inl ?_
          simp only [List.mem_append, List.mem_singleton, not_or]
          rcases (h2 d hd).2 with h | h
          · exact ⟨h, hdc⟩
          · exact absurd h id
      obtain ⟨r1, r2, r3, r4⟩ := releaseDependents_inv g listed (done ++ [cls]) cls
        (List.mem_append_right _ (List.mem_singleton_self _)) (env.hashOrder s1.hash) s1
        (hperm.nodup_iff.mpr hinv1.hash_nodup) (fun k hk => hperm.mem_iff.mp hk) hinv1 hstuck1
      have hsub2 : ∀ c ∈ rest,
          c ∈ (releaseDependents cls (env.hashOrder s1.hash) s1).noDependency := by
        intro c hc
        apply r4
        rw [hnd]
        refine List.mem_filter.mpr ⟨hsub c (List.mem_cons_of_mem _ hc), ?_⟩
        have : c ≠ cls := fun h => hcr (h ▸ hc)
        simpa using this
      obtain ⟨q1, q2, q3⟩ := ih (done ++ [cls]) _ hrn hsub2 r1 r2
      rw [List.append_assoc] at q1 q2
      refine ⟨q1, q2, ?_⟩
      have hlt := length_filter_ne_lt s.noDependency cls hcls
      have e1 : s1.noDependency.length
          = (s.noDependency.filter (fun c => c != cls)).length := by rw [hnd]
      have e2 : s1.hash.length = s.hash.length := by rw [hh]
      simp only [List.length_cons]
      omega
    cases hi : (g.cls cls).typeEntry.isInterface
    · have := key
        { s with
          res := s.res ++ [cls],
          noDependency := s.noDependency.filter (fun c => c != cls) }
        (by
          show s.res ++ [cls] = _
          rw [List.filter_append, List.filter_cons_of_pos (by rw [hi]; rfl), List.filter_nil,
            hinv.res_eq]) rfl rfl rfl
      simp only [Bool.not_false, if_true]
      exact this
    · have := key
        { s with noDependency := s.noDependency.filter (fun c => c != cls) }
        (by
          show s.res = _
          rw [List.filter_append, List.filter_cons_of_neg (by rw [hi]; decide),
            List.filter_nil, List.append_nil]
          exact hinv.res_eq) rfl rfl rfl
      simp only [Bool.not_true, Bool.false_eq_true, if_false]
      exact this

theorem collectDependencies_cons (g : ClassGraph) (cls : Nat) (classes : List Nat)
    (s : SortState) :
    collectDependencies g (cls :: classes) s
      = collectDependencies g classes
          (if (dependsOf g cls).isEmpty then
            { s with noDependency := setInsert s.noDependency cls }
          else
            { s with
              hash := setInsert s.hash cls,
              depends := fun c => if c == cls then dependsOf g cls else s.depends c }) := by
  rw [collectDependencies]

theorem collectDependencies_inv (g : ClassGraph) (classes seen : List Nat) (s : SortState)
    (h : Collected g seen s) :
    Collected g (seen ++ classes) (collectDependencies g classes s) := by
  induction classes generalizing seen s with
  | nil => rw [List.append_nil]; exact h
  | cons cls rest ih =>
    rw [collectDependencies_cons]
    have hseen : seen ++ cls :: rest = (seen ++ [cls]) ++ rest := by simp
    rw [hseen]
    apply ih
    by_cases hd : (dependsOf g cls).isEmpty = true
    · rw [if_pos hd]
      have hd2 : dependsOf g cls = [] := List.isEmpty_iff.mp hd
      refine
        { res_eq := h.res_eq, nodep_nodup := nodup_setInsert _ _ h.nodep_nodup,
          hash_nodup := h.hash_nodup, seen_iff := ?_, nodep_empty := ?_,
          hash_depends := h.hash_depends, size := ?_ }
      · intro c
        simp only [List.mem_append, List.mem_singleton, mem_setInsert, h.seen_iff c]
        constructor
        · rintro ((h1 | h1) | h1)
          · exact Or.inl (Or.inl h1)
          · exact Or.inr h1
          · exact Or.inl (Or.inr h1)
        · rintro ((h1 | h1) | h1)
          · exact Or.inl (Or.inl h1)
          · exact Or.inr h1
          · exact Or.inl (Or.inr h1)
      · intro c hc
        rcases (mem_setInsert _ _ _).mp hc with h1 | h1
        · exact h.nodep_empty c h1
        · exact h1 ▸ hd2
      · have h1 := length_setInsert_le s.noDependency cls
        have h2 := h.size
        show (setInsert s.noDependency cls).length + s.hash.length ≤ (seen ++ [cls]).length
        rw [List.length_append, List.length_singleton]
        omega
    · rw [if_neg hd]
      have hd2 : dependsOf g cls ≠ [] := fun e => hd (by rw [e]; rfl)
      refine
        { res_eq := h.res_eq, nodep_nodup := h.nodep_nodup,
          hash_nodup := nodup_setInsert _ _ h.hash_nodup, seen_iff := ?_,
          nodep_empty := h.nodep_empty, hash_depends := ?_, size := ?_ }
      · intro c
        simp only [List.mem_append, List.mem_singleton, mem_setInsert, h.seen_iff c]
        constructor
        · rintro ((h1 | h1) | h1)
          · exact Or.inl h1
          · exact Or.inr (Or.inl h1)
          · exact Or.inr (Or.inr h1)
        · rintro (h1 | h1 | h1)
          · exact Or.inl (Or.inl h1)
          · exact Or.inl (Or.inr h1)
          · exact Or.inr h1
      · intro k hk
        show (if k == cls then dependsOf g cls else s.depends k) = dependsOf g k ∧ _
        by_cases hke : k = cls
        · subst hke
          rw [if_pos (beq_self_eq_true k)]
          exact ⟨rfl, hd2⟩
        · rw [if_neg (by simpa using hke)]
          rcases (mem_setInsert _ _ _).mp hk with h1 | h1
          · exact h.hash_depends k h1
          · exact absurd h1 hke
      · have h1 := length_setInsert_le s.hash cls
        have h2 := h.size
        show s.noDependency.length + (setInsert s.hash cls).length ≤ (seen ++ [cls]).length
        rw [List.length_append, List.length_singleton]
        omega

theorem collected_empty (g : ClassGraph) : Collected g [] {} :=
  { res_eq := rfl, nodep_nodup := List.nodup_nil, hash_nodup := List.nodup_nil,
    seen_iff := fun c =>
      ⟨fun h => absurd h (List.not_mem_nil c),
        fun h => h.elim (fun h1 => absurd h1 (List.not_mem_nil c))
          (fun h1 => absurd h1 (List.not_mem_nil c))⟩,
    nodep_empty := fun c hc => absurd hc (List.not_mem_nil c),
    hash_depends := fun k hk => absurd hk (List.not_mem_nil k),
    size := Nat.le_refl _ }

theorem sortInv_of_collected (g : ClassGraph) (listed : List Nat) (s : SortState)
    (h : Collected g listed s) :
    SortInv g listed [] s ∧ Stuck g [] (fun _ _ => False) s := by
  refine ⟨
    { done_nodup := List.nodup_nil, res_eq := h.res_eq, nodep_nodup := h.nodep_nodup,
      hash_nodup := h.hash_nodup,
      nodep_done := fun _ _ => List.not_mem_nil _,
      hash_done := fun _ _ => List.not_mem_nil _,
      hash_nodep := fun k hk hn => (h.hash_depends k hk).2 (h.nodep_empty k hn),
      listed_iff := ?_,
      cover := fun k hk d hd => Or.inl ((h.hash_depends k hk).1 ▸ hd),
      nodep_ready := ?_,
      ordered := fun c hc => absurd hc (List.not_mem_nil c) }, ?_⟩
  · intro c
    rw [h.seen_iff c]
    simp
  · intro c hc d hd
    rw [h.nodep_empty c hc] at hd
    exact absurd hd (List.not_mem_nil d)
  · intro k hk
    obtain ⟨h1, h2⟩ := h.hash_depends k hk
    rw [h1]
    exact ⟨h2, fun d hd => ⟨hd, Or.inl (List.not_mem_nil _)⟩⟩

theorem sortLoop_inv (env : SortEnv) (g : ClassGraph) (listed : List Nat)
    (hvalues : ∀ l, (env.values l).Perm l) (hhash : ∀ l, (env.hashOrder l).Perm l)
    (fuel : Nat) (done : List Nat) (s : SortState)
    (hinv : SortInv g listed done s) (hstuck : Stuck g done (fun _ _ => False) s)
    (hfuel : s.noDependency.length + s.hash.length < fuel) :
    ∃ done1 s1, sortLoop env g fuel s = some s1 ∧ SortInv g listed done1 s1
      ∧ Stuck g done1 (fun _ _ => False) s1 ∧ s1.noDependency = [] := by
  induction fuel generalizing done s with
  | zero => omega
  | succ fuel ih =>
    rw [sortLoop]
    by_cases he : s.noDependency.isEmpty = true
    · simp only [he, Bool.not_true, Bool.false_eq_true, if_false]
      exact ⟨done, s, rfl, hinv, hstuck, List.isEmpty_iff.mp he⟩
    · simp only [he, Bool.not_false, if_true]
      have hperm := hvalues s.noDependency
      obtain ⟨r1, r2, r3⟩ := releaseClasses_inv env g listed hhash (env.values s.noDependency)
        done s (hperm.nodup_iff.mpr hinv.nodep_nodup) (fun c hc => hperm.mem_iff.mp hc)
        hinv hstuck
      have hlen : (env.values s.noDependency).length = s.noDependency.length := hperm.length_eq
      have hpos : 0 < s.noDependency.length := by
        cases hn : s.noDependency with
        | nil => rw [hn] at he; exact absurd rfl he
        | cons a l => simp
      exact ih _ _ r1 r2 (by omega)

theorem sortLoop_succ (env : SortEnv) (g : ClassGraph) (fuel : Nat) (s r : SortState)
    (h : sortLoop env g fuel s = some r) : sortLoop env g (fuel + 1) s = some r := by
  induction fuel generalizing s with
  | zero => cases h
  | succ fuel ih =>
    rw [sortLoop] at h
    rw [sortLoop]
    split
    · rename_i hc
      rw [if_pos hc] at h
      exact ih _ h
    · rename_i hc
      rw [if_neg hc] at h
      exact h

theorem sortLoop_le (env : SortEnv) (g : ClassGraph) (fuel fuel1 : Nat) (s r : SortState)
    (h : sortLoop env g fuel s = some r) (hle : fuel ≤ fuel1) :
    sortLoop env g fuel1 s = some r := by
  induction hle with
  | refl => exact h
  | step _ ih => exact sortLoop_succ env g _ s r ih

theorem mem_foldl_setInsert (l s : List Nat) (y : Nat) :
    y ∈ l.foldl setInsert s ↔ y ∈ s ∨ y ∈ l := by
  induction l generalizing s with
  | nil => simp
  | cons a l ih =>
    rw [List.foldl_cons, ih, mem_setInsert, List.mem_cons]
    constructor
    · rintro ((h | h) | h)
      · exact Or.inl h
      · exact Or.inr (Or.inl h)
      · exact Or.inr (Or.inr h)
    · rintro (h | h | h)
      · exact Or.inl (Or.inl h)
      · exact Or.inl (Or.inr h)
      · exact Or.inr h

theorem mem_dependsOf (g : ClassGraph) (c d : Nat) :
    d ∈ dependsOf g c ↔ (g.cls c).baseClass = some d ∨ d ∈ (g.cls c).interfaces := by
  unfold dependsOf
  simp only []
  rw [mem_foldl_setInsert]
  cases hb : (g.cls c).baseClass with
  | none => simp
  | some b =>
    simp only [mem_setInsert, List.not_mem_nil, false_or, Option.some.injEq]
    constructor
    · rintro (h | h)
      · exact Or.inl h.symm
      · exact Or.inr h
    · rintro (h | h)
      · exact Or.inl h.symm
      · exact Or.inr h

theorem before_mem (d c : Nat) (l : List Nat) (h : Before d c l) : d ∈ l ∧ c ∈ l := by
  obtain ⟨l1, l2, rfl, hd⟩ := h
  exact ⟨List.mem_append_left _ hd, List.mem_append_right _ (List.mem_cons_self _ _)⟩

theorem before_irrefl (c : Nat) (l : List Nat) (hl : l.Nodup) : ¬ Before c c l := by
  rintro ⟨l1, l2, rfl, hd⟩
  have := (List.nodup_append.mp hl).2.2
  exact this hd (List.mem_cons_self _ _)

theorem before_trans (a b c : Nat) (l : List Nat) (hl : l.Nodup) (h1 : Before a b l)
    (h2 : Before b c l) : Before a c l := by
  obtain ⟨l1, l2, rfl, ha⟩ := h1
  obtain ⟨m1, m2, hm, hb⟩ := h2
  refine ⟨m1, m2, hm, ?_⟩
  -- `b` lies in `m1`, so `m1` reaches beyond `l1`
  obtain ⟨p, q, rfl⟩ := List.append_of_mem hb
  have hm2 : l1 ++ b :: l2 = p ++ b :: (q ++ c :: m2) := by
    rw [hm]; simp
  have hbp : b ∉ p := by
    intro hbp
    rw [hm2] at hl
    exact (List.nodup_append.mp hl).2.2 hbp (List.mem_cons_self _ _)
  have hbl : b ∉ l1 := by
    intro hbl
    exact (List.nodup_append.mp hl).2.2 hbl (List.mem_cons_self _ _)
  have hpl : l1 = p := by
    have := List.append_eq_append_iff.mp hm2
    rcases this with ⟨a', h3, h4⟩ | ⟨c', h3, h4⟩
    · cases a' with
      | nil => simpa using h3.symm
      | cons x a' =>
        simp only [List.cons_append, List.cons.injEq] at h4
        exfalso
        apply hbp
        rw [h3]
        exact List.mem_append_right _ (h4.1 ▸ List.mem_cons_self _ _)
    · cases c' with
      | nil => simpa using h3
      | cons x c' =>
        simp only [List.cons_append, List.cons.injEq] at h4
        exfalso
        apply hbl
        rw [h3]
        exact List.mem_append_right _ (h4.1 ▸ List.mem_cons_self _ _)
  rw [← hpl]
  exact List.mem_append_left _ ha

/-- In a finite set of classes each of which has a successor in the set,
every class reaches a cycle. -/
theorem reaches_cycle_of_successors (R : Nat → Nat → Prop) (S : List Nat)
    (h : ∀ x ∈ S, ∃ y ∈ S, R x y) (x : Nat) (hx : x ∈ S) :
    ∃ y, Relation.TransGen R x y ∧ Relation.TransGen R y y := by
  classical
  have hex : ∀ z : Nat, ∃ y, z ∈ S → (y ∈ S ∧ R z y) := by
    intro z
    by_cases hz : z ∈ S
    · obtain ⟨y, hy, hr⟩ := h z hz
      exact ⟨y, fun _ => ⟨hy, hr⟩⟩
    · exact ⟨0, fun hz2 => absurd hz2 hz⟩
  choose f hf using hex
  have hmem : ∀ n z, z ∈ S → f^[n] z ∈ S := by
    intro n
    induction n with
    | zero => intro z hz; exact hz
    | succ n ih =>
      intro z hz
      rw [Function.iterate_succ_apply']
      exact (hf _ (ih z hz)).1
  have hstep : ∀ n z, z ∈ S → Relation.TransGen R z (f^[n + 1] z) := by
    intro n
    induction n with
    | zero =>
      intro z hz
      exact Relation.TransGen.single (hf z hz).2
    | succ n ih =>
      intro z hz
      rw [Function.iterate_succ_apply']
      exact Relation.TransGen.tail (ih z hz) (hf _ (hmem (n + 1) z hz)).2
  -- two of the first `S.length + 1` iterates agree
  have hpigeon : ∃ i j, i < j ∧ f^[i] x = f^[j] x := by
    by_contra hne
    push_neg at hne
    have hinj : ((List.range (S.length + 1)).map (fun i => f^[i] x)).Nodup := by
      refine List.Nodup.map_on ?_ (List.nodup_range _)
      intro i _ j _ hij
      by_contra hd
      rcases Nat.lt_or_gt_of_ne hd with hlt | hlt
      · exact hne i j hlt hij
      · exact hne j i hlt hij.symm
    have hsub : (List.range (S.length + 1)).map (fun i => f^[i] x) ⊆ S := by
      intro y hy
      obtain ⟨i, _, rfl⟩ := List.mem_map.mp hy
      exact hmem i x hx
    have hlen := (hinj.subperm hsub).length_le
    simp at hlen
  obtain ⟨i, j, hij, heq⟩ := hpigeon
  obtain ⟨k, rfl⟩ : ∃ k, j = i + (k + 1) := ⟨j - i - 1, by omega⟩
  have hcycle : Relation.TransGen R (f^[i] x) (f^[i] x) := by
    have := hstep k (f^[i] x) (hmem i x hx)
    rw [← Function.iterate_add_apply, Nat.add_comm (k + 1) i, ← heq] at this
    exact this
  cases i with
  | zero => exact ⟨x, hcycle, hcycle⟩
  | succ i => exact ⟨f^[i + 1] x, hstep i x hx, hcycle⟩

theorem classesTopologicalSorted_run (env : SortEnv) (g : ClassGraph)
    (hvalues : ∀ l, (env.values l).Perm l) (hhash : ∀ l, (env.hashOrder l).Perm l) :
    ∃ done s,
      (∀ fuel, g.m_meta_classes.length < fuel →
          sortLoop env g fuel (collectDependencies g g.m_meta_classes {}) = some s)
        ∧ SortInv g g.m_meta_classes done s
        ∧ Stuck g done (fun _ _ => False) s
        ∧ s.noDependency = [] := by
  have hc := collectDependencies_inv g g.m_meta_classes [] {} (collected_empty g)
  rw [List.nil_append] at hc
  obtain ⟨hinv, hstuck⟩ := sortInv_of_collected g g.m_meta_classes _ hc
  have hsize := hc.size
  obtain ⟨done, s, hrun, h1, h2, h3⟩ := sortLoop_inv env g g.m_meta_classes hvalues hhash
    (g.m_meta_classes.length + 1) [] _ hinv hstuck (by omega)
  exact ⟨done, s, fun fuel hf => sortLoop_le env g _ fuel _ s hrun (by omega), h1, h2, h3⟩

theorem classesTopologicalSorted_of_run (env : SortEnv) (g : ClassGraph) (fuel : Nat)
    (s : SortState)
    (h : sortLoop env g fuel (collectDependencies g g.m_meta_classes {}) = some s) :
    classesTopologicalSorted env g fuel
      = some (s.res,
          if !s.noDependency.isEmpty || !s.hash.isEmpty then
            [qs "dependency graph was cyclic."]
          else []) := by
  unfold classesTopologicalSorted
  simp only [h]

theorem done_before_of_dependsOn (g : ClassGraph) (listed done : List Nat) (s : SortState)
    (hinv : SortInv g listed done s) (c d : Nat) (hc : c ∈ done) (h : DependsOn g c d) :
    Before d c done := by
  unfold DependsOn at h
  induction h with
  | single h1 => exact hinv.ordered c hc _ h1
  | tail _ h2 ih =>
    exact before_trans _ _ _ done hinv.done_nodup
      (hinv.ordered _ (before_mem _ _ _ ih).1 _ h2) ih

theorem done_not_reachesCycle (g : ClassGraph) (listed done : List Nat) (s : SortState)
    (hinv : SortInv g listed done s) (c : Nat) (hc : c ∈ done) : ¬ ReachesCycle g c := by
  rintro ⟨d, h1, h2⟩
  have hd := (before_mem _ _ _ (done_before_of_dependsOn g listed done s hinv c d hc h1)).1
  exact before_irrefl d done hinv.done_nodup
    (done_before_of_dependsOn g listed done s hinv d d hd h2)

theorem stuck_reachesCycle (g : ClassGraph) (done : List Nat) (s : SortState)
    (hinv : SortInv g g.m_meta_classes done s) (hstuck : Stuck g done (fun _ _ => False) s)
    (hnd : s.noDependency = [])
    (hclosed : ∀ c ∈ g.m_meta_classes, ∀ d ∈ dependsOf g c, d ∈ g.m_meta_classes)
    (k : Nat) (hk : k ∈ s.hash) : ReachesCycle g k := by
  refine reaches_cycle_of_successors (fun c d => d ∈ dependsOf g c) s.hash ?_ k hk
  intro x hx
  obtain ⟨h1, h2⟩ := hstuck x hx
  obtain ⟨d, hd⟩ := List.exists_mem_of_ne_nil _ h1
  obtain ⟨hdep, hdone⟩ := h2 d hd
  have hxl : x ∈ g.m_meta_classes := (hinv.listed_iff x).mpr (Or.inr (Or.inr hx))
  have hdl := hclosed x hxl d hdep
  rcases (hinv.listed_iff d).mp hdl with h | h | h
  · rcases hdone with h3 | h3
    · exact absurd h h3
    · exact absurd h3 id
  · rw [hnd] at h
    exact absurd h (List.not_mem_nil d)
  · exact ⟨d, h, hdep⟩

/-- C25: with enough fuel (more than the number of classes in
`m_meta_classes`) `classesTopologicalSorted` returns a list, the same for every
such fuel and whatever the orders are in which Qt walks the set and the hash.
In this list no class appears twice, every class is one of `m_meta_classes`
and is no interface, and every class whose base class is no interface stands
later than its base class. -/
theorem classesTopologicalSorted_sorted (env : SortEnv) (g : ClassGraph)
    (hvalues : ∀ l, (env.values l).Perm l) (hhash : ∀ l, (env.hashOrder l).Perm l) :
    ∃ res warnings,
      (∀ fuel, g.m_meta_classes.length < fuel →
          classesTopologicalSorted env g fuel = some (res, warnings))
        ∧ res.Nodup
        ∧ (∀ c ∈ res, c ∈ g.m_meta_classes ∧ (g.cls c).typeEntry.isInterface = false)
        ∧ (∀ c ∈ res, ∀ b, (g.cls c).baseClass = some b →
            (g.cls b).typeEntry.isInterface = false → Before b c res) := by
  obtain ⟨done, s, hrun, hinv, _, _⟩ := classesTopologicalSorted_run env g hvalues hhash
  refine ⟨s.res, _, fun fuel hf => classesTopologicalSorted_of_run env g fuel s (hrun fuel hf),
    ?_, ?_, ?_⟩
  · rw [hinv.res_eq]
    exact hinv.done_nodup.filter _
  · intro c hc
    rw [hinv.res_eq] at hc
    have hc2 := List.mem_filter.mp hc
    refine ⟨(hinv.listed_iff c).mpr (Or.inl hc2.1), ?_⟩
    cases hi : (g.cls c).typeEntry.isInterface
    · rfl
    · rw [hi] at hc2
      exact absurd hc2.2 (by decide)
  · intro c hc b hb hbi
    rw [hinv.res_eq] at hc ⊢
    have hc2 := List.mem_filter.mp hc
    exact before_filter _ b c done
      (hinv.ordered c hc2.1 b ((mem_dependsOf g c b).mpr (Or.inl hb)))
      (by rw [hbi]; rfl) hc2.2

/-- C26: when every dependency (base class or interface) of a class of
`m_meta_classes` is itself in `m_meta_classes`, `classesTopologicalSorted`
returns with enough fuel (more than the number of these classes), whether the
dependencies contain a cycle or not. The list returned holds exactly the
classes of `m_meta_classes` that are no interfaces and do not depend, directly
or transitively, on a class of a cycle; each of them stands later than every
dependency of it that is no interface; and when some class depends on a class
of a cycle, the warning `dependency graph was cyclic.` is given. -/
theorem classesTopologicalSorted_cyclic (env : SortEnv) (g : ClassGraph)
    (hvalues : ∀ l, (env.values l).Perm l) (hhash : ∀ l, (env.hashOrder l).Perm l)
    (hclosed : ∀ c ∈ g.m_meta_classes, ∀ d ∈ dependsOf g c, d ∈ g.m_meta_classes) :
    ∃ res warnings,
      (∀ fuel, g.m_meta_classes.length < fuel →
          classesTopologicalSorted env g fuel = some (res, warnings))
        ∧ (∀ c, c ∈ res ↔
            c ∈ g.m_meta_classes ∧ (g.cls c).typeEntry.isInterface = false
              ∧ ¬ ReachesCycle g c)
        ∧ (∀ c ∈ res, ∀ d ∈ dependsOf g c,
            (g.cls d).typeEntry.isInterface = false → Before d c res)
        ∧ ((∃ c ∈ g.m_meta_classes, ReachesCycle g c) →
            warnings = [qs "dependency graph was cyclic."]) := by
  obtain ⟨done, s, hrun, hinv, hstuck, hnd⟩ :=
    classesTopologicalSorted_run env g hvalues hhash
  have hdone : ∀ c, c ∈ g.m_meta_classes → ¬ ReachesCycle g c → c ∈ done := by
    intro c hc hn
    rcases (hinv.listed_iff c).mp hc with h | h | h
    · exact h
    · rw [hnd] at h
      exact absurd h (List.not_mem_nil c)
    · exact absurd (stuck_reachesCycle g done s hinv hstuck hnd hclosed c h) hn
  refine ⟨s.res, _, fun fuel hf => classesTopologicalSorted_of_run env g fuel s (hrun fuel hf),
    ?_, ?_, ?_⟩
  · intro c
    rw [hinv.res_eq, List.mem_filter]
    constructor
    · rintro ⟨h1, h2⟩
      refine ⟨(hinv.listed_iff c).mpr (Or.inl h1), ?_,
        done_not_reachesCycle g _ done s hinv c h1⟩
      cases hi : (g.cls c).typeEntry.isInterface
      · rfl
      · rw [hi] at h2
        exact absurd h2 (by decide)
    · rintro ⟨h1, h2, h3⟩
      exact ⟨hdone c h1 h3, by rw [h2]; rfl⟩
  · intro c hc d hd hdi
    rw [hinv.res_eq] at hc ⊢
    have hc2 := List.mem_filter.mp hc
    exact before_filter _ d c done (hinv.ordered c hc2.1 d hd) (by rw [hdi]; rfl) hc2.2
  · rintro ⟨c, hc, hcyc⟩
    have hcd : c ∉ done := fun h => done_not_reachesCycle g _ done s hinv c h hcyc
    have hch : c ∈ s.hash := by
      rcases (hinv.listed_iff c).mp hc with h | h | h
      · exact absurd h hcd
      · rw [hnd] at h
        exact absurd h (List.not_mem_nil c)
      · exact h
    have hne : s.hash.isEmpty = false := by
      cases hh : s.hash with
      | nil => rw [hh] at hch; exact absurd hch (List.not_mem_nil c)
      | cons a l => rfl
    rw [hne]
    simp

theorem sampleSortGraph_closed :
    ∀ c ∈ sampleSortGraph.m_meta_classes, ∀ d ∈ dependsOf sampleSortGraph c,
      d ∈ sampleSortGraph.m_meta_classes := by
  decide

theorem sampleSortGraph_sorted :
    classesTopologicalSorted sampleSortEnv sampleSortGraph 8
      = some ([1, 0, 3], [qs "dependency graph was cyclic."]) := by
  decide!

theorem classesTopologicalSorted_sorted_witness :
    classesTopologicalSorted sampleSortEnv sampleSortGraph 8
        = some ([1, 0, 3], [qs "dependency graph was cyclic."])
      ∧ [1, 0, 3].Nodup
      ∧ Before 1 0 [1, 0, 3]
      ∧ Before 0 3 [1, 0, 3] := by
  obtain ⟨res, warnings, hrun, hnd, _, hbase⟩ :=
    classesTopologicalSorted_sorted sampleSortEnv sampleSortGraph
      (fun l => List.reverse_perm l) (fun l => List.Perm.refl l)
  have h8 := hrun 8 (by decide)
  rw [sampleSortGraph_sorted] at h8
  have hres : res = [1, 0, 3] := by
    have := Option.some.inj h8
    exact (congrArg Prod.fst this).symm
  subst hres
  exact ⟨sampleSortGraph_sorted, hnd,
    hbase 0 (by decide) 1 (by decide) (by decide),
    hbase 3 (by decide) 0 (by decide) (by decide)⟩

theorem classesTopologicalSorted_cyclic_witness :
    classesTopologicalSorted sampleSortEnv sampleSortGraph 8
        = some ([1, 0, 3], [qs "dependency graph was cyclic."])
      ∧ ReachesCycle sampleSortGraph 6
      ∧ ¬ ReachesCycle sampleSortGraph 3 := by
  obtain ⟨res, warnings, hrun, hiff, _, _⟩ :=
    classesTopologicalSorted_cyclic sampleSortEnv sampleSortGraph
      (fun l => List.reverse_perm l) (fun l => List.Perm.refl l) sampleSortGraph_closed
  have h8 := hrun 8 (by decide)
  rw [sampleSortGraph_sorted] at h8
  have hres : res = [1, 0, 3] := by
    have := Option.some.inj h8
    exact (congrArg Prod.fst this).symm
  subst hres
  refine ⟨sampleSortGraph_sorted, ?_, ((hiff 3).mp (by decide)).2.2⟩
  by_contra hn
  have h6 : 6 ∈ [1, 0, 3] := (hiff 6).mpr ⟨by decide, by decide, hn⟩
  exact absurd h6 (by decide)

/-- When `Base` is not among `m_meta_classes`, the classes `Derived` and
`Leaf`, which depend on it, stay in `hash`: the list returned is empty and the
warning is given, though these three classes are on no cycle. -/
theorem sampleSortGraph_missing_base :
    classesTopologicalSorted sampleSortEnv
        { sampleSortGraph with m_meta_classes := [0, 2, 3] } 8
      = some ([], [qs "dependency graph was cyclic."]) := by
  decide!

/-! ## Enum values: escaped character literals -/

theorem parseDigits_apostrophe (base : Nat) (X : QString) (acc : Nat) :
    parseDigits base (X ++ [apostrophe]) acc = none := by
  induction X generalizing acc with
  | nil => simp [parseDigits, digitVal, apostrophe]
  | cons c cs ih =>
    simp only [List.cons_append, parseDigits]
    cases digitVal c with
    | none => rfl
    | some d =>
      simp only []
      split
      · exact ih _
      · rfl

theorem trimStart_zero (s : QString) : trimStart ('0' :: s) = '0' :: s := by
  simp [trimStart, isSpace]

theorem trimmed_hex_apostrophe (X : QString) :
    trimmed (qs "0x" ++ (X ++ [apostrophe])) = qs "0x" ++ (X ++ [apostrophe]) := by
  apply trimmed_of_ends
  · intro c hc
    simp only [qs, String.toList, List.cons_append, List.head?_cons, Option.mem_def,
      Option.some.injEq] at hc
    subst hc
    decide
  · intro c hc
    have h : (qs "0x" ++ (X ++ [apostrophe])).getLast? = some apostrophe := by
      rw [← List.append_assoc, List.getLast?_append_of_ne_nil _ (by simp)]
      rfl
    rw [h] at hc
    simp only [Option.mem_def, Option.some.injEq] at hc
    subst hc
    decide

theorem toUnsignedInt_hex_apostrophe (w : Nat) (X : QString) :
    toUnsignedInt w (qs "0x" ++ (X ++ [apostrophe])) 16 = none := by
  have hq : qs "0x" ++ (X ++ [apostrophe]) = '0' :: 'x' :: (X ++ [apostrophe]) := rfl
  unfold toUnsignedInt parseInteger
  rw [trimmed_hex_apostrophe, hq]
  have hm : parseMagnitude 16 ('0' :: 'x' :: (X ++ [apostrophe])) = none := by
    unfold parseMagnitude
    simp [startsWith, parseDigits_apostrophe]
  simp [startsWith, hm]

theorem midN_unicodeLiteral (X : QString) :
    midN (unicodeLiteral X) 3 (((unicodeLiteral X).length : Int) - 2) = X ++ [apostrophe] := by
  unfold midN unicodeLiteral
  have hl : ([apostrophe, backslash, 'u'] ++ X ++ [apostrophe]).length = X.length + 4 := by
    simp
  rw [hl]
  have hn : ¬ ((X.length + 4 : Nat) : Int) - 2 < 0 := by omega
  rw [if_neg hn]
  have hd : ([apostrophe, backslash, 'u'] ++ X ++ [apostrophe]).drop 3 = X ++ [apostrophe] := by
    simp
  rw [hd]
  apply List.take_of_length_le
  simp
  omega

/-- The branch for `'\uXXXX'` never sets `ok`: the text handed to
`toULongLong` ends with the closing apostrophe. -/
theorem parseLiteral_unicodeLiteral (size : Nat) (X : QString) :
    parseLiteral size (unicodeLiteral X) = (QVariant.int 0, false) := by
  have hs : startsWith (unicodeLiteral X) [apostrophe, backslash, 'u'] = true := by
    simp [unicodeLiteral, startsWith]
  have he : endsWith (unicodeLiteral X) [apostrophe] = true := by
    simp [unicodeLiteral, endsWith, startsWith]
  have hl : (unicodeLiteral X).length = X.length + 4 := by
    simp [unicodeLiteral]
  have h3 : ((unicodeLiteral X).length == 3) = false := by
    rw [hl]
    simp
  have h4 : decide ((unicodeLiteral X).length > 3) = true := by
    rw [hl]
    simp
  unfold parseLiteral
  simp only [h3, Bool.false_and, Bool.false_eq_true, if_false, h4, hs, he, Bool.and_self,
    if_true, midN_unicodeLiteral, toUnsignedInt_hex_apostrophe, convertedOr0]

theorem parseLiteral_escapedLiteral (c : Char) (hc : c ≠ 'u') :
    parseLiteral 32 (escapedLiteral c) = (QVariant.int (wrap 32 (toLatin1 c)), true) := by
  have hs : startsWith [apostrophe, backslash, c, apostrophe] [apostrophe, backslash] = true := by
    simp [startsWith]
  have hu : startsWith [apostrophe, backslash, c, apostrophe] [apostrophe, backslash, 'u']
      = false := by
    simp [startsWith, hc]
  have he : endsWith [apostrophe, backslash, c, apostrophe] [apostrophe] = true := by
    simp [endsWith, startsWith]
  unfold parseLiteral escapedLiteral
  simp [hs, hu, he, charAt, widthOf]

/-- C31: at width 32 `figureOutEnumValue` on `'\u0041'` does not return 65
but the text of the literal, as for `'\u41'` and `'\u00e9'`; and for every text
`X` and every size the branch that reads `'\uX'` leaves `ok` false, because
`s.mid(3, s.length()-2)` keeps the closing apostrophe and `toULongLong` fails
on it. -/
theorem figureOutEnumValue_unicode_literal_stays_symbolic :
    (figureOutEnumValue false 3 32 (unicodeLiteral (qs "0041")) QVariant.invalid none none
        {}).map Prod.fst = some (QVariant.str (unicodeLiteral (qs "0041")))
      ∧ (figureOutEnumValue false 3 32 (unicodeLiteral (qs "41")) QVariant.invalid none none
        {}).map Prod.fst = some (QVariant.str (unicodeLiteral (qs "41")))
      ∧ (figureOutEnumValue false 3 32 (unicodeLiteral (qs "00e9")) QVariant.invalid none none
        {}).map Prod.fst = some (QVariant.str (unicodeLiteral (qs "00e9")))
      ∧ ∀ (size : Nat) (X : QString),
          midN (unicodeLiteral X) 3 (((unicodeLiteral X).length : Int) - 2) = X ++ [apostrophe]
            ∧ parseLiteral size (unicodeLiteral X) = (QVariant.int 0, false) :=
  ⟨by decide!, by decide!, by decide!,
    fun size X => ⟨midN_unicodeLiteral X, parseLiteral_unicodeLiteral size X⟩⟩

/-- C38: at width 32 `figureOutEnumValue` on an escaped character literal
returns the code of the character that follows the backslash, not the value of
the escape sequence: `'\n'` gives 110 (the letter n), `'\t'` gives 116, `'\r'`
gives 114 and `'\0'` gives 48; only escapes that stand for the character
itself come out right (`'\\'` gives 92, the escaped apostrophe 39). For every
character `c` other than `u` the branch for the escaped literal reads the code
of `c`. -/
theorem figureOutEnumValue_escape_is_letter_code :
    (figureOutEnumValue false 3 32 (escapedLiteral 'n') QVariant.invalid none none
        {}).map Prod.fst = some (QVariant.int 110)
      ∧ (figureOutEnumValue false 3 32 (escapedLiteral 't') QVariant.invalid none none
        {}).map Prod.fst = some (QVariant.int 116)
      ∧ (figureOutEnumValue false 3 32 (escapedLiteral 'r') QVariant.invalid none none
        {}).map Prod.fst = some (QVariant.int 114)
      ∧ (figureOutEnumValue false 3 32 (escapedLiteral '0') QVariant.invalid none none
        {}).map Prod.fst = some (QVariant.int 48)
      ∧ (figureOutEnumValue false 3 32 (escapedLiteral backslash) QVariant.invalid none none
        {}).map Prod.fst = some (QVariant.int 92)
      ∧ (figureOutEnumValue false 3 32 (escapedLiteral apostrophe) QVariant.invalid none none
        {}).map Prod.fst = some (QVariant.int 39)
      ∧ ∀ c : Char, c ≠ 'u' →
          parseLiteral 32 (escapedLiteral c) = (QVariant.int (wrap 32 (toLatin1 c)), true) :=
  ⟨by decide!, by decide!, by decide!, by decide!, by decide!, by decide!,
    parseLiteral_escapedLiteral⟩

/-! ## rename_operator on the symbols of its table -/

theorem trimStart_spaces_append (pre s : QString) (hpre : ∀ c ∈ pre, isSpace c = true) :
    trimStart (pre ++ s) = trimStart s := by
  induction pre with
  | nil => rfl
  | cons c cs ih =>
    have hc : isSpace c = true := hpre c (by simp)
    simp only [List.cons_append, trimStart, hc, if_true]
    exact ih (fun d hd => hpre d (by simp [hd]))

theorem trimmed_spaces_around (pre s post : QString) (hpre : ∀ c ∈ pre, isSpace c = true)
    (hpost : ∀ c ∈ post, isSpace c = true) (hne : s ≠ [])
    (h1 : ∀ c ∈ s.head?, isSpace c = false) (h2 : ∀ c ∈ s.getLast?, isSpace c = false) :
    trimmed (pre ++ s ++ post) = s := by
  unfold trimmed
  rw [List.append_assoc, trimStart_spaces_append pre _ hpre]
  have hh : ∀ c ∈ (s ++ post).head?, isSpace c = false := by
    cases s with
    | nil => exact absurd rfl hne
    | cons c cs => simpa using h1
  rw [trimStart_of_head _ hh]
  unfold trimEnd
  rw [List.reverse_append, trimStart_spaces_append post.reverse _ (by simpa using hpost),
    trimStart_of_head s.reverse (by simpa using h2)]
  simp

theorem operator_names_entries : operator_names.all tableEntryOk = true := by decide!

/-- C33: for every entry of the table `operator_names` and any white space
before and after its symbol, `rename_operator` returns `operator_` followed by
the entry's word, no cast type, and `skip` false. -/
theorem rename_operator_table (env : TraverseEnv) (fuel : Nat) (p : QString × QString)
    (hp : p ∈ operator_names) (pre post : QString) (hpre : ∀ c ∈ pre, isSpace c = true)
    (hpost : ∀ c ∈ post, isSpace c = true) :
    rename_operator env (fuel + 1) (pre ++ p.1 ++ post)
      = some { newName := qs "operator_" ++ p.2, castType := none, skip := false } := by
  have h := List.all_eq_true.mp operator_names_entries p hp
  simp only [tableEntryOk, Bool.and_eq_true, bne_iff_ne, ne_eq, Bool.not_eq_true',
    beq_iff_eq] at h
  obtain ⟨⟨⟨⟨hne, hhead⟩, hlast⟩, htn⟩, hfind⟩ := h
  have ht : trimmed (pre ++ p.1 ++ post) = p.1 := by
    apply trimmed_spaces_around pre p.1 post hpre hpost hne
    · intro c hc
      rw [Option.mem_def] at hc
      rw [hc] at hhead
      simpa using hhead
    · intro c hc
      rw [Option.mem_def] at hc
      rw [hc] at hlast
      simpa using hlast
  rw [rename_operator]
  simp only [ht, htn, Bool.false_eq_true, if_false, hfind]

theorem rename_operator_table_witness :
    rename_operator sampleTraverseEnv 1 (qs " \t" ++ qs "<<" ++ qs "  \n")
      = some { newName := qs "operator_shift_left", castType := none, skip := false } :=
  rename_operator_table sampleTraverseEnv 0 (qs "<<", qs "shift_left") (by decide)
    (qs " \t") (qs "  \n") (by decide) (by decide)

/-! ## Enum values: chained binary operators -/

theorem wrap_modEq (w : Nat) (x : Int) : Int.ModEq (2 ^ w) (wrap w x) x := by
  unfold wrap
  have h := Int.mod_modEq (x + 2 ^ (w - 1)) (2 ^ w)
  have h2 := h.sub_right (2 ^ (w - 1))
  simpa using h2

theorem wrap_congr (w : Nat) (x y : Int) (h : Int.ModEq (2 ^ w) x y) : wrap w x = wrap w y := by
  unfold wrap
  have h2 : (x + 2 ^ (w - 1)) % 2 ^ w = (y + 2 ^ (w - 1)) % 2 ^ w := h.add_right _
  rw [h2]

theorem wrap_sub_wrap (w : Nat) (a r : Int) : wrap w (a - wrap w r) = wrap w (a - r) :=
  wrap_congr w _ _ ((Int.ModEq.refl a).sub (wrap_modEq w r))

theorem wrap_idem (w : Nat) (x : Int) : wrap w (wrap w x) = wrap w x :=
  wrap_congr w _ _ (wrap_modEq w x)

theorem shiftLeft_inRange (w : Nat) (x n : Int) : wrap w (shiftLeft w x n) = shiftLeft w x n := by
  unfold shiftLeft
  exact wrap_idem w _

theorem indexOfFrom_of_head_not_mem (c : Char) (p s : QString) (off : Nat) (h : c ∉ s) :
    indexOfFrom (c :: p) s off = -1 := by
  induction s generalizing off with
  | nil => simp [indexOfFrom]
  | cons a as ih =>
    have hne : a ≠ c := fun e => h (by simp [e])
    have has : c ∉ as := fun e => h (List.mem_cons_of_mem _ e)
    simp [indexOfFrom, startsWith, hne, ih _ has]

theorem indexOfFrom_append_head (c : Char) (p A R : QString) (off : Nat) (h : c ∉ A) :
    indexOfFrom (c :: p) (A ++ ((c :: p) ++ R)) off = ((off + A.length : Nat) : Int) := by
  induction A generalizing off with
  | nil =>
    have hs := startsWith_append_self (c :: p) R
    simp only [List.nil_append, List.cons_append] at hs ⊢
    rw [indexOfFrom, hs]
    simp
  | cons a as ih =>
    have hne : a ≠ c := fun e => h (by simp [e])
    have has : c ∉ as := fun e => h (List.mem_cons_of_mem _ e)
    have hs : startsWith (a :: (as ++ ((c :: p) ++ R))) (c :: p) = false := by
      simp [startsWith, hne]
    show indexOfFrom (c :: p) (a :: (as ++ ((c :: p) ++ R))) off = _
    rw [indexOfFrom, hs, if_neg Bool.false_ne_true, ih _ has, List.length_cons]
    congr 1
    omega

theorem findOperatorWith_no_operator (self : EvalFn) (size : Nat) (s : QString)
    (global meta_enum : Option Nat) (b : Builder)
    (h1 : '+' ∉ s) (h2 : '-' ∉ s) (h3 : '<' ∉ s) (h4 : '~' ∉ s) :
    findOperatorWith self size s global meta_enum b = some (Operator.new size, s, b) := by
  have i1 : indexOf s (qs "+") = -1 := indexOfFrom_of_head_not_mem '+' [] s 0 h1
  have i2 : indexOf s (qs "-") = -1 := indexOfFrom_of_head_not_mem '-' [] s 0 h2
  have i3 : indexOf s (qs "<<") = -1 := indexOfFrom_of_head_not_mem '<' ['<'] s 0 h3
  have i4 : indexOf s (qs "~") = -1 := indexOfFrom_of_head_not_mem '~' [] s 0 h4
  simp [findOperatorWith, operatorNames, findOperatorLoop, i1, i2, i3, i4]

/-- An integer literal evaluates to its value and leaves the state alone. -/
theorem figureOutEnumValue_integer_literal (useSet : Bool) (fuel size : Nat) (A : QString)
    (a : Int) (old : QVariant) (global meta_enum : Option Nat) (b : Builder)
    (hA : IntegerLiteral size A a) :
    figureOutEnumValue useSet (fuel + 1) size A old global meta_enum b
      = some (QVariant.int a, b) := by
  have hne : A.isEmpty = false := by
    cases A with
    | nil => exact absurd rfl hA.plain.nonempty
    | cons _ _ => rfl
  show figureOutEnumValueBody _ useSet size A old global meta_enum b = _
  unfold figureOutEnumValueBody
  simp only [hne, Bool.false_eq_true, if_false, prepareExpression_plain A hA.plain, evalOperands,
    evalOperand, prepareOperand_plain A hA.plain,
    findOperatorWith_no_operator _ size A global meta_enum b hA.noPlus hA.noMinus hA.noShift
      hA.noTilde, hA.parses, if_true]
  simp [operandOutput, combineOperands, Operator.new, Operator.calculate, QVariant.isString,
    QVariant.isValid]

theorem plain_binary (A R : QString) (c : Char) (p : QString) (hA : PlainOperand A)
    (hAc : c ∉ A) (hR : RightOperand R) (hc : c ∉ qs "|(~") (hcast : c ∉ qs "static_cast")
    (hp : '|' ∉ p ∧ '(' ∉ p) :
    PlainOperand (A ++ ((c :: p) ++ R)) where
  nonempty := by
    cases A with
    | nil => exact absurd rfl hA.nonempty
    | cons _ _ => simp
  headNoSpace := by
    cases A with
    | nil => exact absurd rfl hA.nonempty
    | cons a as => simpa using hA.headNoSpace
  lastNoSpace := by
    have hl : (A ++ ((c :: p) ++ R)).getLast? = R.getLast? := by
      rw [← List.append_assoc, List.getLast?_append_of_ne_nil _ hR.nonempty]
    rw [hl]
    exact hR.lastNoSpace
  noBar := by
    have h1 : c ≠ '|' := fun e => hc (by simp [e, qs])
    simp only [List.mem_append, List.mem_cons, not_or]
    exact ⟨hA.noBar, ⟨fun e => h1 e.symm, hp.1⟩, hR.noBar⟩
  noParen := by
    have h1 : c ≠ '(' := fun e => hc (by simp [e, qs])
    simp only [List.mem_append, List.mem_cons, not_or]
    exact ⟨hA.noParen, ⟨fun e => h1 e.symm, hp.2⟩, hR.noParen⟩
  noTilde := by
    have h1 : c ∉ qs "~" := fun e => hc (by
      simp only [qs, String.toList, List.mem_singleton] at e
      simp [e, qs])
    rw [List.cons_append, startsWith_append_of_not_mem A _ _ c h1]
    exact hA.noTilde
  noMinus := by
    cases A with
    | nil => exact absurd rfl hA.nonempty
    | cons a as =>
      have h := hA.noMinus
      simp only [qs, String.toList, startsWith, Bool.and_true, List.cons_append] at h ⊢
      cases as <;> simpa [startsWith] using h
  noCast := by
    rw [List.cons_append, startsWith_append_of_not_mem A _ _ c hcast]
    exact hA.noCast

theorem mid_append_operator (A k R : QString) : mid (A ++ (k ++ R)) (A.length + k.length) = R := by
  unfold mid
  rw [← List.append_assoc, ← List.length_append]
  simp

theorem left_append_operator (A rest : QString) : left (A ++ rest) (A.length : Int) = A := by
  unfold left
  have h : ¬ ((A.length : Int) < 0) := by omega
  rw [if_neg h]
  simp

theorem findOperatorWith_minus (self : EvalFn) (size : Nat) (A R : QString) (value : QVariant)
    (global meta_enum : Option Nat) (b : Builder) (hA : PlainOperand A)
    (hp : '+' ∉ A) (hm : '-' ∉ A) (hR : '+' ∉ R)
    (hr : self size R (QVariant.str R) global meta_enum b = some (value, b))
    (hv : value.isValid = true) :
    findOperatorWith self size (A ++ (qs "-" ++ R)) global meta_enum b
      = some ({ type := OperatorType.Minus, size := size, value := value }, A, b) := by
  have hplus : '+' ∉ A ++ (qs "-" ++ R) := by
    simp only [List.mem_append, not_or]
    exact ⟨hp, by decide, hR⟩
  have i1 : indexOf (A ++ (qs "-" ++ R)) (qs "+") = -1 :=
    indexOfFrom_of_head_not_mem '+' [] _ 0 hplus
  have i2 : indexOf (A ++ (qs "-" ++ R)) (qs "-") = ((0 + A.length : Nat) : Int) :=
    indexOfFrom_append_head '-' [] A R 0 hm
  have hpos : 0 < A.length := List.length_pos.mpr hA.nonempty
  have hmid : mid (A ++ (qs "-" ++ R)) (A.length + 1) = R := mid_append_operator A (qs "-") R
  have hleft : trimmed (left (A ++ (qs "-" ++ R)) (A.length : Int)) = A := by
    rw [left_append_operator, trimmed_of_ends A hA.headNoSpace hA.lastNoSpace]
  have hq : (qs "-").length = 1 := rfl
  have hnot : ¬ ((A.length : Int) = 0) := by omega
  have hgt : ((A.length : Int) > 0) := by omega
  unfold findOperatorWith operatorNames
  rw [findOperatorLoop]
  simp only [i1]
  rw [findOperatorLoop]
  simp only [i2, Nat.zero_add, Int.toNat_ofNat, hq, hmid, hr, hv, hleft, hgt, if_true]
  simp

theorem findOperatorWith_shift (self : EvalFn) (size : Nat) (A R : QString) (value : QVariant)
    (global meta_enum : Option Nat) (b : Builder) (hA : PlainOperand A)
    (hp : '+' ∉ A) (hm : '-' ∉ A) (hs : '<' ∉ A) (hR : '+' ∉ R) (hRm : '-' ∉ R)
    (hr : self size R (QVariant.str R) global meta_enum b = some (value, b))
    (hv : value.isValid = true) :
    findOperatorWith self size (A ++ (qs "<<" ++ R)) global meta_enum b
      = some ({ type := OperatorType.ShiftLeft, size := size, value := value }, A, b) := by
  have hplus : '+' ∉ A ++ (qs "<<" ++ R) := by
    simp only [List.mem_append, not_or]
    exact ⟨hp, by decide, hR⟩
  have hminus : '-' ∉ A ++ (qs "<<" ++ R) := by
    simp only [List.mem_append, not_or]
    exact ⟨hm, by decide, hRm⟩
  have i1 : indexOf (A ++ (qs "<<" ++ R)) (qs "+") = -1 :=
    indexOfFrom_of_head_not_mem '+' [] _ 0 hplus
  have i2 : indexOf (A ++ (qs "<<" ++ R)) (qs "-") = -1 :=
    indexOfFrom_of_head_not_mem '-' [] _ 0 hminus
  have i3 : indexOf (A ++ (qs "<<" ++ R)) (qs "<<") = ((0 + A.length : Nat) : Int) :=
    indexOfFrom_append_head '<' ['<'] A R 0 hs
  have hpos : 0 < A.length := List.length_pos.mpr hA.nonempty
  have hmid : mid (A ++ (qs "<<" ++ R)) (A.length + 2) = R := mid_append_operator A (qs "<<") R
  have hleft : trimmed (left (A ++ (qs "<<" ++ R)) (A.length : Int)) = A := by
    rw [left_append_operator, trimmed_of_ends A hA.headNoSpace hA.lastNoSpace]
  have hq : (qs "<<").length = 2 := rfl
  have hgt : ((A.length : Int) > 0) := by omega
  unfold findOperatorWith operatorNames
  rw [findOperatorLoop]
  simp only [i1]
  rw [findOperatorLoop]
  simp only [i2]
  rw [findOperatorLoop]
  simp only [i3, Nat.zero_add, Int.toNat_ofNat, hq, hmid, hr, hv, hleft, hgt, if_true]
  simp

/-- The value of an operand whose operator was found with an integer literal
on its left. -/
theorem figureOutEnumValue_of_operator (useSet : Bool) (fuel size : Nat) (W A : QString)
    (a : Int) (op : Operator) (x : Int) (old : QVariant) (global meta_enum : Option Nat)
    (b : Builder) (hW : PlainOperand W) (hparse : parseLiteral size A = (QVariant.int a, true))
    (hfind : findOperatorWith (figureOutEnumValue useSet fuel) size W global meta_enum b
      = some (op, A, b))
    (hcalc : op.calculate (QVariant.int a) = QVariant.int x) :
    figureOutEnumValue useSet (fuel + 1) size W old global meta_enum b
      = some (QVariant.int x, b) := by
  have hne : W.isEmpty = false := by
    cases W with
    | nil => exact absurd rfl hW.nonempty
    | cons _ _ => rfl
  show figureOutEnumValueBody _ useSet size W old global meta_enum b = _
  unfold figureOutEnumValueBody
  simp only [hne, Bool.false_eq_true, if_false, prepareExpression_plain W hW, evalOperands,
    evalOperand, prepareOperand_plain W hW, hfind, hparse, if_true]
  simp [operandOutput, combineOperands, hcalc, QVariant.isString, QVariant.isValid]

theorem figureOutEnumValue_minus (useSet : Bool) (fuel size : Nat) (A R : QString) (a r : Int)
    (old : QVariant) (global meta_enum : Option Nat) (b : Builder)
    (hA : IntegerLiteral size A a) (hR : RightOperand R)
    (hr : figureOutEnumValue useSet fuel size R (QVariant.str R) global meta_enum b
      = some (QVariant.int r, b)) :
    figureOutEnumValue useSet (fuel + 1) size (A ++ (qs "-" ++ R)) old global meta_enum b
      = some (QVariant.int (wrap (widthOf size) (a - r)), b) := by
  apply figureOutEnumValue_of_operator useSet fuel size _ A a
    { type := OperatorType.Minus, size := size, value := QVariant.int r }
  · exact plain_binary A R '-' [] hA.plain hA.noMinus hR (by decide) (by decide)
      ⟨by simp, by simp⟩
  · exact hA.parses
  · exact findOperatorWith_minus _ size A R _ global meta_enum b hA.plain hA.noPlus hA.noMinus
      hR.noPlus hr rfl
  · simp only [Operator.calculate, QVariant.isValid, if_true, QVariant.toInt, hA.inRange,
      wrap_sub_wrap]

theorem figureOutEnumValue_shift (useSet : Bool) (fuel size : Nat) (A R : QString) (a r : Int)
    (old : QVariant) (global meta_enum : Option Nat) (b : Builder)
    (hA : IntegerLiteral size A a) (hR : RightOperand R) (hRm : '-' ∉ R)
    (hrange : wrap (widthOf size) r = r)
    (hr : figureOutEnumValue useSet fuel size R (QVariant.str R) global meta_enum b
      = some (QVariant.int r, b)) :
    figureOutEnumValue useSet (fuel + 1) size (A ++ (qs "<<" ++ R)) old global meta_enum b
      = some (QVariant.int (shiftLeft (widthOf size) a r), b) := by
  apply figureOutEnumValue_of_operator useSet fuel size _ A a
    { type := OperatorType.ShiftLeft, size := size, value := QVariant.int r }
  · exact plain_binary A R '<' ['<'] hA.plain hA.noShift hR (by decide) (by decide)
      ⟨by decide, by decide⟩
  · exact hA.parses
  · exact findOperatorWith_shift _ size A R _ global meta_enum b hA.plain hA.noPlus hA.noMinus
      hA.noShift hR.noPlus hRm hr rfl
  · simp only [Operator.calculate, QVariant.toInt, hA.inRange, hrange]

theorem rightOperand_of_literal (size : Nat) (s : QString) (a : Int)
    (h : IntegerLiteral size s a) : RightOperand s :=
  ⟨h.plain.nonempty, h.plain.lastNoSpace, h.plain.noBar, h.plain.noParen, h.noPlus⟩

theorem rightOperand_binary (size : Nat) (B C k : QString) (x y : Int)
    (hB : IntegerLiteral size B x) (hC : IntegerLiteral size C y)
    (hk : '|' ∉ k ∧ '(' ∉ k ∧ '+' ∉ k) : RightOperand (B ++ (k ++ C)) where
  nonempty := by
    cases B with
    | nil => exact absurd rfl hB.plain.nonempty
    | cons _ _ => simp
  lastNoSpace := by
    have hl : (B ++ (k ++ C)).getLast? = C.getLast? := by
      rw [← List.append_assoc, List.getLast?_append_of_ne_nil _ hC.plain.nonempty]
    rw [hl]
    exact hC.plain.lastNoSpace
  noBar := by
    simp only [List.mem_append, not_or]
    exact ⟨hB.plain.noBar, hk.1, hC.plain.noBar⟩
  noParen := by
    simp only [List.mem_append, not_or]
    exact ⟨hB.plain.noParen, hk.2.1, hC.plain.noParen⟩
  noPlus := by
    simp only [List.mem_append, not_or]
    exact ⟨hB.noPlus, hk.2.2, hC.noPlus⟩

/-- C37: for texts `A`, `B` and `C` that `figureOutEnumValue` reads as the
integer literals `a`, `b` and `c` at the width `w` of the enum size, the text
`A-B-C` evaluates to `a-(b-c)` and the text `A<<B<<C` to `a<<(b<<c)`, both in
`w`-bit arithmetic: the operator is split off at its first occurrence and
everything to its right is evaluated first. -/
theorem figureOutEnumValue_chain_nests_right (useSet : Bool) (fuel size : Nat)
    (A B C : QString) (a b c : Int) (old : QVariant) (global meta_enum : Option Nat)
    (bld : Builder) (hA : IntegerLiteral size A a) (hB : IntegerLiteral size B b)
    (hC : IntegerLiteral size C c) :
    figureOutEnumValue useSet (fuel + 3) size (A ++ qs "-" ++ B ++ qs "-" ++ C) old global
        meta_enum bld
      = some (QVariant.int (wrap (widthOf size) (a - (b - c))), bld)
    ∧ figureOutEnumValue useSet (fuel + 3) size (A ++ qs "<<" ++ B ++ qs "<<" ++ C) old global
        meta_enum bld
      = some (QVariant.int (shiftLeft (widthOf size) a (shiftLeft (widthOf size) b c)), bld) := by
  have hc := fun o => figureOutEnumValue_integer_literal useSet fuel size C c o global meta_enum
    bld hC
  constructor
  · have e : A ++ qs "-" ++ B ++ qs "-" ++ C = A ++ (qs "-" ++ (B ++ (qs "-" ++ C))) := by
      simp only [List.append_assoc]
    rw [e, ← wrap_sub_wrap]
    apply figureOutEnumValue_minus useSet (fuel + 2) size A _ a _ old global meta_enum bld hA
      (rightOperand_binary size B C (qs "-") b c hB hC ⟨by decide, by decide, by decide⟩)
    exact figureOutEnumValue_minus useSet (fuel + 1) size B C b c _ global meta_enum bld hB
      (rightOperand_of_literal size C c hC) (hc _)
  · have e : A ++ qs "<<" ++ B ++ qs "<<" ++ C = A ++ (qs "<<" ++ (B ++ (qs "<<" ++ C))) := by
      simp only [List.append_assoc]
    rw [e]
    apply figureOutEnumValue_shift useSet (fuel + 2) size A _ a _ old global meta_enum bld hA
      (rightOperand_binary size B C (qs "<<") b c hB hC ⟨by decide, by decide, by decide⟩)
    · simp only [List.mem_append, not_or]
      exact ⟨hB.noMinus, by decide, hC.noMinus⟩
    · exact shiftLeft_inRange _ _ _
    · exact figureOutEnumValue_shift useSet (fuel + 1) size B C b c _ global meta_enum bld hB
        (rightOperand_of_literal size C c hC) hC.noMinus hC.inRange (hc _)

theorem integerLiteral_10 : IntegerLiteral 32 (qs "10") 10 :=
  ⟨⟨by decide, by decide, by decide, by decide, by decide, by decide, by decide, by decide⟩,
    by decide, by decide, by decide, by decide, by decide!, by decide⟩

theorem integerLiteral_3 : IntegerLiteral 32 (qs "3") 3 :=
  ⟨⟨by decide, by decide, by decide, by decide, by decide, by decide, by decide, by decide⟩,
    by decide, by decide, by decide, by decide, by decide!, by decide⟩

theorem integerLiteral_2 : IntegerLiteral 32 (qs "2") 2 :=
  ⟨⟨by decide, by decide, by decide, by decide, by decide, by decide, by decide, by decide⟩,
    by decide, by decide, by decide, by decide, by decide!, by decide⟩

/-- An instance of `figureOutEnumValue_chain_nests_right`: at width 32 `10-3-2`
gives 9 (and not 5) and `10<<3<<2` gives `10<<12`. -/
theorem figureOutEnumValue_chain_nests_right_witness :
    (figureOutEnumValue true 3 32 (qs "10-3-2") QVariant.invalid none none {}
        = some (QVariant.int 9, {})
      ∧ figureOutEnumValue true 3 32 (qs "10<<3<<2") QVariant.invalid none none {}
        = some (QVariant.int 40960, {}))
      ∧ (10 - 3 - 2 : Int) = 5 :=
  ⟨figureOutEnumValue_chain_nests_right true 0 32 (qs "10") (qs "3") (qs "2") 10 3 2
      QVariant.invalid none none {} integerLiteral_10 integerLiteral_3 integerLiteral_2,
    by decide⟩

/-! ## Enum values: the warning about duplicate values -/

theorem checkDuplicates_ws (clsName : QString) (e : MetaEnum) (values : List MetaEnumValue)
    (entries : List (Int × MetaEnumValue)) (ws : List Warning) :
    (checkDuplicates clsName e values entries ws).2
        = ws ++ (checkDuplicates clsName e values entries []).2
      ∧ (checkDuplicates clsName e values entries ws).1
        = (checkDuplicates clsName e values entries []).1
      ∧ ∀ w ∈ (checkDuplicates clsName e values entries []).2, w.isDuplicateEnumValues = true := by
  induction values generalizing entries ws with
  | nil => simp [checkDuplicates]
  | cons v rest ih =>
    rw [checkDuplicates, checkDuplicates]
    simp only []
    split
    · split
      · obtain ⟨h1, h2, h3⟩ := ih entries
          (ws ++ [Warning.duplicateEnumValues clsName e.name v.name
            (((entries.find? (fun p => p.1 == v.value.toInt 64)).map (fun p => p.2)).map
              (fun c => c.name) |>.getD []) (v.value.toInt 64) e.typeEntry.enumValueRejections])
        obtain ⟨g1, g2, g3⟩ := ih entries
          ([] ++ [Warning.duplicateEnumValues clsName e.name v.name
            (((entries.find? (fun p => p.1 == v.value.toInt 64)).map (fun p => p.2)).map
              (fun c => c.name) |>.getD []) (v.value.toInt 64) e.typeEntry.enumValueRejections])
        refine ⟨?_, ?_, ?_⟩
        · rw [h1, g1]
          simp
        · rw [h2, g2]
        · intro w hw
          rw [g1] at hw
          simp only [List.nil_append, List.singleton_append, List.mem_cons] at hw
          rcases hw with hw | hw
          · subst hw
            rfl
          · exact g3 w hw
      · split
        · exact ih _ ws
        · exact ih _ ws
    · exact ih _ ws

theorem redirectRejected_ws (clsName : QString) (entries : List (Int × MetaEnumValue))
    (values : List MetaEnumValue) (ete : EnumTypeEntry) (ws : List Warning) :
    ∃ extra, (redirectRejected clsName entries values ete ws).2 = ws ++ extra
      ∧ ∀ w ∈ extra, w.isDuplicateEnumValues = false := by
  induction values generalizing ete ws with
  | nil => exact ⟨[], by simp [redirectRejected], by simp⟩
  | cons v rest ih =>
    rw [redirectRejected]
    split
    · exact ih ete ws
    · split
      · split
        · obtain ⟨extra, h1, h2⟩ := ih ete
            (ws ++ [Warning.rejectedEnumHasNoAlternative clsName v.name])
          refine ⟨Warning.rejectedEnumHasNoAlternative clsName v.name :: extra, ?_, ?_⟩
          · rw [h1]
            simp
          · intro w hw
            rcases List.mem_cons.mp hw with hw | hw
            · subst hw
              rfl
            · exact h2 w hw
        · exact ih _ ws
      · exact ih ete ws

/-- The pairs the check meets from a given table of entries on. -/
theorem checkDuplicates_iff_from (clsName : QString) (e : MetaEnum)
    (values : List MetaEnumValue) (entries : List (Int × MetaEnumValue))
    (hent : ∀ p ∈ entries, e.typeEntry.isEnumValueRejected p.2.name = false) :
    (checkDuplicates clsName e values entries []).2 ≠ []
      ↔ ∃ l1 c l3, values = l1 ++ c :: l3 ∧ keptInteger e.typeEntry c = true
          ∧ ((∃ p ∈ entries, p.1 = c.value.toInt 64)
            ∨ ∃ a ∈ l1, keptInteger e.typeEntry a = true
                ∧ a.value.toInt 64 = c.value.toInt 64) := by
  induction values generalizing entries with
  | nil => simp [checkDuplicates]
  | cons v rest ih =>
    have skip : keptInteger e.typeEntry v = false →
        ((∃ l1 c l3, v :: rest = l1 ++ c :: l3 ∧ keptInteger e.typeEntry c = true
          ∧ ((∃ p ∈ entries, p.1 = c.value.toInt 64)
            ∨ ∃ a ∈ l1, keptInteger e.typeEntry a = true
                ∧ a.value.toInt 64 = c.value.toInt 64))
        ↔ ∃ l1 c l3, rest = l1 ++ c :: l3 ∧ keptInteger e.typeEntry c = true
          ∧ ((∃ p ∈ entries, p.1 = c.value.toInt 64)
            ∨ ∃ a ∈ l1, keptInteger e.typeEntry a = true
                ∧ a.value.toInt 64 = c.value.toInt 64)) := by
      intro hk
      constructor
      · rintro ⟨l1, c, l3, hsplit, hc, hor⟩
        cases l1 with
        | nil =>
          simp only [List.nil_append, List.cons.injEq] at hsplit
          rw [← hsplit.1, hk] at hc
          exact absurd hc (by simp)
        | cons x l1 =>
          simp only [List.cons_append, List.cons.injEq] at hsplit
          refine ⟨l1, c, l3, hsplit.2, hc, ?_⟩
          rcases hor with hor | ⟨a, ha, hka, hkey⟩
          · exact Or.inl hor
          · rcases List.mem_cons.mp ha with ha | ha
            · rw [ha, ← hsplit.1, hk] at hka
              exact absurd hka (by simp)
            · exact Or.inr ⟨a, ha, hka, hkey⟩
      · rintro ⟨l1, c, l3, hsplit, hc, hor⟩
        refine ⟨v :: l1, c, l3, by rw [hsplit]; rfl, hc, ?_⟩
        rcases hor with hor | ⟨a, ha, hka, hkey⟩
        · exact Or.inl hor
        · exact Or.inr ⟨a, List.mem_cons_of_mem _ ha, hka, hkey⟩
    rw [checkDuplicates]
    simp only []
    cases hint : (v.value.isValid && !v.value.isString) with
    | false =>
      simp only [Bool.false_eq_true, if_false]
      rw [ih entries hent, skip (by simp [keptInteger, hint])]
    | true =>
      simp only [if_true]
      cases hfind : entries.find? (fun p => p.1 == v.value.toInt 64) with
      | some p =>
        have hp : p ∈ entries := List.mem_of_find?_eq_some hfind
        have hpk : p.1 = v.value.toInt 64 := by
          have := List.find?_some hfind
          simpa using this
        cases hrej : e.typeEntry.isEnumValueRejected v.name with
        | true =>
          simp only [Option.map_some', hent p hp, Bool.not_false, Bool.not_true, Bool.and_false,
            Bool.false_eq_true, if_false]
          rw [ih entries hent, skip (by simp [keptInteger, hrej])]
        | false =>
          have hkv : keptInteger e.typeEntry v = true := by simp [keptInteger, hint, hrej]
          simp only [Option.map_some', hent p hp, Bool.not_false, Bool.and_self, if_true]
          constructor
          · intro _
            exact ⟨[], v, rest, rfl, hkv, Or.inl ⟨p, hp, hpk⟩⟩
          · intro _
            rw [(checkDuplicates_ws clsName e rest entries _).1]
            simp
      | none =>
        have hno : ∀ p ∈ entries, p.1 ≠ v.value.toInt 64 := by
          intro p hp
          have := List.find?_eq_none.mp hfind p hp
          simpa using this
        cases hrej : e.typeEntry.isEnumValueRejected v.name with
        | true =>
          simp only [Option.map_none', Bool.not_true, Bool.false_eq_true, if_false]
          rw [ih entries hent, skip (by simp [keptInteger, hrej])]
        | false =>
          have hkv : keptInteger e.typeEntry v = true := by simp [keptInteger, hint, hrej]
          simp only [Option.map_none', Bool.false_eq_true, if_false, Bool.not_false, if_true]
          rw [ih _ (by
            intro p hp
            rcases List.mem_cons.mp hp with hp | hp
            · rw [hp]
              exact hrej
            · exact hent p (List.mem_filter.mp hp).1)]
          constructor
          · rintro ⟨l1, c, l3, hsplit, hc, hor⟩
            refine ⟨v :: l1, c, l3, by rw [hsplit]; rfl, hc, ?_⟩
            rcases hor with ⟨p, hp, hpk⟩ | ⟨a, ha, hka, hkey⟩
            · rcases List.mem_cons.mp hp with hp | hp
              · right
                refine ⟨v, List.mem_cons_self _ _, hkv, ?_⟩
                rw [← hpk, hp]
              · exact Or.inl ⟨p, (List.mem_filter.mp hp).1, hpk⟩
            · exact Or.inr ⟨a, List.mem_cons_of_mem _ ha, hka, hkey⟩
          · rintro ⟨l1, c, l3, hsplit, hc, hor⟩
            cases l1 with
            | nil =>
              simp only [List.nil_append, List.cons.injEq] at hsplit
              rcases hor with ⟨p, hp, hpk⟩ | ⟨a, ha, _, _⟩
              · rw [← hsplit.1] at hpk
                exact absurd hpk (hno p hp)
              · simp at ha
            | cons x l1 =>
              simp only [List.cons_append, List.cons.injEq] at hsplit
              refine ⟨l1, c, l3, hsplit.2, hc, ?_⟩
              have hx : x = v := hsplit.1.symm
              subst hx
              by_cases hkey : c.value.toInt 64 = x.value.toInt 64
              · left
                exact ⟨(x.value.toInt 64, x), List.mem_cons_self _ _, hkey.symm⟩
              · rcases hor with ⟨p, hp, hpk⟩ | ⟨a, ha, hka, hak⟩
                · left
                  refine ⟨p, List.mem_cons_of_mem _ (List.mem_filter.mpr ⟨hp, ?_⟩), hpk⟩
                  simp only [bne_iff_ne, ne_eq]
                  rw [hpk]
                  exact hkey
                · rcases List.mem_cons.mp ha with ha | ha
                  · rw [ha] at hak
                    exact absurd hak.symm hkey
                  · exact Or.inr ⟨a, ha, hka, hak⟩

theorem checkDuplicates_iff (clsName : QString) (e : MetaEnum) (values : List MetaEnumValue) :
    (checkDuplicates clsName e values [] []).2 ≠ [] ↔ DuplicatePair e.typeEntry values := by
  rw [checkDuplicates_iff_from clsName e values [] (by simp)]
  constructor
  · rintro ⟨l1, c, l3, hsplit, hc, hor⟩
    rcases hor with ⟨p, hp, _⟩ | ⟨a, ha, hka, hkey⟩
    · simp at hp
    · obtain ⟨s, t, hst⟩ := List.append_of_mem ha
      refine ⟨s, a, t, c, l3, ?_, hka, hc, hkey⟩
      rw [hsplit, hst]
      simp
  · rintro ⟨l1, a, l2, c, l3, hsplit, hka, hc, hkey⟩
    refine ⟨l1 ++ a :: l2, c, l3, ?_, hc, Or.inr ⟨a, by simp, hka, hkey⟩⟩
    rw [hsplit]
    simp

/-- C36: when the loop over the constants of the enum `e` of a class ends in
the state `b1` and the enum is not forced to integer, the pass over the enum
adds messages to those reported so far, and the warning about duplicate enum
values is among the added ones if and only if two enumerators of `e` that are
both not rejected hold the same integer value in `b1`. -/
theorem figureOutEnumsOfClass_duplicate_warning_iff (fuel : Nat) (clsName : QString) (e : Nat)
    (hasString hasString1 : Bool) (b b1 : Builder)
    (hloop : figureOutEnumConstants fuel e (b.enum e).values (QVariant.int 0) hasString b
      = some (hasString1, b1))
    (hforce : (b1.enum e).typeEntry.forceInteger = false) :
    ∃ b2 added, figureOutEnumsOfClass fuel clsName [e] hasString b = some (hasString1, b2)
      ∧ b2.reported = b1.reported ++ added
      ∧ ((∃ w ∈ added, w.isDuplicateEnumValues = true)
        ↔ DuplicatePair (b1.enum e).typeEntry ((b1.enum e).values.map b1.value)) := by
  obtain ⟨h1, _, h3⟩ := checkDuplicates_ws clsName (b1.enum e) ((b1.enum e).values.map b1.value)
    [] []
  obtain ⟨extra, hx1, hx2⟩ := redirectRejected_ws clsName
    (checkDuplicates clsName (b1.enum e) ((b1.enum e).values.map b1.value) [] []).1
    ((b1.enum e).values.map b1.value) (b1.enum e).typeEntry
    (checkDuplicates clsName (b1.enum e) ((b1.enum e).values.map b1.value) [] []).2
  rw [figureOutEnumsOfClass, hloop]
  simp only [hforce, Bool.not_false, if_true, figureOutEnumsOfClass]
  refine ⟨_, (checkDuplicates clsName (b1.enum e) ((b1.enum e).values.map b1.value) [] []).2
    ++ extra, rfl, ?_, ?_⟩
  · simp only [hx1]
  · rw [← checkDuplicates_iff]
    constructor
    · rintro ⟨w, hw, hd⟩
      rcases List.mem_append.mp hw with hw | hw
      · exact List.ne_nil_of_mem hw
      · rw [hx2 w hw] at hd
        exact absurd hd (by simp)
    · intro hne
      obtain ⟨w, hw⟩ := List.exists_mem_of_ne_nil _ hne
      exact ⟨w, List.mem_append_left _ hw, h3 w hw⟩

/-- An instance of `figureOutEnumsOfClass_duplicate_warning_iff`: the enum
`{A = 1, B = 1}`, for which the warning is given. -/
theorem figureOutEnumsOfClass_duplicate_warning_iff_witness :
    ∃ b2 added,
      figureOutEnumsOfClass 3 (qs "Foo") [0] false
          (classEnumBuilder 32 [(qs "A", qs "1"), (qs "B", qs "1")]) = some (false, b2)
      ∧ b2.reported = duplicateBuilder.reported ++ added
      ∧ ((∃ w ∈ added, w.isDuplicateEnumValues = true)
        ↔ DuplicatePair (duplicateBuilder.enum 0).typeEntry
            ((duplicateBuilder.enum 0).values.map duplicateBuilder.value)) :=
  figureOutEnumsOfClass_duplicate_warning_iff 3 (qs "Foo") 0 false false
    (classEnumBuilder 32 [(qs "A", qs "1"), (qs "B", qs "1")]) duplicateBuilder
    rfl rfl

/-! ## filter_functions -/

theorem argumentListText_eq (env : OperatorEnv) (f : MetaFunction) :
    midN (env.minimalSignature f) (indexOfChar (env.minimalSignature f) '(' + 1).toNat
        (lastIndexOfChar (env.minimalSignature f) ')'
          - (indexOfChar (env.minimalSignature f) '(' + 1))
      = argumentListText env f := rfl

theorem filter_functions_spec (env : OperatorEnv) (lst : List MetaFunction)
    (signatures : List QString) (log : ModificationLog) :
    (∀ f ∈ (filter_functions env lst signatures log).1, f.wasPrivate = false ∧ f ∈ lst)
      ∧ ((filter_functions env lst signatures log).1.map (argumentListText env)).Nodup
      ∧ (∀ f ∈ (filter_functions env lst signatures log).1,
          argumentListText env f ∉ signatures)
      ∧ (filter_functions env lst signatures log).2.1
          = signatures ++ (filter_functions env lst signatures log).1.map (argumentListText env)
      ∧ ∃ removed : List MetaFunction,
          (filter_functions env lst signatures log).2.2 = log ++ removed.map (removalOf env)
            ∧ List.Perm (lst.filter (fun f => !f.wasPrivate))
                ((filter_functions env lst signatures log).1 ++ removed)
            ∧ ∀ f ∈ removed, argumentListText env f ∈ (filter_functions env lst signatures log).2.1 := by
  induction lst generalizing signatures log with
  | nil => exact ⟨by simp [filter_functions], by simp [filter_functions],
      by simp [filter_functions], by simp [filter_functions], [], by simp [filter_functions]⟩
  | cons f lst ih =>
    rw [filter_functions]
    cases hp : f.wasPrivate with
    | true =>
      simp only [if_true]
      obtain ⟨h1, h2, h3, h4, removed, h5, h6, h7⟩ := ih signatures log
      refine ⟨fun g hg => ⟨(h1 g hg).1, List.mem_cons_of_mem _ (h1 g hg).2⟩, h2, h3, h4,
        removed, h5, ?_, h7⟩
      simpa [List.filter, hp] using h6
    | false =>
      simp only [Bool.false_eq_true, if_false]
      rw [argumentListText_eq]
      cases hc : signatures.contains (argumentListText env f) with
      | true =>
        simp only [if_true]
        obtain ⟨h1, h2, h3, h4, removed, h5, h6, h7⟩ := ih signatures (remove_function env f log)
        refine ⟨fun g hg => ⟨(h1 g hg).1, List.mem_cons_of_mem _ (h1 g hg).2⟩, h2, h3, h4,
          f :: removed, ?_, ?_, ?_⟩
        · rw [h5]
          simp [remove_function, removalOf]
        · simp only [List.filter, hp, Bool.not_false]
          exact (List.Perm.cons f h6).trans List.perm_middle.symm
        · intro g hg
          rcases List.mem_cons.mp hg with hg | hg
          · rw [hg, h4]
            exact List.mem_append_left _ (by simpa using hc)
          · exact h7 g hg
      | false =>
        simp only [Bool.false_eq_true, if_false]
        obtain ⟨h1, h2, h3, h4, removed, h5, h6, h7⟩ :=
          ih (signatures ++ [argumentListText env f]) log
        have hnot : argumentListText env f ∉ signatures := by simpa using hc
        refine ⟨?_, ?_, ?_, ?_, removed, h5, ?_, ?_⟩
        · intro g hg
          rcases List.mem_cons.mp hg with hg | hg
          · rw [hg]
            exact ⟨hp, List.mem_cons_self _ _⟩
          · exact ⟨(h1 g hg).1, List.mem_cons_of_mem _ (h1 g hg).2⟩
        · simp only [List.map_cons, List.nodup_cons]
          refine ⟨?_, h2⟩
          intro hmem
          obtain ⟨g, hg, hge⟩ := List.mem_map.mp hmem
          exact h3 g hg (by rw [hge]; simp)
        · intro g hg
          rcases List.mem_cons.mp hg with hg | hg
          · rw [hg]
            exact hnot
          · exact fun hm => h3 g hg (List.mem_append_left _ hm)
        · simp only [h4, List.map_cons, List.append_assoc, List.singleton_append]
        · simp only [List.filter, hp, Bool.not_false, List.cons_append]
          exact List.Perm.cons f h6
        · simpa using h7

/-- C39: the list `filter_functions` returns holds no function that was
private; the argument-list texts of the minimal signatures of its functions are
pairwise different and none of them was in the signature set before the call,
so that a second call on the signature set left by the first returns only
functions whose texts differ from each other and from those of the first list;
and the functions that were not private are exactly the returned ones together
with those for which the call added a removal modification to the log. -/
theorem filter_functions_keeps_one_per_signature (env : OperatorEnv)
    (lst lst2 : List MetaFunction) (signatures : List QString) (log : ModificationLog) :
    (∀ f ∈ (filter_functions env lst signatures log).1, f.wasPrivate = false)
      ∧ ((filter_functions env lst signatures log).1.map (argumentListText env)).Nodup
      ∧ (∀ f ∈ (filter_functions env lst signatures log).1,
          argumentListText env f ∉ signatures)
      ∧ (((filter_functions env lst signatures log).1
            ++ (filter_functions env lst2 (filter_functions env lst signatures log).2.1
                (filter_functions env lst signatures log).2.2).1).map
          (argumentListText env)).Nodup
      ∧ ∃ removed : List MetaFunction,
          (filter_functions env lst signatures log).2.2 = log ++ removed.map (removalOf env)
            ∧ List.Perm (lst.filter (fun f => !f.wasPrivate))
                ((filter_functions env lst signatures log).1 ++ removed) := by
  obtain ⟨h1, h2, h3, h4, removed, h5, h6, _⟩ := filter_functions_spec env lst signatures log
  obtain ⟨_, g2, g3, _, _⟩ := filter_functions_spec env lst2
    (filter_functions env lst signatures log).2.1 (filter_functions env lst signatures log).2.2
  refine ⟨fun f hf => (h1 f hf).1, h2, h3, ?_, removed, h5, h6⟩
  rw [List.map_append]
  refine List.Nodup.append h2 g2 ?_
  intro t ht1 ht2
  obtain ⟨g, hg, hge⟩ := List.mem_map.mp ht2
  apply g3 g hg
  rw [h4, hge]
  exact List.mem_append_right _ ht1

/-! ## traverseFunction: default values before one that does not translate -/

theorem translateDefaults_first (env : TraverseEnv) (c : MetaClass) (meta_function : MetaFunction)
    (size : Nat) (meta_arguments : List MetaArgument) :
    ∀ (i : Nat) (items : List ArgumentModelItem) (seen : List MetaArgument) (first : Nat),
      (first ≤ i → first ≤ (translateDefaults env c meta_function size i meta_arguments items
          seen first).2)
      ∧ ∀ k ∈ untranslatedDefaults env c meta_function size i meta_arguments items seen,
          k ≤ (translateDefaults env c meta_function size i meta_arguments items seen first).2 := by
  induction meta_arguments with
  | nil =>
    intro i items seen first
    simp [translateDefaults, untranslatedDefaults]
  | cons meta_arg rest ih =>
    intro i items seen first
    cases items with
    | nil => simp [translateDefaults, untranslatedDefaults]
    | cons arg items =>
      simp only [translateDefaults, untranslatedDefaults]
      split_ifs
      all_goals first
        | exact ⟨fun h => (ih (i + 1) _ _ first).1 (by omega), (ih (i + 1) _ _ first).2⟩
        | (refine ⟨fun h => le_trans h ((ih (i + 1) _ _ i).1 (by omega)), ?_⟩
           intro k hk
           rcases List.mem_cons.mp hk with hk | hk
           · rw [hk]
             exact (ih (i + 1) _ _ i).1 (by omega)
           · exact (ih (i + 1) _ _ i).2 k hk)

theorem resetDefaults_get (meta_arguments : List MetaArgument) (first j : Nat) (a : MetaArgument)
    (hj : j < first) (h : (resetDefaults meta_arguments first).get? j = some a) :
    a.defaultValueExpression = [] := by
  unfold resetDefaults at h
  rw [List.get?_eq_getElem?, List.getElem?_map, List.getElem?_enum] at h
  cases hm : meta_arguments[j]? with
  | none => simp [hm] at h
  | some x =>
    simp only [hm, Option.map_some', Option.some.injEq, hj, if_true] at h
    rw [← h]

/-! ## Enum values: what the evaluation leaves alone -/

@[simp] theorem shape_setValue (b : Builder) (i : Nat) (v : QVariant) :
    (b.setValue i v).shape = b.shape := rfl

@[simp] theorem shape_warn (b : Builder) (useSet : Bool) (msg : QString) :
    (b.warn useSet msg).shape = b.shape := by
  unfold Builder.warn
  split_ifs <;> rfl

theorem computeTarget_shape (self : EvalFn) (hself : KeepsShape self) (size ev : Nat)
    (old : QVariant) (global : Option Nat) (target : Nat) (v : QVariant) (b : Builder)
    (r : QVariant × Bool × Builder)
    (h : computeTarget self size ev old global target v b = some r) :
    r.2.2.shape = b.shape := by
  unfold computeTarget at h
  cases hs : self size (b.value ev).stringValue old global (some target) b with
  | none => simp [hs] at h
  | some p =>
    obtain ⟨x, b1⟩ := p
    have := hself _ _ _ _ _ _ _ _ hs
    simp only [hs] at h
    split_ifs at h <;> cases h <;> simpa using this

theorem valueOrCompute_shape (self : EvalFn) (hself : KeepsShape self) (size ev : Nat)
    (global : Option Nat) (target : Nat) (v : QVariant) (b : Builder)
    (r : QVariant × Builder)
    (h : valueOrCompute self size ev global target v b = some r) :
    r.2.shape = b.shape := by
  unfold valueOrCompute at h
  split_ifs at h
  · simp only [Option.map_eq_some'] at h
    obtain ⟨p, hp, he⟩ := h
    rw [← he]
    exact computeTarget_shape self hself _ _ _ _ _ _ _ _ hp
  · cases h
    rfl

theorem computeInGlobalClasses_shape (self : EvalFn) (hself : KeepsShape self) (ev : Nat)
    (ownerTypeName : QString) (l : List Nat) (b : Builder) (r : QVariant × Bool × Builder)
    (h : computeInGlobalClasses self ev ownerTypeName l b = some r) :
    r.2.2.shape = b.shape := by
  induction l generalizing b with
  | nil =>
    simp only [computeInGlobalClasses] at h
    cases h
    rfl
  | cons c rest ih =>
    simp only [computeInGlobalClasses] at h
    split_ifs at h
    · split at h
      · rename_i target _
        cases hc : computeTarget self (b.enum target).typeEntry.size ev
            (QVariant.int (b.indexOfValue target ev)) (some c) target QVariant.invalid b with
        | none => simp [hc] at h
        | some p =>
          obtain ⟨x, f, b1⟩ := p
          have hp := computeTarget_shape self hself _ _ _ _ _ _ _ _ hc
          simp only [hc] at h
          cases f with
          | true =>
            cases h
            exact hp
          | false =>
            exact (ih b1 h).trans hp
      · exact ih b h
    · exact ih b h

theorem resolveRegistered_attempt_shape (self : EvalFn) (hself : KeepsShape self)
    (ownerTypeName : QString) (ev : Nat) (global : Option Nat) (b : Builder)
    (r : QVariant × Bool × Builder)
    (h : (match b.findClass ownerTypeName with
        | some _ => some (QVariant.invalid, false, b)
        | none =>
          if contains ownerTypeName (qs "::") then some (QVariant.invalid, false, b)
          else
            match global with
            | some g =>
              match b.findEnum g ownerTypeName with
              | some target =>
                computeTarget self (b.enum target).typeEntry.size ev
                  (QVariant.int (b.indexOfValue target ev)) global target QVariant.invalid b
              | none => some (QVariant.invalid, false, b)
            | none => computeInGlobalClasses self ev ownerTypeName b.m_meta_classes b) = some r) :
    r.2.2.shape = b.shape := by
  split at h
  · cases h
    rfl
  · split at h
    · cases h
      rfl
    · split at h
      · split at h
        · exact computeTarget_shape self hself _ _ _ _ _ _ _ _ h
        · cases h
          rfl
      · exact computeInGlobalClasses_shape self hself _ _ _ _ _ h

theorem resolveRegistered_shape (self : EvalFn) (hself : KeepsShape self) (useSet : Bool)
    (s : QString) (ev : Nat) (global : Option Nat) (b : Builder) (r : QVariant × Builder)
    (h : resolveRegistered self useSet s ev global b = some r) :
    r.2.shape = b.shape := by
  simp only [resolveRegistered] at h
  split at h
  · split at h
    · split at h
      · cases h
      · rename_i v b1 hatt
        cases h
        exact resolveRegistered_attempt_shape self hself _ ev global b _ hatt
      · rename_i v b1 hatt
        cases h
        have key := resolveRegistered_attempt_shape self hself _ ev global b _ hatt
        dsimp only at key ⊢
        split_ifs <;> simpa using key
    · split at h
      · split at h
        · simp only [Option.map_eq_some'] at h
          obtain ⟨p, hp, he⟩ := h
          rw [← he]
          exact computeTarget_shape self hself _ _ _ _ _ _ _ _ hp
        · cases h
          rfl
      · cases h
        dsimp only
        split_ifs <;> simp
  · cases h
    rfl

theorem withEv_shape (self : EvalFn) (hself : KeepsShape self) (size ev : Nat)
    (global : Option Nat) (target : Nat) (v : QVariant) (b : Builder)
    (r : QVariant × Option Nat × Builder)
    (h : (valueOrCompute self size ev global target v b).map (fun p => (p.1, some ev, p.2))
      = some r) :
    r.2.2.shape = b.shape := by
  simp only [Option.map_eq_some'] at h
  obtain ⟨p, hp, he⟩ := h
  rw [← he]
  exact valueOrCompute_shape self hself _ _ _ _ _ _ _ hp

theorem tryName_shape (self : EvalFn) (hself : KeepsShape self) (ownerType global : Option Nat)
    (name : QString) (acc r : QVariant × Option Nat × Builder)
    (h : (match ownerType with
        | some o =>
          match acc.2.2.findEnumForValue o name with
          | some target =>
            match acc.2.2.findEnumValue o name (some target) with
            | some ev =>
              (valueOrCompute self (acc.2.2.enum target).typeEntry.size ev global target acc.1
                acc.2.2).map (fun p => (p.1, some ev, p.2))
            | none => some (acc.1, none, acc.2.2)
          | none => some acc
        | none => some acc) = some r) :
    r.2.2.shape = acc.2.2.shape := by
  split at h
  · split at h
    · split at h
      · exact withEv_shape self hself _ _ _ _ _ _ _ h
      · cases h
        rfl
    · cases h
      rfl
  · cases h
    rfl

theorem resolveUnregistered_shape (self : EvalFn) (hself : KeepsShape self)
    (s : QString) (global meta_enum : Option Nat) (b : Builder)
    (r : QVariant × Option Nat × Builder)
    (h : resolveUnregistered self s global meta_enum b = some r) :
    r.2.2.shape = b.shape := by
  simp only [resolveUnregistered] at h
  split at h
  · exact withEv_shape self hself _ _ _ _ _ _ _ h
  · split at h
    · split at h
      · split at h
        · simp only [Option.map_map, Option.map_eq_some'] at h
          obtain ⟨p, hp, he⟩ := h
          rw [← he]
          exact computeTarget_shape self hself _ _ _ _ _ _ _ _ hp
        · cases h
          rfl
      · cases h
        rfl
    · split at h
      · exact withEv_shape self hself _ _ _ _ _ _ _ h
      · split at h
        · exact withEv_shape self hself _ _ _ _ _ _ _ h
        · split at h
          · cases h
          · rename_i acc hacc
            exact (tryName_shape self hself _ _ _ _ _ h).trans
              (tryName_shape self hself _ _ _ (QVariant.invalid, none, b) _ hacc)

theorem findOperatorLoop_shape (self : EvalFn) (hself : KeepsShape self) (size : Nat)
    (global meta_enum : Option Nat) (names : List (OperatorType × QString)) (s : QString)
    (b : Builder) (r : Operator × QString × Builder)
    (h : findOperatorLoop self size global meta_enum names s b = some r) :
    r.2.2.shape = b.shape := by
  induction names generalizing b with
  | nil =>
    simp only [findOperatorLoop] at h
    cases h
    rfl
  | cons p rest ih =>
    obtain ⟨ty, name⟩ := p
    simp only [findOperatorLoop] at h
    split at h
    · split at h
      · cases h
      · rename_i value b1 hs
        have h1 := hself _ _ _ _ _ _ _ _ hs
        split at h
        · cases h
          exact h1
        · exact (ih b1 h).trans h1
    · split_ifs at h
      all_goals first
        | exact ih b h
        | (cases h
           rfl)

theorem evalOperand_shape (self : EvalFn) (hself : KeepsShape self) (useSet : Bool)
    (size : Nat) (global meta_enum : Option Nat) (operand : QString) (b : Builder)
    (r : (QString × QVariant × Bool) × Builder)
    (h : evalOperand self useSet size global meta_enum operand b = some r) :
    r.2.shape = b.shape := by
  simp only [evalOperand, findOperatorWith] at h
  split at h
  · cases h
  · rename_i op s b1 hf
    have h1 := findOperatorLoop_shape self hself _ _ _ _ _ _ _ hf
    split at h
    · cases h
      exact h1
    · split at h
      · split at h
        · cases h
        · rename_i v b2 hr
          cases h
          exact (resolveRegistered_shape self hself _ _ _ _ _ _ hr).trans h1
      · split at h
        · cases h
        · rename_i v ev b2 hr
          cases h
          exact (resolveUnregistered_shape self hself _ _ _ _ _ hr).trans h1

theorem evalOperands_shape (self : EvalFn) (hself : KeepsShape self) (useSet : Bool)
    (size : Nat) (global meta_enum : Option Nat) (operands : List QString) (b : Builder)
    (r : List (QString × QVariant × Bool) × Builder)
    (h : evalOperands self useSet size global meta_enum operands b = some r) :
    r.2.shape = b.shape := by
  induction operands generalizing b r with
  | nil =>
    simp only [evalOperands] at h
    cases h
    rfl
  | cons o rest ih =>
    simp only [evalOperands] at h
    split at h
    · cases h
    · rename_i out b1 he
      have h1 := evalOperand_shape self hself _ _ _ _ _ _ _ he
      split at h
      · cases h
      · rename_i outs b2 hr
        cases h
        exact (ih b1 _ hr).trans h1

theorem figureOutEnumValueBody_shape (self : EvalFn) (hself : KeepsShape self)
    (useSet : Bool) : KeepsShape (figureOutEnumValueBody self useSet) := by
  intro size s old global meta_enum b v b1 h
  simp only [figureOutEnumValueBody] at h
  split at h
  · cases h
    rfl
  · split at h
    · cases h
      rfl
    · split at h
      · cases h
      · rename_i outs b2 he
        have h1 := evalOperands_shape self hself _ _ _ _ _ _ _ he
        split_ifs at h <;> cases h <;> exact h1

theorem figureOutEnumValue_shape (useSet : Bool) (fuel : Nat) :
    KeepsShape (figureOutEnumValue useSet fuel) := by
  induction fuel with
  | zero =>
    intro size s old global meta_enum b v b1 h
    cases h
  | succ n ih => exact figureOutEnumValueBody_shape _ ih useSet

theorem figureOutEnumConstants_shape (fuel e : Nat) (vs : List Nat) (value : QVariant)
    (hasString : Bool) (b : Builder) (r : Bool × Builder)
    (h : figureOutEnumConstants fuel e vs value hasString b = some r) :
    r.2.shape = b.shape := by
  induction vs generalizing value hasString b with
  | nil =>
    simp only [figureOutEnumConstants] at h
    cases h
    rfl
  | cons v rest ih =>
    simp only [figureOutEnumConstants] at h
    split at h
    · cases h
    · rename_i value1 b1 hstep
      have h1 : b1.shape = b.shape := by
        split at hstep
        · split at hstep
          · cases hstep
          · rename_i x b2 hs
            have h2 := figureOutEnumValue_shape true fuel _ _ _ _ _ _ _ _ hs
            split at hstep <;> cases hstep <;> simpa using h2
        · cases hstep
          rfl
      exact (ih _ _ _ h).trans h1

theorem figureOutEnumsOfClass_classes (fuel : Nat) (clsName : QString) (es : List Nat)
    (hasString : Bool) (b : Builder) (r : Bool × Builder)
    (h : figureOutEnumsOfClass fuel clsName es hasString b = some r) :
    r.2.classes = b.classes := by
  induction es generalizing hasString b with
  | nil =>
    simp only [figureOutEnumsOfClass] at h
    cases h
    rfl
  | cons e rest ih =>
    simp only [figureOutEnumsOfClass] at h
    split at h
    · cases h
    · rename_i hs1 b1 hc
      have h1 : b1.classes = b.classes :=
        congrArg Prod.fst (figureOutEnumConstants_shape _ _ _ _ _ _ _ hc)
      rw [ih _ _ h]
      split_ifs <;> exact h1

/-! ## figureOutEnumValues: the retry rounds shrink the set of unresolved classes -/

theorem cls_of_classes (b b1 : Builder) (h : b1.classes = b.classes) (x : Nat) :
    b1.cls x = b.cls x := by
  unfold Builder.cls
  rw [h]

theorem BaseClosed.mono (b : Builder) (C C1 S : List Nat) (h : BaseClosed b C S)
    (hC : C ⊆ C1) : BaseClosed b C1 S := by
  intro x hx y hy
  rcases h x hx y hy with h1 | h1
  · exact Or.inl (hC h1)
  · exact Or.inr h1

theorem BaseClosed.congr (b b1 : Builder) (C S : List Nat) (hcls : ∀ x, b1.cls x = b.cls x)
    (h : BaseClosed b C S) : BaseClosed b1 C S := by
  intro x hx y hy
  rw [hcls] at hy
  exact h x hx y hy

theorem afterBase_step (n c : Nat) (C R : List Nat) (b : Builder)
    (hrec : ∀ y C R b C1 R1 b1, figureOutEnumValuesForClass n y C R b = some (C1, R1, b1) →
      ClassStep b y C R C1 R1 b1)
    (C1 R1 : List Nat) (b1 : Builder)
    (h : (match (b.cls c).baseClass with
        | some base =>
          if !C.contains base then figureOutEnumValuesForClass n base C R b
          else some (C, R, b)
        | none => some (C, R, b)) = some (C1, R1, b1)) :
    (∀ x, b1.cls x = b.cls x) ∧ C ⊆ C1 ∧ R ⊆ R1
      ∧ (∀ y, (b.cls c).baseClass = some y → y ∈ C1 ∨ y ∈ R1)
      ∧ (BaseClosed b C R → BaseClosed b C1 R1)
      ∧ (∀ S, c ∈ S → BaseClosed b C S → R ⊆ S → R1 ⊆ S)
      ∧ (R.Nodup → R1.Nodup) := by
  split at h
  · rename_i base hb
    split at h
    · rename_i hnot
      have st := hrec _ _ _ _ _ _ _ h
      refine ⟨st.cls, st.subC, st.subR, ?_, st.closed, ?_, st.nodup⟩
      · intro y hy
        rw [hb] at hy
        cases hy
        exact st.done
      · intro S hc hS hR
        have hbase : base ∈ S := by
          rcases hS c hc base hb with h1 | h1
          · simp at hnot
            exact absurd h1 hnot
          · exact h1
        exact st.within S hbase hS hR
    · rename_i hin
      cases h
      refine ⟨fun _ => rfl, fun _ h => h, fun _ h => h, ?_, id, fun S _ _ hR => hR, id⟩
      intro y hy
      rw [hb] at hy
      cases hy
      left
      simpa using hin
  · rename_i hb
    cases h
    refine ⟨fun _ => rfl, fun _ h => h, fun _ h => h, ?_, id, fun S _ _ hR => hR, id⟩
    intro y hy
    rw [hb] at hy
    cases hy

theorem figureOutEnumValuesForClass_step (fuel : Nat) :
    ∀ (c : Nat) (C R : List Nat) (b : Builder) (C1 R1 : List Nat) (b1 : Builder),
      figureOutEnumValuesForClass fuel c C R b = some (C1, R1, b1) →
      ClassStep b c C R C1 R1 b1 := by
  induction fuel with
  | zero =>
    intro c C R b C1 R1 b1 h
    cases h
  | succ n ih =>
    intro c C R b C1 R1 b1 h
    simp only [figureOutEnumValuesForClass] at h
    split at h
    · cases h
    · rename_i Cm Rm bm hmid
      obtain ⟨m1, m2, m3, m4, m5, m6, m7⟩ := afterBase_step n c C R b ih Cm Rm bm hmid
      split at h
      · rename_i hin
        cases h
        exact ⟨m1, m2, m3, Or.inl (by simpa using hin), m5, m6, m7⟩
      · split at h
        · cases h
        · rename_i hs b2 he
          have hcls : ∀ x, b2.cls x = b.cls x := fun x =>
            (cls_of_classes bm b2 (figureOutEnumsOfClass_classes _ _ _ _ _ _ he) x).trans (m1 x)
          split at h
          · simp only [Option.some.injEq, Prod.mk.injEq] at h
            obtain ⟨e1, e2, e3⟩ := h
            subst e1 e2 e3
            refine ⟨hcls, fun x hx => List.mem_append_left _ (m2 hx), m3,
              Or.inl (by simp), ?_, m6, m7⟩
            intro hcl
            exact BaseClosed.mono b Cm _ Rm (m5 hcl) (fun x hx => List.mem_append_left _ hx)
          · simp only [Option.some.injEq, Prod.mk.injEq] at h
            obtain ⟨e1, e2, e3⟩ := h
            subst e1 e2 e3
            refine ⟨hcls, m2, ?_, ?_, ?_, ?_, ?_⟩
            · intro x hx
              split_ifs
              · exact m3 hx
              · exact List.mem_append_left _ (m3 hx)
            · right
              split_ifs with hc
              · simpa using hc
              · simp
            · intro hcl x hx y hy
              have hx2 : x ∈ Rm ∨ x = c := by
                split_ifs at hx with hc
                · exact Or.inl hx
                · rcases List.mem_append.mp hx with hx | hx
                  · exact Or.inl hx
                  · exact Or.inr (by simpa using hx)
              have hy2 : y ∈ Cm ∨ y ∈ Rm := by
                rcases hx2 with hx2 | hx2
                · exact m5 hcl x hx2 y hy
                · rw [hx2] at hy
                  exact m4 y hy
              rcases hy2 with hy2 | hy2
              · exact Or.inl hy2
              · right
                split_ifs
                · exact hy2
                · exact List.mem_append_left _ hy2
            · intro S hc hS hR x hx
              split_ifs at hx with hcc
              · exact m6 S hc hS hR hx
              · rcases List.mem_append.mp hx with hx | hx
                · exact m6 S hc hS hR hx
                · have : x = c := by simpa using hx
                  rw [this]
                  exact hc
            · intro hnd
              split_ifs with hcc
              · exact m7 hnd
              · have hnot : c ∉ Rm := by simpa using hcc
                exact List.Nodup.append (m7 hnd) (List.nodup_singleton c)
                  (by
                    intro x hx1 hx2
                    have : x = c := by simpa using hx2
                    rw [this] at hx1
                    exact hnot hx1)

theorem figureOutEnumValuesForClasses_step (fuel : Nat) (l : List Nat) :
    ∀ (C R : List Nat) (b : Builder) (C1 R1 : List Nat) (b1 : Builder),
      figureOutEnumValuesForClasses fuel l C R b = some (C1, R1, b1) →
      ClassesStep b l C R C1 R1 b1 := by
  induction l with
  | nil =>
    intro C R b C1 R1 b1 h
    simp only [figureOutEnumValuesForClasses] at h
    cases h
    exact ⟨fun _ => rfl, fun _ h => h, fun _ h => h, id, fun S _ _ hR => hR, id⟩
  | cons c rest ih =>
    intro C R b C1 R1 b1 h
    simp only [figureOutEnumValuesForClasses] at h
    split at h
    · cases h
    · rename_i Cm Rm bm hc
      have s1 := figureOutEnumValuesForClass_step fuel c C R b Cm Rm bm hc
      have s2 := ih Cm Rm bm C1 R1 b1 h
      refine ⟨fun x => (s2.cls x).trans (s1.cls x), fun x hx => s2.subC (s1.subC hx),
        fun x hx => s2.subR (s1.subR hx), ?_, ?_, fun hnd => s2.nodup (s1.nodup hnd)⟩
      · intro hcl
        have h1 := BaseClosed.congr b bm _ _ s1.cls (s1.closed hcl)
        exact BaseClosed.congr bm b _ _ (fun x => (s1.cls x).symm) (s2.closed h1)
      · intro S hl hS hR
        have h1 := s1.within S (hl c (List.mem_cons_self _ _)) hS hR
        exact s2.within S (fun x hx => hl x (List.mem_cons_of_mem _ hx))
          (BaseClosed.congr b bm _ _ s1.cls (BaseClosed.mono b C Cm S hS s1.subC)) h1

theorem retryRound_step (order : List Nat → List Nat)
    (horder : ∀ l x, x ∈ order l → x ∈ l) (fuel : Nat) (C R : List Nat) (b : Builder)
    (C1 R1 : List Nat) (b1 : Builder)
    (h : figureOutEnumValuesForClasses fuel (order R) C [] { b with warnings := [] }
      = some (C1, R1, b1))
    (hcl : BaseClosed b C R) :
    R1 ⊆ R ∧ R1.Nodup ∧ BaseClosed b1 C1 R1 := by
  have st := figureOutEnumValuesForClasses_step fuel (order R) C [] _ C1 R1 b1 h
  refine ⟨st.within R (horder R) hcl (by simp), st.nodup List.nodup_nil, ?_⟩
  exact BaseClosed.congr _ b1 _ _ (fun x => (st.cls x).symm ▸ rfl)
    (st.closed (fun x hx => by simp at hx))

theorem strict_of_not_sameSet (R R1 : List Nat) (hsub : R1 ⊆ R) (hnd : R1.Nodup)
    (h : ¬ (R1.isEmpty || sameSet R1 R) = true) :
    R1 ≠ [] ∧ R1.length < R.length ∧ ∃ x ∈ R, x ∉ R1 := by
  simp only [Bool.or_eq_true, not_or, sameSet, Bool.and_eq_true, List.all_eq_true,
    not_and] at h
  obtain ⟨hne, hsame⟩ := h
  have hne2 : R1 ≠ [] := by
    intro e
    rw [e] at hne
    exact hne rfl
  have hex : ∃ x ∈ R, x ∉ R1 := by
    by_contra hcon
    push_neg at hcon
    exact hsame (fun x hx => by simpa using hsub hx) (fun x hx => by simpa using hcon x hx)
  refine ⟨hne2, ?_, hex⟩
  obtain ⟨x, hx, hx1⟩ := hex
  have hsub2 : R1 ⊆ R.erase x := by
    intro y hy
    have hyx : y ≠ x := fun e => hx1 (e ▸ hy)
    exact (List.mem_erase_of_ne hyx).mpr (hsub hy)
  have hle := (List.Nodup.subperm hnd hsub2).length_le
  rw [List.length_erase_of_mem hx] at hle
  have hpos : 0 < R.length := List.length_pos_of_mem hx
  omega

theorem retryEnumRounds_shrinking (order : List Nat → List Nat)
    (horder : ∀ l x, x ∈ order l → x ∈ l) (fuel : Nat) :
    ∀ (rounds i : Nat) (C R : List Nat) (b : Builder) (trace : List (List Nat × List Nat))
      (b2 : Builder),
      retryEnumRounds order fuel rounds i C R b = some (trace, b2) →
      BaseClosed b C R → R ≠ [] → ShrinkingRounds trace R := by
  intro rounds
  induction rounds with
  | zero =>
    intro i C R b trace b2 h
    cases h
  | succ n ih =>
    intro i C R b trace b2 h hcl hne
    have hlen : 0 < R.length := List.length_pos.mpr hne
    simp only [retryEnumRounds] at h
    split at h
    · split at h
      · cases h
      · rename_i C1 R1 b1 hf
        obtain ⟨hsub, hnd, hcl1⟩ := retryRound_step order horder fuel C R b C1 R1 b1 hf hcl
        split at h
        · cases h
          refine ⟨?_, List.chain'_singleton _, ?_, ?_⟩
          · intro p hp
            simp only [List.mem_singleton] at hp
            rw [hp]
            exact hsub
          · intro p hp
            simp only [List.head?_cons, Option.mem_def, Option.some.injEq] at hp
            rw [← hp]
          · simp only [List.length_singleton]
            omega
        · rename_i hcont
          obtain ⟨hne1, hlt, hex⟩ := strict_of_not_sameSet R R1 hsub hnd hcont
          split at h
          · cases h
          · rename_i tr b3 hr
            have sr := ih _ C1 R1 b1 tr b3 hr hcl1 hne1
            cases h
            refine ⟨?_, ?_, ?_, ?_⟩
            · intro p hp
              rcases List.mem_cons.mp hp with hp | hp
              · rw [hp]
                exact hsub
              · exact sr.subset p hp
            · rw [List.chain'_cons']
              refine ⟨?_, sr.chain⟩
              intro q hq
              have hq1 := sr.first q hq
              rw [hq1]
              exact ⟨rfl, hlt, hex⟩
            · intro p hp
              simp only [List.head?_cons, Option.mem_def, Option.some.injEq] at hp
              rw [← hp]
            · have := sr.bound
              simp only [List.length_cons]
              omega
    · cases h
      exact ⟨by simp, List.chain'_nil, by simp, by simp⟩

theorem retryEnumRounds_enough (order : List Nat → List Nat)
    (horder : ∀ l x, x ∈ order l → x ∈ l) (fuel : Nat) :
    ∀ (n m i : Nat) (C R : List Nat) (b : Builder),
      BaseClosed b C R → R ≠ [] → R.length ≤ n → R.length ≤ m →
      retryEnumRounds order fuel n i C R b = retryEnumRounds order fuel m i C R b := by
  intro n
  induction n with
  | zero =>
    intro m i C R b _ hne hn _
    have : R.length = 0 := by omega
    exact absurd (List.length_eq_zero.mp this) hne
  | succ n ih =>
    intro m i C R b hcl hne hn hm
    have hlen : 0 < R.length := List.length_pos.mpr hne
    cases m with
    | zero => omega
    | succ m =>
      simp only [retryEnumRounds]
      split
      · cases hf : figureOutEnumValuesForClasses fuel (order R) C [] { b with warnings := [] } with
        | none => rfl
        | some r =>
          obtain ⟨C1, R1, b1⟩ := r
          obtain ⟨hsub, hnd, hcl1⟩ := retryRound_step order horder fuel C R b C1 R1 b1 hf hcl
          dsimp only
          split
          · rfl
          · rename_i hcont
            obtain ⟨hne1, hlt, _⟩ := strict_of_not_sameSet R R1 hsub hnd hcont
            rw [ih m _ C1 R1 b1 hcl1 hne1 (by omega) (by omega)]
      · rfl

theorem firstPass_closed (fuel : Nat) (b : Builder) (C R : List Nat) (b1 : Builder)
    (h : figureOutEnumValuesForClasses fuel b.m_meta_classes [] [] { b with warnings := [] }
      = some (C, R, b1)) :
    BaseClosed b1 C R := by
  have st := figureOutEnumValuesForClasses_step fuel _ [] [] _ C R b1 h
  exact BaseClosed.congr _ b1 _ _ (fun x => (st.cls x).symm ▸ rfl)
    (st.closed (fun x hx => by simp at hx))

/-- C34: when the order in which a round walks the set of unresolved classes
visits only classes of that set, the retry rounds of `figureOutEnumValues`
form a descending chain: every round leaves a subset of the set of unresolved
classes it found, and a round after which the loop goes on leaves a set that is
not empty, lacks a class of the set it found and is smaller. So the loop runs at
most as many rounds as there were unresolved classes after the first pass; and
a bound of that many rounds is always enough: with a larger bound the outcome
is the same, so that the loop fails to end only if the evaluation of a class
does. -/
theorem figureOutEnumRounds_shrinking (order : List Nat → List Nat)
    (horder : ∀ l x, x ∈ order l → x ∈ l) (fuel : Nat) (b : Builder) :
    (∀ trace b2, figureOutEnumRounds order fuel b = some (trace, b2) →
      ∃ C R1 b1,
        figureOutEnumValuesForClasses fuel b.m_meta_classes [] [] { b with warnings := [] }
            = some (C, R1, b1)
          ∧ ShrinkingRounds trace R1)
    ∧ (∀ C R1 b1,
        figureOutEnumValuesForClasses fuel b.m_meta_classes [] [] { b with warnings := [] }
            = some (C, R1, b1) → R1 ≠ [] →
        ∀ rounds, R1.length ≤ rounds →
          retryEnumRounds order fuel rounds 0 C R1 b1
            = retryEnumRounds order fuel R1.length 0 C R1 b1) := by
  constructor
  · intro trace b2 h
    simp only [figureOutEnumRounds] at h
    split at h
    · cases h
    · rename_i C R1 b1 hf
      refine ⟨C, R1, b1, hf, ?_⟩
      have hcl := firstPass_closed fuel b C R1 b1 hf
      split at h
      · rename_i hne
        split at h
        · cases h
        · rename_i tr b3 hr
          have sr := retryEnumRounds_shrinking order horder fuel fuel 0 C R1 b1 tr b3 hr hcl
            (by
              intro e
              rw [e] at hne
              simp at hne)
          cases h
          exact sr
      · cases h
        exact ⟨by simp, List.chain'_nil, by simp, by simp⟩
  · intro C R1 b1 hf hne rounds hr
    exact retryEnumRounds_enough order horder fuel rounds R1.length 0 C R1 b1
      (firstPass_closed fuel b C R1 b1 hf) hne hr (le_refl _)

/-- An instance of `figureOutEnumRounds_shrinking`: the six classes `C1` to
`C6`, whose five retry rounds each resolve one more class. -/
theorem figureOutEnumRounds_shrinking_witness :
    ∃ (trace : List (List Nat × List Nat)) (b2 : Builder) (R1 : List Nat),
      figureOutEnumRounds id 5 (classChainBuilder 6) = some (trace, b2)
        ∧ trace = [([0, 1, 2, 3, 4], [0, 1, 2, 3]), ([0, 1, 2, 3], [0, 1, 2]),
            ([0, 1, 2], [0, 1]), ([0, 1], [0]), ([0], [])]
        ∧ ShrinkingRounds trace R1 := by
  have hs : (figureOutEnumRounds id 5 (classChainBuilder 6)).map (fun r => r.1)
      = some [([0, 1, 2, 3, 4], [0, 1, 2, 3]), ([0, 1, 2, 3], [0, 1, 2]),
          ([0, 1, 2], [0, 1]), ([0, 1], [0]), ([0], [])] := by
    decide!
  cases hr : figureOutEnumRounds id 5 (classChainBuilder 6) with
  | none => rw [hr] at hs; cases hs
  | some r =>
    obtain ⟨trace, b2⟩ := r
    rw [hr] at hs
    simp only [Option.map_some', Option.some.injEq] at hs
    obtain ⟨C, R1, b1, _, hsr⟩ :=
      (figureOutEnumRounds_shrinking id (fun _ _ h => h) 5 (classChainBuilder 6)).1 trace b2 hr
    exact ⟨trace, b2, R1, rfl, hs, hsr⟩

/-! ## Enum values: a value once computed stays -/

theorem value_setValue_ne (b : Builder) (ev i : Nat) (x : QVariant) (h : i ≠ ev) :
    (b.setValue ev x).value i = b.value i := by
  unfold Builder.setValue Builder.value
  simp only [List.get?_eq_getElem?]
  rw [List.getElem?_modify_ne _ _ (fun e => h e.symm)]

theorem value_warn (b : Builder) (useSet : Bool) (msg : QString) (i : Nat) :
    (b.warn useSet msg).value i = b.value i := by
  unfold Builder.warn
  split_ifs <;> rfl

theorem KeepsIntegersBut.refl (ev : Option Nat) (b : Builder) : KeepsIntegersBut ev b b :=
  fun _ _ _ _ => rfl

theorem KeepsIntegersBut.trans (ev : Option Nat) (b b1 b2 : Builder)
    (h1 : KeepsIntegersBut ev b b1) (h2 : KeepsIntegersBut ev b1 b2) :
    KeepsIntegersBut ev b b2 := by
  intro i hi hv hs
  have e1 := h1 i hi hv hs
  rw [h2 i hi (by rw [e1]; exact hv) (by rw [e1]; exact hs), e1]

theorem KeepsIntegersBut.setValue (b b1 : Builder) (ev : Nat) (x : QVariant)
    (h : KeepsIntegersBut (some ev) b b1) : KeepsIntegersBut (some ev) b (b1.setValue ev x) := by
  intro i hi hv hs
  have hne : i ≠ ev := fun e => hi (by rw [e])
  rw [value_setValue_ne b1 ev i x hne]
  exact h i hi hv hs

theorem KeepsIntegersBut.warn (ev : Option Nat) (b b1 : Builder) (useSet : Bool) (msg : QString)
    (h : KeepsIntegersBut ev b b1) : KeepsIntegersBut ev b (b1.warn useSet msg) := by
  intro i hi hv hs
  rw [value_warn]
  exact h i hi hv hs

theorem searchContainingClassBases_withFunction (self : TranslateFn) (env : TranslateEnv)
    (f g : Option MetaFunction) (prependScope : Bool) (typei : TypeInfo) (name : QString)
    (fuel : Nat) :
    ∀ contexts visitedContexts visitedNames,
      searchContainingClassBases self (env.withFunction f) prependScope typei name fuel contexts
          visitedContexts visitedNames
        = searchContainingClassBases self (env.withFunction g) prependScope typei name fuel
          contexts visitedContexts visitedNames := by
  induction fuel with
  | zero => intros; rfl
  | succ n ih =>
    intro contexts visitedContexts visitedNames
    simp only [searchContainingClassBases, ih]
    rfl

theorem searchCurrentClassBases_withFunction (self : TranslateFn) (env : TranslateEnv)
    (f g : Option MetaFunction) (prependScope : Bool) (typei : TypeInfo)
    (qualified_name : QString) (current : MetaClass) (fuel : Nat) :
    ∀ contexts current_class subclasses_done visitedContexts visitedNames,
      searchCurrentClassBases self (env.withFunction f) prependScope typei qualified_name current
          fuel contexts current_class subclasses_done visitedContexts visitedNames
        = searchCurrentClassBases self (env.withFunction g) prependScope typei qualified_name
          current fuel contexts current_class subclasses_done visitedContexts visitedNames := by
  induction fuel with
  | zero => intros; rfl
  | succ n ih =>
    intro contexts current_class subclasses_done visitedContexts visitedNames
    simp only [searchCurrentClassBases, ih]
    rfl

theorem translateContainerArguments_withFunction (self : TranslateFn) (env : TranslateEnv)
    (f g : Option MetaFunction) (isQmlList : Bool) (l : List ParserInfo) :
    ∀ meta_type,
      translateContainerArguments self (env.withFunction f) isQmlList l meta_type
        = translateContainerArguments self (env.withFunction g) isQmlList l meta_type := by
  induction l with
  | nil => intros; rfl
  | cons ta rest ih =>
    intro meta_type
    simp only [translateContainerArguments, ih]
    rfl

theorem translateGenericArguments_withFunction (self : TranslateFn) (env : TranslateEnv)
    (f g : Option MetaFunction) (qualified_name : QString) (backup_type : Option TypeEntry)
    (l : List ParserInfo) :
    ∀ meta_type,
      translateGenericArguments self (env.withFunction f) qualified_name backup_type l meta_type
        = translateGenericArguments self (env.withFunction g) qualified_name backup_type l
          meta_type := by
  induction l with
  | nil => intros; rfl
  | cons ta rest ih =>
    intro meta_type
    simp only [translateGenericArguments, ih]
    rfl

theorem finishTranslation_withFunction (self : TranslateFn) (env : TranslateEnv)
    (f g : Option MetaFunction) (type_info : TypeInfo) (typeInfo : ParserInfo)
    (template_instantiations : List ParserInfo) (indirections : List Bool)
    (qualified_name : QString) (backup_type : Option TypeEntry) (type : TypeEntry) :
    finishTranslation self (env.withFunction f) type_info typeInfo template_instantiations
        indirections qualified_name backup_type type
      = finishTranslation self (env.withFunction g) type_info typeInfo template_instantiations
        indirections qualified_name backup_type type := by
  simp only [finishTranslation,
    translateContainerArguments_withFunction self env f g,
    translateGenericArguments_withFunction self env f g]
  rfl

theorem templateParameter_lookup (tp : List MetaTemplateParameter) (qualified_name : QString) :
    ((tp.filter (fun t => t.type.typeEntry.name == qualified_name)).getLast?).map
        (fun t => t.type.typeEntry)
      = ((tp.map (fun t => t.type.typeEntry)).filter
          (fun te => te.name == qualified_name)).getLast? := by
  rw [List.filter_map, List.getLast?_map]
  rfl

theorem translateTypeBody_withFunction (self : TranslateFn) (fuel : Nat) (env : TranslateEnv)
    (f g : Option MetaFunction) (h : templateParameterEntries f = templateParameterEntries g) :
    translateTypeBody self fuel (env.withFunction f)
      = translateTypeBody self fuel (env.withFunction g) := by
  cases f with
  | none =>
    cases g with
    | none => rfl
    | some g => cases h
  | some f =>
    cases g with
    | none => cases h
    | some g =>
      have hl : f.templateParameters.map (fun t => t.type.typeEntry)
          = g.templateParameters.map (fun t => t.type.typeEntry) := Option.some.inj h
      funext type_info resolveType resolveScope prependScope
      simp only [translateTypeBody,
        searchContainingClassBases_withFunction self env (some f) (some g),
        searchCurrentClassBases_withFunction self env (some f) (some g),
        finishTranslation_withFunction self env (some f) (some g)]
      simp only [TranslateEnv.withFunction, templateParameter_lookup, hl]
      rfl

theorem translateType_withFunction (env : TranslateEnv) (f g : Option MetaFunction)
    (h : templateParameterEntries f = templateParameterEntries g) (fuel : Nat) :
    translateType (env.withFunction f) fuel = translateType (env.withFunction g) fuel := by
  induction fuel with
  | zero => rfl
  | succ n ih =>
    show translateTypeBody (translateType (env.withFunction f) n) n (env.withFunction f)
      = translateTypeBody (translateType (env.withFunction g) n) n (env.withFunction g)
    rw [ih, translateTypeBody_withFunction _ n env f g h]

/-- C32 (counterexample): with the same scope stack, no current class and the
same type database, the descriptor `T` translates to the template argument
type `T` with `ok` set while the current function is a template with the
parameter `T`, and to no type with `ok` cleared while there is no current
function. -/
theorem translateType_depends_on_current_function :
    (sampleEnv.withFunction (some sampleConvert)).m_scopes = (sampleEnv.withFunction none).m_scopes
      ∧ (sampleEnv.withFunction (some sampleConvert)).m_current_class
        = (sampleEnv.withFunction none).m_current_class
      ∧ (translateType (sampleEnv.withFunction (some sampleConvert)) 4 sampleTypeT true true
          false).map (fun r => (r.1.map (fun t => t.typeEntry), r.2)) = some (some sampleT, true)
      ∧ (translateType (sampleEnv.withFunction none) 4 sampleTypeT true true false).map
          (fun r => (r.1.map (fun t => t.typeEntry), r.2)) = some (none, false) := by
  refine ⟨rfl, rfl, by decide!, by decide!⟩

/-- C32 (amended): two calls of `translateType` on the same descriptor with the
same flags yield equal results (the same `ok` flag and equal meta types: entry,
indirections, reference kind, constness, instantiations) when they are made
with the same scope stack, current class, type database, code model and
classes, and with current functions whose template parameters have the same
type entries; nothing else of the current function matters. -/
theorem translateType_same_context (env : TranslateEnv) (f g : Option MetaFunction)
    (fuel : Nat) (type_info : TypeInfo) (resolveType resolveScope prependScope : Bool)
    (h : templateParameterEntries f = templateParameterEntries g) :
    translateType (env.withFunction f) fuel type_info resolveType resolveScope prependScope
      = translateType (env.withFunction g) fuel type_info resolveType resolveScope
        prependScope := by
  rw [translateType_withFunction env f g h fuel]

/-- An instance of `translateType_same_context`: the descriptor `T` translates
alike in the template `convert` and in the same template under another name. -/
theorem translateType_same_context_witness :
    translateType (sampleEnv.withFunction (some sampleConvert)) 4 sampleTypeT true true false
      = translateType
          (sampleEnv.withFunction (some { sampleConvert with name := qs "convertAll" })) 4
          sampleTypeT true true false :=
  translateType_same_context sampleEnv (some sampleConvert)
    (some { sampleConvert with name := qs "convertAll" }) 4 sampleTypeT true true false rfl

/-! ## traverseFunction: the function returned at the end -/

theorem finishFunction_eq (env : TraverseEnv) (fuel : Nat) (c : MetaClass)
    (function_item : FunctionModelItem) (meta_function : MetaFunction)
    (meta_arguments : List MetaArgument) (items : List ArgumentModelItem)
    (mod : FunctionModification) (originalSignature : QString) :
    finishFunction env fuel c function_item meta_function meta_arguments items mod
        originalSignature
      = match beforeDefaults env fuel c function_item meta_function meta_arguments mod
          originalSignature with
        | none => none
        | some none => some (Traversed.skipped c)
        | some (some (g, cls)) => some (Traversed.function (afterDefaults env (cls, g, items)) cls) := by
  simp only [finishFunction, beforeDefaults]
  split
  all_goals
    rename_i h
    simp only [h]
  all_goals rfl

/-- The calls of `traverseFunction` that return at its end are those that
reach the loops over the default values, and they return the function that
the loops leave. -/
theorem traverseFunctionCore_function_iff (env : TraverseEnv) (fuel : Nat) (c : MetaClass)
    (function_item : FunctionModelItem) (f : MetaFunction) (cls : MetaClass) :
    traverseFunctionCore env fuel c function_item = some (Traversed.function f cls)
      ↔ ∃ g its, defaultsInput env fuel c function_item = some (cls, g, its)
          ∧ f = afterDefaults env (cls, g, its) := by
  simp only [traverseFunctionCore, defaultsInput]
  split_ifs
  · simp
  · simp
  · simp
  · simp only [Option.map_eq_some', false_iff, not_exists, not_and]
    constructor
    · rintro ⟨a, _, ha⟩
      cases ha
    · rintro ⟨g, its, h, _⟩
      cases h
  · simp
  · simp only [traverseFunctionBody]
    split
    · rename_i hc
      simp [hc]
    · rename_i hc
      simp [hc]
    · rename_i g0 hc
      simp only [hc]
      split
      · rename_i ha
        simp [ha]
      · rename_i ha
        simp [ha]
      · rename_i ha
        simp [ha]
      · rename_i mf ma its am os ha
        simp only [ha, finishFunction_eq]
        split
        · rename_i hb
          simp [hb]
        · rename_i hb
          simp [hb]
        · rename_i g cls1 hb
          simp only [hb, Option.some.injEq, Traversed.function.injEq, Prod.mk.injEq]
          constructor
          · rintro ⟨h1, h2⟩
            subst h2
            exact ⟨g, its, ⟨rfl, rfl, rfl⟩, h1.symm⟩
          · rintro ⟨g1, its1, ⟨h1, h2, h3⟩, h4⟩
            subst h1 h2 h3
            exact ⟨h4.symm, rfl⟩

theorem translateDefaults_first_eq (env : TraverseEnv) (c : MetaClass)
    (meta_function : MetaFunction) (size : Nat) (meta_arguments : List MetaArgument) :
    ∀ (i : Nat) (items : List ArgumentModelItem) (seen : List MetaArgument) (first : Nat),
      (translateDefaults env c meta_function size i meta_arguments items seen first).2
        = ((untranslatedDefaults env c meta_function size i meta_arguments items
            seen).getLast?).getD first := by
  induction meta_arguments with
  | nil =>
    intro i items seen first
    simp [translateDefaults, untranslatedDefaults]
  | cons meta_arg rest ih =>
    intro i items seen first
    cases items with
    | nil => simp [translateDefaults, untranslatedDefaults]
    | cons arg items =>
      simp only [translateDefaults, untranslatedDefaults]
      split_ifs
      all_goals first
        | exact ih (i + 1) _ _ first
        | (rw [ih (i + 1) _ _ i, List.getLast?_cons]
           rfl)

/-- C40: a call of `traverseFunction` returns a function at its end exactly
when it reaches the loops over the default values (line 5815), with a current
class, a meta function `g` and the arguments `its` of the code model; the
function returned is `g` with the arguments that the two loops leave. The
index `first_default_argument` that the first loop leaves is the last round in
which the translation of the default value was empty, and for every such round
`i` no argument of the returned function with an index below `i` has a default
value expression. -/
theorem traverseFunction_untranslated_default_clears_earlier (env : TraverseEnv) (fuel : Nat)
    (c : MetaClass) (function_item : FunctionModelItem) :
    (∀ f cls, traverseFunctionCore env fuel c function_item = some (Traversed.function f cls) →
      ∃ g its, defaultsInput env fuel c function_item = some (cls, g, its)
        ∧ f = afterDefaults env (cls, g, its))
    ∧ (∀ cls g its, defaultsInput env fuel c function_item = some (cls, g, its) →
      traverseFunctionCore env fuel c function_item
          = some (Traversed.function (afterDefaults env (cls, g, its)) cls)
        ∧ (translateDefaults env cls g g.arguments.length 0 g.arguments its [] 0).2
          = ((untranslatedDefaults env cls g g.arguments.length 0 g.arguments its
              []).getLast?).getD 0
        ∧ ∀ i ∈ untranslatedDefaults env cls g g.arguments.length 0 g.arguments its [],
            ∀ (j : Nat) (a : MetaArgument), j < i →
              (afterDefaults env (cls, g, its)).arguments.get? j = some a →
              a.defaultValueExpression = []) := by
  constructor
  · intro f cls h
    exact (traverseFunctionCore_function_iff env fuel c function_item f cls).mp h
  · intro cls g its h
    refine ⟨(traverseFunctionCore_function_iff env fuel c function_item _ cls).mpr
      ⟨g, its, h, rfl⟩, translateDefaults_first_eq env cls g _ _ 0 its [] 0, ?_⟩
    intro i hi j a hj ha
    have hle := (translateDefaults_first env cls g g.arguments.length g.arguments 0 its []
      0).2 i hi
    exact resetDefaults_get
      (translateDefaults env cls g g.arguments.length 0 g.arguments its [] 0).1
      (translateDefaults env cls g g.arguments.length 0 g.arguments its [] 0).2 j a
      (lt_of_lt_of_le hj hle) ha

/-- An instance of `traverseFunction_untranslated_default_clears_earlier`: for
`void resize(int w = 1, int h = unknown(), int d = 3)`, where `unknown()` does
not translate, the round with index 1 is the one with an empty translation, the
argument before it loses its default value and only the last one keeps it. -/
theorem traverseFunction_untranslated_default_clears_earlier_witness :
    (∃ cls g its, defaultsInput sampleDefaultsEnv 8 sampleFoo sampleResize = some (cls, g, its)
      ∧ untranslatedDefaults sampleDefaultsEnv cls g g.arguments.length 0 g.arguments its []
          = [1]
      ∧ traverseFunctionCore sampleDefaultsEnv 8 sampleFoo sampleResize
          = some (Traversed.function (afterDefaults sampleDefaultsEnv (cls, g, its)) cls)
      ∧ ∀ (j : Nat) (a : MetaArgument), j < 1 →
          (afterDefaults sampleDefaultsEnv (cls, g, its)).arguments.get? j = some a →
          a.defaultValueExpression = [])
    ∧ (traverseFunction sampleDefaultsEnv 8 sampleFoo sampleResize).map
        (fun r => r.1.map (fun f => f.arguments.map (fun a => a.defaultValueExpression)))
      = some (some [[], [], qs "3"]) := by
  have hU : (defaultsInput sampleDefaultsEnv 8 sampleFoo sampleResize).map
      (fun r => untranslatedDefaults sampleDefaultsEnv r.1 r.2.1 r.2.1.arguments.length 0
        r.2.1.arguments r.2.2 []) = some [1] := by
    decide!
  cases hin : defaultsInput sampleDefaultsEnv 8 sampleFoo sampleResize with
  | none =>
    rw [hin] at hU
    cases hU
  | some r =>
    obtain ⟨cls, g, its⟩ := r
    rw [hin] at hU
    simp only [Option.map_some', Option.some.injEq] at hU
    obtain ⟨hcore, _, hall⟩ :=
      (traverseFunction_untranslated_default_clears_earlier sampleDefaultsEnv 8 sampleFoo
        sampleResize).2 cls g its hin
    exact ⟨⟨cls, g, its, rfl, hU, hcore,
      fun j a hj => hall 1 (by rw [hU]; simp) j a hj⟩, by decide!⟩

/-! ## setupEquals and setupComparable: the functions that are hidden -/

/-- The loop over a list of classes with different names adds one hiding
modification for each function of a list without repetitions; each of the
functions passes the condition of `hide_functions` and is returned by
`queryFunctions` for a class of the list, which implements it. -/
theorem setupLoop_hidden (env : OperatorEnv)
    (himpl : ∀ c options l f, f ∈ env.queryFunctions c options l →
      f.implementingClass = some c.name)
    (hnodup : ∀ c options l, (env.queryFunctions c options l).Nodup)
    (classes : List MetaClass) (s : SetupState)
    (hnames : (classes.map (fun c => c.name)).Nodup) :
    ∃ L : List MetaFunction,
      (setupLoop env classes s).log.filter isHiding
          = s.log.filter isHiding ++ L.map (hidingModification env)
        ∧ L.Nodup
        ∧ ∀ f ∈ L, isHidable env f = true
            ∧ ∃ c ∈ classes, f.implementingClass = some c.name
                ∧ ∃ c1 options l, c1.name = c.name ∧ f ∈ env.queryFunctions c1 options l := by
  induction classes generalizing s with
  | nil =>
    exact ⟨[], by simp [setupLoop], List.nodup_nil, fun f hf => absurd hf (List.not_mem_nil f)⟩
  | cons cls rest ih =>
    rw [List.map_cons, List.nodup_cons] at hnames
    obtain ⟨L, hL, hLn, hLq⟩ := setupClass_hidesOnce env cls s.log s.warnings hnodup
    rw [setupLoop]
    obtain ⟨A, hA, hAn, hAc⟩ := ih
      { classes := s.classes ++ [(setupBeginEnd env
          (setupClonable env
            (setupComparable env (setupEquals env cls s.log s.warnings).1
              (setupEquals env cls s.log s.warnings).2.1).1
            (setupComparable env (setupEquals env cls s.log s.warnings).1
              (setupEquals env cls s.log s.warnings).2.1).2).1
          (setupClonable env
            (setupComparable env (setupEquals env cls s.log s.warnings).1
              (setupEquals env cls s.log s.warnings).2.1).1
            (setupComparable env (setupEquals env cls s.log s.warnings).1
              (setupEquals env cls s.log s.warnings).2.1).2).2).1],
        log := (setupBeginEnd env
          (setupClonable env
            (setupComparable env (setupEquals env cls s.log s.warnings).1
              (setupEquals env cls s.log s.warnings).2.1).1
            (setupComparable env (setupEquals env cls s.log s.warnings).1
              (setupEquals env cls s.log s.warnings).2.1).2).1
          (setupClonable env
            (setupComparable env (setupEquals env cls s.log s.warnings).1
              (setupEquals env cls s.log s.warnings).2.1).1
            (setupComparable env (setupEquals env cls s.log s.warnings).1
              (setupEquals env cls s.log s.warnings).2.1).2).2).2,
        warnings := (setupEquals env cls s.log s.warnings).2.2 } hnames.2
    have hfirst : ∀ f ∈ L, f.implementingClass = some cls.name := by
      intro f hf
      obtain ⟨_, c, options, l, hc, hq⟩ := hLq f hf
      have := himpl c options l f hq
      rw [hc] at this
      exact this
    refine ⟨L ++ A, ?_, ?_, ?_⟩
    · rw [hA, hL, List.map_append, List.append_assoc]
    · rw [List.nodup_append]
      refine ⟨hLn, hAn, ?_⟩
      intro f hf1 hf2
      obtain ⟨_, c, hc, hc1, _⟩ := hAc f hf2
      have h1 := hfirst f hf1
      rw [hc1] at h1
      apply hnames.1
      rw [← Option.some.inj h1]
      exact List.mem_map.mpr ⟨c, hc, rfl⟩
    · intro f hf
      rcases List.mem_append.mp hf with h | h
      · exact ⟨(hLq f h).1, cls, List.mem_cons_self _ _, hfirst f h, (hLq f h).2⟩
      · obtain ⟨hh, c, hc, hc1, hq⟩ := hAc f h
        exact ⟨hh, c, List.mem_cons_of_mem _ hc, hc1, hq⟩

/-- The pairs of class and minimal signature of the hiding modifications of a
list of different functions are all different exactly when no two different
functions of the list have the same implementing class and the same minimal
signature. -/
theorem hidingKeys_nodup_iff (env : OperatorEnv) (L : List MetaFunction) (h : L.Nodup) :
    ((L.map (hidingModification env)).map modificationKey).Nodup
      ↔ ∀ f ∈ L, ∀ f1 ∈ L, f.implementingClass = f1.implementingClass →
          env.minimalSignature f = env.minimalSignature f1 → f = f1 := by
  rw [List.map_map, List.nodup_map_iff_inj_on h]
  constructor
  · intro hk f hf f1 hf1 hc hs
    apply hk f hf f1 hf1
    simp only [Function.comp, modificationKey_hidingModification, hc, hs]
  · intro hk f hf f1 hf1 hkey
    simp only [Function.comp, modificationKey_hidingModification, Prod.mk.injEq] at hkey
    exact hk f hf f1 hf1 hkey.1 hkey.2

/-- C24 (amended): during the two loops at the end of `build`, `setupEquals`
and `setupComparable` add at most one hiding (private or friendly)
modification for each operator function. When the classes of `m_templates`
and `m_meta_classes` have different names and `queryFunctions` returns
functions that the class itself implements and lists no function twice, the
hiding modifications after the loops are those before, followed by exactly one
modification `hidingModification env f` for each function `f` of a list `L`
without repetitions; every function of `L` passes the condition of
`hide_functions` and is a function that `queryFunctions` returns for a class of
the two lists, which implements it. The code keeps no set of functions or
signatures that are hidden already, so the pairs of receiving class and minimal
signature of the added modifications are all different if and only if no two
different functions of `L` have the same implementing class and the same
minimal signature. -/
theorem setupLoops_hides_each_function_once (env : OperatorEnv)
    (m_templates m_meta_classes : List MetaClass) (s : SetupState)
    (hnames : ((m_templates ++ m_meta_classes).map (fun c => c.name)).Nodup)
    (himpl : ∀ c options l f, f ∈ env.queryFunctions c options l →
      f.implementingClass = some c.name)
    (hnodup : ∀ c options l, (env.queryFunctions c options l).Nodup) :
    ∃ L : List MetaFunction,
      (setupLoops env m_templates m_meta_classes s).log.filter isHiding
          = s.log.filter isHiding ++ L.map (hidingModification env)
        ∧ L.Nodup
        ∧ (∀ f ∈ L, isHidable env f = true
            ∧ ∃ c ∈ m_templates ++ m_meta_classes, f.implementingClass = some c.name
                ∧ ∃ c1 options l, c1.name = c.name ∧ f ∈ env.queryFunctions c1 options l)
        ∧ (((L.map (hidingModification env)).map modificationKey).Nodup
            ↔ ∀ f ∈ L, ∀ f1 ∈ L, f.implementingClass = f1.implementingClass →
                env.minimalSignature f = env.minimalSignature f1 → f = f1) := by
  unfold setupLoops
  rw [← setupLoop_append]
  obtain ⟨L, hL, hn, hq⟩ := setupLoop_hidden env himpl hnodup _ s hnames
  exact ⟨L, hL, hn, hq, hidingKeys_nodup_iff env L hn⟩

theorem setupLoops_hides_each_function_once_witness :
    (∃ L : List MetaFunction,
      (setupLoops sampleOperatorEnv [sampleOperatorClass "Version"]
          [sampleOperatorClass "Point", sampleOperatorClass "Size", sampleOperatorClass "Rank"]
          {}).log.filter isHiding
          = L.map (hidingModification sampleOperatorEnv)
        ∧ L.Nodup
        ∧ ((L.map (hidingModification sampleOperatorEnv)).map modificationKey).Nodup)
    ∧ ((setupLoops sampleOperatorEnv [sampleOperatorClass "Version"]
          [sampleOperatorClass "Point", sampleOperatorClass "Size", sampleOperatorClass "Rank"]
          {}).log.filter isHiding).map modificationKey
      = [(some (qs "Version"), qs "operator<=>(Version)"),
          (some (qs "Version"), qs "operator<(Version)"),
          (some (qs "Point"), qs "operator==(Point)"),
          (some (qs "Point"), qs "operator!=(Point)"),
          (some (qs "Point"), qs "operator>(Point)"),
          (some (qs "Point"), qs "operator<(Point)"),
          (some (qs "Point"), qs "operator<=(Point)"),
          (some (qs "Size"), qs "operator<=(Size)")] := by
  refine ⟨?_, by decide!⟩
  obtain ⟨L, hL, hn, hq, hiff⟩ := setupLoops_hides_each_function_once sampleOperatorEnv
    [sampleOperatorClass "Version"]
    [sampleOperatorClass "Point", sampleOperatorClass "Size", sampleOperatorClass "Rank"] {}
    (by decide!) sampleOperatorEnv_implementing sampleOperatorEnv_nodup
  refine ⟨L, ?_, hn, hiff.mpr ?_⟩
  · rw [hL]
    rfl
  · intro f hf f1 hf1 hc hs
    obtain ⟨_, c, _, hi, c1, options, l, hn1, hm⟩ := hq f hf
    obtain ⟨_, d, _, hj, d1, options1, l1, hn2, hm1⟩ := hq f1 hf1
    have hcd : c1.name = d1.name := by
      rw [hn1, hn2]
      rw [hi, hj] at hc
      exact Option.some.inj hc
    exact sampleOperatorEnv_signature c1 d1 options options1 l l1 f f1 hcd hm hm1 hs

/-- C24 (counterexample): the class `Pair` has two different functions
`operator==` with the one argument `Pair`, the member function and the global
operator that `traverseCompareOperator` has added to the class. Both have the
minimal signature `operator==(Pair)`, `queryFunctions` lists each of them once,
and `hide_functions`, called by `setupEquals` on the unfiltered list of equals
operators, gives the class `Pair` two hiding modifications for that one
signature. -/
theorem setupLoops_hides_shared_signature_twice :
    samplePairMember.functionType ≠ samplePairGlobal.functionType
      ∧ (duplicateOperatorEnv.queryFunctions (sampleOperatorClass "Pair")
            [FunctionQueryOption.ClassImplements, FunctionQueryOption.Visible,
              FunctionQueryOption.NotRemovedFromTargetLang] []).map
          (fun f => (f.functionType, f.implementingClass, duplicateOperatorEnv.minimalSignature f))
        = [(FunctionType.NormalFunction, some (qs "Pair"), qs "operator==(Pair)"),
            (FunctionType.GlobalScopeFunction, some (qs "Pair"), qs "operator==(Pair)")]
      ∧ ((setupLoops duplicateOperatorEnv [] [sampleOperatorClass "Pair"] {}).log.filter
            isHiding).map modificationKey
        = [(some (qs "Pair"), qs "operator==(Pair)"), (some (qs "Pair"), qs "operator==(Pair)")]
      ∧ ¬ (((setupLoops duplicateOperatorEnv [] [sampleOperatorClass "Pair"] {}).log.filter
            isHiding).map modificationKey).Nodup := by
  refine ⟨by decide, by decide!, by decide!, ?_⟩
  have h : ((setupLoops duplicateOperatorEnv [] [sampleOperatorClass "Pair"] {}).log.filter
      isHiding).map modificationKey
        = [(some (qs "Pair"), qs "operator==(Pair)"), (some (qs "Pair"), qs "operator==(Pair)")] := by
    decide!
  rw [h]
  decide

end MetaBuilder
